import Mathlib

/-!
Platformer simulation core: world decoding, player collision map, collision sweep.

A shallow embedding of the simulation core of `src/main.cpp`.

* Global arrays `bool g[H][W]` are functions `row → column → Bool`.
* Loops `for (i = lo; i < hi; ++i)` are structural recursions on the number of
  remaining iterations, carrying the loop variable.
* Machine integers are `Nat` / `Int`; a conversion to a narrower type is written
  out (`toU16`, `toI16`, `wrap32`).
-/

namespace GameJam

/-! ## Integer conversions -/

/-- Conversion to `u16`. -/
def toU16 (z : Int) : Nat := (z % 65536).toNat

/-- Conversion to `i16` (two's complement narrowing). -/
def toI16 (z : Int) : Int := (z + 32768) % 65536 - 32768

/-- Conversion to `i32` (two's complement narrowing). -/
def wrap32 (z : Int) : Int := (z + 2147483648) % 4294967296 - 2147483648

/-! ## Constants -/

def k_sprite_size : Nat := 32

def k_game_world_design_width : Nat := 18
def k_game_world_design_height : Nat := 35
def k_world_width : Nat := k_game_world_design_width * k_sprite_size
def k_world_height : Nat := k_game_world_design_height * k_sprite_size

/-- Constant `player::k_width`. -/
def player_k_width : Nat := 13
/-- Constant `player::k_height`. -/
def player_k_height : Nat := 17

def k_player_collision_map_width : Nat := k_world_width - (player_k_width - 1)
def k_player_collision_map_height : Nat := k_world_height - (player_k_height - 1)

/-! ## Bitmaps -/

/-- A global `bool g[rows][cols]`, read as `g y x` for `g[y][x]`. -/
abbrev Bitmap := Nat → Nat → Bool

/-- The zero-initialised array. -/
def Bitmap.zero : Bitmap := fun _ _ => false

/-- Assignment `g[y][x] = 1`. -/
def Bitmap.set (g : Bitmap) (y x : Nat) : Bitmap :=
  fun r c => if r = y ∧ c = x then true else g r c

/-- Intrinsic `__stosb(&g[y][x], 1, n)`: stores `n` bytes of value 1 from column `x`
of row `y` on.  Every caller keeps `x + n` within the row length. -/
def stosb (g : Bitmap) (y x n : Nat) : Bitmap :=
  fun r c => if r = y ∧ x ≤ c ∧ c < x + n then true else g r c

/-- Counted loop `for (i = i0; <n more iterations>; ++i) s = body i s`. -/
def forLoop {σ : Type} (body : Nat → σ → σ) : Nat → Nat → σ → σ
  | 0, _, s => s
  | n + 1, i, s => forLoop body n (i + 1) (body i s)

/-! ## Shape rasterizers -/

/-- Function `draw_variable_rectangle_sprite`: `row` walks down from `y`, and each of
the `h` rows gets `w` bytes from column `x`. -/
def draw_variable_rectangle_sprite (g : Bitmap) (x y w h : Nat) : Bitmap :=
  forLoop (fun i g => stosb g (y + i) x w) h 0 g

/-- Function `draw_full_square_sprite`. -/
def draw_full_square_sprite (g : Bitmap) (x y : Nat) : Bitmap :=
  draw_variable_rectangle_sprite g x y k_sprite_size k_sprite_size

/-- Function `draw_lower_left_triangle_sprite`. -/
def draw_lower_left_triangle_sprite (g : Bitmap) (x y : Nat) : Bitmap :=
  forLoop (fun i g => stosb g (y + i) x (i + 1)) k_sprite_size 0 g

/-- Function `draw_lower_right_triangle_sprite`. -/
def draw_lower_right_triangle_sprite (g : Bitmap) (x y : Nat) : Bitmap :=
  forLoop (fun i g => stosb g (y + i) ((x + k_sprite_size) - (i + 1)) (i + 1)) k_sprite_size 0 g

/-- Function `draw_upper_left_triangle_sprite`. -/
def draw_upper_left_triangle_sprite (g : Bitmap) (x y : Nat) : Bitmap :=
  forLoop (fun i g => stosb g (y + i) x (k_sprite_size - i)) k_sprite_size 0 g

/-! ## Player collision map -/

/-- Innermost loop of `compute_player_collision_map`: columns `j` of box row `i`;
`true` when a solid world pixel is met (the lambda then stores 1 and returns). -/
def player_box_cols (world : Bitmap) (y x i : Nat) : Nat → Nat → Bool
  | 0, _ => false
  | n + 1, j => if world (y + i) (x + j) then true else player_box_cols world y x i n (j + 1)

/-- Loop over the box rows `i` of the lambda in `compute_player_collision_map`. -/
def player_box_rows (world : Bitmap) (y x : Nat) : Nat → Nat → Bool
  | 0, _ => false
  | n + 1, i =>
    if player_box_cols world y x i player_k_width 0 then true
    else player_box_rows world y x n (i + 1)

/-- The lambda `[x, y]() { ... }()` of `compute_player_collision_map`: sets
`g_player_collision_map[y][x] = 1` at the first solid pixel of the box and returns. -/
def player_box (world pcm : Bitmap) (y x : Nat) : Bitmap :=
  if player_box_rows world y x player_k_height 0 then pcm.set y x else pcm

/-- Function `compute_player_collision_map`, from the world bitmap and the current
contents of `g_player_collision_map`. -/
def compute_player_collision_map (world pcm : Bitmap) : Bitmap :=
  forLoop (fun y pcm =>
      forLoop (fun x pcm => player_box world pcm y x) k_player_collision_map_width 0 pcm)
    k_player_collision_map_height 0 pcm

/-! ## Level layout and run-length encoding -/

/-- A level layout: the character stored at each index of the design array. -/
abbrev Design := Nat → Char

/-- Text of the array `k_game_world_design`, row after row. -/
def k_game_world_design_text : List Char :=
  ("bbbbbbbbbbbbbbbbbb" ++
   "b                b" ++
   "b                b" ++
   "b                b" ++
   "bs               b" ++
   "b                b" ++
   "b   bbbbbbbb     b" ++
   "b  bb            b" ++
   "b                b" ++
   "b  bbbbb bbb     b" ++
   "b                b" ++
   "b2               b" ++
   "b   bbbbbb       b" ++
   "b            bbbbb" ++
   "b   3     b      b" ++
   "b  3b            b" ++
   "b 3bb            b" ++
   "b      b         b" ++
   "b                b" ++
   "b2        b2     b" ++
   "bb2      3bbb    b" ++
   "bbb2    3b       b" ++
   "bbbb2  3b4       b" ++
   "b            bb  b" ++
   "b                b" ++
   "b      3b       fb" ++
   "b    b           b" ++
   "b                b" ++
   "b    b     b     b" ++
   "b   fb     b     b" ++
   "bbbbbb           b" ++
   "b          bbb bbb" ++
   "b                b" ++
   "bf    3bbb2      b" ++
   "bbbbbbbbbbbbbbbbbb").toList

/-- The shipped layout `k_game_world_design`; the string literal ends with a NUL. -/
def k_game_world_design : Design := fun i => k_game_world_design_text.getD i (Char.ofNat 0)

/-- Record `sprite_run`; all three fields are `u8`, and `length` holds the true
length minus one. -/
structure sprite_run where
  x : Nat
  y : Nat
  length : Nat
deriving DecidableEq, Repr, Inhabited

/-- Conversion to `u8`. -/
def toU8 (n : Nat) : Nat := n % 256

/-- First inner loop of `calculate_runs`:
`for (; x < width - 1; ++x) if (design[y * width + x] == ch) break;`, giving the final `x`. -/
def find_run_start (d : Design) (ch : Char) (y : Nat) : Nat → Nat → Nat
  | 0, x => x
  | n + 1, x =>
    if x < k_game_world_design_width - 1 then
      if d (y * k_game_world_design_width + x) = ch then x
      else find_run_start d ch y n (x + 1)
    else x

/-- Second inner loop of `calculate_runs`:
`for (...; x < width - 1 && length < 256; ++x, ++length) if (design[...] != ch) break;`,
giving the final `(x, length)`. -/
def run_extent (d : Design) (ch : Char) (y : Nat) : Nat → Nat → Nat → Nat × Nat
  | 0, x, length => (x, length)
  | n + 1, x, length =>
    if x < k_game_world_design_width - 1 ∧ length < 256 then
      if d (y * k_game_world_design_width + x) ≠ ch then (x, length)
      else run_extent d ch y n (x + 1) (length + 1)
    else (x, length)

/-- The store `buf[count] = run` of `calculate_runs`, skipped for a null buffer. -/
def store_run (buf : Option (List sprite_run)) (count : Nat) (r : sprite_run) :
    Option (List sprite_run) :=
  buf.map (fun b => b.set count r)

/-- The `while (x < width - 1)` loop of `calculate_runs` on row `y`; the state is
`(count, buf)`.  At most `width` iterations are ever needed. -/
def scan_row (d : Design) (ch : Char) (y : Nat) :
    Nat → Nat → Nat × Option (List sprite_run) → Nat × Option (List sprite_run)
  | 0, _, st => st
  | n + 1, x, st =>
    if x < k_game_world_design_width - 1 then
      let x1 := find_run_start d ch y k_game_world_design_width x
      if x1 < k_game_world_design_width - 1 then
        let start_x := x1
        let e := run_extent d ch y k_game_world_design_width (x1 + 1) 1
        scan_row d ch y n e.1
          (st.1 + 1, store_run st.2 st.1 ⟨start_x, y, toU8 (e.2 - 1)⟩)
      else scan_row d ch y n x1 st
    else st

/-- Function `calculate_runs(ch, buf)`: rows `1 .. height - 2`, each scanned from `x = 1`;
returns the count together with the buffer contents (`none` for `nullptr`). -/
def calculate_runs (d : Design) (ch : Char) (buf : Option (List sprite_run)) :
    Nat × Option (List sprite_run) :=
  forLoop (fun y st => scan_row d ch y k_game_world_design_width 1 st)
    (k_game_world_design_height - 1 - 1) 1 (0, buf)

/-- One member `bufN` of `k_game_world_design_compressed`: an array of
`calculate_runs(ch, nullptr)` zero-initialised runs, filled by `calculate_runs(ch, bufN)`. -/
def compressed_buf (d : Design) (ch : Char) : List sprite_run :=
  ((calculate_runs d ch
      (some (List.replicate (calculate_runs d ch none).1 ⟨0, 0, 0⟩))).2).getD []

/-! ## Auxiliary functions used in the proofs about `calculate_runs` -/

/-- The runs found by the `while` loop of `calculate_runs` on row `y` from column `x`,
in the order in which they are stored. -/
def row_runs (d : Design) (ch : Char) (y : Nat) : Nat → Nat → List sprite_run
  | 0, _ => []
  | n + 1, x =>
    if x < k_game_world_design_width - 1 then
      let x1 := find_run_start d ch y k_game_world_design_width x
      if x1 < k_game_world_design_width - 1 then
        let e := run_extent d ch y k_game_world_design_width (x1 + 1) 1
        ⟨x1, y, toU8 (e.2 - 1)⟩ :: row_runs d ch y n e.1
      else row_runs d ch y n x1
    else []

/-- The runs of `n` consecutive rows starting at row `y`. -/
def all_runs (d : Design) (ch : Char) : Nat → Nat → List sprite_run
  | 0, _ => []
  | n + 1, y => row_runs d ch y k_game_world_design_width 1 ++ all_runs d ch n (y + 1)

/-- Successive stores `buf[count] = r; ++count` for the runs of a list. -/
def store_runs (buf : Option (List sprite_run)) (count : Nat) :
    List sprite_run → Option (List sprite_run)
  | [] => buf
  | r :: rs => store_runs (store_run buf count r) (count + 1) rs

/-- What `calculate_runs` guarantees of a run stored while scanning row `y` from column `x`. -/
def run_ok (d : Design) (ch : Char) (y x : Nat) (r : sprite_run) : Prop :=
  r.y = y ∧ x ≤ r.x ∧ r.x + r.length ≤ 16 ∧
  (∀ k, r.x ≤ k → k ≤ r.x + r.length → d (y * 18 + k) = ch) ∧
  (r.x = 1 ∨ d (y * 18 + (r.x - 1)) ≠ ch) ∧
  (r.x + r.length = 16 ∨ d (y * 18 + (r.x + r.length + 1)) ≠ ch)

/-- A run covers the cell `(cx, cy)`. -/
def sprite_run.covers (r : sprite_run) (cx cy : Nat) : Prop :=
  r.y = cy ∧ r.x ≤ cx ∧ cx ≤ r.x + r.length

/-- Row-major order of two runs, the first ending before the second starts. -/
def sprite_run.before (a b : sprite_run) : Prop :=
  a.y < b.y ∨ (a.y = b.y ∧ a.x + a.length < b.x)

/-! ## World collision map -/

/-- The innermost loop of `compute_game_world_collision_map`:
`for (u8 j = 0; j < run.length + 1u; ++j) fn((start_x + j) * 32, start_y * 32);`. -/
def draw_run (fn : Bitmap → Nat → Nat → Bitmap) (g : Bitmap) (run : sprite_run) : Bitmap :=
  forLoop (fun j g => fn g ((run.x + j) * k_sprite_size) (run.y * k_sprite_size))
    (run.length + 1) 0 g

/-- The loop `for (sprite_run run : runs[i])`. -/
def draw_runs (fn : Bitmap → Nat → Nat → Bitmap) (g : Bitmap) (runs : List sprite_run) : Bitmap :=
  runs.foldl (draw_run fn) g

/-- The two border loops of `compute_game_world_collision_map`. -/
def draw_borders (g : Bitmap) : Bitmap :=
  let g1 := forLoop (fun x g =>
      draw_full_square_sprite (draw_full_square_sprite g (x * k_sprite_size) 0)
        (x * k_sprite_size) ((k_game_world_design_height - 1) * k_sprite_size))
    k_game_world_design_width 0 g
  forLoop (fun y g =>
      draw_full_square_sprite (draw_full_square_sprite g 0 (y * k_sprite_size))
        ((k_game_world_design_width - 1) * k_sprite_size) (y * k_sprite_size))
    k_game_world_design_height 0 g1

/-- Function `compute_game_world_collision_map` for the layout `d`, from the current
contents of `g_game_world_collision_map`. -/
def compute_game_world_collision_map (d : Design) (g : Bitmap) : Bitmap :=
  let g0 := draw_borders g
  let g1 := draw_runs draw_full_square_sprite g0 (compressed_buf d 'b')
  let g2 := draw_runs draw_lower_left_triangle_sprite g1 (compressed_buf d '2')
  let g3 := draw_runs draw_lower_right_triangle_sprite g2 (compressed_buf d '3')
  draw_runs draw_upper_left_triangle_sprite g3 (compressed_buf d '4')

/-! ## Fixed-point numbers and the player -/

/-- Class `fixed16_16`: the raw `i32` value `_value`. -/
structure fixed16_16 where
  raw : Int
deriving DecidableEq, Repr

/-- Constructor `fixed16_16(i16 integer_value)`:
`static_cast<i32>(static_cast<u32>(static_cast<i32>(integer_value)) << shift)`. -/
def fixed16_16.ofI16 (integer_value : Int) : fixed16_16 :=
  ⟨wrap32 (((integer_value % 4294967296) * 65536) % 4294967296)⟩

/-- Template `vec2<T>`. -/
structure vec2 (T : Type) where
  x : T
  y : T
deriving DecidableEq, Repr

/-- Inner loop of the lambda initialising `k_player_start_location`: columns of row `y`. -/
def start_scan_row (d : Design) (y : Nat) : Nat → Nat → Option (vec2 fixed16_16)
  | 0, _ => none
  | n + 1, x =>
    if d (y * k_game_world_design_width + x) = 's' then
      some ⟨fixed16_16.ofI16 (toI16 ((x * k_sprite_size : Nat) : Int)),
            fixed16_16.ofI16 (toI16 ((y * k_sprite_size : Nat) : Int))⟩
    else start_scan_row d y n (x + 1)

/-- Outer loop of the lambda initialising `k_player_start_location`: the rows. -/
def start_scan (d : Design) : Nat → Nat → Option (vec2 fixed16_16)
  | 0, _ => none
  | n + 1, y =>
    match start_scan_row d y k_game_world_design_width 0 with
    | some v => some v
    | none => start_scan d n (y + 1)

/-- The lambda initialising `k_player_start_location`, for the layout `d`; `none` when
control reaches the end of the lambda without a `return`. -/
def k_player_start_location (d : Design) : Option (vec2 fixed16_16) :=
  start_scan d k_game_world_design_height 0

/-- Record `player`. -/
structure player where
  pos : vec2 fixed16_16
  vel : vec2 fixed16_16
  flying : Bool
  sliding : Bool
  charging : Bool
  facing : Nat
deriving DecidableEq, Repr

/-- Initial value of the global `g_player`; the members without an initialiser are
zero.  The initialising lambda of `k_player_start_location` returns a value on the
shipped layout. -/
def g_player : player :=
  { pos := (k_player_start_location k_game_world_design).getD ⟨⟨0⟩, ⟨0⟩⟩
    vel := ⟨fixed16_16.ofI16 0, fixed16_16.ofI16 0⟩
    flying := true
    sliding := false
    charging := false
    facing := 0 }

/-! ## Fixed-point operations -/

/-- Friend `ifloor`: `static_cast<i16>(x._value >> shift)`, the shift being arithmetic. -/
def ifloor (x : fixed16_16) : Int := toI16 (x.raw / 65536)

/-- Binary `operator +` (and `operator +=`) on two `fixed16_16`. -/
def fixed16_16.add (lhs rhs : fixed16_16) : fixed16_16 := ⟨wrap32 (lhs.raw + rhs.raw)⟩

/-- Binary `operator -` on two `fixed16_16`. -/
def fixed16_16.sub (lhs rhs : fixed16_16) : fixed16_16 := ⟨wrap32 (lhs.raw - rhs.raw)⟩

/-- Unary `operator -`. -/
def fixed16_16.neg (rhs : fixed16_16) : fixed16_16 := ⟨wrap32 (-rhs.raw)⟩

/-- Operator `fixed16_16 * i32`. -/
def fixed16_16.mul (lhs : fixed16_16) (rhs : Int) : fixed16_16 := ⟨wrap32 (lhs.raw * rhs)⟩

/-- Operator `fixed16_16 / i32`; the division truncates toward zero. -/
def fixed16_16.div (lhs : fixed16_16) (rhs : Int) : fixed16_16 :=
  ⟨wrap32 (Int.tdiv lhs.raw rhs)⟩

/-- Operator `>` on two `fixed16_16`. -/
def fixed16_16.gt (lhs rhs : fixed16_16) : Bool := decide (lhs.raw > rhs.raw)

/-- Constant `k_gravity`, `fixed16_16{ 1020 } / (60*60)`. -/
def k_gravity : fixed16_16 := (fixed16_16.ofI16 1020).div (60 * 60)

/-! ## Collision sweep -/

/-- The array `g_player_collision_map` as `collision_sweep_test` reads it: the value of
`g_player_collision_map[r][c]` for the `int` indices `r` and `c`. -/
abbrev CollisionMap := Int → Int → Bool

/-- A pair of indices lies inside `bool g_player_collision_map[1104][564]`. -/
def in_player_map (rc : Int × Int) : Prop :=
  0 ≤ rc.1 ∧ rc.1 < (k_player_collision_map_height : Int) ∧
  0 ≤ rc.2 ∧ rc.2 < (k_player_collision_map_width : Int)

/-- The local variables of `collision_sweep_test` during its loop, together with
`g_player`.  `stopped` records that `break` was executed, and `reads` lists the index
pairs `(r, c)` of every `g_player_collision_map[r][c]` evaluated so far, latest first. -/
structure sweep where
  pl : player
  diff_x : Int
  diff_y : Int
  step_x : Int
  step_y : Int
  collide_x : Bool
  collide_y : Bool
  x : Nat
  y : Nat
  ix : Nat
  iy : Nat
  stopped : Bool
  reads : List (Int × Int)
deriving DecidableEq, Repr

/-- Records the evaluation of `g_player_collision_map[r][c]`. -/
def sweep.read (s : sweep) (r c : Int) : sweep := { s with reads := (r, c) :: s.reads }

/-- Assignment to `g_player.vel.x`. -/
def sweep.set_vel_x (s : sweep) (v : fixed16_16) : sweep :=
  { s with pl := { s.pl with vel := ⟨v, s.pl.vel.y⟩ } }

/-- Assignment to `g_player.vel.y`. -/
def sweep.set_vel_y (s : sweep) (v : fixed16_16) : sweep :=
  { s with pl := { s.pl with vel := ⟨s.pl.vel.x, v⟩ } }

/-- Assignment to `g_player.flying`. -/
def sweep.set_flying (s : sweep) (b : Bool) : sweep :=
  { s with pl := { s.pl with flying := b } }

/-- Assignment to `g_player.sliding`. -/
def sweep.set_sliding (s : sweep) (b : Bool) : sweep :=
  { s with pl := { s.pl with sliding := b } }

/-- The loop condition `(ix < static_cast<u16>(diff_x)) || (iy < static_cast<u16>(diff_y))`,
false once `break` was executed. -/
def sweep.running (s : sweep) : Bool :=
  !s.stopped && (decide (s.ix < toU16 s.diff_x) || decide (s.iy < toU16 s.diff_y))

/-- The test `((ix << 1) | 1) * u16(diff_y) < ((iy << 1) | 1) * u16(diff_x)` choosing
an x-step.  The operands are promoted to `int`; the products are taken exactly (they
stay below `2^31` unless a difference is 32768 pixels). -/
def sweep.wants_x (s : sweep) : Bool :=
  decide ((((s.ix <<< 1) ||| 1) * toU16 s.diff_y) < (((s.iy <<< 1) ||| 1) * toU16 s.diff_x))

/-- The x-step branch of the loop body. -/
def sweep_step_x (m : CollisionMap) (s : sweep) : sweep :=
  -- Advance.
  let s := { s with x := toU16 ((s.x : Int) + s.step_x), ix := toU16 ((s.ix : Int) + 1) }
  -- Check for collision.
  let s := s.read s.y s.x
  let s :=
    if m s.y s.x then
      -- Save the collision and step back.
      let s := { s with collide_x := true, x := toU16 ((s.x : Int) - s.step_x) }
      if s.pl.flying then
        ({ s with step_x := toI16 (-s.step_x) }).set_vel_x (s.pl.vel.x.neg.div 2)
      else
        ({ s with diff_x := toI16 s.ix }).set_vel_x (fixed16_16.ofI16 0)
    else s
  -- Check if we will be flying: `!g_player.flying && !g_player_collision_map[y + 1][x]`.
  if s.pl.flying then s
  else
    let s := s.read ((s.y : Int) + 1) s.x
    if m ((s.y : Int) + 1) s.x then s
    else (s.set_flying true).set_sliding false

/-- The slide to the left or to the right inside the y-step branch (`dir` is `-1` or
`1`): the coordinate moves by `dir`, `ix` is incremented, and the player either flies
off or slides. -/
def sweep_slide (m : CollisionMap) (s : sweep) (dir : Int) : sweep :=
  let s := { s with collide_x := true, x := toU16 ((s.x : Int) + dir), ix := toU16 ((s.ix : Int) + 1) }
  let s := s.read ((s.y : Int) + 1) s.x
  if m ((s.y : Int) + 1) s.x then s.set_sliding true
  else
    let v := if dir < 0 then s.pl.vel.y.neg.div 2 else s.pl.vel.y.div 2
    ((s.set_vel_x v).set_flying true).set_sliding false

/-- The flat landing at the end of the y-step branch: step back, stop both movements,
stop sliding, `break`. -/
def sweep_flat_landing (s : sweep) : sweep :=
  let s := { s with y := toU16 ((s.y : Int) - s.step_y) }
  let s := (s.set_vel_x (fixed16_16.ofI16 0)).set_vel_y (fixed16_16.ofI16 0)
  { s.set_sliding false with stopped := true }

/-- The `if / else if / else` of the y-step branch that follows `g_player.flying = false`:
slide to the left, slide to the right, or land. -/
def sweep_land (m : CollisionMap) (s : sweep) : sweep :=
  -- `!map[y][x - 1] && (map[y + 1][x - 1] || sliding)`
  let s := s.read s.y ((s.x : Int) - 1)
  let s := if m s.y ((s.x : Int) - 1) then s else s.read ((s.y : Int) + 1) ((s.x : Int) - 1)
  if !m s.y ((s.x : Int) - 1) && (m ((s.y : Int) + 1) ((s.x : Int) - 1) || s.pl.sliding) then
    sweep_slide m s (-1)
  else
    -- `!map[y][x + 1] && (map[y + 1][x + 1] || sliding)`
    let s := s.read s.y ((s.x : Int) + 1)
    let s := if m s.y ((s.x : Int) + 1) then s else s.read ((s.y : Int) + 1) ((s.x : Int) + 1)
    if !m s.y ((s.x : Int) + 1) && (m ((s.y : Int) + 1) ((s.x : Int) + 1) || s.pl.sliding) then
      sweep_slide m s 1
    else
      sweep_flat_landing s

/-- The y-step branch of the loop body. -/
def sweep_step_y (m : CollisionMap) (s : sweep) : sweep :=
  -- Advance.
  let s := { s with y := toU16 ((s.y : Int) + s.step_y), iy := toU16 ((s.iy : Int) + 1) }
  -- Check for collision.
  let s := s.read s.y s.x
  if m s.y s.x then
    let s := { s with collide_y := true }
    if s.step_y < 0 then
      -- Moving up: step backwards, stop stepping along the y-axis.
      ({ s with y := toU16 ((s.y : Int) + 1), diff_y := toI16 s.iy }).set_vel_y
        (fixed16_16.ofI16 0)
    else
      -- Not flying anymore, unless sliding makes the player fall off an edge.
      sweep_land m (s.set_flying false)
  else s

/-- One iteration of the loop body of `collision_sweep_test`. -/
def sweep_iter (m : CollisionMap) (s : sweep) : sweep :=
  if s.wants_x then sweep_step_x m s else sweep_step_y m s

/-- The loop of `collision_sweep_test`, run for at most `n` iterations. -/
def sweep_loop (m : CollisionMap) : Nat → sweep → sweep
  | 0, s => s
  | n + 1, s => if s.running then sweep_loop m n (sweep_iter m s) else s

/-- The local variables of `collision_sweep_test` on entry to its loop. -/
def sweep_init (p : player) : sweep :=
  let start_x := ifloor p.pos.x
  let start_y := ifloor p.pos.y
  let end_x := ifloor (p.pos.x.add p.vel.x)
  let end_y := ifloor (p.pos.y.add p.vel.y)
  let diff_x := toI16 (end_x - start_x)
  let diff_y := toI16 (end_y - start_y)
  { pl := p
    diff_x := if diff_x < 0 then toI16 (-diff_x) else diff_x
    step_x := if diff_x < 0 then -1 else 1
    diff_y := if diff_y < 0 then toI16 (-diff_y) else diff_y
    step_y := if diff_y < 0 then -1 else 1
    collide_x := false
    collide_y := false
    x := toU16 start_x
    y := toU16 start_y
    ix := 0
    iy := 0
    stopped := false
    reads := [] }

/-- The position commit at the end of `collision_sweep_test`. -/
def sweep_commit (s : sweep) : player :=
  let pos_x :=
    if s.collide_x then fixed16_16.ofI16 (toI16 s.x) else s.pl.pos.x.add s.pl.vel.x
  let pos_y :=
    if s.collide_y then fixed16_16.ofI16 (toI16 s.y) else s.pl.pos.y.add s.pl.vel.y
  { s.pl with pos := ⟨pos_x, pos_y⟩ }

/-- The state of the loop of `collision_sweep_test` when it is left; the loop needs at
most `diff_x + diff_y` iterations (`sweep_loop_exits`). -/
def sweep_final (m : CollisionMap) (p : player) : sweep :=
  sweep_loop m (toU16 (sweep_init p).diff_x + toU16 (sweep_init p).diff_y) (sweep_init p)

/-- Function `collision_sweep_test`, on `g_player`. -/
def collision_sweep_test (m : CollisionMap) (p : player) : player :=
  if ifloor (p.pos.x.add p.vel.x) = ifloor p.pos.x ∧ ifloor (p.pos.y.add p.vel.y) = ifloor p.pos.y
  then p
  else sweep_commit (sweep_final m p)

/-! ## Auxiliary notions used in the proofs about the sweep -/

/-- Number of loop iterations still possible: `(diff_x - ix) + (diff_y - iy)`. -/
def sweep.measure (s : sweep) : Nat :=
  (toU16 s.diff_x - s.ix) + (toU16 s.diff_y - s.iy)

/-- Range facts kept by the loop: the differences are at most 32768 (they come from
`i16` values), a downward sweep has `diff_y ≤ 32767`, and `ix` exceeds 32768 only by
slides, one per y-step at most; so the `u16` counters never wrap. -/
def sweep.bounded (s : sweep) : Prop :=
  toU16 s.diff_x ≤ 32768 ∧ toU16 s.diff_y ≤ 32768 ∧ s.ix ≤ 32768 + s.iy ∧
  (0 ≤ s.step_y → toU16 s.diff_y ≤ 32767)

/-- The walked pixel lies strictly inside the player collision map, the steps are unit
steps, and every lookup made so far was inside the map. -/
def sweep.inside (s : sweep) : Prop :=
  0 < s.x ∧ s.x + 1 < k_player_collision_map_width ∧
  0 < s.y ∧ s.y + 1 < k_player_collision_map_height ∧
  (s.step_x = 1 ∨ s.step_x = -1) ∧ (s.step_y = 1 ∨ s.step_y = -1) ∧
  ∀ rc ∈ s.reads, in_player_map rc

/-- The outermost rows and columns of the player collision map are solid. -/
def solid_frame (m : CollisionMap) : Prop :=
  ∀ r c : Int, 0 ≤ r → r < (k_player_collision_map_height : Int) →
    0 ≤ c → c < (k_player_collision_map_width : Int) →
    (r = 0 ∨ r = (k_player_collision_map_height : Int) - 1 ∨
      c = 0 ∨ c = (k_player_collision_map_width : Int) - 1) → m r c = true

/-! ## Input phase and tick -/

/-- The key flags of `g_input`. -/
structure input where
  W : Bool
  A : Bool
  S : Bool
  D : Bool
  Space : Bool
  LMB : Bool
deriving DecidableEq, Repr

/-- The value `static_cast<i8>(g_input.D) - static_cast<i8>(g_input.A)`. -/
def input.axis (i : input) : Int := (if i.D then 1 else 0) - (if i.A then 1 else 0)

/-- The part of `pre_render_update` before the call of `collision_sweep_test`, on
`g_player` and the static `jump_charge` (an `i16`). -/
def input_phase (g_input : input) (p : player) (jump_charge : Int) : player × Int :=
  let p : player :=
    if g_input.A && !g_input.D then { p with facing := 1 }
    else if !g_input.A && g_input.D then { p with facing := 0 }
    else p
  let (p, jump_charge) : player × Int :=
    if !p.flying && !p.sliding then
      -- Zero out any previous movement.
      let p : player := { p with vel := ⟨fixed16_16.ofI16 0, fixed16_16.ofI16 0⟩ }
      if !g_input.W then
        if jump_charge > 0 then
          let jump_charge : Int := if jump_charge > 8 then toI16 (jump_charge - 8) else 0
          let vel : Int :=
            ifloor ((fixed16_16.ofI16 6).add (((fixed16_16.ofI16 4045).div 32767).mul jump_charge))
          let vx := (((((fixed16_16.ofI16 21063).div 32767).sub
            (((fixed16_16.ofI16 375).div 32767).mul jump_charge)).mul vel).mul
              (toI16 g_input.axis))
          let vy := ((((fixed16_16.ofI16 25101).div 32767).add
            (((fixed16_16.ofI16 191).div 32767).mul jump_charge)).neg).mul vel
          ({ p with vel := ⟨vx, vy⟩, flying := true }, 0)
        else
          ({ p with vel := ⟨p.vel.x.add (fixed16_16.ofI16 (toI16 (toI16 g_input.axis * 2))),
                             p.vel.y⟩ }, jump_charge)
      else
        let jump_charge : Int := toI16 (jump_charge + 1)
        (p, if jump_charge > 35 then 35 else jump_charge)
    else
      -- Apply gravity.
      ({ p with vel := ⟨p.vel.x, p.vel.y.add k_gravity⟩ }, jump_charge)
  -- Apply drag.
  let p : player := { p with vel := ⟨p.vel.x, ⟨wrap32 (Int.tdiv (wrap32 (p.vel.y.raw * 99)) 100)⟩⟩ }
  -- Apply some maximum fall speed.
  let p : player :=
    if p.vel.y.gt (fixed16_16.ofI16 7) then { p with vel := ⟨p.vel.x, fixed16_16.ofI16 7⟩ }
    else p
  (p, jump_charge)

/-- Function `pre_render_update` on `g_player` and the static `jump_charge`; the call of
`update_camera` that follows writes `g_camera` only. -/
def pre_render_update (m : CollisionMap) (g_input : input) (p : player) (jump_charge : Int) :
    player × Int :=
  let r := input_phase g_input p jump_charge
  (collision_sweep_test m r.1, r.2)

/-! ## The maps of the shipped level -/

/-- The array `g_game_world_collision_map` once `init` has run
`compute_game_world_collision_map` on the zero-initialised array. -/
def g_game_world_collision_map : Bitmap :=
  compute_game_world_collision_map k_game_world_design Bitmap.zero

/-- The array `g_player_collision_map` once `init` has run
`compute_player_collision_map` on the zero-initialised array. -/
def g_player_collision_map : Bitmap :=
  compute_player_collision_map g_game_world_collision_map Bitmap.zero

/-- A `bool[1104][564]` array as `collision_sweep_test` reads it.  An index pair outside
of the array has no defined value in the program; it reads as `false` here. -/
def Bitmap.toCollisionMap (g : Bitmap) : CollisionMap :=
  fun r c =>
    decide (0 ≤ r ∧ r < (k_player_collision_map_height : Int) ∧
      0 ≤ c ∧ c < (k_player_collision_map_width : Int)) && g r.toNat c.toNat

/-- Closed form of a pixel of the world bitmap of layout `d` (see `world_pixel`). -/
def tile_solid (d : Design) (py px : Nat) : Bool :=
  decide (py < 1120 ∧ px < 576) &&
    (decide (px / 32 = 0 ∨ px / 32 = 17 ∨ py / 32 = 0 ∨ py / 32 = 34) ||
      decide (d (py / 32 * 18 + px / 32) = 'b') ||
      (decide (d (py / 32 * 18 + px / 32) = '2') && decide (px % 32 ≤ py % 32)) ||
      (decide (d (py / 32 * 18 + px / 32) = '3') && decide (31 - py % 32 ≤ px % 32)) ||
      (decide (d (py / 32 * 18 + px / 32) = '4') && decide (px % 32 < 32 - py % 32)))

/-- Closed form of a cell of the player collision map of layout `d`: some pixel of the
13x17 box at `(x, y)` is solid. -/
def box_solid (d : Design) (y x : Nat) : Bool :=
  (List.range 17).any (fun i => (List.range 13).any (fun j => tile_solid d (y + i) (x + j)))

/-- Closed form of the player collision map of layout `d`, as the sweep reads it. -/
def closed_player_map (d : Design) : CollisionMap :=
  fun r c =>
    decide (0 ≤ r ∧ r < (k_player_collision_map_height : Int) ∧
      0 ≤ c ∧ c < (k_player_collision_map_width : Int)) && box_solid d r.toNat c.toNat

/-- A flying player at pixel `(351, 1066)` of the shipped level, falling to the right
across the foot of the ramp of tile `(10, 33)`, about 3.3 pixels right and 5.8 pixels
down per tick. -/
def ramp_player : player :=
  { pos := ⟨⟨23010219⟩, ⟨69915888⟩⟩
    vel := ⟨⟨216762⟩, ⟨382307⟩⟩
    flying := true
    sliding := false
    charging := false
    facing := 0 }

/-! ## Sample inputs -/

/-- A collision map with a solid frame, a floor from row 102 on and a one pixel high
step on the left part of the floor: `g[r][c]` is solid when `r ≤ 0`, `r ≥ 102`, `c ≤ 0`,
`c ≥ 563`, or `r ≥ 101` and `c ≤ 100`. -/
def step_map : CollisionMap :=
  fun r c => decide (r ≤ 0 ∨ 102 ≤ r ∨ c ≤ 0 ∨ 563 ≤ c ∨ (101 ≤ r ∧ c ≤ 100))

/-- A flying player at pixel `(100, 100)` moving 3 pixels right and 2 pixels down per
tick. -/
def step_player : player :=
  { pos := ⟨fixed16_16.ofI16 100, fixed16_16.ofI16 100⟩
    vel := ⟨fixed16_16.ofI16 3, fixed16_16.ofI16 2⟩
    flying := true
    sliding := false
    charging := false
    facing := 0 }

/-- No key is held. -/
def no_input : input :=
  { W := false, A := false, S := false, D := false, Space := false, LMB := false }

/-! ## Fixed-point `floor`, `fract` and `sqrt` -/

/-- Conversion to `u32`. -/
def toU32 (z : Int) : Nat := (z % 4294967296).toNat

/-- The constant `mask` of `floor`: `~((1Ui32 << shift) - 1Ui32)` as a `u32`. -/
def floor_mask : Nat := 4294967295 - ((1 <<< 16) - 1)

/-- Friend `floor`: `static_cast<i32>(static_cast<u32>(x._value) & mask)`. -/
def fixed16_16.floor (x : fixed16_16) : fixed16_16 :=
  ⟨wrap32 ((toU32 x.raw &&& floor_mask : Nat) : Int)⟩

/-- Friend `fract`: `x - floor(x)`. -/
def fixed16_16.fract (x : fixed16_16) : fixed16_16 := x.sub x.floor

/-- Intrinsic `_BitScanReverse(&index, mask)`, bits `i - 1` down to 0: the index of
the first set bit met when scanning from the most significant bit down. -/
def bit_scan_reverse_from : Nat → Nat → Nat
  | 0, _ => 0
  | i + 1, mask => if mask.testBit i then i else bit_scan_reverse_from i mask

/-- Intrinsic `_BitScanReverse` on a 32-bit mask (the index is left undefined by the
instruction for a zero mask; `sqrt` does not call it then). -/
def bit_scan_reverse (mask : Nat) : Nat := bit_scan_reverse_from 32 mask

/-- The initial guess of `fixed16_16::sqrt`: `(1Ui32 << e) << shift` as a `u32`. -/
def sqrt_guess (e : Nat) : Nat := (((1 <<< e) % 4294967296) <<< 16) % 4294967296

/-- One Newton-Raphson step of `fixed16_16::sqrt`: `(x + (y / (x >> shift))) >> 1` in
`u32` arithmetic. -/
def sqrt_step (y x : Nat) : Nat := ((x + y / (x >>> 16)) % 4294967296) >>> 1

/-- The two Newton-Raphson steps of `fixed16_16::sqrt` from the guess
`(1Ui32 << e) << shift`, with `y = static_cast<u32>(value) << shift`; the final `x`. -/
def sqrt_newton (e value : Nat) : Nat :=
  let y : Nat := (value <<< 16) % 4294967296
  sqrt_step y (sqrt_step y (sqrt_guess e))

/-- Static member `fixed16_16::sqrt(u16 value)`. -/
def fixed16_16.sqrt (value : Nat) : fixed16_16 :=
  if value = 0 then fixed16_16.ofI16 0
  else
    let msb : Nat := bit_scan_reverse value
    ⟨wrap32 (sqrt_newton (((msb + 1) % 4294967296) >>> 1) value : Nat)⟩

/-- Spec side of the refinement claim about `sqrt`: two iterations of
`x <- (x + (value << 16) / (x >> 16)) >> 1` in unsigned 32-bit arithmetic with
truncating division, started from the seed `(1 << (ceil(log2(value)) / 2)) << 16`. -/
def sqrt_reference (value : Nat) : Nat :=
  let x0 : Nat := ((1 <<< (Nat.clog 2 value / 2)) <<< 16) % 4294967296
  let y : Nat := (value <<< 16) % 4294967296
  let x1 : Nat := ((x0 + y / (x0 >>> 16)) % 4294967296) >>> 1
  ((x1 + y / (x1 >>> 16)) % 4294967296) >>> 1

/-! ## Checking a property of `sqrt` on all 16-bit values -/

/-- Checks `P v` for every `v` with `lo ≤ v < lo + n`. -/
def all_from (P : Nat → Bool) (lo : Nat) : Nat → Bool
  | 0 => true
  | n + 1 => P (lo + n) && all_from P lo n

/-- The first Newton iterate of `fixed16_16::sqrt` on the input `v`, for the guess `x0`
with `d0 = x0 >> 16`, written without the reductions modulo `2^32` (nothing wraps for a
16-bit input). -/
def sqrt_x1 (x0 d0 v : Nat) : Nat := (x0 + v * 65536 / d0) / 2

/-- The second Newton iterate of `fixed16_16::sqrt` on the input `v`, likewise. -/
def sqrt_r (x0 d0 v : Nat) : Nat :=
  (sqrt_x1 x0 d0 v + v * 65536 / (sqrt_x1 x0 d0 v / 65536)) / 2

/-- The check of a block `lo .. hi` of inputs with the guess `x0`: the divisor of the
second Newton step is the same at both ends of the block, and the result `r` at `hi` has
`r ≤ 16809920`, `192 * (r * r / 2^16) ≤ 361 * (lo << 16)`, and `r * r ≤ 65535 * 2^32`
unless the block starts above 65364. -/
def sqrt_block_ok (x0 d0 lo hi : Nat) : Bool :=
  Nat.beq (sqrt_x1 x0 d0 lo / 65536) (sqrt_x1 x0 d0 hi / 65536) &&
    (Nat.ble (sqrt_r x0 d0 hi) 16809920 &&
      (Nat.ble (192 * (sqrt_r x0 d0 hi * sqrt_r x0 d0 hi / 65536)) (361 * (lo * 65536)) &&
        (Nat.ble 65365 lo || Nat.ble (sqrt_r x0 d0 hi * sqrt_r x0 d0 hi) 281470681743360)))

/-- The check of `n` consecutive blocks of `len` inputs each, from the input `lo` on. -/
def sqrt_blocks_ok (x0 d0 len lo n : Nat) : Bool :=
  all_from (fun j => sqrt_block_ok x0 d0 (lo + j * len) (lo + j * len + (len - 1))) 0 n

/-- The length of the blocks checked for the inputs whose most significant bit is bit `k`:
single inputs below 16, and `2^(e + 1)` inputs for the guess exponent `e = (k + 1) >> 1`
from there on (the divisor of the second Newton step is constant on such a block). -/
def sqrt_block_len (k : Nat) : Nat := if k < 4 then 1 else 2 ^ (((k + 1) >>> 1) + 1)

/-- The number of blocks checked for the inputs whose most significant bit is bit `k`:
all of `2^k .. 2^(k+1) - 1`, except that the last block `65024 .. 65535` is left out. -/
def sqrt_block_count (k : Nat) : Nat := if k = 15 then 63 else 2 ^ k / sqrt_block_len k

/-- The check of the blocks of the inputs whose most significant bit is bit `k`. -/
def sqrt_band_ok (k : Nat) : Bool :=
  sqrt_blocks_ok (sqrt_guess ((k + 1) >>> 1)) (sqrt_guess ((k + 1) >>> 1) >>> 16)
    (sqrt_block_len k) (2 ^ k) (sqrt_block_count k)

/-- The check of the two parts `65024 .. 65364` and `65365 .. 65535` of the last block. -/
def sqrt_last_ok : Bool :=
  sqrt_block_ok 16777216 256 65024 65364 && sqrt_block_ok 16777216 256 65365 65535

/-- The check of a single input `v` with most significant bit 15: the fixed-point square
of the result is not more than 488 raw units below `v << 16`. -/
def sqrt_near_ok (v : Nat) : Bool :=
  Nat.ble (v * 65536) (sqrt_r 16777216 256 v * sqrt_r 16777216 256 v / 65536 + 488)

/-! ## Distance field -/

/-- Assignment `g[y][x] = v` to a two-dimensional array. -/
def grid_store {α : Type} (g : Nat → Nat → α) (y x : Nat) (v : α) : Nat → Nat → α :=
  fun r c => if r = y ∧ c = x then v else g r c

/-- The inner loop of the horizontal pass of `compute_game_world_distance_field` for
the pixel `(x, y)`: the final value of `min`. -/
def sedt_row_min (world : Bitmap) (inverse : Bool) (y x : Nat) : Nat :=
  forLoop (fun i min =>
      if world y i != inverse then
        let dx : Int := wrap32 ((x : Int) - (i : Int))
        let dx2 : Nat := toU32 (wrap32 (dx * dx))
        if dx2 < min then dx2 else min
      else min)
    k_world_width 0 ((k_world_width * k_world_width) % 4294967296)

/-- The horizontal pass of `compute_game_world_distance_field`, on the static array
`sedt_x`. -/
def horizontal_pass (world : Bitmap) (inverse : Bool) (sedt_x : Nat → Nat → Nat) :
    Nat → Nat → Nat :=
  forLoop (fun y s =>
      forLoop (fun x s =>
          if world y x != inverse then grid_store s y x 0
          else grid_store s y x (sedt_row_min world inverse y x))
        k_world_width 0 s)
    k_world_height 0 sedt_x

/-- The inner loop of the vertical pass of `compute_game_world_distance_field` for the
pixel `(x, y)`: the final value of `min`. -/
def sedt_col_min (sedt_x : Nat → Nat → Nat) (y x : Nat) : Nat :=
  forLoop (fun i min =>
      let dy : Int := wrap32 ((y : Int) - (i : Int))
      let dx2 : Nat := sedt_x i x
      let hyp : Nat := (dx2 + toU32 (wrap32 (dy * dy))) % 4294967296
      if hyp < min then hyp else min)
    k_world_height 0 (sedt_x y x)

/-- The vertical pass of `compute_game_world_distance_field`, on
`g_game_world_distance_field`. -/
def vertical_pass (inverse : Bool) (sedt_x : Nat → Nat → Nat)
    (field : Nat → Nat → fixed16_16) : Nat → Nat → fixed16_16 :=
  forLoop (fun y f =>
      forLoop (fun x f =>
          if sedt_x y x = 0 then f
          else
            let min : Nat := sedt_col_min sedt_x y x
            let dist : fixed16_16 :=
              fixed16_16.sqrt (toU16 ((if min < 65535 then min else 65535 : Nat) : Int))
            grid_store f y x (if inverse then dist.neg else dist))
        k_world_width 0 f)
    k_world_height 0 field

/-- Function `compute_game_world_distance_field(inverse)` as a transformer of the pair
of the static array `sedt_x` and the global `g_game_world_distance_field`, reading the
world collision map `world`. -/
def compute_game_world_distance_field (world : Bitmap) (inverse : Bool)
    (st : (Nat → Nat → Nat) × (Nat → Nat → fixed16_16)) :
    (Nat → Nat → Nat) × (Nat → Nat → fixed16_16) :=
  let sedt_x := horizontal_pass world inverse st.1
  (sedt_x, vertical_pass inverse sedt_x st.2)

/-- The zero-initialised global `g_game_world_distance_field`. -/
def zero_field : Nat → Nat → fixed16_16 := fun _ _ => ⟨0⟩

/-- The two calls of `init`: `compute_game_world_distance_field(0)` and then
`compute_game_world_distance_field(1)`. -/
def init_distance_field (world : Bitmap)
    (st : (Nat → Nat → Nat) × (Nat → Nat → fixed16_16)) :
    (Nat → Nat → Nat) × (Nat → Nat → fixed16_16) :=
  compute_game_world_distance_field world true
    (compute_game_world_distance_field world false st)

/-- Spec side: the squared Euclidean distance between the pixels `(x, y)` and `(j, i)`. -/
def dist2 (x y j i : Nat) : Nat :=
  (((x : Int) - (j : Int)) ^ 2 + ((y : Int) - (i : Int)) ^ 2).toNat

/-- Spec side of the refinement claim about the distance field: the brute-force minimum,
capped at 65535, of the squared distance from `(x, y)` to a pixel `(j, i)` of the world
with `world[i][j] != inverse` (65535 when there is no such pixel). -/
def brute_force_min (world : Bitmap) (inverse : Bool) (x y : Nat) : Nat :=
  forLoop (fun i m =>
      forLoop (fun j m => if world i j != inverse then Nat.min m (dist2 x y j i) else m)
        k_world_width 0 m)
    k_world_height 0 65535

/-- A world with the single solid pixel `(0, 0)`. -/
def dot_world : Bitmap := Bitmap.zero.set 0 0

/-- Auxiliary notion: `c` is the minimum, capped at 65535, of the squared distances from
`(x, y)` to the pixels `(j, i)` of the world with `world[i][j] != inverse`. -/
def is_capped_min (world : Bitmap) (inverse : Bool) (x y c : Nat) : Prop :=
  c ≤ 65535 ∧
  (∀ i j, i < k_world_height → j < k_world_width → (world i j != inverse) = true →
    c ≤ dist2 x y j i) ∧
  (c = 65535 ∨ ∃ i j, i < k_world_height ∧ j < k_world_width ∧
    (world i j != inverse) = true ∧ c = dist2 x y j i)

/-- Auxiliary notion: the pixel `(x, y)` has a horizontal or vertical neighbour inside
the world with `world != inverse`. -/
def adjacent_opposite (world : Bitmap) (inverse : Bool) (x y : Nat) : Prop :=
  (x + 1 < k_world_width ∧ (world y (x + 1) != inverse) = true) ∨
  (1 ≤ x ∧ (world y (x - 1) != inverse) = true) ∨
  (y + 1 < k_world_height ∧ (world (y + 1) x != inverse) = true) ∨
  (1 ≤ y ∧ (world (y - 1) x != inverse) = true)

/-! ## White noise -/

/-- Texture width `k_white_noise_texture_width`. -/
def k_white_noise_texture_width : Nat := k_world_width
/-- Texture height `k_white_noise_texture_height`. -/
def k_white_noise_texture_height : Nat := k_world_height

/-- Intrinsic `_rotl(value, shift)` on a `u32`, for `0 < shift < 32`. -/
def rotl (value shift : Nat) : Nat :=
  ((value <<< shift) % 4294967296) ||| (value >>> (32 - shift))

/-- The locals of `compute_white_noise_texture` and the memory it writes.  The bytes of
`g_white_noise_texture` are numbered row after row, `g_white_noise_texture[y][x]` being
byte `y * k_white_noise_texture_width + x`; `ptr` counts in `u32` units from the start of
the texture; `writes` is a ghost counter of the stores made to each byte. -/
structure noise where
  /-- Word `state[0]`. -/
  state0 : Nat
  /-- Word `state[1]`. -/
  state1 : Nat
  /-- Word `state[2]`. -/
  state2 : Nat
  /-- Word `state[3]`. -/
  state3 : Nat
  /-- Loop counter `n`. -/
  n : Nat
  /-- Pointer `ptr`, as an index in `u32` units. -/
  ptr : Nat
  /-- The bytes of `g_white_noise_texture`. -/
  texture : Nat → Nat
  /-- Ghost: how many times each byte has been stored to. -/
  writes : Nat → Nat

/-- The store `*ptr = rand` of a `u32` at byte address `addr`, least significant byte
first (the program is built for x86). -/
def store_u32 (mem : Nat → Nat) (addr value : Nat) : Nat → Nat :=
  fun a => if addr ≤ a ∧ a < addr + 4 then (value >>> (8 * (a - addr))) % 256 else mem a

/-- Ghost: the four bytes from `addr` on are stored to once more. -/
def count_store (writes : Nat → Nat) (addr : Nat) : Nat → Nat :=
  fun a => if addr ≤ a ∧ a < addr + 4 then writes a + 1 else writes a

/-- The body of the loop of `compute_white_noise_texture`, with its increment
`n += 4, ++ptr`. -/
def white_noise_step (s : noise) : noise :=
  let rand : Nat := (rotl ((s.state1 * 5) % 4294967296) 7 * 9) % 4294967296
  let t : Nat := (s.state1 <<< 9) % 4294967296
  let state2 : Nat := s.state2 ^^^ s.state0
  let state3 : Nat := s.state3 ^^^ s.state1
  let state1 : Nat := s.state1 ^^^ state2
  let state0 : Nat := s.state0 ^^^ state3
  let state2 : Nat := state2 ^^^ t
  let state3 : Nat := rotl state3 11
  { state0 := state0
    state1 := state1
    state2 := state2
    state3 := state3
    n := (s.n + 4) % 4294967296
    ptr := s.ptr + 1
    texture := store_u32 s.texture (4 * s.ptr) rand
    writes := count_store s.writes (4 * s.ptr) }

/-- The loop `for (n = 0; n != width * height; n += 4, ++ptr)`, run for at most `fuel`
iterations. -/
def white_noise_loop : Nat → noise → noise
  | 0, s => s
  | fuel + 1, s =>
    if s.n ≠ (k_white_noise_texture_width * k_white_noise_texture_height) % 4294967296 then
      white_noise_loop fuel (white_noise_step s)
    else s

/-- The locals of `compute_white_noise_texture` on entry to its loop. -/
def white_noise_init (texture : Nat → Nat) : noise :=
  { state0 := 0x6A09E667
    state1 := 0xBB67AE85
    state2 := 0x3C6EF372
    state3 := 0xA54FF53A
    n := 0
    ptr := 0
    texture := texture
    writes := fun _ => 0 }

/-- Function `compute_white_noise_texture`: the state when its loop is left; the loop
needs `width * height / 4` iterations (`white_noise_loop_exits`). -/
def compute_white_noise_texture (texture : Nat → Nat) : noise :=
  white_noise_loop (k_white_noise_texture_width * k_white_noise_texture_height / 4)
    (white_noise_init texture)

/-- The element `g_white_noise_texture[y][x]` in the memory of a state. -/
def noise.g_white_noise_texture (s : noise) (y x : Nat) : Nat :=
  s.texture (y * k_white_noise_texture_width + x)

/-- Spec side: the state of the reference generator xoshiro128**. -/
structure xoshiro128 where
  /-- Word `s[0]`. -/
  s0 : Nat
  /-- Word `s[1]`. -/
  s1 : Nat
  /-- Word `s[2]`. -/
  s2 : Nat
  /-- Word `s[3]`. -/
  s3 : Nat

/-- Spec side: the result of `next()` of xoshiro128**, `rotl(s1 * 5, 7) * 9`. -/
def xoshiro128.result (s : xoshiro128) : Nat :=
  (rotl ((s.s1 * 5) % 4294967296) 7 * 9) % 4294967296

/-- Spec side: the state after `next()` of xoshiro128**: `t = s1 << 9; s2 ^= s0;
s3 ^= s1; s1 ^= s2; s0 ^= s3; s2 ^= t; s3 = rotl(s3, 11)`. -/
def xoshiro128.next (s : xoshiro128) : xoshiro128 :=
  let t : Nat := (s.s1 <<< 9) % 4294967296
  let s2 : Nat := s.s2 ^^^ s.s0
  let s3 : Nat := s.s3 ^^^ s.s1
  let s1 : Nat := s.s1 ^^^ s2
  let s0 : Nat := s.s0 ^^^ s3
  ⟨s0, s1, s2 ^^^ t, rotl s3 11⟩

/-- Spec side: the state of xoshiro128** after `k` calls of `next()` from the state
`(0x6A09E667, 0xBB67AE85, 0x3C6EF372, 0xA54FF53A)`. -/
def xoshiro_state : Nat → xoshiro128
  | 0 => ⟨0x6A09E667, 0xBB67AE85, 0x3C6EF372, 0xA54FF53A⟩
  | k + 1 => (xoshiro_state k).next

/-- Spec side: the `k`-th output (counting from 0) of xoshiro128**. -/
def xoshiro_output (k : Nat) : Nat := (xoshiro_state k).result

/-! ## Repeated ticks -/

/-- The state after `n` ticks of `pre_render_update` with the same keys held. -/
def ticks (m : CollisionMap) (g_input : input) : Nat → player × Int → player × Int
  | 0, st => st
  | n + 1, st => ticks m g_input n (pre_render_update m g_input st.1 st.2)

/-- A grounded player at pixel `(100, 100)`. -/
def idle_player : player :=
  { pos := ⟨fixed16_16.ofI16 100, fixed16_16.ofI16 100⟩
    vel := ⟨fixed16_16.ofI16 0, fixed16_16.ofI16 0⟩
    flying := false
    sliding := false
    charging := false
    facing := 0 }

/-! ## Camera -/

/-- Constant `camera::k_width`. -/
def camera_k_width : Nat := k_sprite_size * 14
/-- Constant `camera::k_height`. -/
def camera_k_height : Nat := k_sprite_size * 8

/-- Record `camera`: the origin (top-left corner) of the viewport. -/
structure camera where
  x : Nat
  y : Nat
deriving DecidableEq, Repr

/-- The clamping of `update_camera` along one axis: `desired_center` is the `u16`
centre, `half` the value `camera::k_width / 2` (or `k_height / 2`) and `limit` the `u32`
value `k_world_width - camera::k_width` (or the same for the height); the result is the
final `static_cast<u16>(camera_left)`. -/
def camera_clamp (desired_center half limit : Nat) : Nat :=
  let camera_left : Int := toI16 (toI16 desired_center - toI16 half)
  let camera_left : Int :=
    if camera_left < 0 then 0
    else if toU16 camera_left > limit then toI16 limit
    else camera_left
  toU16 camera_left

/-- Function `update_camera`: the new value of `g_camera`, from `g_player`. -/
def update_camera (p : player) : camera :=
  let desired_center_x : Nat :=
    toU16 ((toU16 (ifloor p.pos.x) : Int) + ((player_k_width / 2 : Nat) : Int))
  let desired_center_y : Nat :=
    toU16 ((toU16 (ifloor p.pos.y) : Int) + ((player_k_height / 2 : Nat) : Int))
  { x := camera_clamp desired_center_x (camera_k_width / 2) (k_world_width - camera_k_width)
    y := camera_clamp desired_center_y (camera_k_height / 2) (k_world_height - camera_k_height) }

/-! ## The launch and the key handling of the input phase -/

/-- The local `vel` of the launch branch of `pre_render_update`:
`ifloor(fixed16_16{ 6 } + ((fixed16_16{ 4045 } / 32767) * jump_charge))`. -/
def launch_vel (jump_charge : Int) : Int :=
  ifloor ((fixed16_16.ofI16 6).add (((fixed16_16.ofI16 4045).div 32767).mul jump_charge))

/-- The value assigned to `g_player.vel.y` by the launch branch of `pre_render_update`:
`-((fixed16_16{ 25101 } / 32767) + ((fixed16_16{ 191 } / 32767) * jump_charge)) * vel`. -/
def launch_vel_y (jump_charge : Int) : fixed16_16 :=
  ((((fixed16_16.ofI16 25101).div 32767).add
    (((fixed16_16.ofI16 191).div 32767).mul jump_charge)).neg).mul (launch_vel jump_charge)

/-- The part of `pre_render_update` before the comment `Apply drag`: the handling of the
keys, the launch and gravity, on `g_player` and the static `jump_charge`. -/
def keys_phase (g_input : input) (p : player) (jump_charge : Int) : player × Int :=
  let p : player :=
    if g_input.A && !g_input.D then { p with facing := 1 }
    else if !g_input.A && g_input.D then { p with facing := 0 }
    else p
  if !p.flying && !p.sliding then
    -- Zero out any previous movement.
    let p : player := { p with vel := ⟨fixed16_16.ofI16 0, fixed16_16.ofI16 0⟩ }
    if !g_input.W then
      if jump_charge > 0 then
        let jump_charge : Int := if jump_charge > 8 then toI16 (jump_charge - 8) else 0
        let vel : Int := launch_vel jump_charge
        let vx := (((((fixed16_16.ofI16 21063).div 32767).sub
          (((fixed16_16.ofI16 375).div 32767).mul jump_charge)).mul vel).mul
            (toI16 g_input.axis))
        ({ p with vel := ⟨vx, launch_vel_y jump_charge⟩, flying := true }, 0)
      else
        ({ p with vel := ⟨p.vel.x.add (fixed16_16.ofI16 (toI16 (toI16 g_input.axis * 2))),
                           p.vel.y⟩ }, jump_charge)
    else
      let jump_charge : Int := toI16 (jump_charge + 1)
      (p, if jump_charge > 35 then 35 else jump_charge)
  else
    -- Apply gravity.
    ({ p with vel := ⟨p.vel.x, p.vel.y.add k_gravity⟩ }, jump_charge)

/-- The part of `pre_render_update` from the comment `Apply drag` up to the call of
`collision_sweep_test`: drag and the maximum fall speed. -/
def apply_drag (p : player) : player :=
  let p : player :=
    { p with vel := ⟨p.vel.x, ⟨wrap32 (Int.tdiv (wrap32 (p.vel.y.raw * 99)) 100)⟩⟩ }
  if p.vel.y.gt (fixed16_16.ofI16 7) then { p with vel := ⟨p.vel.x, fixed16_16.ofI16 7⟩ }
  else p

/-- A sequence of ticks of `pre_render_update`, one per element of the list of key
states. -/
def play (m : CollisionMap) : List input → player × Int → player × Int
  | [], st => st
  | g_input :: rest, st => play m rest (pre_render_update m g_input st.1 st.2)

/-- Key state with only the jump key W held. -/
def hold_jump : input :=
  { W := true, A := false, S := false, D := false, Space := false, LMB := false }

/-! ## Auxiliary notions used in the proofs about collision-free walks -/

/-- The cell `(row, column)` of the player collision map that the next iteration of the
loop of `collision_sweep_test` enters: the cell reached by `x += step_x` when an x-step is
chosen, else the cell reached by `y += step_y`. -/
def sweep.next_cell (s : sweep) : Int × Int :=
  if s.wants_x then ((s.y : Int), ((toU16 ((s.x : Int) + s.step_x) : Nat) : Int))
  else (((toU16 ((s.y : Int) + s.step_y) : Nat) : Int), (s.x : Int))

/-! ## More sample inputs -/

/-- A player on the floor of `step_map` at pixel `(103, 101)`, not flying, moving 5 pixels
to the left per tick, towards the step whose wall is column 100. -/
def step_walker : player :=
  { pos := ⟨fixed16_16.ofI16 103, fixed16_16.ofI16 101⟩
    vel := ⟨fixed16_16.ofI16 (-5), fixed16_16.ofI16 0⟩
    flying := false
    sliding := false
    charging := false
    facing := 1 }

/-- A collision map whose only solid cell is row 101, column 50. -/
def ledge_map : CollisionMap := fun r c => decide (r = 101 ∧ c = 50)

/-- A flying player at pixel `(100, 100)` whose velocity is a small fraction of a pixel
per tick. -/
def slow_player : player :=
  { pos := ⟨fixed16_16.ofI16 100, fixed16_16.ofI16 100⟩
    vel := ⟨⟨100⟩, ⟨200⟩⟩
    flying := true
    sliding := false
    charging := false
    facing := 0 }


/-! ## Sample inputs for the branches of the sweep -/

/-- A grounded player at pixel `(50, 100)`, standing on the only solid cell of
`ledge_map` and moving 2 pixels to the right per tick. -/
def ledge_walker : player :=
  { pos := ⟨fixed16_16.ofI16 50, fixed16_16.ofI16 100⟩
    vel := ⟨fixed16_16.ofI16 2, fixed16_16.ofI16 0⟩
    flying := false
    sliding := false
    charging := false
    facing := 0 }

/-- A flying player at pixel `(103, 50)` moving 5 pixels to the left per tick, towards the
left wall of `wall_map`. -/
def wall_flyer : player :=
  { pos := ⟨fixed16_16.ofI16 103, fixed16_16.ofI16 50⟩
    vel := ⟨fixed16_16.ofI16 (-5), fixed16_16.ofI16 0⟩
    flying := true
    sliding := false
    charging := false
    facing := 1 }

/-- A collision map whose solid cells are the columns up to 100. -/
def wall_map : CollisionMap := fun _ c => decide (c ≤ 100)

/-! ## The exponent of the initial guess of `sqrt` -/

/-- The shift amount `(msb + 1Ui32) >> 1` of the initial guess of `fixed16_16::sqrt`, with
`msb` the index found by `_BitScanReverse` in `value`. -/
def sqrt_exponent (value : Nat) : Nat := ((bit_scan_reverse value + 1) % 4294967296) >>> 1

/-! ## Arithmetic on `u32` and `u64` values -/

/-- Addition of two `u32` values. -/
def add_u32 (a b : Nat) : Nat := (a + b) % 4294967296

/-- Subtraction of two `u32` values. -/
def sub_u32 (a b : Nat) : Nat := (a + 4294967296 - b) % 4294967296

/-- Multiplication of two `u32` values. -/
def mul_u32 (a b : Nat) : Nat := (a * b) % 4294967296

/-- Conversion of an `int` to `u8`. -/
def int_toU8 (z : Int) : Nat := (z % 256).toNat

/-- Conversion to `u64`. -/
def toU64 (z : Int) : Nat := (z % 18446744073709551616).toNat

/-! ## Fractal noise -/

/-- A global `u8 g[rows][cols]`, read as `g y x` for `g[y][x]`. -/
abbrev ByteGrid := Nat → Nat → Nat

/-- Texture width `k_fractal_noise_texture_width`. -/
def k_fractal_noise_texture_width : Nat := k_white_noise_texture_width
/-- Texture height `k_fractal_noise_texture_height`. -/
def k_fractal_noise_texture_height : Nat := k_white_noise_texture_height

/-- The local `u8 const scale{ 4U - i }` of `compute_fractal_noise_texture`. -/
def fractal_scale (i : Nat) : Nat := toU8 (sub_u32 4 i)

/-- The local `u8 const f{ 1U << scale }` of `compute_fractal_noise_texture`. -/
def fractal_f (i : Nat) : Nat := toU8 ((1 <<< fractal_scale i) % 4294967296)

/-- The integer part `y >> scale` (or `x >> scale`) of a pixel coordinate at octave `i`. -/
def fractal_int (y i : Nat) : Nat := y >>> fractal_scale i

/-- The fractional weight `y & (f - 1)` (or `x & (f - 1)`) of a pixel coordinate at octave
`i`; `f - 1` is an `int` converted to `u32`. -/
def fractal_frac (y i : Nat) : Nat := y &&& toU32 ((fractal_f i : Int) - 1)

/-- The white-noise sample `g_white_noise_texture[y_i + dy][x_i + dx]` of octave `i` at the
pixel `(x, y)`. -/
def fractal_sample (white : ByteGrid) (y x i dy dx : Nat) : Nat :=
  white (add_u32 (fractal_int y i) dy) (add_u32 (fractal_int x i) dx)

/-- The local `u32 const tmp_sum` of `compute_fractal_noise_texture` at octave `i` and
pixel `(x, y)`. -/
def fractal_tmp_sum (white : ByteGrid) (y x i : Nat) : Nat :=
  let f := fractal_f i
  let y_f := fractal_frac y i
  let x_f := fractal_frac x i
  add_u32 (add_u32 (add_u32
    (mul_u32 (mul_u32 (fractal_sample white y x i 0 0) (sub_u32 f y_f)) (sub_u32 f x_f))
    (mul_u32 (mul_u32 (fractal_sample white y x i 0 1) (sub_u32 f y_f)) x_f))
    (mul_u32 (mul_u32 (fractal_sample white y x i 1 0) y_f) (sub_u32 f x_f)))
    (mul_u32 (mul_u32 (fractal_sample white y x i 1 1) y_f) x_f)

/-- The interpolated value `tmp_sum >> (scale * 2U)` of octave `i`, before its conversion
to `u8`. -/
def fractal_interpolated (white : ByteGrid) (y x i : Nat) : Nat :=
  fractal_tmp_sum white y x i >>> mul_u32 (fractal_scale i) 2

/-- The loop over the octaves `for (u8 i{ 0 }; i < 4U; ++i)` of
`compute_fractal_noise_texture` at the pixel `(x, y)`: the final value of the `u8 sum`,
with `sum += static_cast<u8>(tmp_sum >> (scale * 2U)) >> (i + 1U)`. -/
def fractal_sum (white : ByteGrid) (y x : Nat) : Nat :=
  forLoop (fun i sum =>
      toU8 (sum + (toU8 (fractal_interpolated white y x i) >>> add_u32 i 1)))
    4 0 0

/-- Function `compute_fractal_noise_texture`, from the white noise and the current
contents of `g_fractal_noise_texture`. -/
def compute_fractal_noise_texture (white fractal : ByteGrid) : ByteGrid :=
  forLoop (fun y g =>
      forLoop (fun x g => grid_store g y x (fractal_sum white y x))
        k_fractal_noise_texture_width 0 g)
    k_fractal_noise_texture_height 0 fractal

/-! ## Background texture -/

/-- Template `vec3<T>`. -/
structure vec3 (T : Type) where
  x : T
  y : T
  z : T
deriving DecidableEq, Repr

/-- Constructor `vec3(T v)`: all three members are `v`. -/
def vec3.splat {T : Type} (v : T) : vec3 T := ⟨v, v, v⟩

/-- Local constant `brick_width` of `compute_background_texture`. -/
def brick_width : Nat := 16
/-- Local constant `brick_height` of `compute_background_texture`. -/
def brick_height : Nat := brick_width / 2

/-- The local `offset_x` of `compute_background_texture` in row `y`. -/
def brick_offset_x (y : Nat) : Nat :=
  if (y / brick_height) &&& 1 = 1 then brick_width / 2 else 0

/-- The value of the local `u8 brick_color` of `compute_background_texture` when it is
stored, at the pixel `(x, y)` of brick `(bi_x, bi_y)`. -/
def brick_color (white fractal : ByteGrid) (y x bi_y bi_x : Nat) : Nat :=
  -- `u8 brick_color{ static_cast<u8>(40Ui8 + (g_white_noise_texture[bi_y][bi_x] / 3)) }`
  let brick_color : Nat := int_toU8 (40 + Int.tdiv (white bi_y bi_x : Int) 3)
  -- `static_cast<u8>(((static_cast<u16>(brick_color) << 2) - brick_color + fractal[y][x]) / 6)`
  let brick_color : Nat :=
    int_toU8 (Int.tdiv ((((toU16 brick_color <<< 2 : Nat) : Int) - brick_color) + fractal y x) 6)
  -- `brick_color &= static_cast<u8>(~3Ui8)`
  let brick_color : Nat := toU8 (brick_color &&& int_toU8 (-3 - 1))
  -- `brick_color |= (g_white_noise_texture[y][x] & 1)`
  toU8 (brick_color ||| (white y x &&& 1))

/-- The body of the inner loop of `compute_background_texture` at the pixel `(x, y)`. -/
def background_pixel (world : Bitmap) (white fractal : ByteGrid)
    (background_texture : Nat → Nat → vec3 Nat) (y x : Nat) : Nat → Nat → vec3 Nat :=
  let bi_y := y / brick_height
  let bf_y := y % brick_height
  let offset_x := brick_offset_x y
  if !world y x then
    let bi_x := add_u32 x offset_x / brick_width
    let bf_x := add_u32 x offset_x % brick_width
    if bf_x < 1 ∨ bf_y < 1 then
      grid_store background_texture y x (vec3.splat (int_toU8 (Int.tdiv (white y x : Int) 16)))
    else
      grid_store background_texture y x (vec3.splat (brick_color white fractal y x bi_y bi_x))
  else background_texture

/-- The loops of `compute_background_texture`: the contents of the static array
`background_texture` when it is handed to OpenGL, from its current contents. -/
def compute_background_texture (world : Bitmap) (white fractal : ByteGrid)
    (background_texture : Nat → Nat → vec3 Nat) : Nat → Nat → vec3 Nat :=
  forLoop (fun y g =>
      forLoop (fun x g => background_pixel world white fractal g y x) k_world_width 0 g)
    k_world_height 0 background_texture

/-- The zero-initialised static array `background_texture`. -/
def background_zero : Nat → Nat → vec3 Nat := fun _ _ => ⟨0, 0, 0⟩

/-! ## The game loop -/

/-- Function `u64_multiply_by_60`, the variant `x * 60Ui64`. -/
def u64_multiply_by_60 (x : Nat) : Nat := (x * 60) % 18446744073709551616

/-- Instruction `shld dst, src, n` on 32-bit registers, `0 < n < 32`: `dst` shifted left
by `n`, filled from the top bits of `src`. -/
def shld (dst src n : Nat) : Nat := ((dst <<< n) ||| (src >>> (32 - n))) % 4294967296

/-- Function `u64_multiply_by_60`, the variant in inline assembly of the 32-bit debug
build: `((x << 4) - x) << 2` on the register pair `edx:eax`. -/
def u64_multiply_by_60_asm (x : Nat) : Nat :=
  let lo : Nat := x % 4294967296
  let hi : Nat := (x / 4294967296) % 4294967296
  -- mov eax, [esp + 4]; mov edx, [esp + 8]
  let eax : Nat := lo
  let edx : Nat := hi
  -- shld edx, eax, 4; shl eax, 4
  let edx : Nat := shld edx eax 4
  let eax : Nat := (eax <<< 4) % 4294967296
  -- sub eax, [esp + 4]; sbb edx, [esp + 8]
  let carry : Nat := if eax < lo then 1 else 0
  let eax : Nat := sub_u32 eax lo
  let edx : Nat := (edx + 2 * 4294967296 - hi - carry) % 4294967296
  -- shld edx, eax, 2; shl eax, 2
  let edx : Nat := shld edx eax 2
  let eax : Nat := (eax <<< 2) % 4294967296
  edx * 4294967296 + eax

/-- What one iteration of the loop of `loop` finds: a window message
(`PeekMessageA(...) != 0`), or no message and the counter value `new_time.QuadPart` given
by `QueryPerformanceCounter`. -/
inductive loop_event where
  | message : loop_event
  | counter (new_time : Int) : loop_event
deriving DecidableEq, Repr

/-- The locals `acc` and `old_time` of `loop`, the state `game` that the tick and the
window procedure work on, and the ghost counter `frames` of the ticks run so far. -/
structure loop_state (σ : Type) where
  acc : Nat
  old_time : Int
  game : σ
  frames : Nat

/-- One iteration of the `while (true)` loop of `loop`.  `clock_frequency` is the value
given by `QueryPerformanceFrequency`, `dispatch` stands for
`TranslateMessage(&msg); DispatchMessageA(&msg);` and `tick` for
`pre_render_update(); render();`. -/
def loop_iteration {σ : Type} (clock_frequency : Nat) (dispatch tick : σ → σ)
    (ev : loop_event) (s : loop_state σ) : loop_state σ :=
  match ev with
  | loop_event.message => { s with game := dispatch s.game }
  | loop_event.counter new_time =>
    -- `acc += u64_multiply_by_60(static_cast<u64>(new_time.QuadPart - old_time.QuadPart))`
    let acc : Nat :=
      (s.acc + u64_multiply_by_60 (toU64 (new_time - s.old_time))) % 18446744073709551616
    let s : loop_state σ := { s with acc := acc, old_time := new_time }
    if s.acc ≥ clock_frequency then
      { s with acc := (s.acc + 18446744073709551616 - clock_frequency) % 18446744073709551616
               game := tick s.game, frames := s.frames + 1 }
    else s

/-- The iterations of the loop of `loop` on a sequence of events. -/
def loop_run {σ : Type} (clock_frequency : Nat) (dispatch tick : σ → σ) :
    List loop_event → loop_state σ → loop_state σ
  | [], s => s
  | ev :: rest, s =>
    loop_run clock_frequency dispatch tick rest (loop_iteration clock_frequency dispatch tick ev s)

/-- The locals of `loop` on entry to its loop, `old_time` being the first counter value. -/
def loop_init {σ : Type} (old_time : Int) (game : σ) : loop_state σ :=
  { acc := 0, old_time := old_time, game := game, frames := 0 }

/-- No 64-bit overflow occurs in the iterations on a sequence of events: at every counter
reading the counter has not gone backwards and `acc + 60 * dt` fits a `u64`. -/
def loop_no_overflow {σ : Type} (clock_frequency : Nat) (dispatch tick : σ → σ) :
    List loop_event → loop_state σ → Bool
  | [], _ => true
  | loop_event.message :: rest, s =>
    loop_no_overflow clock_frequency dispatch tick rest
      (loop_iteration clock_frequency dispatch tick loop_event.message s)
  | loop_event.counter new_time :: rest, s =>
    decide (s.old_time ≤ new_time) &&
    decide ((s.acc : Int) + 60 * (new_time - s.old_time) < 18446744073709551616) &&
    loop_no_overflow clock_frequency dispatch tick rest
      (loop_iteration clock_frequency dispatch tick (loop_event.counter new_time) s)

/-- A collision map with a gap one pixel wide: every column but column 101 is solid. -/
def gap_map : CollisionMap := fun _ c => decide (c ≤ 100 ∨ 102 ≤ c)

/-- A flying player at pixel `(101, 50)`, inside the gap of `gap_map`, moving 5 pixels to
the left per tick. -/
def gap_flyer : player :=
  { pos := ⟨fixed16_16.ofI16 101, fixed16_16.ofI16 50⟩
    vel := ⟨fixed16_16.ofI16 (-5), fixed16_16.ofI16 0⟩
    flying := true
    sliding := false
    charging := false
    facing := 1 }

/-! ## Theorems: generic loop facts -/

theorem forLoop_add {σ : Type} (body : Nat → σ → σ) (n m i : Nat) (s : σ) :
    forLoop body (n + m) i s = forLoop body m (i + n) (forLoop body n i s) := by
  induction n generalizing i s with
  | zero => simp [forLoop]
  | succ n ih =>
    rw [Nat.succ_add, forLoop, ih, forLoop]
    congr 1
    omega

theorem forLoop_succ {σ : Type} (body : Nat → σ → σ) (n i : Nat) (s : σ) :
    forLoop body (n + 1) i s = body (i + n) (forLoop body n i s) := by
  rw [forLoop_add]
  simp [forLoop]

/-- Invariant rule for counted loops. -/
theorem forLoop_inv {σ : Type} (body : Nat → σ → σ) (P : Nat → σ → Prop) (n i : Nat) (s : σ)
    (h0 : P 0 s) (hstep : ∀ k t, k < n → P k t → P (k + 1) (body (i + k) t)) :
    P n (forLoop body n i s) := by
  induction n with
  | zero => simpa [forLoop] using h0
  | succ n ih =>
    rw [forLoop_succ]
    exact hstep n _ (Nat.lt_succ_self n) (ih (fun k t hk hP => hstep k t (Nat.lt_succ_of_lt hk) hP))

/-! ## Player collision map -/

theorem player_box_cols_iff (world : Bitmap) (y x i n j : Nat) :
    player_box_cols world y x i n j = true ↔ ∃ k, k < n ∧ world (y + i) (x + (j + k)) = true := by
  induction n generalizing j with
  | zero => simp [player_box_cols]
  | succ n ih =>
    rw [player_box_cols]
    by_cases h : world (y + i) (x + j) = true
    · simp only [h, if_true, true_iff]
      exact ⟨0, Nat.succ_pos n, by simpa using h⟩
    · simp only [h, if_false, Bool.false_eq_true]
      rw [ih]
      constructor
      · rintro ⟨k, hk, hw⟩
        exact ⟨k + 1, Nat.succ_lt_succ hk, by rw [← hw]; congr 1; omega⟩
      · rintro ⟨k, hk, hw⟩
        cases k with
        | zero => exact absurd (by simpa using hw) h
        | succ k => exact ⟨k, Nat.lt_of_succ_lt_succ hk, by rw [← hw]; congr 1; omega⟩

theorem player_box_rows_iff (world : Bitmap) (y x n i : Nat) :
    player_box_rows world y x n i = true ↔
      ∃ k, k < n ∧ ∃ j, j < player_k_width ∧ world (y + (i + k)) (x + j) = true := by
  induction n generalizing i with
  | zero => simp [player_box_rows]
  | succ n ih =>
    rw [player_box_rows]
    by_cases h : player_box_cols world y x i player_k_width 0 = true
    · simp only [h, if_true, true_iff]
      obtain ⟨j, hj, hw⟩ := (player_box_cols_iff world y x i _ 0).1 h
      exact ⟨0, Nat.succ_pos n, j, hj, by simpa using hw⟩
    · simp only [h, if_false, Bool.false_eq_true]
      rw [ih]
      constructor
      · rintro ⟨k, hk, j, hj, hw⟩
        exact ⟨k + 1, Nat.succ_lt_succ hk, j, hj, by rw [← hw]; congr 2; omega⟩
      · rintro ⟨k, hk, j, hj, hw⟩
        cases k with
        | zero =>
          exact absurd ((player_box_cols_iff world y x i _ 0).2 ⟨j, hj, by simpa using hw⟩) h
        | succ k => exact ⟨k, Nat.lt_of_succ_lt_succ hk, j, hj, by rw [← hw]; congr 2; omega⟩

/-- One row of `compute_player_collision_map`: after the `x` loop has run `n` times on
row `y`, exactly the cells `(y, c)` with `c < n` whose box meets the world were set. -/
theorem player_row_loop (world pcm : Bitmap) (y n r c : Nat) :
    forLoop (fun x pcm => player_box world pcm y x) n 0 pcm r c =
      (pcm r c || (decide (r = y) && decide (c < n) &&
        player_box_rows world r c player_k_height 0)) := by
  induction n with
  | zero => simp [forLoop]
  | succ n ih =>
    rw [forLoop_succ, player_box]
    simp only [Nat.zero_add]
    by_cases hb : player_box_rows world y n player_k_height 0 = true
    · simp only [hb, if_true, Bitmap.set]
      by_cases hr : r = y
      · by_cases hc : c = n
        · subst hr; subst hc; simp [hb]
        · have : (decide (c < n + 1)) = decide (c < n) := by
            have : c < n + 1 ↔ c < n := by omega
            simp [this]
          subst hr
          simp [hc, ih, this]
      · simp [hr, ih]
    · simp only [hb, if_false, Bool.false_eq_true]
      rw [ih]
      by_cases hr : r = y
      · by_cases hc : c = n
        · subst hr; subst hc; simp [hb]
        · have : (decide (c < n + 1)) = decide (c < n) := by
            have : c < n + 1 ↔ c < n := by omega
            simp [this]
          simp [this]
      · simp [hr]

/-- All rows of `compute_player_collision_map` up to row `n`. -/
theorem player_map_loop (world pcm : Bitmap) (n r c : Nat) :
    forLoop (fun y pcm =>
        forLoop (fun x pcm => player_box world pcm y x) k_player_collision_map_width 0 pcm)
      n 0 pcm r c =
      (pcm r c || (decide (r < n) && decide (c < k_player_collision_map_width) &&
        player_box_rows world r c player_k_height 0)) := by
  induction n with
  | zero => simp [forLoop]
  | succ n ih =>
    rw [forLoop_succ, player_row_loop, ih]
    simp only [Nat.zero_add]
    by_cases hr : r = n
    · subst hr; simp
    · by_cases hlt : r < n
      · have : r < n + 1 := by omega
        simp [hr, hlt, this]
      · have : ¬ r < n + 1 := by omega
        simp [hr, hlt, this]

/-- C1: after `compute_player_collision_map` on a zero-initialised map, the cell
`g_player_collision_map[y][x]` (for `x < 564`, `y < 1104`) is true exactly when some
world pixel `[y+i][x+j]` with `i < 17`, `j < 13` is true. -/
theorem compute_player_collision_map_spec (world : Bitmap) (x y : Nat)
    (hx : x < 564) (hy : y < 1104) :
    compute_player_collision_map world Bitmap.zero y x = true ↔
      ∃ i, i < 17 ∧ ∃ j, j < 13 ∧ world (y + i) (x + j) = true := by
  have hw : x < k_player_collision_map_width := by
    simpa [k_player_collision_map_width, k_world_width, k_game_world_design_width,
      k_sprite_size, player_k_width] using hx
  have hh : y < k_player_collision_map_height := by
    simpa [k_player_collision_map_height, k_world_height, k_game_world_design_height,
      k_sprite_size, player_k_height] using hy
  rw [compute_player_collision_map, player_map_loop]
  simp only [Bitmap.zero, Bool.false_or, hw, hh, decide_True, Bool.true_and]
  rw [player_box_rows_iff]
  simp [player_k_height, player_k_width]

theorem compute_player_collision_map_spec_witness :
    (5 : Nat) < 564 ∧ (7 : Nat) < 1104 ∧
    (compute_player_collision_map (fun r c => decide (r = 9 ∧ c = 6)) Bitmap.zero 7 5 = true ↔
      ∃ i, i < 17 ∧ ∃ j, j < 13 ∧ (fun r c => decide (r = 9 ∧ c = 6)) (7 + i) (5 + j) = true) :=
  ⟨by decide, by decide, compute_player_collision_map_spec _ 5 7 (by decide) (by decide)⟩

/-! ## Shape rasterizers -/

/-- A loop storing one segment per row: row `y + i` gets the columns
`[xs i, xs i + ns i)`. -/
theorem stamp_loop (g : Bitmap) (y : Nat) (xs ns : Nat → Nat) (n r c : Nat) :
    forLoop (fun i g => stosb g (y + i) (xs i) (ns i)) n 0 g r c =
      (g r c || decide (y ≤ r ∧ r < y + n ∧ xs (r - y) ≤ c ∧ c < xs (r - y) + ns (r - y))) := by
  induction n with
  | zero =>
    have h0 : ¬ (y ≤ r ∧ r < y + 0 ∧ xs (r - y) ≤ c ∧ c < xs (r - y) + ns (r - y)) := by omega
    simp only [forLoop, decide_eq_false h0, Bool.or_false]
  | succ n ih =>
    rw [forLoop_succ, stosb, ih]
    simp only [Nat.zero_add]
    by_cases hr : r = y + n
    · subst hr
      by_cases hc : xs n ≤ c ∧ c < xs n + ns n
      · simp [hc]
      · have h1 : ¬ (xs (y + n - y) ≤ c ∧ c < xs (y + n - y) + ns (y + n - y)) := by
          simpa using hc
        have h2 : ¬ (y + n = y + n ∧ xs n ≤ c ∧ c < xs n + ns n) := fun h => hc h.2
        rw [if_neg h2]
        have h3 : ¬ (y ≤ y + n ∧ y + n < y + n ∧
            xs (y + n - y) ≤ c ∧ c < xs (y + n - y) + ns (y + n - y)) := by omega
        have h4 : ¬ (y ≤ y + n ∧ y + n < y + (n + 1) ∧
            xs (y + n - y) ≤ c ∧ c < xs (y + n - y) + ns (y + n - y)) := fun h => h1 h.2.2
        simp only [h3, h4, decide_False]
    · have h2 : ¬ (r = y + n ∧ xs n ≤ c ∧ c < xs n + ns n) := fun h => hr h.1
      rw [if_neg h2]
      have : (r < y + (n + 1)) ↔ (r < y + n) := by omega
      simp only [this]

theorem draw_variable_rectangle_sprite_pixel (g : Bitmap) (x y w h r c : Nat) :
    draw_variable_rectangle_sprite g x y w h r c =
      (g r c || decide (y ≤ r ∧ r < y + h ∧ x ≤ c ∧ c < x + w)) := by
  rw [draw_variable_rectangle_sprite, stamp_loop g y (fun _ => x) (fun _ => w)]

theorem draw_full_square_sprite_pixel (g : Bitmap) (x y r c : Nat) :
    draw_full_square_sprite g x y r c =
      (g r c || decide (y ≤ r ∧ r < y + 32 ∧ x ≤ c ∧ c < x + 32)) := by
  rw [draw_full_square_sprite, draw_variable_rectangle_sprite_pixel]
  rfl

theorem draw_lower_left_triangle_sprite_pixel (g : Bitmap) (x y r c : Nat) :
    draw_lower_left_triangle_sprite g x y r c =
      (g r c || decide (y ≤ r ∧ r < y + 32 ∧ x ≤ c ∧ c < x + (r - y + 1))) := by
  rw [draw_lower_left_triangle_sprite, stamp_loop g y (fun _ => x) (fun i => i + 1)]
  rfl

theorem draw_lower_right_triangle_sprite_pixel (g : Bitmap) (x y r c : Nat) :
    draw_lower_right_triangle_sprite g x y r c =
      (g r c || decide (y ≤ r ∧ r < y + 32 ∧ x + 32 - (r - y + 1) ≤ c ∧
        c < x + 32 - (r - y + 1) + (r - y + 1))) := by
  rw [draw_lower_right_triangle_sprite,
    stamp_loop g y (fun i => (x + k_sprite_size) - (i + 1)) (fun i => i + 1)]
  rfl

theorem draw_upper_left_triangle_sprite_pixel (g : Bitmap) (x y r c : Nat) :
    draw_upper_left_triangle_sprite g x y r c =
      (g r c || decide (y ≤ r ∧ r < y + 32 ∧ x ≤ c ∧ c < x + (32 - (r - y)))) := by
  rw [draw_upper_left_triangle_sprite, stamp_loop g y (fun _ => x) (fun i => k_sprite_size - i)]
  rfl

/-- C9: each triangle rasterizer called at the origin `(x, y)` of a tile lying in the
world makes solid, in row `y + i` for `i < 32`, exactly the columns `[x, x+i]` (lower
left), `[x+31-i, x+31]` (lower right), `[x, x+32-i)` (upper left); a pixel that was solid
stays solid, and a pixel whose value changes lies inside the 32x32 tile at `(x, y)`. -/
theorem triangle_rasterizers_spec (g : Bitmap) (x y : Nat)
    (_hx : x + 32 ≤ k_world_width) (_hy : y + 32 ≤ k_world_height) :
    (∀ r c, draw_lower_left_triangle_sprite g x y r c = true ↔
      g r c = true ∨ ∃ i, i < 32 ∧ r = y + i ∧ x ≤ c ∧ c ≤ x + i) ∧
    (∀ r c, draw_lower_right_triangle_sprite g x y r c = true ↔
      g r c = true ∨ ∃ i, i < 32 ∧ r = y + i ∧ x + 31 - i ≤ c ∧ c ≤ x + 31) ∧
    (∀ r c, draw_upper_left_triangle_sprite g x y r c = true ↔
      g r c = true ∨ ∃ i, i < 32 ∧ r = y + i ∧ x ≤ c ∧ c < x + 32 - i) ∧
    (∀ r c, (draw_lower_left_triangle_sprite g x y r c ≠ g r c ∨
        draw_lower_right_triangle_sprite g x y r c ≠ g r c ∨
        draw_upper_left_triangle_sprite g x y r c ≠ g r c) →
      y ≤ r ∧ r < y + 32 ∧ x ≤ c ∧ c < x + 32) := by
  refine ⟨fun r c => ?_, fun r c => ?_, fun r c => ?_, fun r c h => ?_⟩
  · rw [draw_lower_left_triangle_sprite_pixel]
    simp only [Bool.or_eq_true, decide_eq_true_eq]
    constructor
    · rintro (h | h)
      · exact Or.inl h
      · exact Or.inr ⟨r - y, by omega, by omega, by omega, by omega⟩
    · rintro (h | ⟨i, hi, hr, h1, h2⟩)
      · exact Or.inl h
      · exact Or.inr (by omega)
  · rw [draw_lower_right_triangle_sprite_pixel]
    simp only [Bool.or_eq_true, decide_eq_true_eq]
    constructor
    · rintro (h | h)
      · exact Or.inl h
      · exact Or.inr ⟨r - y, by omega, by omega, by omega, by omega⟩
    · rintro (h | ⟨i, hi, hr, h1, h2⟩)
      · exact Or.inl h
      · exact Or.inr (by omega)
  · rw [draw_upper_left_triangle_sprite_pixel]
    simp only [Bool.or_eq_true, decide_eq_true_eq]
    constructor
    · rintro (h | h)
      · exact Or.inl h
      · exact Or.inr ⟨r - y, by omega, by omega, by omega, by omega⟩
    · rintro (h | ⟨i, hi, hr, h1, h2⟩)
      · exact Or.inl h
      · exact Or.inr (by omega)
  · rw [draw_lower_left_triangle_sprite_pixel, draw_lower_right_triangle_sprite_pixel,
      draw_upper_left_triangle_sprite_pixel] at h
    by_contra hout
    have e1 : ¬ (y ≤ r ∧ r < y + 32 ∧ x ≤ c ∧ c < x + (r - y + 1)) := by omega
    have e2 : ¬ (y ≤ r ∧ r < y + 32 ∧ x + 32 - (r - y + 1) ≤ c ∧
        c < x + 32 - (r - y + 1) + (r - y + 1)) := by omega
    have e3 : ¬ (y ≤ r ∧ r < y + 32 ∧ x ≤ c ∧ c < x + (32 - (r - y))) := by omega
    rw [decide_eq_false e1, decide_eq_false e2, decide_eq_false e3] at h
    simp at h

theorem triangle_rasterizers_spec_witness :
    32 + 32 ≤ k_world_width ∧ 64 + 32 ≤ k_world_height ∧
    draw_lower_left_triangle_sprite Bitmap.zero 32 64 70 35 = true ∧
    draw_lower_right_triangle_sprite Bitmap.zero 32 64 70 60 = true ∧
    draw_upper_left_triangle_sprite Bitmap.zero 32 64 70 57 = true :=
  ⟨by decide, by decide,
    ((triangle_rasterizers_spec Bitmap.zero 32 64 (by decide) (by decide)).1 70 35).2
      (Or.inr ⟨6, by decide, by decide, by decide, by decide⟩),
    ((triangle_rasterizers_spec Bitmap.zero 32 64 (by decide) (by decide)).2.1 70 60).2
      (Or.inr ⟨6, by decide, by decide, by decide, by decide⟩),
    ((triangle_rasterizers_spec Bitmap.zero 32 64 (by decide) (by decide)).2.2.1 70 57).2
      (Or.inr ⟨6, by decide, by decide, by decide, by decide⟩)⟩

/-! ## Run-length encoding -/

theorem find_run_start_spec (d : Design) (ch : Char) (y : Nat) (n x : Nat)
    (hx : x ≤ 17) (hn : 17 - x ≤ n) :
    x ≤ find_run_start d ch y n x ∧ find_run_start d ch y n x ≤ 17 ∧
    (∀ k, x ≤ k → k < find_run_start d ch y n x → d (y * 18 + k) ≠ ch) ∧
    (find_run_start d ch y n x < 17 → d (y * 18 + find_run_start d ch y n x) = ch) := by
  induction n generalizing x with
  | zero =>
    have : x = 17 := by omega
    subst this
    simp only [find_run_start]
    exact ⟨le_refl _, le_refl _, fun k h1 h2 => absurd h2 (by omega), fun h => absurd h (by omega)⟩
  | succ n ih =>
    rw [find_run_start]
    simp only [k_game_world_design_width, Nat.add_one_sub_one]
    by_cases h1 : x < 17
    · rw [if_pos h1]
      by_cases h2 : d (y * 18 + x) = ch
      · rw [if_pos h2]
        exact ⟨le_refl x, hx, fun k hk1 hk2 => absurd hk2 (by omega), fun _ => h2⟩
      · rw [if_neg h2]
        obtain ⟨a, b, c, e⟩ := ih (x + 1) (by omega) (by omega)
        refine ⟨by omega, b, fun k hk1 hk2 => ?_, e⟩
        by_cases hk : k = x
        · subst hk; exact h2
        · exact c k (by omega) hk2
    · rw [if_neg h1]
      exact ⟨le_refl x, hx, fun k hk1 hk2 => absurd hk2 (by omega), fun h => absurd h h1⟩

theorem run_extent_spec (d : Design) (ch : Char) (y : Nat) (n x l : Nat)
    (hx : x ≤ 17) (hn : 17 - x ≤ n) (hl : l + (17 - x) ≤ 256) :
    x ≤ (run_extent d ch y n x l).1 ∧ (run_extent d ch y n x l).1 ≤ 17 ∧
    (run_extent d ch y n x l).2 = l + ((run_extent d ch y n x l).1 - x) ∧
    (∀ k, x ≤ k → k < (run_extent d ch y n x l).1 → d (y * 18 + k) = ch) ∧
    ((run_extent d ch y n x l).1 < 17 → d (y * 18 + (run_extent d ch y n x l).1) ≠ ch) := by
  induction n generalizing x l with
  | zero =>
    have : x = 17 := by omega
    subst this
    simp only [run_extent]
    exact ⟨le_refl _, le_refl _, by omega, fun k h1 h2 => absurd h2 (by omega),
      fun h => absurd h (by omega)⟩
  | succ n ih =>
    rw [run_extent]
    simp only [k_game_world_design_width, Nat.add_one_sub_one]
    by_cases h1 : x < 17 ∧ l < 256
    · rw [if_pos h1]
      by_cases h2 : d (y * 18 + x) ≠ ch
      · rw [if_pos h2]
        exact ⟨le_refl x, hx, by simp, fun k hk1 hk2 => absurd hk2 (by simp; omega), fun _ => h2⟩
      · rw [if_neg h2]
        obtain ⟨a, b, c, e, f⟩ := ih (x + 1) (l + 1) (by omega) (by omega) (by omega)
        refine ⟨by omega, b, by omega, fun k hk1 hk2 => ?_, f⟩
        by_cases hk : k = x
        · subst hk; exact not_not.1 h2
        · exact e k (by omega) hk2
    · rw [if_neg h1]
      have hx17 : x = 17 := by omega
      exact ⟨le_refl x, hx, by simp, fun k hk1 hk2 => absurd hk2 (by simp; omega),
        fun h => absurd h (by simp; omega)⟩

theorem run_ok_mono {d : Design} {ch : Char} {y x x2 : Nat} {r : sprite_run}
    (h : run_ok d ch y x2 r) (hx : x ≤ x2) : run_ok d ch y x r :=
  ⟨h.1, le_trans hx h.2.1, h.2.2⟩

theorem row_runs_spec (d : Design) (ch : Char) (y : Nat) (n x : Nat)
    (hx1 : 1 ≤ x) (hx : x ≤ 17) (hn : 17 - x ≤ n)
    (hq : x = 1 ∨ x = 17 ∨ d (y * 18 + x) ≠ ch) :
    (∀ r ∈ row_runs d ch y n x, run_ok d ch y x r) ∧
    (∀ k, x ≤ k → k < 17 → d (y * 18 + k) = ch →
      ∃ r ∈ row_runs d ch y n x, r.x ≤ k ∧ k ≤ r.x + r.length) ∧
    (row_runs d ch y n x).Pairwise (fun a b => a.x + a.length < b.x) := by
  induction n generalizing x with
  | zero =>
    have : x = 17 := by omega
    subst this
    simp only [row_runs, List.not_mem_nil, false_imp_iff, implies_true, List.Pairwise.nil,
      and_true, true_and]
    intro k h1 h2
    omega
  | succ n ih =>
    rw [row_runs]
    simp only [k_game_world_design_width, Nat.add_one_sub_one]
    by_cases h1 : x < 17
    · rw [if_pos h1]
      obtain ⟨fa, fb, fc, fd⟩ := find_run_start_spec d ch y 18 x hx (by omega)
      generalize find_run_start d ch y 18 x = x1 at fa fb fc fd ⊢
      by_cases h2 : x1 < 17
      · rw [if_pos h2]
        obtain ⟨ea, eb, ec, ed, ee⟩ :=
          run_extent_spec d ch y 18 (x1 + 1) 1 (by omega) (by omega) (by omega)
        generalize run_extent d ch y 18 (x1 + 1) 1 = e at ea eb ec ed ee ⊢
        obtain ⟨ia, ib, ic⟩ := ih e.1 (by omega) eb (by omega)
          (by by_cases h : e.1 = 17
              · exact Or.inr (Or.inl h)
              · exact Or.inr (Or.inr (ee (by omega))))
        have hlen : toU8 (e.2 - 1) = e.1 - (x1 + 1) := by
          rw [toU8, ec]; omega
        have hfirst : run_ok d ch y x ⟨x1, y, toU8 (e.2 - 1)⟩ := by
          rw [hlen]
          refine ⟨rfl, fa, ?_, ?_, ?_, ?_⟩
          · show x1 + (e.1 - (x1 + 1)) ≤ 16
            omega
          · intro k hk1 hk2
            simp only at hk1 hk2
            by_cases hk : k = x1
            · subst hk; exact fd h2
            · exact ed k (by omega) (by omega)
          · show x1 = 1 ∨ d (y * 18 + (x1 - 1)) ≠ ch
            by_cases hxx : x1 = x
            · subst hxx
              rcases hq with hq | hq | hq
              · exact Or.inl hq
              · omega
              · exact absurd (fd h2) hq
            · exact Or.inr (fc (x1 - 1) (by omega) (by omega))
          · show x1 + (e.1 - (x1 + 1)) = 16 ∨ d (y * 18 + (x1 + (e.1 - (x1 + 1)) + 1)) ≠ ch
            by_cases h : e.1 = 17
            · left; omega
            · right
              have : x1 + (e.1 - (x1 + 1)) + 1 = e.1 := by omega
              rw [this]
              exact ee (by omega)
        refine ⟨?_, ?_, ?_⟩
        · intro r hr
          rcases List.mem_cons.1 hr with hr | hr
          · subst hr; exact hfirst
          · exact run_ok_mono (ia r hr) (by omega)
        · intro k hk1 hk2 hk3
          by_cases hk : k < e.1
          · refine ⟨_, List.mem_cons_self _ _, ?_, ?_⟩
            · show x1 ≤ k
              by_contra hlt
              exact fc k hk1 (by omega) hk3
            · show k ≤ x1 + toU8 (e.2 - 1)
              rw [hlen]; omega
          · obtain ⟨r, hr, hr2⟩ := ib k (by omega) hk2 hk3
            exact ⟨r, List.mem_cons_of_mem _ hr, hr2⟩
        · refine List.Pairwise.cons ?_ ic
          intro b hb
          have := (ia b hb).2.1
          show x1 + toU8 (e.2 - 1) < b.x
          rw [hlen]; omega
      · rw [if_neg h2]
        have hx1' : x1 = 17 := by omega
        subst hx1'
        obtain ⟨ia, ib, ic⟩ := ih 17 (by omega) (le_refl _) (by omega) (Or.inr (Or.inl rfl))
        refine ⟨fun r hr => run_ok_mono (ia r hr) hx, ?_, ic⟩
        intro k hk1 hk2 hk3
        exact absurd hk3 (fc k hk1 hk2)
    · rw [if_neg h1]
      simp only [List.not_mem_nil, false_imp_iff, implies_true, List.Pairwise.nil,
        and_true, true_and]
      intro k hk1 hk2
      omega

theorem all_runs_spec (d : Design) (ch : Char) (n y0 : Nat) :
    (∀ r ∈ all_runs d ch n y0, y0 ≤ r.y ∧ r.y < y0 + n ∧ run_ok d ch r.y 1 r) ∧
    (∀ cx cy, y0 ≤ cy → cy < y0 + n → 1 ≤ cx → cx < 17 → d (cy * 18 + cx) = ch →
      ∃ r ∈ all_runs d ch n y0, r.covers cx cy) ∧
    (all_runs d ch n y0).Pairwise sprite_run.before := by
  induction n generalizing y0 with
  | zero =>
    simp only [all_runs, List.not_mem_nil, false_imp_iff, implies_true, List.Pairwise.nil,
      and_true, true_and]
    intro cx cy h1 h2
    omega
  | succ n ih =>
    rw [all_runs]
    obtain ⟨ra, rb, rc⟩ := row_runs_spec d ch y0 18 1 (le_refl 1) (by omega) (by omega)
      (Or.inl rfl)
    obtain ⟨ia, ib, ic⟩ := ih (y0 + 1)
    simp only [k_game_world_design_width]
    refine ⟨?_, ?_, ?_⟩
    · intro r hr
      rcases List.mem_append.1 hr with hr | hr
      · have h := ra r hr
        have hy : r.y = y0 := h.1
        refine ⟨by omega, by omega, ?_⟩
        rw [hy]; exact h
      · have h := ia r hr
        exact ⟨by omega, by omega, h.2.2⟩
    · intro cx cy h1 h2 h3 h4 h5
      by_cases hcy : cy = y0
      · subst hcy
        obtain ⟨r, hr, hr2⟩ := rb cx h3 h4 h5
        exact ⟨r, List.mem_append_left _ hr, (ra r hr).1, hr2.1, hr2.2⟩
      · obtain ⟨r, hr, hr2⟩ := ib cx cy (by omega) (by omega) h3 h4 h5
        exact ⟨r, List.mem_append_right _ hr, hr2⟩
    · rw [List.pairwise_append]
      refine ⟨rc.imp_of_mem ?_, ic, ?_⟩
      · intro a b ha hb hab
        exact Or.inr ⟨by rw [(ra a ha).1, (ra b hb).1], hab⟩
      · intro a ha b hb
        have h1 := (ra a ha).1
        have h2 := (ia b hb).1
        exact Or.inl (by omega)

theorem store_runs_none (count : Nat) (rs : List sprite_run) : store_runs none count rs = none := by
  induction rs generalizing count with
  | nil => rfl
  | cons r rs ih => rw [store_runs]; exact ih _

theorem store_runs_append (buf : Option (List sprite_run)) (count : Nat)
    (a b : List sprite_run) :
    store_runs buf count (a ++ b) = store_runs (store_runs buf count a) (count + a.length) b := by
  induction a generalizing buf count with
  | nil => simp [store_runs]
  | cons r rs ih =>
    rw [List.cons_append, store_runs, store_runs, ih, List.length_cons]
    congr 1
    omega

theorem store_runs_fill (pre fill rs : List sprite_run) (h : fill.length = rs.length) :
    store_runs (some (pre ++ fill)) pre.length rs = some (pre ++ rs) := by
  induction rs generalizing pre fill with
  | nil =>
    have : fill = [] := List.length_eq_zero.1 h
    subst this
    rfl
  | cons r rs ih =>
    cases fill with
    | nil => simp at h
    | cons f fs =>
      have hlen : fs.length = rs.length := by simpa using h
      rw [store_runs, store_run]
      simp only [Option.map_some', List.set_append_right _ _ (le_refl pre.length),
        Nat.sub_self, List.set_cons_zero]
      have := ih (pre ++ [r]) fs hlen
      simp only [List.append_assoc, List.singleton_append, List.length_append,
        List.length_singleton] at this
      exact this

theorem store_runs_fill_nil (fill rs : List sprite_run) (h : fill.length = rs.length) :
    store_runs (some fill) 0 rs = some rs := by
  simpa using store_runs_fill [] fill rs h

theorem scan_row_eq (d : Design) (ch : Char) (y n x : Nat)
    (st : Nat × Option (List sprite_run)) :
    scan_row d ch y n x st =
      (st.1 + (row_runs d ch y n x).length, store_runs st.2 st.1 (row_runs d ch y n x)) := by
  induction n generalizing x st with
  | zero => simp [scan_row, row_runs, store_runs]
  | succ n ih =>
    rw [scan_row, row_runs]
    by_cases h1 : x < k_game_world_design_width - 1
    · simp only [if_pos h1]
      by_cases h2 : find_run_start d ch y k_game_world_design_width x <
          k_game_world_design_width - 1
      · simp only [if_pos h2]
        rw [ih]
        simp only [List.length_cons, store_runs]
        congr 1
        omega
      · simp only [if_neg h2]
        rw [ih]
    · simp only [if_neg h1, List.length_nil, Nat.add_zero, store_runs]

theorem calculate_rows_eq (d : Design) (ch : Char) (n y0 : Nat)
    (st : Nat × Option (List sprite_run)) :
    forLoop (fun y st => scan_row d ch y k_game_world_design_width 1 st) n y0 st =
      (st.1 + (all_runs d ch n y0).length, store_runs st.2 st.1 (all_runs d ch n y0)) := by
  induction n generalizing y0 st with
  | zero => simp [forLoop, all_runs, store_runs]
  | succ n ih =>
    rw [forLoop, ih, scan_row_eq, all_runs]
    simp only [List.length_append, store_runs_append]
    congr 1
    omega

theorem calculate_runs_eq (d : Design) (ch : Char) (buf : Option (List sprite_run)) :
    calculate_runs d ch buf =
      ((all_runs d ch 33 1).length, store_runs buf 0 (all_runs d ch 33 1)) := by
  rw [calculate_runs, calculate_rows_eq]
  simp [k_game_world_design_height]

theorem compressed_buf_eq (d : Design) (ch : Char) :
    compressed_buf d ch = all_runs d ch 33 1 := by
  rw [compressed_buf, calculate_runs_eq, calculate_runs_eq]
  rw [store_runs_fill_nil _ _ (List.length_replicate _ _)]
  rfl

/-- C7: the runs stored by `calculate_runs(ch, buf)`, each `(x, y, length)` standing for
the cells `(x + j, y)` with `0 ≤ j ≤ length`, cover exactly the interior cells
(`1 ≤ x ≤ 16`, `1 ≤ y ≤ 33`) holding `ch`; no cell is covered by two runs; and the runs
are stored in row-major order. -/
theorem calculate_runs_roundtrip (d : Design) (ch : Char) :
    (∀ cx cy, (∃ r ∈ compressed_buf d ch, r.covers cx cy) ↔
      (1 ≤ cx ∧ cx ≤ 16 ∧ 1 ≤ cy ∧ cy ≤ 33 ∧ d (cy * 18 + cx) = ch)) ∧
    (∀ i j (hi : i < (compressed_buf d ch).length) (hj : j < (compressed_buf d ch).length)
      (cx cy : Nat), ((compressed_buf d ch).get ⟨i, hi⟩).covers cx cy →
        ((compressed_buf d ch).get ⟨j, hj⟩).covers cx cy → i = j) ∧
    (compressed_buf d ch).Pairwise sprite_run.before := by
  rw [compressed_buf_eq]
  obtain ⟨ha, hb, hc⟩ := all_runs_spec d ch 33 1
  have hsep : ∀ a b : sprite_run, a.before b → ∀ cx cy, a.covers cx cy → b.covers cx cy →
      False := by
    intro a b hab cx cy h1 h2
    obtain ⟨a1, a2, a3⟩ := h1
    obtain ⟨b1, b2, b3⟩ := h2
    rcases hab with h | ⟨_, h⟩ <;> omega
  refine ⟨fun cx cy => ⟨?_, ?_⟩, ?_, hc⟩
  · rintro ⟨r, hr, h1, h2, h3⟩
    obtain ⟨p1, p2, q1, q2, q3, q4, _, _⟩ := ha r hr
    subst h1
    exact ⟨by omega, by omega, by omega, by omega, q4 cx h2 h3⟩
  · rintro ⟨h1, h2, h3, h4, h5⟩
    exact hb cx cy h3 (by omega) h1 (by omega) h5
  · intro i j hi hj cx cy h1 h2
    have hp := List.pairwise_iff_getElem.1 hc
    rcases Nat.lt_trichotomy i j with h | h | h
    · exact absurd (hsep _ _ (hp i j hi hj h) cx cy h1 h2) id
    · exact h
    · exact absurd (hsep _ _ (hp j i hj hi h) cx cy h2 h1) id

/-- C8: every run stored by `calculate_runs` lies in the interior, consists of cells
holding `ch`, and is maximal: the interior cell before its start and the one after its
end, if any, do not hold `ch`.  The variable `length` at the end of the length loop,
for a run starting at any interior column `x1`, is between 1 and 256 (at most 16 in
fact), so the cast of `length - 1` to `u8` does not truncate.  The count returned for a
null buffer is the number of runs stored, and the count is the same with a buffer. -/
theorem calculate_runs_maximal (d : Design) (ch : Char) :
    (∀ r ∈ compressed_buf d ch,
      1 ≤ r.x ∧ 1 ≤ r.y ∧ r.y ≤ 33 ∧ r.x + r.length ≤ 16 ∧
      (∀ k, r.x ≤ k → k ≤ r.x + r.length → d (r.y * 18 + k) = ch) ∧
      (r.x = 1 ∨ d (r.y * 18 + (r.x - 1)) ≠ ch) ∧
      (r.x + r.length = 16 ∨ d (r.y * 18 + (r.x + r.length + 1)) ≠ ch) ∧
      1 ≤ r.length + 1 ∧ r.length + 1 ≤ 256) ∧
    (∀ y x1, x1 ≤ 16 →
      1 ≤ (run_extent d ch y k_game_world_design_width (x1 + 1) 1).2 ∧
      (run_extent d ch y k_game_world_design_width (x1 + 1) 1).2 ≤ 256 ∧
      toU8 ((run_extent d ch y k_game_world_design_width (x1 + 1) 1).2 - 1) =
        (run_extent d ch y k_game_world_design_width (x1 + 1) 1).2 - 1) ∧
    (calculate_runs d ch none).1 = (compressed_buf d ch).length ∧
    (∀ buf, (calculate_runs d ch (some buf)).1 = (calculate_runs d ch none).1) ∧
    (∀ buf : List sprite_run, buf.length = (calculate_runs d ch none).1 →
      (calculate_runs d ch (some buf)).2 = some (compressed_buf d ch)) := by
  rw [compressed_buf_eq]
  obtain ⟨ha, _, _⟩ := all_runs_spec d ch 33 1
  refine ⟨?_, ?_, ?_, ?_, ?_⟩
  · intro r hr
    obtain ⟨p1, p2, q1, q2, q3, q4, q5, q6⟩ := ha r hr
    exact ⟨q2, p1, by omega, q3, q4, q5, q6, by omega, by omega⟩
  · intro y x1 hx1
    obtain ⟨e1, e2, e3, _, _⟩ :=
      run_extent_spec d ch y 18 (x1 + 1) 1 (by omega) (by omega) (by omega)
    simp only [k_game_world_design_width, toU8]
    omega
  · rw [calculate_runs_eq]
  · intro buf
    rw [calculate_runs_eq, calculate_runs_eq]
  · intro buf hbuf
    rw [calculate_runs_eq] at hbuf ⊢
    exact store_runs_fill_nil buf _ hbuf

theorem calculate_runs_roundtrip_witness :
    ∃ r ∈ compressed_buf k_game_world_design 'b', r.covers 5 6 :=
  ((calculate_runs_roundtrip k_game_world_design 'b').1 5 6).2
    ⟨by decide, by decide, by decide, by decide, by decide⟩

theorem calculate_runs_maximal_witness :
    (4 : Nat) ≤ 16 ∧
    1 ≤ (run_extent k_game_world_design 'b' 6 k_game_world_design_width (4 + 1) 1).2 ∧
    (run_extent k_game_world_design 'b' 6 k_game_world_design_width (4 + 1) 1).2 ≤ 256 ∧
    toU8 ((run_extent k_game_world_design 'b' 6 k_game_world_design_width (4 + 1) 1).2 - 1) =
      (run_extent k_game_world_design 'b' 6 k_game_world_design_width (4 + 1) 1).2 - 1 :=
  ⟨by decide, (calculate_runs_maximal k_game_world_design 'b').2.1 6 4 (by decide)⟩

/-! ## World collision map -/

/-- A loop whose body only adds the pixels `T i` adds the union of the `T i`. -/
theorem forLoop_union (body : Nat → Bitmap → Bitmap) (T : Nat → Nat → Nat → Bool)
    (hbody : ∀ i g r c, body i g r c = (g r c || T i r c)) (n i0 : Nat) (g : Bitmap) (r c : Nat) :
    forLoop body n i0 g r c = true ↔ g r c = true ∨ ∃ k, k < n ∧ T (i0 + k) r c = true := by
  induction n with
  | zero => simp [forLoop]
  | succ n ih =>
    rw [forLoop_succ, hbody, Bool.or_eq_true, ih]
    constructor
    · rintro ((h | ⟨k, hk, h⟩) | h)
      · exact Or.inl h
      · exact Or.inr ⟨k, by omega, h⟩
      · exact Or.inr ⟨n, by omega, h⟩
    · rintro (h | ⟨k, hk, h⟩)
      · exact Or.inl (Or.inl h)
      · by_cases hkn : k = n
        · subst hkn; exact Or.inr h
        · exact Or.inl (Or.inr ⟨k, by omega, h⟩)

theorem draw_run_pixel (fn : Bitmap → Nat → Nat → Bitmap) (S : Nat → Nat → Nat → Nat → Bool)
    (hfn : ∀ g x y r c, fn g x y r c = (g r c || S x y r c))
    (g : Bitmap) (run : sprite_run) (r c : Nat) :
    draw_run fn g run r c = true ↔
      g r c = true ∨ ∃ j, j ≤ run.length ∧ S ((run.x + j) * 32) (run.y * 32) r c = true := by
  rw [draw_run, forLoop_union _ (fun j => S ((run.x + j) * k_sprite_size) (run.y * k_sprite_size))
    (fun i g r c => hfn g _ _ r c)]
  simp only [Nat.zero_add, k_sprite_size, Nat.lt_succ_iff]

theorem draw_runs_pixel (fn : Bitmap → Nat → Nat → Bitmap) (S : Nat → Nat → Nat → Nat → Bool)
    (hfn : ∀ g x y r c, fn g x y r c = (g r c || S x y r c))
    (g : Bitmap) (runs : List sprite_run) (r c : Nat) :
    draw_runs fn g runs r c = true ↔
      g r c = true ∨ ∃ run ∈ runs, ∃ j, j ≤ run.length ∧
        S ((run.x + j) * 32) (run.y * 32) r c = true := by
  induction runs generalizing g with
  | nil => simp [draw_runs]
  | cons a rest ih =>
    rw [draw_runs, List.foldl_cons]
    have := ih (draw_run fn g a)
    rw [draw_runs] at this
    rw [this, draw_run_pixel fn S hfn]
    constructor
    · rintro ((h | ⟨j, hj, h⟩) | ⟨run, hrun, j, hj, h⟩)
      · exact Or.inl h
      · exact Or.inr ⟨a, List.mem_cons_self _ _, j, hj, h⟩
      · exact Or.inr ⟨run, List.mem_cons_of_mem _ hrun, j, hj, h⟩
    · rintro (h | ⟨run, hrun, j, hj, h⟩)
      · exact Or.inl (Or.inl h)
      · rcases List.mem_cons.1 hrun with e | e
        · subst e; exact Or.inl (Or.inr ⟨j, hj, h⟩)
        · exact Or.inr ⟨run, e, j, hj, h⟩

/-- Drawing the runs of character `ch` stamps the shape once at every interior cell
holding `ch`, and nowhere else. -/
theorem draw_runs_char (d : Design) (ch : Char) (fn : Bitmap → Nat → Nat → Bitmap)
    (S : Nat → Nat → Nat → Nat → Bool)
    (hfn : ∀ g x y r c, fn g x y r c = (g r c || S x y r c)) (g : Bitmap) (r c : Nat) :
    draw_runs fn g (compressed_buf d ch) r c = true ↔
      g r c = true ∨ ∃ cx cy, 1 ≤ cx ∧ cx ≤ 16 ∧ 1 ≤ cy ∧ cy ≤ 33 ∧ d (cy * 18 + cx) = ch ∧
        S (cx * 32) (cy * 32) r c = true := by
  rw [draw_runs_pixel fn S hfn, compressed_buf_eq]
  obtain ⟨ha, hb, _⟩ := all_runs_spec d ch 33 1
  constructor
  · rintro (h | ⟨run, hrun, j, hj, h⟩)
    · exact Or.inl h
    · obtain ⟨p1, p2, q1, q2, q3, q4, _, _⟩ := ha run hrun
      exact Or.inr ⟨run.x + j, run.y, by omega, by omega, by omega, by omega,
        q4 (run.x + j) (by omega) (by omega), h⟩
  · rintro (h | ⟨cx, cy, h1, h2, h3, h4, h5, h⟩)
    · exact Or.inl h
    · obtain ⟨run, hrun, e1, e2, e3⟩ := hb cx cy h3 (by omega) h1 (by omega) h5
      refine Or.inr ⟨run, hrun, cx - run.x, by omega, ?_⟩
      have e : run.x + (cx - run.x) = cx := by omega
      rw [e, e1]; exact h

theorem draw_borders_pixel (g : Bitmap) (r c : Nat) :
    draw_borders g r c = true ↔
      g r c = true ∨ (r < 1120 ∧ c < 576 ∧ (r < 32 ∨ 1088 ≤ r ∨ c < 32 ∨ 544 ≤ c)) := by
  rw [draw_borders]
  rw [forLoop_union _ (fun y r c =>
      decide (y * 32 ≤ r ∧ r < y * 32 + 32 ∧ 0 ≤ c ∧ c < 0 + 32) ||
      decide (y * 32 ≤ r ∧ r < y * 32 + 32 ∧ 17 * 32 ≤ c ∧ c < 17 * 32 + 32))
    (fun i g r c => by
      rw [draw_full_square_sprite_pixel, draw_full_square_sprite_pixel, Bool.or_assoc]
      rfl),
    forLoop_union _ (fun x r c =>
      decide (0 ≤ r ∧ r < 0 + 32 ∧ x * 32 ≤ c ∧ c < x * 32 + 32) ||
      decide (34 * 32 ≤ r ∧ r < 34 * 32 + 32 ∧ x * 32 ≤ c ∧ c < x * 32 + 32))
    (fun i g r c => by
      rw [draw_full_square_sprite_pixel, draw_full_square_sprite_pixel, Bool.or_assoc]
      rfl)]
  simp only [k_game_world_design_width, k_game_world_design_height, Bool.or_eq_true,
    decide_eq_true_eq, Nat.zero_add]
  constructor
  · rintro ((h | ⟨k, hk, h⟩) | ⟨k, hk, h⟩)
    · exact Or.inl h
    · exact Or.inr (by omega)
    · exact Or.inr (by omega)
  · rintro (h | ⟨h1, h2, h3⟩)
    · exact Or.inl (Or.inl h)
    · by_cases hc : c < 32 ∨ 544 ≤ c
      · exact Or.inr ⟨r / 32, by omega, by omega⟩
      · exact Or.inl (Or.inr ⟨c / 32, by omega, by omega⟩)

/-- Pixel-wise description of `compute_game_world_collision_map`: a pixel ends up solid
when it was solid before, or it lies in the world and the shape of its tile covers it. -/
theorem world_pixel (d : Design) (g : Bitmap) (r c : Nat) :
    compute_game_world_collision_map d g r c = true ↔
      g r c = true ∨ (r < 1120 ∧ c < 576 ∧
        ((c / 32 = 0 ∨ c / 32 = 17 ∨ r / 32 = 0 ∨ r / 32 = 34) ∨
          d (r / 32 * 18 + c / 32) = 'b' ∨
          (d (r / 32 * 18 + c / 32) = '2' ∧ c % 32 ≤ r % 32) ∨
          (d (r / 32 * 18 + c / 32) = '3' ∧ 31 - r % 32 ≤ c % 32) ∨
          (d (r / 32 * 18 + c / 32) = '4' ∧ c % 32 < 32 - r % 32))) := by
  rw [compute_game_world_collision_map]
  rw [draw_runs_char d '4' _ _ (fun g x y r c => draw_upper_left_triangle_sprite_pixel g x y r c),
    draw_runs_char d '3' _ _ (fun g x y r c => draw_lower_right_triangle_sprite_pixel g x y r c),
    draw_runs_char d '2' _ _ (fun g x y r c => draw_lower_left_triangle_sprite_pixel g x y r c),
    draw_runs_char d 'b' _ _ (fun g x y r c => draw_full_square_sprite_pixel g x y r c),
    draw_borders_pixel]
  simp only [decide_eq_true_eq]
  constructor
  · rintro (((((h | h) | ⟨cx, cy, h1, h2, h3, h4, h5, h⟩) | ⟨cx, cy, h1, h2, h3, h4, h5, h⟩) |
      ⟨cx, cy, h1, h2, h3, h4, h5, h⟩) | ⟨cx, cy, h1, h2, h3, h4, h5, h⟩)
    · exact Or.inl h
    · exact Or.inr ⟨h.1, h.2.1, Or.inl (by omega)⟩
    · have e1 : cx = c / 32 := by omega
      have e2 : cy = r / 32 := by omega
      subst e1; subst e2
      exact Or.inr ⟨by omega, by omega, Or.inr (Or.inl h5)⟩
    · have e1 : cx = c / 32 := by omega
      have e2 : cy = r / 32 := by omega
      subst e1; subst e2
      exact Or.inr ⟨by omega, by omega, Or.inr (Or.inr (Or.inl ⟨h5, by omega⟩))⟩
    · have e1 : cx = c / 32 := by omega
      have e2 : cy = r / 32 := by omega
      subst e1; subst e2
      exact Or.inr ⟨by omega, by omega, Or.inr (Or.inr (Or.inr (Or.inl ⟨h5, by omega⟩)))⟩
    · have e1 : cx = c / 32 := by omega
      have e2 : cy = r / 32 := by omega
      subst e1; subst e2
      exact Or.inr ⟨by omega, by omega, Or.inr (Or.inr (Or.inr (Or.inr ⟨h5, by omega⟩)))⟩
  · rintro (h | ⟨hr, hc, h⟩)
    · exact Or.inl (Or.inl (Or.inl (Or.inl (Or.inl h))))
    · by_cases hb : c / 32 = 0 ∨ c / 32 = 17 ∨ r / 32 = 0 ∨ r / 32 = 34
      · exact Or.inl (Or.inl (Or.inl (Or.inl (Or.inr ⟨hr, hc, by omega⟩))))
      · rcases h with h | h | h | h | h
        · exact absurd h hb
        · exact Or.inl (Or.inl (Or.inl (Or.inr
            ⟨c / 32, r / 32, by omega, by omega, by omega, by omega, h, by omega⟩)))
        · exact Or.inl (Or.inl (Or.inr
            ⟨c / 32, r / 32, by omega, by omega, by omega, by omega, h.1, by omega⟩))
        · exact Or.inl (Or.inr
            ⟨c / 32, r / 32, by omega, by omega, by omega, by omega, h.1, by omega⟩)
        · exact Or.inr
            ⟨c / 32, r / 32, by omega, by omega, by omega, by omega, h.1, by omega⟩

/-- C5: after `compute_game_world_collision_map` on a zero-initialised bitmap, the pixel
`(px, py)` of the 576x1120 world is solid exactly when its tile `(px/32, py/32)` is in
the outer ring, or the layout character of the tile is `b`, or `2` with `lx ≤ ly`, or
`3` with `lx ≥ 31 - ly`, or `4` with `lx < 32 - ly`, where `(lx, ly) = (px%32, py%32)`;
any other character leaves the tile empty. -/
theorem compute_game_world_collision_map_spec (d : Design) (px py : Nat)
    (hx : px < 576) (hy : py < 1120) :
    compute_game_world_collision_map d Bitmap.zero py px = true ↔
      ((px / 32 = 0 ∨ px / 32 = 17 ∨ py / 32 = 0 ∨ py / 32 = 34) ∨
        d (py / 32 * 18 + px / 32) = 'b' ∨
        (d (py / 32 * 18 + px / 32) = '2' ∧ px % 32 ≤ py % 32) ∨
        (d (py / 32 * 18 + px / 32) = '3' ∧ 31 - py % 32 ≤ px % 32) ∨
        (d (py / 32 * 18 + px / 32) = '4' ∧ px % 32 < 32 - py % 32)) := by
  rw [world_pixel]
  simp [Bitmap.zero, hx, hy]

theorem compute_game_world_collision_map_spec_witness :
    (40 : Nat) < 576 ∧ (360 : Nat) < 1120 ∧
    (compute_game_world_collision_map k_game_world_design Bitmap.zero 360 40 = true ↔
      (((40 : Nat) / 32 = 0 ∨ 40 / 32 = 17 ∨ 360 / 32 = 0 ∨ 360 / 32 = 34) ∨
        k_game_world_design (360 / 32 * 18 + 40 / 32) = 'b' ∨
        (k_game_world_design (360 / 32 * 18 + 40 / 32) = '2' ∧ 40 % 32 ≤ 360 % 32) ∨
        (k_game_world_design (360 / 32 * 18 + 40 / 32) = '3' ∧ 31 - 360 % 32 ≤ 40 % 32) ∨
        (k_game_world_design (360 / 32 * 18 + 40 / 32) = '4' ∧ 40 % 32 < 32 - 360 % 32))) :=
  ⟨by decide, by decide,
    compute_game_world_collision_map_spec k_game_world_design 40 360 (by decide) (by decide)⟩

/-- C6: for every layout, every world pixel in the outer ring of tiles (`px < 32`,
`px ≥ 544`, `py < 32` or `py ≥ 1088`) is solid after `compute_game_world_collision_map`,
and two layouts that agree on the interior cells give the same bitmap: the characters in
the border cells have no influence. -/
theorem border_always_solid (d : Design) (g : Bitmap) :
    (∀ px py, px < 576 → py < 1120 → (px < 32 ∨ 544 ≤ px ∨ py < 32 ∨ 1088 ≤ py) →
      compute_game_world_collision_map d g py px = true) ∧
    (∀ d2 : Design,
      (∀ cx cy, 1 ≤ cx → cx ≤ 16 → 1 ≤ cy → cy ≤ 33 → d2 (cy * 18 + cx) = d (cy * 18 + cx)) →
      compute_game_world_collision_map d2 g = compute_game_world_collision_map d g) := by
  refine ⟨fun px py hx hy hb => ?_, fun d2 hd => ?_⟩
  · rw [world_pixel]
    exact Or.inr ⟨hy, hx, Or.inl (by omega)⟩
  · funext r c
    rw [Bool.eq_iff_iff, world_pixel, world_pixel]
    by_cases hb : c / 32 = 0 ∨ c / 32 = 17 ∨ r / 32 = 0 ∨ r / 32 = 34
    · simp only [hb, true_or]
    · by_cases hin : r < 1120 ∧ c < 576
      · rw [hd (c / 32) (r / 32) (by omega) (by omega) (by omega) (by omega)]
      · have h1 : ∀ P : Prop, ¬ (r < 1120 ∧ c < 576 ∧ P) := fun P h => hin ⟨h.1, h.2.1⟩
        simp only [h1, or_false]

theorem border_always_solid_witness :
    (∀ px py, px < 576 → py < 1120 → (px < 32 ∨ 544 ≤ px ∨ py < 32 ∨ 1088 ≤ py) →
      compute_game_world_collision_map k_game_world_design Bitmap.zero py px = true) ∧
    compute_game_world_collision_map (fun i => if i < 18 then ' ' else k_game_world_design i)
      Bitmap.zero = compute_game_world_collision_map k_game_world_design Bitmap.zero :=
  ⟨(border_always_solid k_game_world_design Bitmap.zero).1,
    (border_always_solid k_game_world_design Bitmap.zero).2 _ (fun cx cy h1 h2 h3 h4 => by
      have : ¬ (cy * 18 + cx < 18) := by omega
      simp only [this, if_false])⟩

/-! ## Player start -/

theorem ofI16_of_small (n : Int) (h1 : -32768 ≤ n) (h2 : n ≤ 32767) :
    fixed16_16.ofI16 n = ⟨n * 65536⟩ := by
  rw [fixed16_16.ofI16, wrap32]
  congr 1
  omega

theorem toI16_range (z : Int) : -32768 ≤ toI16 z ∧ toI16 z ≤ 32767 := by
  rw [toI16]; omega

theorem toI16_of_small (n : Int) (h1 : -32768 ≤ n) (h2 : n ≤ 32767) : toI16 n = n := by
  rw [toI16]; omega

theorem toU16_toU16_add (a b : Int) : toU16 ((toU16 a : Int) + b) = toU16 (a + b) := by
  simp only [toU16]
  omega

theorem toU16_lt (z : Int) : toU16 z < 65536 := by
  simp only [toU16]
  omega

theorem toU16_succ (n : Nat) (h : n < 65535) : toU16 ((n : Int) + 1) = n + 1 := by
  simp only [toU16]
  omega

theorem toU16_toI16_natCast (n : Nat) (h : n < 65536) : toU16 (toI16 (n : Int)) = n := by
  simp only [toU16, toI16]
  omega

theorem start_scan_row_none (d : Design) (y n x0 : Nat)
    (h : ∀ j, j < n → d (y * 18 + (x0 + j)) ≠ 's') : start_scan_row d y n x0 = none := by
  induction n generalizing x0 with
  | zero => rfl
  | succ n ih =>
    rw [start_scan_row, if_neg (by simpa using h 0 (Nat.succ_pos n))]
    exact ih (x0 + 1) (fun j hj => by
      have := h (j + 1) (by omega)
      rwa [show x0 + (j + 1) = x0 + 1 + j by omega] at this)

theorem start_scan_row_some (d : Design) (y n x0 j : Nat) (hj : j < n)
    (hs : d (y * 18 + (x0 + j)) = 's') (h : ∀ i, i < j → d (y * 18 + (x0 + i)) ≠ 's') :
    start_scan_row d y n x0 =
      some ⟨fixed16_16.ofI16 (toI16 (((x0 + j) * 32 : Nat) : Int)),
            fixed16_16.ofI16 (toI16 ((y * 32 : Nat) : Int))⟩ := by
  induction n generalizing x0 j with
  | zero => omega
  | succ n ih =>
    rw [start_scan_row]
    cases j with
    | zero => rw [if_pos (by simpa using hs)]; rfl
    | succ j =>
      rw [if_neg (by simpa using h 0 (Nat.succ_pos j))]
      rw [ih (x0 + 1) j (by omega) (by rwa [show x0 + 1 + j = x0 + (j + 1) by omega])
        (fun i hi => by
          have := h (i + 1) (by omega)
          rwa [show x0 + (i + 1) = x0 + 1 + i by omega] at this)]
      rw [show x0 + 1 + j = x0 + (j + 1) by omega]

theorem start_scan_some (d : Design) (n y0 i x : Nat) (hi : i < n) (hx : x < 18)
    (hs : d ((y0 + i) * 18 + x) = 's')
    (h : ∀ k, y0 * 18 ≤ k → k < (y0 + i) * 18 + x → d k ≠ 's') :
    start_scan d n y0 =
      some ⟨fixed16_16.ofI16 (toI16 ((x * 32 : Nat) : Int)),
            fixed16_16.ofI16 (toI16 (((y0 + i) * 32 : Nat) : Int))⟩ := by
  induction n generalizing y0 i with
  | zero => omega
  | succ n ih =>
    rw [start_scan]
    cases i with
    | zero =>
      have := start_scan_row_some d y0 18 0 x hx (by simpa using hs)
        (fun k hk => h _ (by omega) (by omega))
      simp only [k_game_world_design_width, this, Nat.zero_add, Nat.add_zero]
    | succ i =>
      have := start_scan_row_none d y0 18 0 (fun j hj => h _ (by omega) (by omega))
      simp only [k_game_world_design_width, this]
      rw [ih (y0 + 1) i (by omega) (by rwa [show y0 + 1 + i = y0 + (i + 1) by omega])
        (fun k hk1 hk2 => h k (by omega) (by omega))]
      rw [show y0 + 1 + i = y0 + (i + 1) by omega]

/-- C10: the player start is the tile of the first `s` of the layout in row-major
order, times 32, as exact fixed-point integers: if index `k < 630` is the first holding
`s`, the start is `(fixed(32 * (k % 18)), fixed(32 * (k / 18)))` with raw values
`32 * (k % 18) * 65536` and `32 * (k / 18) * 65536`.  For the shipped layout this is
`(fixed(32), fixed(128))`, and `g_player` starts there with zero velocity. -/
theorem player_start_location_spec :
    (∀ (d : Design) (k : Nat), k < 630 → d k = 's' → (∀ j, j < k → d j ≠ 's') →
      k_player_start_location d =
        some ⟨⟨((k % 18 * 32 : Nat) : Int) * 65536⟩, ⟨((k / 18 * 32 : Nat) : Int) * 65536⟩⟩) ∧
    k_player_start_location k_game_world_design =
      some ⟨fixed16_16.ofI16 32, fixed16_16.ofI16 128⟩ ∧
    g_player.pos = ⟨fixed16_16.ofI16 32, fixed16_16.ofI16 128⟩ ∧
    g_player.pos = ⟨⟨32 * 65536⟩, ⟨128 * 65536⟩⟩ ∧
    g_player.vel = ⟨⟨0⟩, ⟨0⟩⟩ := by
  refine ⟨fun d k hk hs hfirst => ?_, by decide, by decide, by decide, by decide⟩
  rw [k_player_start_location]
  have h := start_scan_some d 35 0 (k / 18) (k % 18) (by omega) (Nat.mod_lt _ (by decide))
    (by rw [Nat.zero_add, Nat.div_add_mod']; exact hs)
    (fun j _ hj => hfirst j (by rw [Nat.zero_add, Nat.div_add_mod'] at hj; exact hj))
  simp only [k_game_world_design_height, Nat.zero_add] at h ⊢
  rw [h, toI16_of_small _ (by omega) (by omega), toI16_of_small _ (by omega) (by omega),
    ofI16_of_small _ (by omega) (by omega), ofI16_of_small _ (by omega) (by omega)]

theorem player_start_location_spec_witness :
    k_player_start_location k_game_world_design =
      some ⟨⟨((73 % 18 * 32 : Nat) : Int) * 65536⟩, ⟨((73 / 18 * 32 : Nat) : Int) * 65536⟩⟩ :=
  player_start_location_spec.1 k_game_world_design 73 (by decide) (by decide) (by decide)

/-! ## Collision sweep: termination -/

theorem dda_odd (n : Nat) : (n <<< 1) ||| 1 = 2 * n + 1 := by
  rw [Nat.shiftLeft_eq, Nat.pow_one, Nat.mul_comm]
  exact (Nat.mul_add_lt_is_or (by decide : 1 < 2 ^ 1) n).symm

/-- An x-step is chosen only while `ix < diff_x`. -/
theorem wants_x_lt (s : sweep) (hw : s.wants_x = true) (hr : s.running = true) :
    s.ix < toU16 s.diff_x := by
  simp only [sweep.wants_x, dda_odd, decide_eq_true_eq] at hw
  simp only [sweep.running, Bool.and_eq_true, Bool.or_eq_true, decide_eq_true_eq] at hr
  by_contra hc
  have h1 : s.iy < toU16 s.diff_y := by omega
  have h2 : toU16 s.diff_x ≤ s.ix := by omega
  nlinarith

/-- A y-step is chosen only while `iy < diff_y`. -/
theorem not_wants_x_lt (s : sweep) (hw : s.wants_x = false) (hr : s.running = true) :
    s.iy < toU16 s.diff_y := by
  simp only [sweep.wants_x, dda_odd, decide_eq_false_iff_not] at hw
  simp only [sweep.running, Bool.and_eq_true, Bool.or_eq_true, decide_eq_true_eq] at hr
  by_contra hc
  have h1 : s.ix < toU16 s.diff_x := by omega
  have h2 : toU16 s.diff_y ≤ s.iy := by omega
  nlinarith

theorem sweep_step_x_fields (m : CollisionMap) (s : sweep) :
    (sweep_step_x m s).ix = toU16 ((s.ix : Int) + 1) ∧
    (sweep_step_x m s).iy = s.iy ∧
    (sweep_step_x m s).diff_y = s.diff_y ∧
    (sweep_step_x m s).step_y = s.step_y ∧
    (sweep_step_x m s).stopped = s.stopped ∧
    ((sweep_step_x m s).diff_x = s.diff_x ∨
      (sweep_step_x m s).diff_x = toI16 (toU16 ((s.ix : Int) + 1))) := by
  simp only [sweep_step_x, sweep.read, sweep.set_vel_x, sweep.set_flying, sweep.set_sliding]
  split_ifs <;> simp

theorem sweep_slide_fields (m : CollisionMap) (s : sweep) (dir : Int) :
    (sweep_slide m s dir).ix = toU16 ((s.ix : Int) + 1) ∧
    (sweep_slide m s dir).iy = s.iy ∧
    (sweep_slide m s dir).diff_x = s.diff_x ∧
    (sweep_slide m s dir).diff_y = s.diff_y ∧
    (sweep_slide m s dir).step_y = s.step_y ∧
    (sweep_slide m s dir).stopped = s.stopped := by
  simp only [sweep_slide, sweep.read, sweep.set_vel_x, sweep.set_flying, sweep.set_sliding]
  split_ifs <;> simp

theorem sweep_step_y_fields (m : CollisionMap) (s : sweep) :
    (sweep_step_y m s).iy = toU16 ((s.iy : Int) + 1) ∧
    (sweep_step_y m s).diff_x = s.diff_x ∧
    (sweep_step_y m s).step_y = s.step_y ∧
    ((sweep_step_y m s).ix = s.ix ∨
      ((sweep_step_y m s).ix = toU16 ((s.ix : Int) + 1) ∧ 0 ≤ s.step_y)) ∧
    ((sweep_step_y m s).diff_y = s.diff_y ∨
      ((sweep_step_y m s).diff_y = toI16 (toU16 ((s.iy : Int) + 1)) ∧ s.step_y < 0)) := by
  simp only [sweep_step_y, sweep_land, sweep_flat_landing, sweep.read, sweep.set_vel_x,
    sweep.set_vel_y, sweep.set_flying, sweep.set_sliding]
  split_ifs with h1 h2 h3 h4 h5 h6 h7 h8 <;>
    simp [(sweep_slide_fields m _ _).1, (sweep_slide_fields m _ _).2.1,
      (sweep_slide_fields m _ _).2.2.1, (sweep_slide_fields m _ _).2.2.2.1,
      (sweep_slide_fields m _ _).2.2.2.2.1] <;> omega

theorem sweep_iter_progress (m : CollisionMap) (s : sweep) (hb : s.bounded)
    (hr : s.running = true) :
    (sweep_iter m s).bounded ∧ (sweep_iter m s).measure + 1 ≤ s.measure := by
  obtain ⟨b1, b2, b3, b4⟩ := hb
  rw [sweep_iter]
  by_cases hw : s.wants_x = true
  · rw [if_pos hw]
    have hlt := wants_x_lt s hw hr
    obtain ⟨f1, f2, f3, f4, _, f6⟩ := sweep_step_x_fields m s
    have e1 : toU16 ((s.ix : Int) + 1) = s.ix + 1 := toU16_succ _ (by omega)
    have e2 : toU16 (toI16 ((s.ix + 1 : Nat) : Int)) = s.ix + 1 :=
      toU16_toI16_natCast _ (by omega)
    rw [e1] at f1 f6
    simp only [sweep.bounded, sweep.measure, f1, f2, f3, f4]
    rcases f6 with f6 | f6
    · rw [f6]
      omega
    · rw [f6, e2]
      omega
  · rw [if_neg hw]
    have hlt := not_wants_x_lt s (by simpa using hw) hr
    obtain ⟨f1, f2, f3, f4, f5⟩ := sweep_step_y_fields m s
    have e1 : toU16 ((s.iy : Int) + 1) = s.iy + 1 := toU16_succ _ (by omega)
    have e2 : toU16 (toI16 ((s.iy + 1 : Nat) : Int)) = s.iy + 1 :=
      toU16_toI16_natCast _ (by omega)
    rw [e1] at f1 f5
    simp only [sweep.bounded, sweep.measure, f1, f2, f3]
    rcases f4 with f4 | ⟨f4, g4⟩ <;> rcases f5 with f5 | ⟨f5, g5⟩
    · rw [f4, f5]
      omega
    · rw [f4, f5, e2]
      omega
    · have e3 : toU16 ((s.ix : Int) + 1) = s.ix + 1 := toU16_succ _ (by omega)
      rw [f4, f5, e3]
      omega
    · omega

theorem sweep_loop_of_not_running (m : CollisionMap) (n : Nat) (s : sweep)
    (h : s.running = false) : sweep_loop m n s = s := by
  cases n with
  | zero => rfl
  | succ n => rw [sweep_loop, if_neg (by simp [h])]

theorem sweep_loop_exits_of (m : CollisionMap) (n : Nat) (s : sweep) (hb : s.bounded)
    (hn : s.measure ≤ n) : (sweep_loop m n s).running = false := by
  induction n generalizing s with
  | zero =>
    rw [sweep_loop]
    simp only [sweep.measure] at hn
    simp only [sweep.running, Bool.and_eq_false_imp, Bool.or_eq_false_iff,
      decide_eq_false_iff_not]
    intro _
    omega
  | succ n ih =>
    rw [sweep_loop]
    by_cases hr : s.running = true
    · rw [if_pos hr]
      obtain ⟨h1, h2⟩ := sweep_iter_progress m s hb hr
      exact ih _ h1 (by omega)
    · rw [if_neg hr]
      simpa using hr

theorem sweep_init_bounded (p : player) :
    (sweep_init p).bounded ∧
    (sweep_init p).measure = toU16 (sweep_init p).diff_x + toU16 (sweep_init p).diff_y := by
  refine ⟨?_, by simp [sweep.measure, sweep_init]⟩
  simp only [sweep.bounded, sweep_init]
  have ha := toI16_range (ifloor (p.pos.x.add p.vel.x) - ifloor p.pos.x)
  have hb := toI16_range (ifloor (p.pos.y.add p.vel.y) - ifloor p.pos.y)
  generalize toI16 (ifloor (p.pos.x.add p.vel.x) - ifloor p.pos.x) = a at ha ⊢
  generalize toI16 (ifloor (p.pos.y.add p.vel.y) - ifloor p.pos.y) = b at hb ⊢
  refine ⟨?_, ?_, by omega, ?_⟩
  · split_ifs <;> simp only [toU16, toI16] <;> omega
  · split_ifs <;> simp only [toU16, toI16] <;> omega
  · split_ifs with h
    · intro h0; omega
    · intro _
      simp only [toU16]; omega

/-- The loop of `collision_sweep_test` is left within `diff_x + diff_y` iterations. -/
theorem sweep_loop_exits (m : CollisionMap) (p : player) :
    (sweep_final m p).running = false :=
  sweep_loop_exits_of m _ _ (sweep_init_bounded p).1 (le_of_eq (sweep_init_bounded p).2)

/-! ## Collision sweep: the flags `flying` and `sliding` -/

theorem sweep_step_x_flags (m : CollisionMap) (s : sweep)
    (h : ¬ (s.pl.flying = true ∧ s.pl.sliding = true)) :
    ¬ ((sweep_step_x m s).pl.flying = true ∧ (sweep_step_x m s).pl.sliding = true) := by
  simp only [sweep_step_x, sweep.read, sweep.set_vel_x, sweep.set_flying, sweep.set_sliding]
  split_ifs <;> simp_all

theorem sweep_slide_flags (m : CollisionMap) (s : sweep) (dir : Int)
    (h : s.pl.flying = false) :
    ¬ ((sweep_slide m s dir).pl.flying = true ∧ (sweep_slide m s dir).pl.sliding = true) := by
  simp only [sweep_slide, sweep.read, sweep.set_vel_x, sweep.set_flying, sweep.set_sliding]
  split_ifs <;> simp_all

theorem sweep_step_y_flags (m : CollisionMap) (s : sweep)
    (h : ¬ (s.pl.flying = true ∧ s.pl.sliding = true)) :
    ¬ ((sweep_step_y m s).pl.flying = true ∧ (sweep_step_y m s).pl.sliding = true) := by
  simp only [sweep_step_y, sweep_land, sweep_flat_landing, sweep.read, sweep.set_vel_x,
    sweep.set_vel_y, sweep.set_flying, sweep.set_sliding]
  split_ifs <;>
    first
    | exact sweep_slide_flags m _ _ rfl
    | exact h
    | simp_all

theorem sweep_loop_flags (m : CollisionMap) (n : Nat) (s : sweep)
    (h : ¬ (s.pl.flying = true ∧ s.pl.sliding = true)) :
    ¬ ((sweep_loop m n s).pl.flying = true ∧ (sweep_loop m n s).pl.sliding = true) := by
  induction n generalizing s with
  | zero => exact h
  | succ n ih =>
    rw [sweep_loop]
    split_ifs
    · apply ih
      rw [sweep_iter]
      split_ifs
      · exact sweep_step_x_flags m s h
      · exact sweep_step_y_flags m s h
    · exact h

theorem collision_sweep_test_flags (m : CollisionMap) (p : player)
    (h : ¬ (p.flying = true ∧ p.sliding = true)) :
    ¬ ((collision_sweep_test m p).flying = true ∧ (collision_sweep_test m p).sliding = true) := by
  rw [collision_sweep_test]
  split_ifs
  · exact h
  · exact sweep_loop_flags m _ (sweep_init p) h

theorem input_phase_flags (g_input : input) (p : player) (jump_charge : Int)
    (h : ¬ (p.flying = true ∧ p.sliding = true)) :
    ¬ ((input_phase g_input p jump_charge).1.flying = true ∧
       (input_phase g_input p jump_charge).1.sliding = true) := by
  simp only [input_phase]
  split_ifs <;> simp_all

/-- C4: `flying` and `sliding` are never both true.  The initial `g_player` has
`flying = true` and `sliding = false`; and for every player collision map, key state and
jump charge, a tick of `pre_render_update` started with the two flags not both true ends
with them not both true, the loop of the sweep having been left. -/
theorem flying_sliding_exclusive :
    (g_player.flying = true ∧ g_player.sliding = false) ∧
    ∀ (m : CollisionMap) (g_input : input) (p : player) (jump_charge : Int),
      ¬ (p.flying = true ∧ p.sliding = true) →
      ¬ ((pre_render_update m g_input p jump_charge).1.flying = true ∧
         (pre_render_update m g_input p jump_charge).1.sliding = true) ∧
      (sweep_final m (input_phase g_input p jump_charge).1).running = false := by
  refine ⟨⟨rfl, rfl⟩, fun m g_input p jump_charge h => ⟨?_, sweep_loop_exits m _⟩⟩
  rw [pre_render_update]
  exact collision_sweep_test_flags m _ (input_phase_flags g_input p jump_charge h)

theorem flying_sliding_exclusive_witness :
    ¬ (step_player.flying = true ∧ step_player.sliding = true) ∧
    ¬ ((pre_render_update step_map no_input step_player 0).1.flying = true ∧
       (pre_render_update step_map no_input step_player 0).1.sliding = true) ∧
    (sweep_final step_map (input_phase no_input step_player 0).1).running = false :=
  ⟨by decide, flying_sliding_exclusive.2 step_map no_input step_player 0 (by decide)⟩

/-! ## Collision sweep: lookups stay inside the map -/

theorem free_inside (m : CollisionMap) (hm : solid_frame m) (r c : Int)
    (hr0 : 0 ≤ r) (hr1 : r < 1104) (hc0 : 0 ≤ c) (hc1 : c < 564) (hfree : ¬ m r c = true) :
    0 < r ∧ r < 1103 ∧ 0 < c ∧ c < 563 := by
  have h := hm r c hr0 (by simpa [k_player_collision_map_height, k_world_height,
    k_game_world_design_height, k_sprite_size, player_k_height] using hr1) hc0
    (by simpa [k_player_collision_map_width, k_world_width,
    k_game_world_design_width, k_sprite_size, player_k_width] using hc1)
  simp only [k_player_collision_map_height, k_world_height,
    k_game_world_design_height, k_sprite_size, player_k_height, k_player_collision_map_width,
    k_world_width, k_game_world_design_width, player_k_width] at h
  by_contra hcon
  exact hfree (h (by omega))

theorem sweep_step_x_inside (m : CollisionMap) (hm : solid_frame m) (s : sweep)
    (hi : s.inside) : (sweep_step_x m s).inside := by
  obtain ⟨x0, x1, y0, y1, hsx, hsy, hreads⟩ := hi
  simp only [k_player_collision_map_height, k_world_height,
    k_game_world_design_height, k_sprite_size, player_k_height, k_player_collision_map_width,
    k_world_width, k_game_world_design_width, player_k_width] at x1 y1
  have hx' : (toU16 ((s.x : Int) + s.step_x) : Int) = (s.x : Int) + s.step_x := by
    simp only [toU16]; omega
  have hback : toU16 ((toU16 ((s.x : Int) + s.step_x) : Int) - s.step_x) = s.x := by
    simp only [toU16]; omega
  have hfree := free_inside m hm (s.y : Int) (toU16 ((s.x : Int) + s.step_x) : Int)
    (by omega) (by omega) (by omega) (by omega)
  simp only [sweep_step_x, sweep.read, sweep.set_vel_x, sweep.set_flying, sweep.set_sliding,
    sweep.inside, in_player_map, k_player_collision_map_height, k_world_height,
    k_game_world_design_height, k_sprite_size, player_k_height, k_player_collision_map_width,
    k_world_width, k_game_world_design_width, player_k_width]
  split_ifs with h1 <;>
    simp only [List.forall_mem_cons, hback, toI16] <;>
    refine ⟨?_, ?_, ?_, ?_, ?_, ?_, ?_⟩ <;>
    first
    | exact hreads
    | omega
    | (have hf := hfree h1; omega)
    | (refine ⟨?_, ?_⟩ <;> first | exact hreads | omega | (refine ⟨?_, ?_⟩ <;> first | exact hreads | omega))

theorem sweep_slide_inside (m : CollisionMap) (hm : solid_frame m) (s : sweep) (dir : Int)
    (hd : dir = 1 ∨ dir = -1) (x0 : 0 < s.x) (x1 : s.x + 1 < 564) (y1 : s.y < 1104)
    (hfree : ¬ m s.y ((s.x : Int) + dir) = true)
    (hsx : s.step_x = 1 ∨ s.step_x = -1) (hsy : s.step_y = 1 ∨ s.step_y = -1)
    (hreads : ∀ rc ∈ s.reads, in_player_map rc) : (sweep_slide m s dir).inside := by
  have hin := free_inside m hm (s.y : Int) ((s.x : Int) + dir) (by omega) (by omega)
    (by omega) (by omega) hfree
  have hx' : (toU16 ((s.x : Int) + dir) : Int) = (s.x : Int) + dir := by
    simp only [toU16]; omega
  simp only [sweep_slide, sweep.read, sweep.set_vel_x, sweep.set_flying, sweep.set_sliding,
    sweep.inside, in_player_map, k_player_collision_map_height, k_world_height,
    k_game_world_design_height, k_sprite_size, player_k_height, k_player_collision_map_width,
    k_world_width, k_game_world_design_width, player_k_width]
  split_ifs <;>
    simp only [List.forall_mem_cons] <;>
    refine ⟨?_, ?_, ?_, ?_, ?_, ?_, ?_⟩ <;>
    first
    | exact hreads
    | omega
    | (refine ⟨?_, ?_⟩ <;> first | exact hreads | omega)

theorem in_player_map_iff (r c : Int) :
    in_player_map (r, c) ↔ 0 ≤ r ∧ r < 1104 ∧ 0 ≤ c ∧ c < 564 := by
  simp only [in_player_map, k_player_collision_map_height, k_world_height,
    k_game_world_design_height, k_sprite_size, player_k_height, k_player_collision_map_width,
    k_world_width, k_game_world_design_width, player_k_width]
  rfl

theorem sweep_land_inside (m : CollisionMap) (hm : solid_frame m) (s : sweep)
    (x0 : 0 < s.x) (x1 : s.x + 1 < 564) (y0 : 1 < s.y) (y1 : s.y < 1104)
    (hsx : s.step_x = 1 ∨ s.step_x = -1) (hsy : s.step_y = 1)
    (hreads : ∀ rc ∈ s.reads, in_player_map rc) : (sweep_land m s).inside := by
  have hL := free_inside m hm (s.y : Int) ((s.x : Int) - 1) (by omega) (by omega)
    (by omega) (by omega)
  have hR := free_inside m hm (s.y : Int) ((s.x : Int) + 1) (by omega) (by omega)
    (by omega) (by omega)
  have r1 : in_player_map ((s.y : Int), (s.x : Int) - 1) := by
    rw [in_player_map_iff]; omega
  have r2 : in_player_map ((s.y : Int), (s.x : Int) + 1) := by
    rw [in_player_map_iff]; omega
  have hback : toU16 ((s.y : Int) - s.step_y) = s.y - 1 := by
    simp only [toU16]; omega
  rw [sweep_land]
  by_cases cL : m s.y ((s.x : Int) - 1) = true
  · -- no slide to the left
    simp only [sweep.read, cL, if_true, Bool.not_true, Bool.false_and, Bool.false_eq_true,
      if_false]
    by_cases cR : m s.y ((s.x : Int) + 1) = true
    · simp only [cR, if_true, Bool.not_true, Bool.false_and, Bool.false_eq_true, if_false]
      simp only [sweep_flat_landing, sweep.set_vel_x, sweep.set_vel_y, sweep.set_sliding,
        sweep.inside, hback, k_player_collision_map_height, k_world_height,
        k_game_world_design_height, k_sprite_size, player_k_height,
        k_player_collision_map_width, k_world_width, k_game_world_design_width, player_k_width]
      refine ⟨x0, by omega, by omega, by omega, hsx, Or.inl hsy, ?_⟩
      simp only [List.forall_mem_cons]
      exact ⟨r2, r1, hreads⟩
    · have hR' := hR cR
      have r3 : in_player_map ((s.y : Int) + 1, (s.x : Int) + 1) := by
        rw [in_player_map_iff]; omega
      have hrd : ∀ rc ∈ ((s.y : Int) + 1, (s.x : Int) + 1) :: ((s.y : Int), (s.x : Int) + 1) ::
          ((s.y : Int), (s.x : Int) - 1) :: s.reads, in_player_map rc := by
        simp only [List.forall_mem_cons]
        exact ⟨r3, r2, r1, hreads⟩
      simp only [cR, if_false, Bool.false_eq_true]
      split_ifs
      · exact sweep_slide_inside m hm _ 1 (Or.inl rfl) x0 x1 y1 cR hsx (Or.inl hsy) hrd
      · simp only [sweep_flat_landing, sweep.set_vel_x, sweep.set_vel_y, sweep.set_sliding,
          sweep.inside, hback, k_player_collision_map_height, k_world_height,
          k_game_world_design_height, k_sprite_size, player_k_height,
          k_player_collision_map_width, k_world_width, k_game_world_design_width,
          player_k_width]
        exact ⟨x0, by omega, by omega, by omega, hsx, Or.inl hsy, hrd⟩
  · have hL' := hL cL
    have r3 : in_player_map ((s.y : Int) + 1, (s.x : Int) - 1) := by
      rw [in_player_map_iff]; omega
    have hrd : ∀ rc ∈ ((s.y : Int) + 1, (s.x : Int) - 1) ::
        ((s.y : Int), (s.x : Int) - 1) :: s.reads, in_player_map rc := by
      simp only [List.forall_mem_cons]
      exact ⟨r3, r1, hreads⟩
    simp only [sweep.read, cL, if_false, Bool.false_eq_true]
    split_ifs with c1 c2 c3 c4
    · exact sweep_slide_inside m hm _ (-1) (Or.inr rfl) x0 x1 y1 cL hsx (Or.inl hsy) hrd
    · exact absurd c3 (by simp [c2])
    · simp only [sweep_flat_landing, sweep.set_vel_x, sweep.set_vel_y, sweep.set_sliding,
        sweep.inside, hback, k_player_collision_map_height, k_world_height,
        k_game_world_design_height, k_sprite_size, player_k_height,
        k_player_collision_map_width, k_world_width, k_game_world_design_width,
        player_k_width]
      refine ⟨x0, by omega, by omega, by omega, hsx, Or.inl hsy, ?_⟩
      simp only [List.forall_mem_cons]
      exact ⟨r2, r3, r1, hreads⟩
    · have hR' := hR c2
      have r4 : in_player_map ((s.y : Int) + 1, (s.x : Int) + 1) := by
        rw [in_player_map_iff]; omega
      refine sweep_slide_inside m hm _ 1 (Or.inl rfl) x0 x1 y1 c2 hsx (Or.inl hsy) ?_
      simp only [List.forall_mem_cons]
      exact ⟨r4, r2, r3, r1, hreads⟩
    · have hR' := hR c2
      have r4 : in_player_map ((s.y : Int) + 1, (s.x : Int) + 1) := by
        rw [in_player_map_iff]; omega
      simp only [sweep_flat_landing, sweep.set_vel_x, sweep.set_vel_y, sweep.set_sliding,
        sweep.inside, hback, k_player_collision_map_height, k_world_height,
        k_game_world_design_height, k_sprite_size, player_k_height,
        k_player_collision_map_width, k_world_width, k_game_world_design_width,
        player_k_width]
      refine ⟨x0, by omega, by omega, by omega, hsx, Or.inl hsy, ?_⟩
      simp only [List.forall_mem_cons]
      exact ⟨r4, r2, r3, r1, hreads⟩

theorem sweep_step_y_inside (m : CollisionMap) (hm : solid_frame m) (s : sweep)
    (hi : s.inside) : (sweep_step_y m s).inside := by
  obtain ⟨x0, x1, y0, y1, hsx, hsy, hreads⟩ := hi
  simp only [k_player_collision_map_height, k_world_height,
    k_game_world_design_height, k_sprite_size, player_k_height, k_player_collision_map_width,
    k_world_width, k_game_world_design_width, player_k_width] at x1 y1
  have hy' : (toU16 ((s.y : Int) + s.step_y) : Int) = (s.y : Int) + s.step_y := by
    simp only [toU16]; omega
  have hfree := free_inside m hm (toU16 ((s.y : Int) + s.step_y) : Int) (s.x : Int)
    (by omega) (by omega) (by omega) (by omega)
  have r0 : in_player_map ((toU16 ((s.y : Int) + s.step_y) : Int), (s.x : Int)) := by
    rw [in_player_map_iff]; omega
  have hrd : ∀ rc ∈ ((toU16 ((s.y : Int) + s.step_y) : Int), (s.x : Int)) :: s.reads,
      in_player_map rc := by
    simp only [List.forall_mem_cons]
    exact ⟨r0, hreads⟩
  rw [sweep_step_y]
  by_cases cA : m (toU16 ((s.y : Int) + s.step_y) : Int) (s.x : Int) = true
  · simp only [sweep.read, cA, if_true]
    by_cases cu : s.step_y < 0
    · have hup : toU16 ((toU16 ((s.y : Int) + s.step_y) : Int) + 1) = s.y := by
        simp only [toU16]; omega
      simp only [cu, if_true, sweep.set_vel_y, sweep.inside, hup, k_player_collision_map_height,
        k_world_height, k_game_world_design_height, k_sprite_size, player_k_height,
        k_player_collision_map_width, k_world_width, k_game_world_design_width, player_k_width]
      exact ⟨x0, by omega, y0, by omega, hsx, hsy, hrd⟩
    · simp only [cu, if_false]
      have hs1 : s.step_y = 1 := by omega
      exact sweep_land_inside m hm _ x0 x1
        (by show 1 < toU16 ((s.y : Int) + s.step_y); omega)
        (by show toU16 ((s.y : Int) + s.step_y) < 1104; omega) hsx hs1 hrd
  · have hin := hfree cA
    simp only [sweep.read, cA, if_false, Bool.false_eq_true, sweep.inside,
      k_player_collision_map_height,
      k_world_height, k_game_world_design_height, k_sprite_size, player_k_height,
      k_player_collision_map_width, k_world_width, k_game_world_design_width, player_k_width]
    exact ⟨x0, by omega, by omega, by omega, hsx, hsy, hrd⟩

theorem sweep_iter_inside (m : CollisionMap) (hm : solid_frame m) (s : sweep)
    (hi : s.inside) : (sweep_iter m s).inside := by
  rw [sweep_iter]
  split_ifs
  · exact sweep_step_x_inside m hm s hi
  · exact sweep_step_y_inside m hm s hi

theorem sweep_loop_inside (m : CollisionMap) (hm : solid_frame m) (n : Nat) (s : sweep)
    (hi : s.inside) : (sweep_loop m n s).inside := by
  induction n generalizing s with
  | zero => exact hi
  | succ n ih =>
    rw [sweep_loop]
    split_ifs
    · exact ih _ (sweep_iter_inside m hm s hi)
    · exact hi

/-- C3: for a player collision map whose outermost rows and columns are solid and a
player whose integer pixel lies strictly inside the map, after any number `n` of
iterations of the loop of `collision_sweep_test` every lookup
`g_player_collision_map[r][c]` evaluated so far (in the short-circuit order of the
conditions) has `0 ≤ r < 1104` and `0 ≤ c < 564`, and the walked pixel `(x, y)` is
strictly inside the map; and the loop is left within `diff_x + diff_y` iterations.  No
assumption on `pos + vel` is needed. -/
theorem sweep_lookups_in_bounds (m : CollisionMap) (p : player) (hm : solid_frame m)
    (hx : 0 < ifloor p.pos.x ∧ ifloor p.pos.x < 563)
    (hy : 0 < ifloor p.pos.y ∧ ifloor p.pos.y < 1103) :
    (∀ n, (∀ rc ∈ (sweep_loop m n (sweep_init p)).reads,
          0 ≤ rc.1 ∧ rc.1 < 1104 ∧ 0 ≤ rc.2 ∧ rc.2 < 564) ∧
        0 < (sweep_loop m n (sweep_init p)).x ∧ (sweep_loop m n (sweep_init p)).x < 563 ∧
        0 < (sweep_loop m n (sweep_init p)).y ∧ (sweep_loop m n (sweep_init p)).y < 1103) ∧
    (sweep_final m p).running = false := by
  refine ⟨fun n => ?_, sweep_loop_exits m p⟩
  have h0 : (sweep_init p).inside := by
    simp only [sweep.inside, sweep_init, k_player_collision_map_height,
      k_world_height, k_game_world_design_height, k_sprite_size, player_k_height,
      k_player_collision_map_width, k_world_width, k_game_world_design_width, player_k_width,
      List.not_mem_nil, false_imp_iff, implies_true, and_true]
    refine ⟨?_, ?_, ?_, ?_, ?_, ?_⟩
    · simp only [toU16]; omega
    · simp only [toU16]; omega
    · simp only [toU16]; omega
    · simp only [toU16]; omega
    · split_ifs
      · exact Or.inr rfl
      · exact Or.inl rfl
    · split_ifs
      · exact Or.inr rfl
      · exact Or.inl rfl
  obtain ⟨x0, x1, y0, y1, _, _, hreads⟩ := sweep_loop_inside m hm n _ h0
  simp only [k_player_collision_map_height, k_world_height,
    k_game_world_design_height, k_sprite_size, player_k_height, k_player_collision_map_width,
    k_world_width, k_game_world_design_width, player_k_width] at x1 y1
  refine ⟨fun rc hrc => ?_, x0, by omega, y0, by omega⟩
  have := (in_player_map_iff rc.1 rc.2).1 (hreads rc hrc)
  exact this

theorem sweep_lookups_in_bounds_witness :
    solid_frame step_map ∧
    (0 < ifloor step_player.pos.x ∧ ifloor step_player.pos.x < 563) ∧
    (0 < ifloor step_player.pos.y ∧ ifloor step_player.pos.y < 1103) ∧
    (∀ n, (∀ rc ∈ (sweep_loop step_map n (sweep_init step_player)).reads,
          0 ≤ rc.1 ∧ rc.1 < 1104 ∧ 0 ≤ rc.2 ∧ rc.2 < 564) ∧
        0 < (sweep_loop step_map n (sweep_init step_player)).x ∧
        (sweep_loop step_map n (sweep_init step_player)).x < 563 ∧
        0 < (sweep_loop step_map n (sweep_init step_player)).y ∧
        (sweep_loop step_map n (sweep_init step_player)).y < 1103) ∧
    (sweep_final step_map step_player).running = false :=
  have hframe : solid_frame step_map := by
    intro r c h1 h2 h3 h4 h5
    simp only [k_player_collision_map_height, k_world_height, k_game_world_design_height,
      k_sprite_size, player_k_height, k_player_collision_map_width, k_world_width,
      k_game_world_design_width, player_k_width] at h2 h4 h5
    simp only [step_map, decide_eq_true_eq]
    omega
  ⟨hframe, by decide, by decide,
    sweep_lookups_in_bounds step_map step_player hframe (by decide) (by decide)⟩

/-! ## The maps of the shipped level -/

theorem world_eq_tile_solid (d : Design) (r c : Nat) :
    compute_game_world_collision_map d Bitmap.zero r c = tile_solid d r c := by
  rw [Bool.eq_iff_iff, world_pixel]
  simp only [Bitmap.zero, Bool.false_eq_true, false_or, tile_solid, Bool.and_eq_true,
    Bool.or_eq_true, decide_eq_true_eq]
  tauto

theorem player_map_eq_box_solid (d : Design) (r c : Nat) :
    compute_player_collision_map (compute_game_world_collision_map d Bitmap.zero)
      Bitmap.zero r c = (decide (r < 1104 ∧ c < 564) && box_solid d r c) := by
  rw [compute_player_collision_map, player_map_loop, Bool.eq_iff_iff]
  simp only [Bitmap.zero, Bool.false_or, Bool.and_eq_true, decide_eq_true_eq,
    player_box_rows_iff, box_solid, List.any_eq_true, List.mem_range, world_eq_tile_solid,
    k_player_collision_map_height, k_world_height, k_game_world_design_height, k_sprite_size,
    player_k_height, k_player_collision_map_width, k_world_width, k_game_world_design_width,
    player_k_width, Nat.zero_add]

theorem shipped_map_eq_closed :
    g_player_collision_map.toCollisionMap = closed_player_map k_game_world_design := by
  funext r c
  rw [Bitmap.toCollisionMap, closed_player_map, g_player_collision_map,
    g_game_world_collision_map, player_map_eq_box_solid]
  by_cases h : 0 ≤ r ∧ r < (k_player_collision_map_height : Int) ∧
      0 ≤ c ∧ c < (k_player_collision_map_width : Int)
  · have h2 : r.toNat < 1104 ∧ c.toNat < 564 := by
      simp only [k_player_collision_map_height, k_world_height, k_game_world_design_height,
        k_sprite_size, player_k_height, k_player_collision_map_width, k_world_width,
        k_game_world_design_width, player_k_width] at h
      omega
    simp only [h, h2, and_self, decide_True, Bool.true_and]
  · simp only [h, decide_False, Bool.false_and]

set_option maxRecDepth 100000 in
/-- The pixels of the world bitmap of the shipped level in the rows of tile row 33 and the
columns 351 to 383 (the last column of the ramp tile `(10, 33)` and the empty tile
`(11, 33)`): only the foot of the ramp, pixel `(351, 1087)`, is solid. -/
theorem ramp_tiles (py px : Nat) (h1 : 1056 ≤ py) (h2 : py ≤ 1087) (h3 : 351 ≤ px)
    (h4 : px ≤ 383) :
    tile_solid k_game_world_design py px = decide (px = 351 ∧ py = 1087) := by
  have d10 : k_game_world_design 604 = '2' := by decide
  have d11 : k_game_world_design 605 = ' ' := by decide
  have ey : py / 32 = 33 := by omega
  rw [tile_solid, ey]
  by_cases hx : px = 351
  · subst hx
    have e : 33 * 18 + 351 / 32 = 604 := by norm_num
    rw [e, d10]
    by_cases hy : py = 1087
    · subst hy
      decide
    · have hm : ¬ (351 % 32 ≤ py % 32) := by omega
      simp [hm, hy]
  · have ex : px / 32 = 11 := by omega
    have e : 33 * 18 + 11 = 605 := by norm_num
    rw [ex, e, d11]
    simp [hx]

/-- A cell of the player collision map of the shipped level whose 13x17 box lies in the
rows of tile row 33 and the columns 351 to 383 and does not hold the pixel `(351, 1087)`
is not solid. -/
theorem ramp_cell_free (r c : Int) (hr : 1056 ≤ r) (hr2 : r ≤ 1071) (hc : 351 ≤ c)
    (hc2 : c ≤ 371) (h : r ≤ 1070 ∨ 352 ≤ c) :
    closed_player_map k_game_world_design r c = false := by
  rw [closed_player_map, Bool.and_eq_false_imp]
  intro _
  simp only [box_solid, List.any_eq_false, List.mem_range, Bool.not_eq_true]
  intro i hi j hj
  rw [ramp_tiles _ _ (by omega) (by omega) (by omega) (by omega), decide_eq_false_iff_not]
  omega

/-- A cell of row 1072 of the player collision map of the shipped level is solid: its box
reaches the bottom frame of the world. -/
theorem ramp_floor (c : Int) (hc : 0 ≤ c) (hc2 : c < 564) :
    closed_player_map k_game_world_design 1072 c = true := by
  have hw : (k_player_collision_map_width : Int) = 564 := by decide
  have hh : (k_player_collision_map_height : Int) = 1104 := by decide
  rw [closed_player_map, hw, hh, Bool.and_eq_true, decide_eq_true_eq]
  refine ⟨⟨by norm_num, by norm_num, hc, hc2⟩, ?_⟩
  simp only [box_solid, List.any_eq_true, List.mem_range]
  refine ⟨16, by norm_num, 0, by norm_num, ?_⟩
  have e : (1072 : Int).toNat + 16 = 1088 := by decide
  rw [tile_solid, e]
  have e2 : 1088 / 32 = 34 := by norm_num
  simp only [e2, or_true, decide_True, Bool.true_or, Bool.and_true, decide_eq_true_eq]
  omega

/-- The cell `(351, 1071)` of the player collision map of the shipped level is solid: its
box holds the foot of the ramp, pixel `(351, 1087)`. -/
theorem ramp_foot : closed_player_map k_game_world_design 1071 351 = true := by
  have hw : (k_player_collision_map_width : Int) = 564 := by decide
  have hh : (k_player_collision_map_height : Int) = 1104 := by decide
  rw [closed_player_map, hw, hh, Bool.and_eq_true, decide_eq_true_eq]
  refine ⟨by norm_num, ?_⟩
  simp only [box_solid, List.any_eq_true, List.mem_range]
  refine ⟨16, by norm_num, 0, by norm_num, ?_⟩
  rw [ramp_tiles _ _ (by decide) (by decide) (by decide) (by decide)]
  decide

/-- The loop of `collision_sweep_test` for `ramp_player` on a map with the eleven cells
read by the sweep as on the shipped level: eight free cells on the way down, then the
solid cell `(354, 1072)` with solid neighbours to the left and to the right. -/
theorem ramp_trace (m : CollisionMap)
    (f1 : m 1067 351 = false) (f2 : m 1067 352 = false) (f3 : m 1068 352 = false)
    (f4 : m 1069 352 = false) (f5 : m 1069 353 = false) (f6 : m 1070 353 = false)
    (f7 : m 1071 353 = false) (f8 : m 1071 354 = false)
    (t1 : m 1072 354 = true) (t2 : m 1072 353 = true) (t3 : m 1072 355 = true) :
    sweep_final m ramp_player =
      { pl := { ramp_player with vel := ⟨⟨0⟩, ⟨0⟩⟩, flying := false }
        diff_x := 3
        diff_y := 6
        step_x := 1
        step_y := 1
        collide_x := false
        collide_y := true
        x := 354
        y := 1071
        ix := 3
        iy := 6
        stopped := true
        reads := [(1072, 355), (1072, 353), (1072, 354), (1071, 354), (1071, 353),
          (1070, 353), (1069, 353), (1069, 352), (1068, 352), (1067, 352), (1067, 351)] } := by
  have h0 : sweep_init ramp_player =
      { pl := ramp_player, diff_x := 3, diff_y := 6, step_x := 1, step_y := 1,
        collide_x := false, collide_y := false, x := 351, y := 1066, ix := 0, iy := 0,
        stopped := false, reads := [] } := by decide
  have hd : toU16 (sweep_init ramp_player).diff_x + toU16 (sweep_init ramp_player).diff_y =
      9 := by decide
  rw [sweep_final, hd, h0]
  simp +decide [sweep_loop, sweep_iter, sweep.running, sweep.wants_x, sweep_step_x, sweep_step_y,
    sweep_land, sweep_slide, sweep_flat_landing, sweep.read, sweep.set_vel_x, sweep.set_vel_y,
    sweep.set_flying, sweep.set_sliding, toU16, toI16, ramp_player,
    f1, f2, f3, f4, f5, f6, f7, f8, t1, t2, t3]

/-- The loop of `collision_sweep_test` for `ramp_player` on the shipped level:
it ends on the pixel `(354, 1071)` by a flat landing, no x-collision recorded. -/
theorem ramp_sweep_final :
    sweep_final (closed_player_map k_game_world_design) ramp_player =
      { pl := { ramp_player with vel := ⟨⟨0⟩, ⟨0⟩⟩, flying := false }
        diff_x := 3
        diff_y := 6
        step_x := 1
        step_y := 1
        collide_x := false
        collide_y := true
        x := 354
        y := 1071
        ix := 3
        iy := 6
        stopped := true
        reads := [(1072, 355), (1072, 353), (1072, 354), (1071, 354), (1071, 353),
          (1070, 353), (1069, 353), (1069, 352), (1068, 352), (1067, 352), (1067, 351)] } :=
  ramp_trace _
    (ramp_cell_free 1067 351 (by norm_num) (by norm_num) (by norm_num) (by norm_num)
      (Or.inl (by norm_num)))
    (ramp_cell_free 1067 352 (by norm_num) (by norm_num) (by norm_num) (by norm_num)
      (Or.inl (by norm_num)))
    (ramp_cell_free 1068 352 (by norm_num) (by norm_num) (by norm_num) (by norm_num)
      (Or.inl (by norm_num)))
    (ramp_cell_free 1069 352 (by norm_num) (by norm_num) (by norm_num) (by norm_num)
      (Or.inl (by norm_num)))
    (ramp_cell_free 1069 353 (by norm_num) (by norm_num) (by norm_num) (by norm_num)
      (Or.inl (by norm_num)))
    (ramp_cell_free 1070 353 (by norm_num) (by norm_num) (by norm_num) (by norm_num)
      (Or.inl (by norm_num)))
    (ramp_cell_free 1071 353 (by norm_num) (by norm_num) (by norm_num) (by norm_num)
      (Or.inr (by norm_num)))
    (ramp_cell_free 1071 354 (by norm_num) (by norm_num) (by norm_num) (by norm_num)
      (Or.inr (by norm_num)))
    (ramp_floor 354 (by norm_num) (by norm_num))
    (ramp_floor 353 (by norm_num) (by norm_num))
    (ramp_floor 355 (by norm_num) (by norm_num))

/-- C2 (the code at the failing input): on the player collision map of the shipped level,
the flying player `ramp_player` stands on the non-solid pixel `(351, 1066)`; the sweep
walks to the non-solid pixel `(354, 1071)` and lands flat there without an x-collision,
and the position committed by `collision_sweep_test` has the pixel `(351, 1071)`, which
is a solid cell of the map. -/
theorem sweep_commits_solid_pixel :
    ifloor ramp_player.pos.x = 351 ∧ ifloor ramp_player.pos.y = 1066 ∧
    g_player_collision_map.toCollisionMap 1066 351 = false ∧
    (sweep_final g_player_collision_map.toCollisionMap ramp_player).x = 354 ∧
    (sweep_final g_player_collision_map.toCollisionMap ramp_player).y = 1071 ∧
    (sweep_final g_player_collision_map.toCollisionMap ramp_player).collide_x = false ∧
    (sweep_final g_player_collision_map.toCollisionMap ramp_player).stopped = true ∧
    g_player_collision_map.toCollisionMap 1071 354 = false ∧
    ifloor (collision_sweep_test g_player_collision_map.toCollisionMap ramp_player).pos.x = 351 ∧
    ifloor (collision_sweep_test g_player_collision_map.toCollisionMap ramp_player).pos.y = 1071 ∧
    g_player_collision_map.toCollisionMap 1071 351 = true := by
  have hc : collision_sweep_test (closed_player_map k_game_world_design) ramp_player =
      sweep_commit (sweep_final (closed_player_map k_game_world_design) ramp_player) := by
    rw [collision_sweep_test, if_neg (by decide)]
  rw [shipped_map_eq_closed, hc, ramp_sweep_final]
  refine ⟨by decide, by decide,
    ramp_cell_free 1066 351 (by norm_num) (by norm_num) (by norm_num) (by norm_num)
      (Or.inl (by norm_num)),
    rfl, rfl, rfl, rfl,
    ramp_cell_free 1071 354 (by norm_num) (by norm_num) (by norm_num) (by norm_num)
      (Or.inr (by norm_num)),
    by decide, by decide, ramp_foot⟩

/-! ## Fixed-point round trips -/

/-- C11: for every 16-bit signed integer `n`, `ifloor(fixed16_16{n}) == n`. -/
theorem ifloor_ofI16 (n : Int) (h1 : -32768 ≤ n) (h2 : n ≤ 32767) :
    ifloor (fixed16_16.ofI16 n) = n := by
  rw [ofI16_of_small n h1 h2, ifloor, toI16]
  simp only []
  omega

theorem ifloor_ofI16_witness :
    (-32768 : Int) ≤ -32768 ∧ (-32768 : Int) ≤ 32767 ∧
      ifloor (fixed16_16.ofI16 (-32768)) = -32768 :=
  ⟨by decide, by decide, ifloor_ofI16 (-32768) (by decide) (by decide)⟩

theorem land_floor_mask (n : Nat) (h : n < 4294967296) :
    n &&& floor_mask = n / 65536 * 65536 := by
  have hfm : floor_mask = 2 ^ 16 * (2 ^ 16 - 1) := by decide
  apply Nat.eq_of_testBit_eq
  intro i
  have hd : n / 65536 * 65536 = 2 ^ 16 * (n >>> 16) := by
    rw [Nat.shiftRight_eq_div_pow]; norm_num [Nat.mul_comm]
  rw [Nat.testBit_and, hfm, hd, Nat.testBit_mul_pow_two, Nat.testBit_mul_pow_two,
    Nat.testBit_two_pow_sub_one, Nat.testBit_shiftRight]
  by_cases h16 : 16 ≤ i
  · have e : 16 + (i - 16) = i := by omega
    simp only [h16, decide_True, Bool.true_and, e, ge_iff_le]
    by_cases h32 : i < 32
    · have : i - 16 < 16 := by omega
      simp [this]
    · have hlt : n < 2 ^ i := lt_of_lt_of_le h (by
        calc (4294967296 : Nat) = 2 ^ 32 := by norm_num
          _ ≤ 2 ^ i := Nat.pow_le_pow_right (by norm_num) (by omega))
      simp [Nat.testBit_lt_two_pow hlt]
  · simp [h16]

theorem floor_raw (x : fixed16_16) (h1 : -2147483648 ≤ x.raw) (h2 : x.raw ≤ 2147483647) :
    x.floor.raw = x.raw / 65536 * 65536 := by
  have hu : toU32 x.raw < 4294967296 := by rw [toU32]; omega
  rw [fixed16_16.floor, land_floor_mask _ hu]
  simp only [toU32, wrap32]
  push_cast
  omega

/-- C12: for every `fixed16_16` value `x` with a 32-bit raw value,
`floor(x) + fract(x) == x`; the 16 fractional bits of `floor(x)` are clear and the raw
value of `fract(x)` lies in `[0, 65536)`. -/
theorem floor_add_fract (x : fixed16_16) (h1 : -2147483648 ≤ x.raw) (h2 : x.raw ≤ 2147483647) :
    x.floor.add x.fract = x ∧ x.floor.raw % 65536 = 0 ∧
    0 ≤ x.fract.raw ∧ x.fract.raw < 65536 := by
  have hf := floor_raw x h1 h2
  have hfr : x.fract.raw = x.raw % 65536 := by
    rw [fixed16_16.fract, fixed16_16.sub, hf]
    simp only [wrap32]
    omega
  refine ⟨?_, ?_, ?_, ?_⟩
  · rw [fixed16_16.add, hfr, hf]
    cases x with
    | mk raw =>
      simp only [fixed16_16.mk.injEq, wrap32] at *
      omega
  · rw [hf]; omega
  · rw [hfr]; omega
  · rw [hfr]; omega

theorem floor_add_fract_witness :
    (-2147483648 : Int) ≤ -98305 ∧ (-98305 : Int) ≤ 2147483647 ∧
    (fixed16_16.mk (-98305)).floor.add (fixed16_16.mk (-98305)).fract = ⟨-98305⟩ ∧
    (fixed16_16.mk (-98305)).floor.raw % 65536 = 0 ∧
    0 ≤ (fixed16_16.mk (-98305)).fract.raw ∧ (fixed16_16.mk (-98305)).fract.raw < 65536 :=
  ⟨by decide, by decide, floor_add_fract ⟨-98305⟩ (by decide) (by decide)⟩

/-! ## The square root -/

theorem bit_scan_reverse_from_spec (i v : Nat) (h0 : 0 < v) (hi : v < 2 ^ i) :
    2 ^ bit_scan_reverse_from i v ≤ v ∧ v < 2 ^ (bit_scan_reverse_from i v + 1) ∧
    bit_scan_reverse_from i v < i := by
  induction i with
  | zero => simp at hi; omega
  | succ i ih =>
    rw [bit_scan_reverse_from]
    by_cases hb : v.testBit i = true
    · rw [if_pos hb]
      exact ⟨Nat.testBit_implies_ge hb, hi, Nat.lt_succ_self i⟩
    · rw [if_neg hb]
      have hlt : v < 2 ^ i := by
        by_contra hge
        apply hb
        rw [Nat.testBit_to_div_mod, decide_eq_true_eq]
        have h1 : v / 2 ^ i < 2 := by
          rw [Nat.div_lt_iff_lt_mul (Nat.two_pow_pos i)]
          rw [Nat.pow_succ] at hi
          omega
        have h2 : 1 ≤ v / 2 ^ i := by
          rw [Nat.le_div_iff_mul_le (Nat.two_pow_pos i)]
          omega
        omega
      obtain ⟨a, b, c⟩ := ih hlt
      exact ⟨a, b, by omega⟩

/-- The bit index found by `_BitScanReverse` is determined by the binade of the mask. -/
theorem bit_scan_reverse_eq (k v : Nat) (h1 : 2 ^ k ≤ v) (h2 : v < 2 ^ (k + 1)) (hk : k < 32) :
    bit_scan_reverse v = k := by
  have h0 : 0 < v := lt_of_lt_of_le (Nat.two_pow_pos k) h1
  have h32 : v < 2 ^ 32 :=
    lt_of_lt_of_le h2 (Nat.pow_le_pow_right (by norm_num) (by omega))
  obtain ⟨a, b, _⟩ := bit_scan_reverse_from_spec 32 v h0 h32
  rw [bit_scan_reverse]
  generalize bit_scan_reverse_from 32 v = m at a b
  have e1 : m < k + 1 := (Nat.pow_lt_pow_iff_right (by norm_num : 1 < 2)).1 (lt_of_le_of_lt a h2)
  have e2 : k < m + 1 := (Nat.pow_lt_pow_iff_right (by norm_num : 1 < 2)).1 (lt_of_le_of_lt h1 b)
  omega

theorem sqrt_newton_lt (e v : Nat) : sqrt_newton e v < 2147483648 := by
  simp only [sqrt_newton, sqrt_step, Nat.shiftRight_eq_div_pow]
  omega

theorem sqrt_eq_newton (k v : Nat) (h1 : 2 ^ k ≤ v) (h2 : v < 2 ^ (k + 1)) (hk : k < 32) :
    fixed16_16.sqrt v = ⟨wrap32 (sqrt_newton ((k + 1) >>> 1) v : Nat)⟩ := by
  have h0 : v ≠ 0 := Nat.pos_iff_ne_zero.1 (lt_of_lt_of_le (Nat.two_pow_pos k) h1)
  rw [fixed16_16.sqrt, if_neg h0]
  simp only [bit_scan_reverse_eq k v h1 h2 hk]
  have : (k + 1) % 4294967296 = k + 1 := by omega
  rw [this]

theorem all_from_spec (P : Nat → Bool) (lo n : Nat) (h : all_from P lo n = true) (v : Nat)
    (h1 : lo ≤ v) (h2 : v < lo + n) : P v = true := by
  induction n with
  | zero => omega
  | succ n ih =>
    rw [all_from, Bool.and_eq_true] at h
    by_cases hv : v = lo + n
    · rw [hv]; exact h.1
    · exact ih h.2 (by omega)

theorem div_sum_lt (x y c B : Nat) (hc : 0 < c) (hx : c * 65536 ≤ x) (hB : x + y / c < B) :
    x + y / (x / 65536) < B := by
  have hd : c ≤ x / 65536 := by omega
  have h2 : y / (x / 65536) ≤ y / c := Nat.div_le_div_left hd hc
  omega

theorem sqrt_steps_defined (k v : Nat) (hk : k < 16) (h1 : 2 ^ k ≤ v) (h2 : v < 2 ^ (k + 1)) :
    v <<< 16 < 4294967296 ∧
    (1 <<< ((k + 1) >>> 1)) <<< 16 < 4294967296 ∧
    1 ≤ sqrt_guess ((k + 1) >>> 1) >>> 16 ∧
    sqrt_guess ((k + 1) >>> 1) +
      ((v <<< 16) % 4294967296) / (sqrt_guess ((k + 1) >>> 1) >>> 16) < 4294967296 ∧
    1 ≤ sqrt_step ((v <<< 16) % 4294967296) (sqrt_guess ((k + 1) >>> 1)) >>> 16 ∧
    sqrt_step ((v <<< 16) % 4294967296) (sqrt_guess ((k + 1) >>> 1)) +
      ((v <<< 16) % 4294967296) /
        (sqrt_step ((v <<< 16) % 4294967296) (sqrt_guess ((k + 1) >>> 1)) >>> 16) <
      4294967296 := by
  refine ⟨?_, ?_, ?_, ?_, ?_, ?_⟩ <;> interval_cases k <;>
    simp only [sqrt_guess, sqrt_step, Nat.shiftLeft_eq, Nat.shiftRight_eq_div_pow] <;>
    (try norm_num at h1 h2 ⊢) <;>
    first
    | omega
    | exact div_sum_lt _ _ 1 _ (by norm_num) (by omega) (by omega)
    | exact div_sum_lt _ _ 2 _ (by norm_num) (by omega) (by omega)


/-- One Newton-Raphson step with truncated divisions does not fall more than one unit
below the square root: with `d ≤ x / c` the divisor, `q = y / d` and `r = (x + q) / 2`,
`y * c < (r + 1) ^ 2`. -/
theorem newton_step_bound (x d q y r c : Nat) (hc : 0 < c) (hd : d * c ≤ x)
    (hq : y < (q + 1) * d) (hr : x + q ≤ 2 * r + 1) : y * c < (r + 1) ^ 2 := by
  have h1 : y * c < (q + 1) * d * c := Nat.mul_lt_mul_of_pos_right hq hc
  have h2 : (q + 1) * d * c ≤ (q + 1) * x := by
    rw [mul_assoc]; exact Nat.mul_le_mul_left _ hd
  have h3 : 4 * ((q + 1) * x) ≤ (x + q + 1) ^ 2 := by
    have hi : (4 * (((q : Int) + 1) * x) : Int) ≤ ((x : Int) + q + 1) ^ 2 := by
      nlinarith [sq_nonneg ((x : Int) - (q + 1))]
    exact_mod_cast hi
  have h4 : (x + q + 1) ^ 2 ≤ (2 * (r + 1)) ^ 2 := Nat.pow_le_pow_left (by omega) 2
  have h5 : (2 * (r + 1)) ^ 2 = 4 * (r + 1) ^ 2 := by ring
  linarith

/-- For an input in `1 .. 65535` whose most significant bit is bit `k`, the result of
`sqrt` is the second Newton iterate computed without any modular reduction. -/
theorem sqrt_raw_exact (k v : Nat) (hk : k < 16) (h1 : 2 ^ k ≤ v) (h2 : v < 2 ^ (k + 1)) :
    sqrt_exponent v = (k + 1) >>> 1 ∧
    ((fixed16_16.sqrt v).raw : Int) =
      (((sqrt_step (v * 65536) (sqrt_guess ((k + 1) >>> 1)) +
        v * 65536 / (sqrt_step (v * 65536) (sqrt_guess ((k + 1) >>> 1)) / 65536)) / 2 : Nat) :
        Int) := by
  obtain ⟨a1, _, _, _, _, a6⟩ := sqrt_steps_defined k v hk h1 h2
  have hy : (v <<< 16) % 4294967296 = v * 65536 := by
    rw [Nat.shiftLeft_eq] at a1 ⊢
    norm_num at a1 ⊢
    omega
  rw [hy] at a6
  have he : sqrt_exponent v = (k + 1) >>> 1 := by
    rw [sqrt_exponent, bit_scan_reverse_eq k v h1 h2 (by omega)]
    have : (k + 1) % 4294967296 = k + 1 := by omega
    rw [this]
  refine ⟨he, ?_⟩
  rw [sqrt_eq_newton k v h1 h2 (by omega)]
  have hlt := sqrt_newton_lt ((k + 1) >>> 1) v
  have hn : sqrt_newton ((k + 1) >>> 1) v =
      (sqrt_step (v * 65536) (sqrt_guess ((k + 1) >>> 1)) +
        v * 65536 / (sqrt_step (v * 65536) (sqrt_guess ((k + 1) >>> 1)) / 65536)) / 2 := by
    simp only [sqrt_newton, hy]
    generalize sqrt_step (v * 65536) (sqrt_guess ((k + 1) >>> 1)) = x1 at a6 ⊢
    simp only [sqrt_step, Nat.shiftRight_eq_div_pow, Nat.reducePow, pow_one] at a6 ⊢
    rw [Nat.mod_eq_of_lt a6]
  rw [← hn]
  simp only [wrap32]
  omega

/-! The facts about `sqrt` that bound the result from above are checked on blocks of
inputs with the same divisor in the second Newton step, where the result is monotone; the
bound from below is the inequality of the arithmetic and the geometric mean, except for
the inputs from 59392 on, which are checked one by one in six parts. -/

theorem sqrt_x1_mono (x0 d0 a b : Nat) (h : a ≤ b) : sqrt_x1 x0 d0 a ≤ sqrt_x1 x0 d0 b := by
  rw [sqrt_x1, sqrt_x1]
  exact Nat.div_le_div_right (Nat.add_le_add_left
    (Nat.div_le_div_right (Nat.mul_le_mul_right _ h)) _)

/-- On a block that passes the check, every input satisfies the three upper bounds. -/
theorem sqrt_block (x0 d0 lo hi v : Nat) (h : sqrt_block_ok x0 d0 lo hi = true)
    (h1 : lo ≤ v) (h2 : v ≤ hi) :
    sqrt_r x0 d0 v ≤ 16809920 ∧
    192 * (sqrt_r x0 d0 v * sqrt_r x0 d0 v / 65536) ≤ 361 * (v * 65536) ∧
    (v ≤ 65364 → sqrt_r x0 d0 v * sqrt_r x0 d0 v ≤ 65535 * 4294967296) := by
  simp only [sqrt_block_ok, Bool.and_eq_true, Bool.or_eq_true, Nat.beq_eq, Nat.ble_eq] at h
  obtain ⟨c1, c2, c3, c4⟩ := h
  have m1 := sqrt_x1_mono x0 d0 lo v h1
  have m2 := sqrt_x1_mono x0 d0 v hi h2
  have d1 : sqrt_x1 x0 d0 v / 65536 = sqrt_x1 x0 d0 hi / 65536 := by
    apply le_antisymm (Nat.div_le_div_right m2)
    rw [← c1]
    exact Nat.div_le_div_right m1
  have hr : sqrt_r x0 d0 v ≤ sqrt_r x0 d0 hi := by
    rw [sqrt_r, sqrt_r, d1]
    exact Nat.div_le_div_right (Nat.add_le_add m2
      (Nat.div_le_div_right (Nat.mul_le_mul_right _ h2)))
  have hq : sqrt_r x0 d0 v * sqrt_r x0 d0 v ≤ sqrt_r x0 d0 hi * sqrt_r x0 d0 hi :=
    Nat.mul_le_mul hr hr
  have hs : sqrt_r x0 d0 v * sqrt_r x0 d0 v / 65536 ≤
      sqrt_r x0 d0 hi * sqrt_r x0 d0 hi / 65536 := Nat.div_le_div_right hq
  refine ⟨le_trans hr c2, by omega, fun hv => ?_⟩
  rcases c4 with c4 | c4
  · omega
  · omega

/-- On a sequence of blocks that pass the check, every input satisfies the three upper
bounds. -/
theorem sqrt_blocks (x0 d0 len lo n v : Nat) (h : sqrt_blocks_ok x0 d0 len lo n = true)
    (hlen : 0 < len) (h1 : lo ≤ v) (h2 : v < lo + n * len) :
    sqrt_r x0 d0 v ≤ 16809920 ∧
    192 * (sqrt_r x0 d0 v * sqrt_r x0 d0 v / 65536) ≤ 361 * (v * 65536) ∧
    (v ≤ 65364 → sqrt_r x0 d0 v * sqrt_r x0 d0 v ≤ 65535 * 4294967296) := by
  have e := Nat.div_add_mod (v - lo) len
  have hm := Nat.mod_lt (v - lo) hlen
  have hj : (v - lo) / len < n := by
    rw [Nat.div_lt_iff_lt_mul hlen]
    omega
  have hb := all_from_spec _ 0 n h ((v - lo) / len) (Nat.zero_le _) (by omega)
  rw [Nat.mul_comm] at e
  exact sqrt_block x0 d0 _ _ v hb (by omega) (by omega)

set_option maxRecDepth 1000000 in
theorem sqrt_bands_checked : (List.range 16).all sqrt_band_ok = true := by
  decide!

theorem sqrt_last_checked : sqrt_last_ok = true := by
  decide!

set_option maxRecDepth 1000000 in
theorem sqrt_near_checked_0 : all_from sqrt_near_ok 59392 1024 = true := by
  decide!

set_option maxRecDepth 1000000 in
theorem sqrt_near_checked_1 : all_from sqrt_near_ok 60416 1024 = true := by
  decide!

set_option maxRecDepth 1000000 in
theorem sqrt_near_checked_2 : all_from sqrt_near_ok 61440 1024 = true := by
  decide!

set_option maxRecDepth 1000000 in
theorem sqrt_near_checked_3 : all_from sqrt_near_ok 62464 1024 = true := by
  decide!

set_option maxRecDepth 1000000 in
theorem sqrt_near_checked_4 : all_from sqrt_near_ok 63488 1024 = true := by
  decide!

set_option maxRecDepth 1000000 in
theorem sqrt_near_checked_5 : all_from sqrt_near_ok 64512 1024 = true := by
  decide!

/-- For an input in `1 .. 65535` whose most significant bit is bit `k`, the result of
`sqrt` is the second Newton iterate `sqrt_r` for the guess of exponent `(k + 1) >> 1`. -/
theorem sqrt_raw_r (k v : Nat) (hk : k < 16) (h1 : 2 ^ k ≤ v) (h2 : v < 2 ^ (k + 1)) :
    ((fixed16_16.sqrt v).raw : Int) =
      ((sqrt_r (sqrt_guess ((k + 1) >>> 1)) (sqrt_guess ((k + 1) >>> 1) >>> 16) v : Nat) :
        Int) := by
  obtain ⟨a1, _, _, a4, _, _⟩ := sqrt_steps_defined k v hk h1 h2
  obtain ⟨_, hraw⟩ := sqrt_raw_exact k v hk h1 h2
  have hy : (v <<< 16) % 4294967296 = v * 65536 := by
    rw [Nat.shiftLeft_eq] at a1 ⊢
    norm_num at a1 ⊢
    omega
  rw [hy] at a4
  have hx : sqrt_step (v * 65536) (sqrt_guess ((k + 1) >>> 1)) =
      sqrt_x1 (sqrt_guess ((k + 1) >>> 1)) (sqrt_guess ((k + 1) >>> 1) >>> 16) v := by
    rw [sqrt_step, Nat.mod_eq_of_lt a4, Nat.shiftRight_eq_div_pow _ 1, sqrt_x1, pow_one]
  rw [hraw, hx, sqrt_r]

/-- The second Newton iterate is not more than one raw unit below the true root. -/
theorem sqrt_r_above (k v : Nat) (hk : k < 16) (h1 : 2 ^ k ≤ v) (h2 : v < 2 ^ (k + 1)) :
    v * 4294967296 <
      (sqrt_r (sqrt_guess ((k + 1) >>> 1)) (sqrt_guess ((k + 1) >>> 1) >>> 16) v + 1) ^ 2 := by
  obtain ⟨a1, _, _, a4, a5, _⟩ := sqrt_steps_defined k v hk h1 h2
  have hy : (v <<< 16) % 4294967296 = v * 65536 := by
    rw [Nat.shiftLeft_eq] at a1 ⊢
    norm_num at a1 ⊢
    omega
  rw [hy] at a4 a5
  have hx : sqrt_step (v * 65536) (sqrt_guess ((k + 1) >>> 1)) =
      sqrt_x1 (sqrt_guess ((k + 1) >>> 1)) (sqrt_guess ((k + 1) >>> 1) >>> 16) v := by
    rw [sqrt_step, Nat.mod_eq_of_lt a4, Nat.shiftRight_eq_div_pow _ 1, sqrt_x1, pow_one]
  rw [hx, Nat.shiftRight_eq_div_pow] at a5
  norm_num at a5
  rw [sqrt_r]
  generalize sqrt_x1 (sqrt_guess ((k + 1) >>> 1)) (sqrt_guess ((k + 1) >>> 1) >>> 16) v = x
    at a5 ⊢
  have hd : 0 < x / 65536 := by omega
  have hq : v * 65536 < (v * 65536 / (x / 65536) + 1) * (x / 65536) := by
    have hlt := Nat.lt_mul_div_succ (v * 65536) hd
    rw [Nat.mul_comm (x / 65536)] at hlt
    exact hlt
  generalize v * 65536 / (x / 65536) = q at hq ⊢
  have hb := newton_step_bound x (x / 65536) q (v * 65536) ((x + q) / 2) 65536
    (by norm_num) (Nat.div_mul_le_self x 65536) hq (by omega)
  omega

/-- The three upper bounds, for every input in `1 .. 65535`. -/
theorem sqrt_r_upper (k v : Nat) (hk : k < 16) (h1 : 2 ^ k ≤ v) (h2 : v < 2 ^ (k + 1)) :
    sqrt_r (sqrt_guess ((k + 1) >>> 1)) (sqrt_guess ((k + 1) >>> 1) >>> 16) v ≤ 16809920 ∧
    192 * (sqrt_r (sqrt_guess ((k + 1) >>> 1)) (sqrt_guess ((k + 1) >>> 1) >>> 16) v *
      sqrt_r (sqrt_guess ((k + 1) >>> 1)) (sqrt_guess ((k + 1) >>> 1) >>> 16) v / 65536) ≤
      361 * (v * 65536) ∧
    (v ≤ 65364 →
      sqrt_r (sqrt_guess ((k + 1) >>> 1)) (sqrt_guess ((k + 1) >>> 1) >>> 16) v *
        sqrt_r (sqrt_guess ((k + 1) >>> 1)) (sqrt_guess ((k + 1) >>> 1) >>> 16) v ≤
        65535 * 4294967296) := by
  have hall := sqrt_bands_checked
  rw [List.all_eq_true] at hall
  have hband := hall k (List.mem_range.2 hk)
  rw [sqrt_band_ok] at hband
  by_cases hv : v < 2 ^ k + sqrt_block_count k * sqrt_block_len k
  · refine sqrt_blocks _ _ _ _ _ v hband ?_ h1 hv
    rw [sqrt_block_len]
    split_ifs
    · exact Nat.one_pos
    · exact Nat.two_pow_pos _
  · have hk15 : k = 15 := by
      by_contra hne
      apply hv
      have hlen : sqrt_block_count k * sqrt_block_len k = 2 ^ k := by
        rw [sqrt_block_count, if_neg hne]
        interval_cases k <;> rfl
      rw [hlen]
      rw [Nat.pow_succ] at h2
      omega
    subst hk15
    have hlast := sqrt_last_checked
    rw [sqrt_last_ok, Bool.and_eq_true] at hlast
    have hg : sqrt_guess ((15 + 1) >>> 1) = 16777216 := by decide
    have hd : (16777216 : Nat) >>> 16 = 256 := by decide
    have hlo : ¬ v < 65024 := by
      intro hlt
      apply hv
      have : 2 ^ 15 + sqrt_block_count 15 * sqrt_block_len 15 = 65024 := by decide
      omega
    have hhi : v < 65536 := by
      have : 2 ^ (15 + 1) = 65536 := by norm_num
      omega
    rw [hg, hd]
    by_cases hs : v ≤ 65364
    · exact sqrt_block _ _ _ _ v hlast.1 (by omega) hs
    · exact sqrt_block _ _ _ _ v hlast.2 (by omega) (by omega)

/-- The fixed-point square of the second Newton iterate is not more than 488 raw units
below the input, for every input in `1 .. 65535`. -/
theorem sqrt_r_near (k v : Nat) (hk : k < 16) (h1 : 2 ^ k ≤ v) (h2 : v < 2 ^ (k + 1)) :
    v * 65536 ≤
      sqrt_r (sqrt_guess ((k + 1) >>> 1)) (sqrt_guess ((k + 1) >>> 1) >>> 16) v *
        sqrt_r (sqrt_guess ((k + 1) >>> 1)) (sqrt_guess ((k + 1) >>> 1) >>> 16) v / 65536 +
        488 := by
  by_cases hv : v < 59392
  · have hab := sqrt_r_above k v hk h1 h2
    generalize sqrt_r (sqrt_guess ((k + 1) >>> 1)) (sqrt_guess ((k + 1) >>> 1) >>> 16) v = r
      at hab ⊢
    have e : (r + 1) ^ 2 = r * r + 2 * r + 1 := by ring
    rw [e] at hab
    by_contra hc
    have hr : 15990785 ≤ r := by omega
    have hq : 15990785 * 15990785 ≤ r * r := Nat.mul_le_mul hr hr
    omega
  · have hk15 : k = 15 := by
      by_contra hne
      have : 2 ^ (k + 1) ≤ 2 ^ 15 := Nat.pow_le_pow_right (by norm_num) (by omega)
      norm_num at this
      omega
    subst hk15
    have hhi : v < 65536 := by
      have : 2 ^ (15 + 1) = 65536 := by norm_num
      omega
    have hg : sqrt_guess ((15 + 1) >>> 1) = 16777216 := by decide
    have hd : (16777216 : Nat) >>> 16 = 256 := by decide
    rw [hg, hd]
    have hn : sqrt_near_ok v = true := by
      by_cases c1 : v < 60416
      · exact all_from_spec _ _ _ sqrt_near_checked_0 v (by omega) (by omega)
      · by_cases c2 : v < 61440
        · exact all_from_spec _ _ _ sqrt_near_checked_1 v (by omega) (by omega)
        · by_cases c3 : v < 62464
          · exact all_from_spec _ _ _ sqrt_near_checked_2 v (by omega) (by omega)
          · by_cases c4 : v < 63488
            · exact all_from_spec _ _ _ sqrt_near_checked_3 v (by omega) (by omega)
            · by_cases c5 : v < 64512
              · exact all_from_spec _ _ _ sqrt_near_checked_4 v (by omega) (by omega)
              · exact all_from_spec _ _ _ sqrt_near_checked_5 v (by omega) (by omega)
    exact Nat.le_of_ble_eq_true hn

/-- The facts about `sqrt` on `1 .. 65535`: the result is the second Newton iterate `r`
itself (no wrap to a negative `i32`), `1 ≤ r ≤ 16809920`, `T ≤ S + 488` and
`192 * S ≤ 361 * T` for `S = r * r / 2^16` and `T = v * 2^16`, and
`r * r ≤ 65535 * 2^32` when `v ≤ 65364`. -/
theorem sqrt_facts (v : Nat) (h1 : 1 ≤ v) (h2 : v < 65536) :
    ∃ r : Nat, (fixed16_16.sqrt v).raw = (r : Int) ∧ 1 ≤ r ∧ r ≤ 16809920 ∧
      v * 65536 ≤ r * r / 65536 + 488 ∧ 192 * (r * r / 65536) ≤ 361 * (v * 65536) ∧
      (v ≤ 65364 → r * r ≤ 65535 * 4294967296) := by
  obtain ⟨a, b, hk⟩ := bit_scan_reverse_from_spec 16 v h1 (by norm_num; exact h2)
  generalize bit_scan_reverse_from 16 v = k at a b hk
  obtain ⟨u1, u2, u3⟩ := sqrt_r_upper k v hk a b
  have hab := sqrt_r_above k v hk a b
  refine ⟨_, sqrt_raw_r k v hk a b, ?_, u1, sqrt_r_near k v hk a b, u2, u3⟩
  generalize sqrt_r (sqrt_guess ((k + 1) >>> 1)) (sqrt_guess ((k + 1) >>> 1) >>> 16) v = r
    at hab
  rcases Nat.eq_zero_or_pos r with h0 | h0
  · rw [h0] at hab
    omega
  · exact h0

/-- Counterexample to C13: for the input value 2 the result of `sqrt` has raw value
114688 (1.75), whose fixed-point square `r.raw * r.raw / 2^16 = 200704` is 69632 raw
units above `2 << 16 = 131072`, not within 1. -/
theorem sqrt_two_square_off :
    (fixed16_16.sqrt 2).raw = 114688 ∧
    (fixed16_16.sqrt 2).raw * (fixed16_16.sqrt 2).raw / 65536 = 200704 ∧
    ¬ ((fixed16_16.sqrt 2).raw * (fixed16_16.sqrt 2).raw / 65536 ≤ 2 * 65536 + 1) := by
  decide

theorem sqrt_power_of_four (k : Nat) (hk : k ≤ 7) :
    (fixed16_16.sqrt (4 ^ k)).raw = 2 ^ k * 65536 := by
  interval_cases k <;> decide

/-- C13 (amended): for every 16-bit input value the result `r = fixed16_16::sqrt(value)`
is non-negative and its fixed-point square `S = r.raw * r.raw / 2^16` satisfies
`T - 488 ≤ S` and `192 * S ≤ 361 * T`, where `T = value << 16 = value * 2^16`; and
`S = T` when `value` is 0 or a power of four `4^k` with `k ≤ 7`. -/
theorem sqrt_square_bounds (value : Nat) (h : value < 65536) :
    0 ≤ (fixed16_16.sqrt value).raw ∧
    (value : Int) * 65536 - 488 ≤
      (fixed16_16.sqrt value).raw * (fixed16_16.sqrt value).raw / 65536 ∧
    192 * ((fixed16_16.sqrt value).raw * (fixed16_16.sqrt value).raw / 65536) ≤
      361 * ((value : Int) * 65536) ∧
    ((value = 0 ∨ ∃ k, k ≤ 7 ∧ value = 4 ^ k) →
      (fixed16_16.sqrt value).raw * (fixed16_16.sqrt value).raw / 65536 =
        (value : Int) * 65536) := by
  by_cases h0 : value = 0
  · subst h0
    decide
  · obtain ⟨r, hr, r1, r2, r3, r4, _⟩ := sqrt_facts value (by omega) h
    rw [hr]
    have r3i : (value : Int) * 65536 ≤ (r : Int) * r / 65536 + 488 := by exact_mod_cast r3
    have r4i : 192 * ((r : Int) * r / 65536) ≤ 361 * ((value : Int) * 65536) := by
      exact_mod_cast r4
    refine ⟨by omega, by omega, by omega, ?_⟩
    rintro (hz | ⟨k, hk, rfl⟩)
    · exact absurd hz h0
    · have hp := sqrt_power_of_four k hk
      rw [hr] at hp
      rw [hp]
      have e4 : ((4 ^ k : Nat) : Int) = 2 ^ k * 2 ^ k := by
        rw [← mul_pow]
        norm_num
      rw [e4]
      apply Int.ediv_eq_of_eq_mul_left (by norm_num)
      ring

theorem sqrt_square_bounds_witness :
    0 ≤ (fixed16_16.sqrt 3).raw ∧
    ((3 : Nat) : Int) * 65536 - 488 ≤
      (fixed16_16.sqrt 3).raw * (fixed16_16.sqrt 3).raw / 65536 ∧
    192 * ((fixed16_16.sqrt 3).raw * (fixed16_16.sqrt 3).raw / 65536) ≤
      361 * (((3 : Nat) : Int) * 65536) ∧
    (((3 : Nat) = 0 ∨ ∃ k, k ≤ 7 ∧ (3 : Nat) = 4 ^ k) →
      (fixed16_16.sqrt 3).raw * (fixed16_16.sqrt 3).raw / 65536 =
        ((3 : Nat) : Int) * 65536) :=
  sqrt_square_bounds 3 (by decide)

theorem sqrt_reference_eq (v : Nat) (e : Nat) (he : Nat.clog 2 v / 2 = e) (h32 : e < 32) :
    sqrt_reference v = sqrt_newton e v := by
  have h1 : (1 <<< e) % 4294967296 = 1 <<< e := by
    apply Nat.mod_eq_of_lt
    rw [Nat.one_shiftLeft]
    calc 2 ^ e < 2 ^ 32 := Nat.pow_lt_pow_right (by norm_num) h32
      _ = 4294967296 := by norm_num
  simp only [sqrt_reference, sqrt_newton, sqrt_step, sqrt_guess, he, h1]

theorem clog_of_between (k v : Nat) (h1 : 2 ^ k < v) (h2 : v < 2 ^ (k + 1)) :
    Nat.clog 2 v = k + 1 := by
  have a : Nat.clog 2 v ≤ k + 1 := (Nat.le_pow_iff_clog_le (by norm_num)).1 (le_of_lt h2)
  have b : ¬ Nat.clog 2 v ≤ k := fun hc =>
    absurd ((Nat.le_pow_iff_clog_le (by norm_num)).2 hc) (not_le.2 h1)
  omega

theorem sqrt_newton_power_of_two (k : Nat) (hk : k < 16) :
    sqrt_newton ((k + 1) >>> 1) (2 ^ k) = sqrt_newton (k / 2) (2 ^ k) := by
  interval_cases k <;> decide

/-- C14: `fixed16_16::sqrt(0)` is 0, and for every value in `1 .. 65535` the result
equals `sqrt_reference value`: two iterations of
`x <- (x + (value << 16) / (x >> 16)) >> 1` (unsigned 32-bit, truncating division)
started from the seed `(1 << (ceil(log2(value)) / 2)) << 16`. -/
theorem sqrt_refines_reference :
    fixed16_16.sqrt 0 = ⟨0⟩ ∧
    ∀ value : Nat, 1 ≤ value → value ≤ 65535 →
      (fixed16_16.sqrt value).raw = (sqrt_reference value : Int) := by
  refine ⟨by decide, fun v h1 h2 => ?_⟩
  obtain ⟨a, b, hk⟩ := bit_scan_reverse_from_spec 16 v h1 (by norm_num; omega)
  generalize bit_scan_reverse_from 16 v = k at a b hk
  have hn := sqrt_eq_newton k v a b (by omega)
  have hsh : (k + 1) >>> 1 = (k + 1) / 2 := by
    rw [Nat.shiftRight_eq_div_pow]
  have key : sqrt_reference v = sqrt_newton ((k + 1) >>> 1) v := by
    rcases Nat.eq_or_lt_of_le a with hv | hv
    · rw [← hv, sqrt_newton_power_of_two k hk]
      exact sqrt_reference_eq _ _ (by rw [Nat.clog_pow 2 k (by norm_num)]) (by omega)
    · exact sqrt_reference_eq _ _ (by rw [clog_of_between k v hv b, hsh]) (by omega)
  rw [key, hn]
  have hlt := sqrt_newton_lt ((k + 1) >>> 1) v
  simp only [wrap32]
  omega

theorem sqrt_refines_reference_witness :
    (fixed16_16.sqrt 2).raw = (sqrt_reference 2 : Int) :=
  sqrt_refines_reference.2 2 (by decide) (by decide)

/-! ## Distance field: generic loop facts -/

/-- A loop over the columns of row `y` whose body changes only the entry `(y, x)`. -/
theorem forLoop_row {α : Type} (body : Nat → (Nat → Nat → α) → Nat → Nat → α)
    (g : Nat → α → α) (y : Nat)
    (hb : ∀ x s r k, body x s r k = if r = y ∧ k = x then g x (s r k) else s r k)
    (n : Nat) (s : Nat → Nat → α) (r k : Nat) :
    forLoop body n 0 s r k = if r = y ∧ k < n then g k (s r k) else s r k := by
  induction n with
  | zero => simp [forLoop]
  | succ n ih =>
    rw [forLoop_succ, hb, ih, Nat.zero_add]
    by_cases h1 : r = y ∧ k = n
    · obtain ⟨rfl, rfl⟩ := h1
      simp
    · rw [if_neg h1]
      by_cases h2 : r = y ∧ k < n
      · rw [if_pos h2, if_pos ⟨h2.1, Nat.lt_succ_of_lt h2.2⟩]
      · rw [if_neg h2, if_neg]
        rintro ⟨a, b⟩
        rcases Nat.lt_succ_iff_lt_or_eq.1 b with b | b
        · exact h2 ⟨a, b⟩
        · exact h1 ⟨a, b⟩

/-- A loop over rows and columns whose body at `(y, x)` changes only the entry `(y, x)`. -/
theorem forLoop_grid {α : Type} (body : Nat → Nat → (Nat → Nat → α) → Nat → Nat → α)
    (g : Nat → Nat → α → α)
    (hb : ∀ y x s r k, body y x s r k = if r = y ∧ k = x then g y x (s r k) else s r k)
    (h w : Nat) (s : Nat → Nat → α) (r k : Nat) :
    forLoop (fun y s => forLoop (body y) w 0 s) h 0 s r k =
      if r < h ∧ k < w then g r k (s r k) else s r k := by
  induction h with
  | zero => simp [forLoop]
  | succ h ih =>
    rw [forLoop_succ]
    simp only [Nat.zero_add]
    rw [forLoop_row (body h) (g h) h (hb h) w, ih]
    by_cases h1 : r = h ∧ k < w
    · obtain ⟨rfl, hk⟩ := h1
      simp [hk]
    · rw [if_neg h1]
      by_cases h2 : r < h ∧ k < w
      · rw [if_pos h2, if_pos ⟨Nat.lt_succ_of_lt h2.1, h2.2⟩]
      · rw [if_neg h2, if_neg]
        rintro ⟨a, b⟩
        rcases Nat.lt_succ_iff_lt_or_eq.1 a with a | a
        · exact h2 ⟨a, b⟩
        · exact h1 ⟨a, b⟩

/-- A loop keeping the smallest of the values `g i` with `c i`, from `m0` on. -/
theorem forLoop_min (body : Nat → Nat → Nat) (c : Nat → Bool) (g : Nat → Nat)
    (hb : ∀ i m, body i m = if c i = true then (if g i < m then g i else m) else m)
    (n m0 : Nat) :
    forLoop body n 0 m0 ≤ m0 ∧
    (∀ i, i < n → c i = true → forLoop body n 0 m0 ≤ g i) ∧
    (forLoop body n 0 m0 = m0 ∨ ∃ i, i < n ∧ c i = true ∧ forLoop body n 0 m0 = g i) := by
  induction n with
  | zero => simp [forLoop]
  | succ n ih =>
    obtain ⟨a, b, d⟩ := ih
    rw [forLoop_succ, hb, Nat.zero_add]
    generalize forLoop body n 0 m0 = R at a b d
    by_cases hc : c n = true
    · rw [if_pos hc]
      by_cases hg : g n < R
      · rw [if_pos hg]
        refine ⟨by omega, fun i hi hci => ?_, Or.inr ⟨n, Nat.lt_succ_self n, hc, rfl⟩⟩
        rcases Nat.lt_succ_iff_lt_or_eq.1 hi with hi | hi
        · have := b i hi hci
          omega
        · rw [hi]
      · rw [if_neg hg]
        refine ⟨a, fun i hi hci => ?_, ?_⟩
        · rcases Nat.lt_succ_iff_lt_or_eq.1 hi with hi | hi
          · exact b i hi hci
          · rw [hi]; omega
        · rcases d with d | ⟨i, hi, hci, d⟩
          · exact Or.inl d
          · exact Or.inr ⟨i, Nat.lt_succ_of_lt hi, hci, d⟩
    · rw [if_neg hc]
      refine ⟨a, fun i hi hci => ?_, ?_⟩
      · rcases Nat.lt_succ_iff_lt_or_eq.1 hi with hi | hi
        · exact b i hi hci
        · rw [hi] at hci; exact absurd hci hc
      · rcases d with d | ⟨i, hi, hci, d⟩
        · exact Or.inl d
        · exact Or.inr ⟨i, Nat.lt_succ_of_lt hi, hci, d⟩

/-- A loop over rows and columns keeping the smallest of the values `g i j` with
`c i j`, from `m0` on. -/
theorem forLoop_min_grid (body : Nat → Nat → Nat → Nat) (c : Nat → Nat → Bool)
    (g : Nat → Nat → Nat)
    (hb : ∀ i j m, body i j m = if c i j = true then (if g i j < m then g i j else m) else m)
    (h w m0 : Nat) :
    forLoop (fun i m => forLoop (body i) w 0 m) h 0 m0 ≤ m0 ∧
    (∀ i j, i < h → j < w → c i j = true →
      forLoop (fun i m => forLoop (body i) w 0 m) h 0 m0 ≤ g i j) ∧
    (forLoop (fun i m => forLoop (body i) w 0 m) h 0 m0 = m0 ∨
      ∃ i j, i < h ∧ j < w ∧ c i j = true ∧
        forLoop (fun i m => forLoop (body i) w 0 m) h 0 m0 = g i j) := by
  induction h with
  | zero => simp [forLoop]
  | succ h ih =>
    obtain ⟨a, b, d⟩ := ih
    rw [forLoop_succ]
    simp only [Nat.zero_add]
    generalize forLoop (fun i m => forLoop (body i) w 0 m) h 0 m0 = R at a b d
    obtain ⟨a2, b2, d2⟩ := forLoop_min (body h) (c h) (g h) (hb h) w R
    generalize forLoop (body h) w 0 R = Q at a2 b2 d2
    refine ⟨by omega, fun i j hi hj hc => ?_, ?_⟩
    · rcases Nat.lt_succ_iff_lt_or_eq.1 hi with hi | hi
      · have := b i j hi hj hc
        omega
      · rw [hi] at hc ⊢
        exact b2 j hj hc
    · rcases d2 with d2 | ⟨j, hj, hc, d2⟩
      · rcases d with d | ⟨i, j, hi, hj, hc, d⟩
        · exact Or.inl (by omega)
        · exact Or.inr ⟨i, j, Nat.lt_succ_of_lt hi, hj, hc, by omega⟩
      · exact Or.inr ⟨h, j, Nat.lt_succ_self h, hj, hc, d2⟩

/-- The squared difference of two coordinates computed in `i32` and converted to `u32`
is the exact square. -/
theorem squared_difference (a b : Nat) (ha : a < 2048) (hb : b < 2048) :
    toU32 (wrap32 (wrap32 ((a : Int) - (b : Int)) * wrap32 ((a : Int) - (b : Int)))) =
      (((a : Int) - (b : Int)) ^ 2).toNat ∧
    (((a : Int) - (b : Int)) ^ 2).toNat < 4194304 := by
  have e1 : wrap32 ((a : Int) - (b : Int)) = (a : Int) - (b : Int) := by
    simp only [wrap32]; omega
  rw [e1, pow_two]
  have h1 : (0 : Int) ≤ ((a : Int) - b) * ((a : Int) - b) := mul_self_nonneg _
  have h2 : ((a : Int) - b) * ((a : Int) - b) < 4194304 := by
    have l1 : -2048 < (a : Int) - b := by omega
    have l2 : (a : Int) - b < 2048 := by omega
    nlinarith
  generalize ((a : Int) - b) * ((a : Int) - b) = q at h1 h2
  simp only [toU32, wrap32]
  omega

/-! ## Distance field: the two passes -/

theorem horizontal_pass_spec (world : Bitmap) (inverse : Bool) (s : Nat → Nat → Nat)
    (y x : Nat) :
    horizontal_pass world inverse s y x =
      if y < k_world_height ∧ x < k_world_width then
        (if (world y x != inverse) = true then 0 else sedt_row_min world inverse y x)
      else s y x := by
  rw [horizontal_pass]
  refine forLoop_grid
    (fun y x s => if (world y x != inverse) = true then grid_store s y x 0
      else grid_store s y x (sedt_row_min world inverse y x))
    (fun y x _ => if (world y x != inverse) = true then 0 else sedt_row_min world inverse y x)
    ?_ k_world_height k_world_width s y x
  intro y x s r k
  by_cases h1 : (world y x != inverse) = true
  · simp only [h1, if_true, grid_store]
  · simp only [h1, Bool.false_eq_true, if_false, grid_store]

theorem sedt_row_min_spec (world : Bitmap) (inverse : Bool) (y x : Nat)
    (hx : x < k_world_width) :
    sedt_row_min world inverse y x ≤ 331776 ∧
    (∀ j, j < k_world_width → (world y j != inverse) = true →
      sedt_row_min world inverse y x ≤ (((x : Int) - (j : Int)) ^ 2).toNat) ∧
    (sedt_row_min world inverse y x = 331776 ∨
      ∃ j, j < k_world_width ∧ (world y j != inverse) = true ∧
        sedt_row_min world inverse y x = (((x : Int) - (j : Int)) ^ 2).toNat) := by
  have hw : k_world_width = 576 := by decide
  have hm : (k_world_width * k_world_width) % 4294967296 = 331776 := by decide
  rw [sedt_row_min, hm]
  have key := forLoop_min
    (fun i min =>
      if (world y i != inverse) = true then
        let dx : Int := wrap32 ((x : Int) - (i : Int))
        let dx2 : Nat := toU32 (wrap32 (dx * dx))
        if dx2 < min then dx2 else min
      else min)
    (fun i => world y i != inverse)
    (fun i => toU32 (wrap32 (wrap32 ((x : Int) - (i : Int)) * wrap32 ((x : Int) - (i : Int)))))
    (fun i m => rfl) k_world_width 331776
  obtain ⟨a, b, d⟩ := key
  refine ⟨a, fun j hj hc => ?_, ?_⟩
  · rw [← (squared_difference x j (by omega) (by omega)).1]
    exact b j hj hc
  · rcases d with d | ⟨j, hj, hc, d⟩
    · exact Or.inl d
    · refine Or.inr ⟨j, hj, hc, ?_⟩
      rw [← (squared_difference x j (by omega) (by omega)).1]
      exact d

theorem sedt_col_min_spec (sedt_x : Nat → Nat → Nat) (y x : Nat) (hy : y < k_world_height)
    (hs : ∀ i, i < k_world_height → sedt_x i x ≤ 331776) :
    sedt_col_min sedt_x y x ≤ sedt_x y x ∧
    (∀ i, i < k_world_height →
      sedt_col_min sedt_x y x ≤ sedt_x i x + (((y : Int) - (i : Int)) ^ 2).toNat) ∧
    (sedt_col_min sedt_x y x = sedt_x y x ∨
      ∃ i, i < k_world_height ∧
        sedt_col_min sedt_x y x = sedt_x i x + (((y : Int) - (i : Int)) ^ 2).toNat) := by
  have hh : k_world_height = 1120 := by decide
  rw [sedt_col_min]
  have key := forLoop_min
    (fun i min =>
      let dy : Int := wrap32 ((y : Int) - (i : Int))
      let dx2 : Nat := sedt_x i x
      let hyp : Nat := (dx2 + toU32 (wrap32 (dy * dy))) % 4294967296
      if hyp < min then hyp else min)
    (fun _ => true)
    (fun i => (sedt_x i x +
      toU32 (wrap32 (wrap32 ((y : Int) - (i : Int)) * wrap32 ((y : Int) - (i : Int))))) %
        4294967296)
    (fun i m => by simp) k_world_height (sedt_x y x)
  obtain ⟨a, b, d⟩ := key
  have e : ∀ i, i < k_world_height →
      (sedt_x i x +
        toU32 (wrap32 (wrap32 ((y : Int) - (i : Int)) * wrap32 ((y : Int) - (i : Int))))) %
          4294967296 = sedt_x i x + (((y : Int) - (i : Int)) ^ 2).toNat := by
    intro i hi
    obtain ⟨e1, e2⟩ := squared_difference y i (by omega) (by omega)
    rw [e1]
    have := hs i hi
    omega
  refine ⟨a, fun i hi => ?_, ?_⟩
  · rw [← e i hi]
    exact b i hi rfl
  · rcases d with d | ⟨i, hi, _, d⟩
    · exact Or.inl d
    · refine Or.inr ⟨i, hi, ?_⟩
      rw [← e i hi]
      exact d

theorem vertical_pass_spec (inverse : Bool) (sedt_x : Nat → Nat → Nat)
    (f : Nat → Nat → fixed16_16) (y x : Nat) :
    vertical_pass inverse sedt_x f y x =
      if y < k_world_height ∧ x < k_world_width then
        (if sedt_x y x = 0 then f y x
         else if inverse = true then
           (fixed16_16.sqrt (toU16 ((if sedt_col_min sedt_x y x < 65535
              then sedt_col_min sedt_x y x else 65535 : Nat) : Int))).neg
         else fixed16_16.sqrt (toU16 ((if sedt_col_min sedt_x y x < 65535
              then sedt_col_min sedt_x y x else 65535 : Nat) : Int)))
      else f y x := by
  rw [vertical_pass]
  refine forLoop_grid
    (fun y x f =>
      if sedt_x y x = 0 then f
      else
        let min : Nat := sedt_col_min sedt_x y x
        let dist : fixed16_16 :=
          fixed16_16.sqrt (toU16 ((if min < 65535 then min else 65535 : Nat) : Int))
        grid_store f y x (if inverse then dist.neg else dist))
    (fun y x old =>
      if sedt_x y x = 0 then old
      else if inverse = true then
        (fixed16_16.sqrt (toU16 ((if sedt_col_min sedt_x y x < 65535
          then sedt_col_min sedt_x y x else 65535 : Nat) : Int))).neg
      else fixed16_16.sqrt (toU16 ((if sedt_col_min sedt_x y x < 65535
          then sedt_col_min sedt_x y x else 65535 : Nat) : Int)))
    ?_ k_world_height k_world_width f y x
  intro y x s r k
  by_cases h1 : sedt_x y x = 0
  · simp only [h1, if_true]
    split <;> rfl
  · simp only [h1, if_false, grid_store]

/-! ## Distance field: the two-pass minimum is the brute-force minimum -/

theorem is_capped_min_unique (world : Bitmap) (inverse : Bool) (x y c d : Nat)
    (hc : is_capped_min world inverse x y c) (hd : is_capped_min world inverse x y d) :
    c = d := by
  obtain ⟨c1, c2, c3⟩ := hc
  obtain ⟨d1, d2, d3⟩ := hd
  have h1 : c ≤ d := by
    rcases d3 with d3 | ⟨i, j, hi, hj, ho, d3⟩
    · omega
    · rw [d3]; exact c2 i j hi hj ho
  have h2 : d ≤ c := by
    rcases c3 with c3 | ⟨i, j, hi, hj, ho, c3⟩
    · omega
    · rw [c3]; exact d2 i j hi hj ho
  omega

theorem brute_force_min_spec (world : Bitmap) (inverse : Bool) (x y : Nat) :
    is_capped_min world inverse x y (brute_force_min world inverse x y) := by
  rw [brute_force_min]
  exact forLoop_min_grid
    (fun i j m => if (world i j != inverse) = true then Nat.min m (dist2 x y j i) else m)
    (fun i j => world i j != inverse) (fun i j => dist2 x y j i)
    (fun i j m => by
      by_cases h : (world i j != inverse) = true
      · simp only [h, if_true]
        by_cases h2 : dist2 x y j i < m
        · rw [if_pos h2]; exact Nat.min_eq_right (le_of_lt h2)
        · rw [if_neg h2]; exact Nat.min_eq_left (not_lt.1 h2)
      · simp only [h, Bool.false_eq_true, if_false])
    k_world_height k_world_width 65535

theorem dist2_eq (x y j i : Nat) :
    dist2 x y j i = (((x : Int) - (j : Int)) ^ 2).toNat + (((y : Int) - (i : Int)) ^ 2).toNat := by
  rw [dist2]
  exact Int.toNat_add (sq_nonneg _) (sq_nonneg _)

theorem sq_toNat_pos (a b : Nat) (h : a ≠ b) : 1 ≤ (((a : Int) - (b : Int)) ^ 2).toNat := by
  have h1 : (a : Int) - (b : Int) ≠ 0 := by omega
  have h2 : 0 < ((a : Int) - (b : Int)) ^ 2 := by positivity
  omega

theorem sq_toNat_self (a : Nat) : (((a : Int) - (a : Int)) ^ 2).toNat = 0 := by
  simp

/-- The value of `min` after the inner loop of the vertical pass, capped at 65535, is
the capped brute-force minimum, for a pixel `(x, y)` with `world[y][x] == inverse`; and
the horizontal pass stores a non-zero value for such a pixel. -/
theorem two_pass_min (world : Bitmap) (inverse : Bool) (s : Nat → Nat → Nat) (x y : Nat)
    (hx : x < k_world_width) (hy : y < k_world_height) (hq : world y x = inverse) :
    horizontal_pass world inverse s y x ≠ 0 ∧
    is_capped_min world inverse x y
      (if sedt_col_min (horizontal_pass world inverse s) y x < 65535
        then sedt_col_min (horizontal_pass world inverse s) y x else 65535) := by
  have hval : ∀ i, i < k_world_height → horizontal_pass world inverse s i x =
      if (world i x != inverse) = true then 0 else sedt_row_min world inverse i x := by
    intro i hi
    rw [horizontal_pass_spec, if_pos ⟨hi, hx⟩]
  have hs : ∀ i, i < k_world_height → horizontal_pass world inverse s i x ≤ 331776 := by
    intro i hi
    rw [hval i hi]
    split
    · omega
    · exact (sedt_row_min_spec world inverse i x hx).1
  have hle : ∀ i j, i < k_world_height → j < k_world_width → (world i j != inverse) = true →
      horizontal_pass world inverse s i x ≤ (((x : Int) - (j : Int)) ^ 2).toNat := by
    intro i j hi hj ho
    rw [hval i hi]
    split
    · omega
    · exact (sedt_row_min_spec world inverse i x hx).2.1 j hj ho
  have hat : ∀ i, i < k_world_height →
      horizontal_pass world inverse s i x = 331776 ∨
      ∃ j, j < k_world_width ∧ (world i j != inverse) = true ∧
        horizontal_pass world inverse s i x = (((x : Int) - (j : Int)) ^ 2).toNat := by
    intro i hi
    rw [hval i hi]
    by_cases ho : (world i x != inverse) = true
    · rw [if_pos ho]
      exact Or.inr ⟨x, hx, ho, (sq_toNat_self x).symm⟩
    · rw [if_neg ho]
      exact (sedt_row_min_spec world inverse i x hx).2.2
  have hself : (world y x != inverse) = false := by rw [hq]; simp
  have hne : horizontal_pass world inverse s y x ≠ 0 := by
    rcases hat y hy with h | ⟨j, hj, ho, h⟩
    · omega
    · have hjx : x ≠ j := by
        rintro rfl
        rw [hself] at ho
        exact Bool.noConfusion ho
      have := sq_toNat_pos x j hjx
      omega
  obtain ⟨a, b, d⟩ := sedt_col_min_spec (horizontal_pass world inverse s) y x hy hs
  generalize sedt_col_min (horizontal_pass world inverse s) y x = C at a b d
  have hatt : ∃ i, i < k_world_height ∧
      C = horizontal_pass world inverse s i x + (((y : Int) - (i : Int)) ^ 2).toNat := by
    rcases d with d | d
    · exact ⟨y, hy, by rw [sq_toNat_self]; omega⟩
    · exact d
  refine ⟨hne, ?_, fun i j hi hj ho => ?_, ?_⟩
  · split <;> omega
  · have h1 := b i hi
    have h2 := hle i j hi hj ho
    rw [dist2_eq]
    split <;> omega
  · obtain ⟨i, hi, hC⟩ := hatt
    by_cases hcap : C < 65535
    · rw [if_pos hcap]
      rcases hat i hi with h | ⟨j, hj, ho, h⟩
      · omega
      · exact Or.inr ⟨i, j, hi, hj, ho, by rw [dist2_eq]; omega⟩
    · rw [if_neg hcap]
      exact Or.inl rfl

theorem brute_force_min_pos (world : Bitmap) (inverse : Bool) (x y : Nat)
    (hq : world y x = inverse) :
    1 ≤ brute_force_min world inverse x y ∧ brute_force_min world inverse x y ≤ 65535 := by
  obtain ⟨c1, _, c3⟩ := brute_force_min_spec world inverse x y
  refine ⟨?_, c1⟩
  rcases c3 with c3 | ⟨i, j, _, _, ho, c3⟩
  · omega
  · rw [c3, dist2_eq]
    by_cases hj : x = j
    · by_cases hi : y = i
      · subst hj; subst hi
        rw [hq] at ho
        simp at ho
      · have := sq_toNat_pos y i hi
        omega
    · have := sq_toNat_pos x j hj
      omega

/-- The value stored by one call for a pixel `(x, y)` with `world[y][x] == inverse`. -/
theorem distance_field_value (world : Bitmap) (inverse : Bool)
    (st : (Nat → Nat → Nat) × (Nat → Nat → fixed16_16)) (x y : Nat)
    (hx : x < k_world_width) (hy : y < k_world_height) (hq : world y x = inverse) :
    (compute_game_world_distance_field world inverse st).2 y x =
      if inverse = true then (fixed16_16.sqrt (brute_force_min world inverse x y)).neg
      else fixed16_16.sqrt (brute_force_min world inverse x y) := by
  obtain ⟨hne, hmin⟩ := two_pass_min world inverse st.1 x y hx hy hq
  have hc := is_capped_min_unique world inverse x y _ _ hmin
    (brute_force_min_spec world inverse x y)
  have hb := (brute_force_min_pos world inverse x y hq).2
  simp only [compute_game_world_distance_field]
  rw [vertical_pass_spec, if_pos ⟨hy, hx⟩, if_neg hne, hc]
  have hu : toU16 ((brute_force_min world inverse x y : Nat) : Int) =
      brute_force_min world inverse x y := by
    simp only [toU16]
    omega
  rw [hu]

/-- One call leaves every other entry of the field as it was. -/
theorem distance_field_frame (world : Bitmap) (inverse : Bool)
    (st : (Nat → Nat → Nat) × (Nat → Nat → fixed16_16)) (x y : Nat)
    (h : ¬ (x < k_world_width ∧ y < k_world_height ∧ world y x = inverse)) :
    (compute_game_world_distance_field world inverse st).2 y x = st.2 y x := by
  simp only [compute_game_world_distance_field]
  rw [vertical_pass_spec]
  by_cases hr : y < k_world_height ∧ x < k_world_width
  · rw [if_pos hr]
    have ho : (world y x != inverse) = true := by
      have : world y x ≠ inverse := fun e => h ⟨hr.2, hr.1, e⟩
      simpa using this
    rw [horizontal_pass_spec, if_pos hr, if_pos ho, if_pos rfl]
  · rw [if_neg hr]

theorem sqrt_raw_bounds (c : Nat) (h1 : 1 ≤ c) (h2 : c ≤ 65535) :
    1 ≤ (fixed16_16.sqrt c).raw ∧ (fixed16_16.sqrt c).raw ≤ 16809920 ∧
    (fixed16_16.sqrt c).neg.raw = -(fixed16_16.sqrt c).raw ∧
    (c ≤ 65364 → (fixed16_16.sqrt c).raw * (fixed16_16.sqrt c).raw ≤ 65535 * 4294967296) := by
  obtain ⟨r, hr, r1, r2, _, _, r5⟩ := sqrt_facts c h1 (by omega)
  rw [fixed16_16.neg, hr]
  refine ⟨by omega, by omega, by simp only [wrap32]; omega, fun hc => ?_⟩
  exact_mod_cast r5 hc

/-- The field after the two calls of `init`, at a pixel of the world. -/
theorem init_field_value (world : Bitmap)
    (st : (Nat → Nat → Nat) × (Nat → Nat → fixed16_16)) (x y : Nat)
    (hx : x < k_world_width) (hy : y < k_world_height) :
    (init_distance_field world st).2 y x =
      if world y x = true then (fixed16_16.sqrt (brute_force_min world true x y)).neg
      else fixed16_16.sqrt (brute_force_min world false x y) := by
  rw [init_distance_field]
  by_cases hw : world y x = true
  · rw [if_pos hw, distance_field_value world true _ x y hx hy hw, if_pos rfl]
  · rw [if_neg hw, distance_field_frame world true _ x y (fun h => hw h.2.2)]
    have hf : world y x = false := by simpa using hw
    rw [distance_field_value world false _ x y hx hy hf]
    simp

theorem brute_force_min_empty (x y : Nat) : brute_force_min Bitmap.zero false x y = 65535 := by
  obtain ⟨_, _, c3⟩ := brute_force_min_spec Bitmap.zero false x y
  rcases c3 with c3 | ⟨i, j, _, _, ho, _⟩
  · exact c3
  · simp [Bitmap.zero] at ho

theorem brute_force_min_adjacent (world : Bitmap) (inverse : Bool) (x y : Nat)
    (hx : x < k_world_width) (hy : y < k_world_height) (hq : world y x = inverse)
    (ha : adjacent_opposite world inverse x y) :
    brute_force_min world inverse x y = 1 := by
  have h1 := (brute_force_min_pos world inverse x y hq).1
  obtain ⟨_, c2, _⟩ := brute_force_min_spec world inverse x y
  have h2 : brute_force_min world inverse x y ≤ 1 := by
    rcases ha with ⟨hb, ho⟩ | ⟨hb, ho⟩ | ⟨hb, ho⟩ | ⟨hb, ho⟩
    · have := c2 y (x + 1) hy hb ho
      have e : dist2 x y (x + 1) y = 1 := by
        rw [dist2_eq, sq_toNat_self]
        push_cast
        ring_nf
        rfl
      omega
    · have := c2 y (x - 1) hy (by omega) ho
      have e : dist2 x y (x - 1) y = 1 := by
        rw [dist2_eq, sq_toNat_self]
        have : ((x - 1 : Nat) : Int) = (x : Int) - 1 := by omega
        rw [this]
        ring_nf
        rfl
      omega
    · have := c2 (y + 1) x hb hx ho
      have e : dist2 x y x (y + 1) = 1 := by
        rw [dist2_eq, sq_toNat_self]
        push_cast
        ring_nf
        rfl
      omega
    · have := c2 (y - 1) x (by omega) hx ho
      have e : dist2 x y x (y - 1) = 1 := by
        rw [dist2_eq, sq_toNat_self]
        have : ((y - 1 : Nat) : Int) = (y : Int) - 1 := by omega
        rw [this]
        ring_nf
        rfl
      omega
  omega

/-- The value stored for a pixel of the query polarity next to a pixel of the opposite
polarity is `sqrt(1)`, raw 65536, negated in the pass with `inverse` set. -/
theorem adjacent_value (world : Bitmap) (inverse : Bool)
    (st : (Nat → Nat → Nat) × (Nat → Nat → fixed16_16)) (x y : Nat)
    (hx : x < k_world_width) (hy : y < k_world_height) (hq : world y x = inverse)
    (ha : adjacent_opposite world inverse x y) :
    (compute_game_world_distance_field world inverse st).2 y x =
      if inverse = true then ⟨-65536⟩ else ⟨65536⟩ := by
  rw [distance_field_value world inverse st x y hx hy hq,
    brute_force_min_adjacent world inverse x y hx hy hq ha]
  have e1 : fixed16_16.sqrt 1 = ⟨65536⟩ := by decide
  have e2 : (fixed16_16.mk 65536).neg = ⟨-65536⟩ := by decide
  rw [e1, e2]

/-! ## Distance field: the claims -/

/-- C15: the separable two-pass transform equals the brute-force 2D minimum.  For every
world bitmap, either polarity flag `inverse`, every initial content of `sedt_x` and of the
field, and every pixel `(x, y)` of the 576x1120 world with `world[y][x] == inverse`,
`compute_game_world_distance_field(inverse)` stores `sqrt(c)`, negated when `inverse` is
set, where `c = brute_force_min world inverse x y` is the minimum, capped at 65535, of
`(x - j)^2 + (y - i)^2` over the pixels `(j, i)` with `world[i][j] != inverse`
(65535 when there is none); `sqrt(c)` is positive, so it is the magnitude stored. -/
theorem two_pass_equals_brute_force (world : Bitmap) (inverse : Bool)
    (st : (Nat → Nat → Nat) × (Nat → Nat → fixed16_16)) (x y : Nat)
    (hx : x < k_world_width) (hy : y < k_world_height) (hq : world y x = inverse) :
    ((compute_game_world_distance_field world inverse st).2 y x).raw =
      (if inverse = true then -(fixed16_16.sqrt (brute_force_min world inverse x y)).raw
       else (fixed16_16.sqrt (brute_force_min world inverse x y)).raw) ∧
    0 < (fixed16_16.sqrt (brute_force_min world inverse x y)).raw ∧
    is_capped_min world inverse x y (brute_force_min world inverse x y) := by
  obtain ⟨b1, b2⟩ := brute_force_min_pos world inverse x y hq
  obtain ⟨s1, _, s3, _⟩ := sqrt_raw_bounds _ b1 b2
  refine ⟨?_, by omega, brute_force_min_spec world inverse x y⟩
  rw [distance_field_value world inverse st x y hx hy hq]
  split
  · exact s3
  · rfl

theorem two_pass_equals_brute_force_witness :
    ((compute_game_world_distance_field dot_world false (fun _ _ => 0, zero_field)).2 0 1).raw =
      (if false = true then -(fixed16_16.sqrt (brute_force_min dot_world false 1 0)).raw
       else (fixed16_16.sqrt (brute_force_min dot_world false 1 0)).raw) ∧
    0 < (fixed16_16.sqrt (brute_force_min dot_world false 1 0)).raw ∧
    is_capped_min dot_world false 1 0 (brute_force_min dot_world false 1 0) :=
  two_pass_equals_brute_force dot_world false (fun _ _ => 0, zero_field) 1 0
    (by decide) (by decide) (by decide)

/-- Counterexample to C16: in the world without any solid pixel, after both calls of
`init` the field holds `sqrt(65535)` with raw value 16809920 at pixel `(0, 0)`, and
`d * d ≤ 65535` fails for `d = 16809920 / 65536` (that is, `raw * raw ≤ 65535 * 2^32`
fails: `d * d` is about 65791.75). -/
theorem empty_world_exceeds_cap :
    ((init_distance_field Bitmap.zero (fun _ _ => 0, zero_field)).2 0 0).raw = 16809920 ∧
    ¬ (((init_distance_field Bitmap.zero (fun _ _ => 0, zero_field)).2 0 0).raw *
        ((init_distance_field Bitmap.zero (fun _ _ => 0, zero_field)).2 0 0).raw ≤
          65535 * 4294967296) := by
  have e : (init_distance_field Bitmap.zero (fun _ _ => 0, zero_field)).2 0 0 = ⟨16809920⟩ := by
    rw [init_field_value Bitmap.zero _ 0 0 (by decide) (by decide),
      if_neg (by decide), brute_force_min_empty]
    decide
  rw [e]
  decide

/-- C16 (amended): for every world bitmap and every pixel `(x, y)` of the world, after
both distance-field passes the stored value `d`, read as the exact rational
`raw / 65536`, has `|raw| ≤ 16809920`, so `d * d < 65792`; and `d * d ≤ 65535`
(`raw * raw ≤ 65535 * 2^32`) holds whenever the capped squared distance to the nearest
pixel of opposite solidity is at most 65364. -/
theorem distance_field_square_bound (world : Bitmap)
    (st : (Nat → Nat → Nat) × (Nat → Nat → fixed16_16)) (x y : Nat)
    (hx : x < k_world_width) (hy : y < k_world_height) :
    -16809920 ≤ ((init_distance_field world st).2 y x).raw ∧
    ((init_distance_field world st).2 y x).raw ≤ 16809920 ∧
    ((init_distance_field world st).2 y x).raw * ((init_distance_field world st).2 y x).raw <
      65792 * 4294967296 ∧
    (brute_force_min world (world y x) x y ≤ 65364 →
      ((init_distance_field world st).2 y x).raw * ((init_distance_field world st).2 y x).raw ≤
        65535 * 4294967296) := by
  rw [init_field_value world st x y hx hy]
  by_cases hw : world y x = true
  · obtain ⟨b1, b2⟩ := brute_force_min_pos world true x y hw
    obtain ⟨s1, s2, s3, s4⟩ := sqrt_raw_bounds _ b1 b2
    have hsq : (fixed16_16.sqrt (brute_force_min world true x y)).raw *
        (fixed16_16.sqrt (brute_force_min world true x y)).raw ≤ 16809920 * 16809920 :=
      mul_le_mul s2 s2 (by omega) (by omega)
    rw [if_pos hw, s3, hw, neg_mul_neg]
    exact ⟨by omega, by omega, lt_of_le_of_lt hsq (by norm_num), s4⟩
  · have hf : world y x = false := by simpa using hw
    obtain ⟨b1, b2⟩ := brute_force_min_pos world false x y hf
    obtain ⟨s1, s2, s3, s4⟩ := sqrt_raw_bounds _ b1 b2
    have hsq : (fixed16_16.sqrt (brute_force_min world false x y)).raw *
        (fixed16_16.sqrt (brute_force_min world false x y)).raw ≤ 16809920 * 16809920 :=
      mul_le_mul s2 s2 (by omega) (by omega)
    rw [if_neg hw, hf]
    exact ⟨by omega, by omega, lt_of_le_of_lt hsq (by norm_num), s4⟩

theorem distance_field_square_bound_witness :
    -16809920 ≤ ((init_distance_field dot_world (fun _ _ => 0, zero_field)).2 0 1).raw ∧
    ((init_distance_field dot_world (fun _ _ => 0, zero_field)).2 0 1).raw ≤ 16809920 ∧
    ((init_distance_field dot_world (fun _ _ => 0, zero_field)).2 0 1).raw *
        ((init_distance_field dot_world (fun _ _ => 0, zero_field)).2 0 1).raw <
      65792 * 4294967296 ∧
    (brute_force_min dot_world (dot_world 0 1) 1 0 ≤ 65364 →
      ((init_distance_field dot_world (fun _ _ => 0, zero_field)).2 0 1).raw *
          ((init_distance_field dot_world (fun _ _ => 0, zero_field)).2 0 1).raw ≤
        65535 * 4294967296) :=
  distance_field_square_bound dot_world (fun _ _ => 0, zero_field) 1 0 (by decide) (by decide)

/-- Counterexample to C17: in the world whose only solid pixel is `(0, 0)`, the empty
pixel `(1, 0)` is directly adjacent to it.  The pass for the empty polarity
(`inverse = false`) stores the raw value 65536 (the distance 1.0) at `(1, 0)`, not zero;
and after both calls of `init` the two boundary pixels hold -65536 and 65536, so neither
is zero. -/
theorem adjacent_pixel_not_zero :
    dot_world 0 0 = true ∧ dot_world 0 1 = false ∧
    (compute_game_world_distance_field dot_world false (fun _ _ => 0, zero_field)).2 0 1 =
      ⟨65536⟩ ∧
    (compute_game_world_distance_field dot_world false (fun _ _ => 0, zero_field)).2 0 1 ≠
      ⟨0⟩ ∧
    (init_distance_field dot_world (fun _ _ => 0, zero_field)).2 0 0 = ⟨-65536⟩ ∧
    (init_distance_field dot_world (fun _ _ => 0, zero_field)).2 0 1 = ⟨65536⟩ := by
  have e := adjacent_value dot_world false (fun _ _ => 0, zero_field) 1 0 (by decide)
    (by decide) (by decide) (Or.inr (Or.inl ⟨by decide, by decide⟩))
  have e1 : fixed16_16.sqrt 1 = ⟨65536⟩ := by decide
  have e2 : (fixed16_16.mk 65536).neg = ⟨-65536⟩ := by decide
  refine ⟨by decide, by decide, ?_, ?_, ?_, ?_⟩
  · rw [e]; rfl
  · rw [e]; decide
  · rw [init_field_value dot_world _ 0 0 (by decide) (by decide), if_pos (by decide),
      brute_force_min_adjacent dot_world true 0 0 (by decide) (by decide) (by decide)
        (Or.inl ⟨by decide, by decide⟩), e1, e2]
  · rw [init_field_value dot_world _ 1 0 (by decide) (by decide), if_neg (by decide),
      brute_force_min_adjacent dot_world false 1 0 (by decide) (by decide) (by decide)
        (Or.inr (Or.inl ⟨by decide, by decide⟩)), e1]

/-- C17 (amended): for every world bitmap and each polarity pass, every pixel of the
query polarity (`world[y][x] == inverse`) that is directly adjacent, horizontally or
vertically, to a pixel of the opposite polarity has a DistanceField value of magnitude
exactly 1: raw value 65536 after the pass with `inverse = false`, and -65536 after the
pass with `inverse = true`. -/
theorem adjacent_pixel_distance_one (world : Bitmap) (inverse : Bool)
    (st : (Nat → Nat → Nat) × (Nat → Nat → fixed16_16)) (x y : Nat)
    (hx : x < k_world_width) (hy : y < k_world_height) (hq : world y x = inverse)
    (ha : adjacent_opposite world inverse x y) :
    ((compute_game_world_distance_field world inverse st).2 y x).raw =
      if inverse = true then -65536 else 65536 := by
  rw [adjacent_value world inverse st x y hx hy hq ha]
  split <;> rfl

theorem adjacent_pixel_distance_one_witness :
    ((compute_game_world_distance_field dot_world true (fun _ _ => 0, zero_field)).2 0 0).raw =
      if true = true then -65536 else 65536 :=
  adjacent_pixel_distance_one dot_world true (fun _ _ => 0, zero_field) 0 0 (by decide)
    (by decide) (by decide) (Or.inl ⟨by decide, by decide⟩)

/-- C18: for every world bitmap and every initial content of `sedt_x` and of the field
(in particular the zero-initialised field), after the two calls of `init`,
`compute_game_world_distance_field(0)` then `compute_game_world_distance_field(1)`,
every solid pixel of the world holds a strictly negative value and every empty pixel a
strictly positive value; the second call leaves every entry of a non-solid pixel as it
was and the first call leaves every entry of a solid pixel as it was, so the second
never overwrites a value stored by the first. -/
theorem distance_field_signs (world : Bitmap)
    (st : (Nat → Nat → Nat) × (Nat → Nat → fixed16_16)) :
    (∀ x y, x < k_world_width → y < k_world_height →
      (world y x = true → ((init_distance_field world st).2 y x).raw < 0) ∧
      (world y x = false → 0 < ((init_distance_field world st).2 y x).raw)) ∧
    (∀ (st2 : (Nat → Nat → Nat) × (Nat → Nat → fixed16_16)) x y, world y x = false →
      (compute_game_world_distance_field world true st2).2 y x = st2.2 y x) ∧
    (∀ (st2 : (Nat → Nat → Nat) × (Nat → Nat → fixed16_16)) x y, world y x = true →
      (compute_game_world_distance_field world false st2).2 y x = st2.2 y x) := by
  refine ⟨fun x y hx hy => ?_, fun st2 x y hw => ?_, fun st2 x y hw => ?_⟩
  · rw [init_field_value world st x y hx hy]
    refine ⟨fun hw => ?_, fun hw => ?_⟩
    · obtain ⟨b1, b2⟩ := brute_force_min_pos world true x y hw
      obtain ⟨s1, _, s3, _⟩ := sqrt_raw_bounds _ b1 b2
      rw [if_pos hw, s3]
      omega
    · obtain ⟨b1, b2⟩ := brute_force_min_pos world false x y hw
      obtain ⟨s1, _, _, _⟩ := sqrt_raw_bounds _ b1 b2
      rw [if_neg (by rw [hw]; decide)]
      omega
  · exact distance_field_frame world true st2 x y (fun h => by rw [hw] at h; exact absurd h.2.2 (by decide))
  · exact distance_field_frame world false st2 x y (fun h => by rw [hw] at h; exact absurd h.2.2 (by decide))

theorem distance_field_signs_witness :
    ((init_distance_field dot_world (fun _ _ => 0, zero_field)).2 0 0).raw < 0 ∧
    0 < ((init_distance_field dot_world (fun _ _ => 0, zero_field)).2 0 1).raw :=
  ⟨((distance_field_signs dot_world (fun _ _ => 0, zero_field)).1 0 0
      (by decide) (by decide)).1 (by decide),
    ((distance_field_signs dot_world (fun _ _ => 0, zero_field)).1 1 0
      (by decide) (by decide)).2 (by decide)⟩

/-! ## White noise -/

/-- Auxiliary: the state of `compute_white_noise_texture` after `k` iterations. -/
theorem white_noise_invariant (texture : Nat → Nat) (k : Nat) (hk : k ≤ 161280) :
    (white_noise_step^[k] (white_noise_init texture)).state0 = (xoshiro_state k).s0 ∧
    (white_noise_step^[k] (white_noise_init texture)).state1 = (xoshiro_state k).s1 ∧
    (white_noise_step^[k] (white_noise_init texture)).state2 = (xoshiro_state k).s2 ∧
    (white_noise_step^[k] (white_noise_init texture)).state3 = (xoshiro_state k).s3 ∧
    (white_noise_step^[k] (white_noise_init texture)).n = 4 * k ∧
    (white_noise_step^[k] (white_noise_init texture)).ptr = k ∧
    (∀ a, (white_noise_step^[k] (white_noise_init texture)).texture a =
      if a < 4 * k then (xoshiro_output (a / 4) >>> (8 * (a % 4))) % 256 else texture a) ∧
    (∀ a, (white_noise_step^[k] (white_noise_init texture)).writes a =
      if a < 4 * k then 1 else 0) := by
  induction k with
  | zero =>
    refine ⟨rfl, rfl, rfl, rfl, rfl, rfl, fun a => ?_, fun a => ?_⟩
    · simp [white_noise_init]
    · simp [white_noise_init]
  | succ k ih =>
    obtain ⟨h0, h1, h2, h3, hn, hp, ht, hw⟩ := ih (by omega)
    rw [Function.iterate_succ_apply']
    generalize white_noise_step^[k] (white_noise_init texture) = s at h0 h1 h2 h3 hn hp ht hw
    refine ⟨?_, ?_, ?_, ?_, ?_, ?_, fun a => ?_, fun a => ?_⟩
    · simp only [white_noise_step, xoshiro_state, xoshiro128.next, h0, h1, h2, h3]
    · simp only [white_noise_step, xoshiro_state, xoshiro128.next, h0, h1, h2, h3]
    · simp only [white_noise_step, xoshiro_state, xoshiro128.next, h0, h1, h2, h3]
    · simp only [white_noise_step, xoshiro_state, xoshiro128.next, h0, h1, h2, h3]
    · simp only [white_noise_step, hn]
      omega
    · simp only [white_noise_step, hp]
    · simp only [white_noise_step, store_u32, hp, ht]
      by_cases h : 4 * k ≤ a ∧ a < 4 * k + 4
      · have e1 : a / 4 = k := by omega
        have e2 : a - 4 * k = a % 4 := by omega
        rw [if_pos h, if_pos (by omega), e1, e2, xoshiro_output, xoshiro128.result, h1]
      · rw [if_neg h]
        by_cases h4 : a < 4 * k
        · rw [if_pos h4, if_pos (by omega)]
        · rw [if_neg h4, if_neg (by omega)]
    · simp only [white_noise_step, count_store, hp, hw]
      by_cases h : 4 * k ≤ a ∧ a < 4 * k + 4
      · rw [if_pos h, if_neg (by omega), if_pos (by omega)]
      · rw [if_neg h]
        by_cases h4 : a < 4 * k
        · rw [if_pos h4, if_pos (by omega)]
        · rw [if_neg h4, if_neg (by omega)]

/-- The loop of `compute_white_noise_texture` is left after exactly
`width * height / 4 = 161280` iterations: the fuel is not used up before. -/
theorem white_noise_loop_exits (texture : Nat → Nat) (fuel k : Nat) (h : k + fuel = 161280) :
    white_noise_loop fuel (white_noise_step^[k] (white_noise_init texture)) =
      white_noise_step^[161280] (white_noise_init texture) := by
  induction fuel generalizing k with
  | zero =>
    have : k = 161280 := by omega
    rw [this]
    rfl
  | succ fuel ih =>
    have hn := (white_noise_invariant texture k (by omega)).2.2.2.2.1
    have hc : (k_white_noise_texture_width * k_white_noise_texture_height) % 4294967296 =
        645120 := by decide
    rw [white_noise_loop, hc, hn, if_pos (by omega),
      ← Function.iterate_succ_apply' white_noise_step k]
    exact ih (k + 1) (by omega)

/-- C19: the white-noise texture is the output stream of the reference xoshiro128**
generator.  For every initial content of the texture, the loop of
`compute_white_noise_texture` is left with `n = width * height`, and for every pixel
`(x, y)` of the 576x1120 grid `g_white_noise_texture[y][x]` equals byte
`(y * 576 + x) mod 4`, least significant byte first, of the `((y * 576 + x) div 4)`-th
output of xoshiro128** `next()` started from the state
`(0x6A09E667, 0xBB67AE85, 0x3C6EF372, 0xA54FF53A)`; every byte of the grid is stored to
exactly once, and no byte after the grid is stored to. -/
theorem white_noise_is_xoshiro (texture : Nat → Nat) :
    (compute_white_noise_texture texture).n =
      k_white_noise_texture_width * k_white_noise_texture_height ∧
    (∀ x y, x < 576 → y < 1120 →
      (compute_white_noise_texture texture).g_white_noise_texture y x =
        (xoshiro_output ((y * 576 + x) / 4) >>> (8 * ((y * 576 + x) % 4))) % 256 ∧
      (compute_white_noise_texture texture).writes (y * 576 + x) = 1) ∧
    (∀ a, 576 * 1120 ≤ a →
      (compute_white_noise_texture texture).writes a = 0 ∧
      (compute_white_noise_texture texture).texture a = texture a) := by
  have hf : k_white_noise_texture_width * k_white_noise_texture_height / 4 = 161280 := by
    decide
  have hwd : k_white_noise_texture_width = 576 := by decide
  have hht : k_white_noise_texture_height = 1120 := by decide
  have hrun : compute_white_noise_texture texture =
      white_noise_step^[161280] (white_noise_init texture) := by
    rw [compute_white_noise_texture, hf]
    exact white_noise_loop_exits texture 161280 0 (by omega)
  obtain ⟨_, _, _, _, hn, _, ht, hw⟩ := white_noise_invariant texture 161280 (le_refl _)
  rw [hrun, hwd, hht]
  refine ⟨by rw [hn], fun x y hx hy => ?_, fun a ha => ?_⟩
  · have hlt : y * 576 + x < 4 * 161280 := by omega
    rw [noise.g_white_noise_texture, hwd, ht, hw, if_pos hlt, if_pos hlt]
    exact ⟨rfl, rfl⟩
  · have hge : ¬ a < 4 * 161280 := by omega
    rw [ht, hw, if_neg hge, if_neg hge]
    exact ⟨rfl, rfl⟩

theorem white_noise_is_xoshiro_witness :
    (compute_white_noise_texture (fun _ => 0)).g_white_noise_texture 1 5 =
      (xoshiro_output ((1 * 576 + 5) / 4) >>> (8 * ((1 * 576 + 5) % 4))) % 256 ∧
    (compute_white_noise_texture (fun _ => 0)).writes (1 * 576 + 5) = 1 :=
  (white_noise_is_xoshiro (fun _ => 0)).2.1 5 1 (by decide) (by decide)

/-! ## The idle tick -/

theorem ifloor_add_zero (x : fixed16_16) : ifloor (x.add ⟨0⟩) = ifloor x := by
  simp only [ifloor, fixed16_16.add, toI16, wrap32]
  omega

theorem input_phase_idle (g_input : input) (p : player)
    (hf : p.flying = false) (hs : p.sliding = false)
    (hW : g_input.W = false) (hA : g_input.A = false) (hD : g_input.D = false) :
    input_phase g_input p 0 = ({ p with vel := ⟨⟨0⟩, ⟨0⟩⟩ }, 0) := by
  have e1 : fixed16_16.ofI16 0 = ⟨0⟩ := by decide
  have e2 : (fixed16_16.mk 0).add (fixed16_16.ofI16 (toI16 (toI16 0 * 2))) = ⟨0⟩ := by decide
  have e3 : wrap32 (Int.tdiv (wrap32 0) 100) = 0 := by decide
  have e4 : (fixed16_16.mk 0).gt (fixed16_16.ofI16 7) = false := by decide
  simp [input_phase, input.axis, hf, hs, hW, hA, hD, e1, e2, e3, e4]

theorem pre_render_update_idle (m : CollisionMap) (g_input : input) (p : player)
    (hf : p.flying = false) (hs : p.sliding = false)
    (hW : g_input.W = false) (hA : g_input.A = false) (hD : g_input.D = false) :
    pre_render_update m g_input p 0 = ({ p with vel := ⟨⟨0⟩, ⟨0⟩⟩ }, 0) := by
  rw [pre_render_update, input_phase_idle g_input p hf hs hW hA hD]
  simp only [collision_sweep_test, ifloor_add_zero, and_self, if_true]

/-- C20: a grounded idle player is a fixed point of the tick.  For every player
collision map, a player with `flying = false`, `sliding = false`, jump charge 0 and none
of W, A, D held keeps its position and both flags through `pre_render_update`, its
velocity is zero and the jump charge stays 0; so after any number `n` of such ticks
(60, say) the position is unchanged and the player is still grounded. -/
theorem idle_tick_fixed_point (m : CollisionMap) (g_input : input) (p : player)
    (hf : p.flying = false) (hs : p.sliding = false)
    (hW : g_input.W = false) (hA : g_input.A = false) (hD : g_input.D = false) :
    pre_render_update m g_input p 0 = ({ p with vel := ⟨⟨0⟩, ⟨0⟩⟩ }, 0) ∧
    ∀ n, 0 < n → ticks m g_input n (p, 0) = ({ p with vel := ⟨⟨0⟩, ⟨0⟩⟩ }, 0) := by
  refine ⟨pre_render_update_idle m g_input p hf hs hW hA hD, fun n hn => ?_⟩
  have key : ∀ k (q : player), q.flying = false → q.sliding = false →
      ticks m g_input (k + 1) (q, 0) = ({ q with vel := ⟨⟨0⟩, ⟨0⟩⟩ }, 0) := by
    intro k
    induction k with
    | zero =>
      intro q h1 h2
      rw [ticks, pre_render_update_idle m g_input q h1 h2 hW hA hD]
      rfl
    | succ k ih =>
      intro q h1 h2
      rw [ticks, pre_render_update_idle m g_input q h1 h2 hW hA hD]
      exact ih _ h1 h2
  obtain ⟨k, rfl⟩ : ∃ k, n = k + 1 := ⟨n - 1, by omega⟩
  exact key k p hf hs

theorem idle_tick_fixed_point_witness :
    idle_player.flying = false ∧ idle_player.sliding = false ∧
    no_input.W = false ∧ no_input.A = false ∧ no_input.D = false ∧
    pre_render_update step_map no_input idle_player 0 =
      ({ idle_player with vel := ⟨⟨0⟩, ⟨0⟩⟩ }, 0) ∧
    ∀ n, 0 < n → ticks step_map no_input n (idle_player, 0) =
      ({ idle_player with vel := ⟨⟨0⟩, ⟨0⟩⟩ }, 0) :=
  ⟨rfl, rfl, rfl, rfl, rfl,
    idle_tick_fixed_point step_map no_input idle_player rfl rfl rfl rfl rfl⟩

/-! ## The input phase: key handling, then drag -/

theorem input_phase_eq (g_input : input) (p : player) (jump_charge : Int) :
    input_phase g_input p jump_charge =
      (apply_drag (keys_phase g_input p jump_charge).1, (keys_phase g_input p jump_charge).2) := by
  simp only [input_phase, keys_phase, apply_drag, launch_vel_y, launch_vel]

theorem pre_render_update_eq (m : CollisionMap) (g_input : input) (p : player)
    (jump_charge : Int) :
    pre_render_update m g_input p jump_charge =
      (collision_sweep_test m (apply_drag (keys_phase g_input p jump_charge).1),
        (keys_phase g_input p jump_charge).2) := by
  rw [pre_render_update, input_phase_eq]

/-- The facing direction after the key handling; with A and D both held or both
released it is unchanged. -/
theorem facing_unchanged (g_input : input) (p : player) (h : g_input.A = g_input.D) :
    (if (g_input.A && !g_input.D) = true then { p with facing := 1 }
      else if (!g_input.A && g_input.D) = true then { p with facing := 0 } else p) = p := by
  rw [h]
  cases g_input.D <;> simp

/-- A tick of a grounded player holding W: the charge grows by one up to 35, the
velocity is zero and the player does not move. -/
theorem hold_tick (m : CollisionMap) (g_input : input) (p : player) (jump_charge : Int)
    (hf : p.flying = false) (hs : p.sliding = false) (hW : g_input.W = true)
    (h0 : 0 ≤ jump_charge) (h1 : jump_charge ≤ 35) :
    (pre_render_update m g_input p jump_charge).2 = min (jump_charge + 1) 35 ∧
    (pre_render_update m g_input p jump_charge).1.pos = p.pos ∧
    (pre_render_update m g_input p jump_charge).1.flying = false ∧
    (pre_render_update m g_input p jump_charge).1.sliding = false := by
  have e1 : fixed16_16.ofI16 0 = ⟨0⟩ := by decide
  have e3 : wrap32 (Int.tdiv (wrap32 0) 100) = 0 := by decide
  have e4 : (fixed16_16.mk 0).gt (fixed16_16.ofI16 7) = false := by decide
  have e5 : toI16 (jump_charge + 1) = jump_charge + 1 := toI16_of_small _ (by omega) (by omega)
  have hmin : (if jump_charge + 1 > 35 then 35 else jump_charge + 1) =
      min (jump_charge + 1) 35 := by
    split_ifs <;> omega
  have hk : ∃ f, keys_phase g_input p jump_charge =
      ({ p with vel := ⟨⟨0⟩, ⟨0⟩⟩, facing := f }, min (jump_charge + 1) 35) := by
    obtain ⟨pos, vel, flying, sliding, charging, facing⟩ := p
    obtain ⟨W, A, S, D, Space, LMB⟩ := g_input
    simp only at hf hs hW
    subst hf hs hW
    cases A <;> cases D <;>
      simp [keys_phase, e1, e5, hmin]
  obtain ⟨f, hk⟩ := hk
  rw [pre_render_update_eq, hk]
  have hd : apply_drag { p with vel := ⟨⟨0⟩, ⟨0⟩⟩, facing := f } =
      { p with vel := ⟨⟨0⟩, ⟨0⟩⟩, facing := f } := by
    simp [apply_drag, e3, e4]
  rw [hd]
  simp [collision_sweep_test, ifloor_add_zero, hf, hs]

theorem hold_ticks (m : CollisionMap) (g_input : input) (hW : g_input.W = true) (n : Nat) :
    ∀ (p : player) (jump_charge : Int), p.flying = false → p.sliding = false →
      0 ≤ jump_charge → jump_charge ≤ 35 →
      (ticks m g_input n (p, jump_charge)).2 = min (jump_charge + n) 35 ∧
      (ticks m g_input n (p, jump_charge)).1.pos = p.pos ∧
      (ticks m g_input n (p, jump_charge)).1.flying = false ∧
      (ticks m g_input n (p, jump_charge)).1.sliding = false := by
  induction n with
  | zero =>
    intro p jc hf hs h0 h1
    have hmin : min jc 35 = jc := by omega
    simp [ticks, hf, hs, hmin]
  | succ n ih =>
    intro p jc hf hs h0 h1
    obtain ⟨a, b, c, d⟩ := hold_tick m g_input p jc hf hs hW h0 h1
    rw [ticks]
    obtain ⟨a2, b2, c2, d2⟩ := ih (pre_render_update m g_input p jc).1
      (pre_render_update m g_input p jc).2 c d (by rw [a]; omega) (by rw [a]; omega)
    refine ⟨?_, by rw [b2, b], c2, d2⟩
    rw [a2, a]
    push_cast
    omega

/-- The launch of a grounded player with charge 35 and A, D both held or both released:
the formula is evaluated at the charge `35 - 8 = 27`. -/
theorem launch_at_35 (g_input : input) (p : player)
    (hf : p.flying = false) (hs : p.sliding = false) (hW : g_input.W = false)
    (hAD : g_input.A = g_input.D) :
    keys_phase g_input p 35 = ({ p with vel := ⟨⟨0⟩, launch_vel_y 27⟩, flying := true }, 0) := by
  obtain ⟨pos, vel, flying, sliding, charging, facing⟩ := p
  obtain ⟨W, A, S, D, Space, LMB⟩ := g_input
  simp only at hf hs hW hAD
  subst hf hs hW hAD
  have e27 : toI16 27 = 27 := by decide
  have e1 : fixed16_16.ofI16 0 = ⟨0⟩ := by decide
  have e0 : toI16 0 = 0 := by decide
  cases A <;>
    simp [keys_phase, input.axis, e27, e1, e0, fixed16_16.mul, wrap32]

/-! ## The early exit of the sweep -/

/-- C30: when the integer start pixel and the desired end pixel coincide on both axes
(`ifloor(pos) == ifloor(pos + vel)` componentwise), `collision_sweep_test` changes
nothing at all: the whole player record, position with its fractional part, velocity,
`flying` and `sliding`, is returned as it was, for every player collision map. -/
theorem sweep_early_exit (m : CollisionMap) (p : player)
    (hx : ifloor (p.pos.x.add p.vel.x) = ifloor p.pos.x)
    (hy : ifloor (p.pos.y.add p.vel.y) = ifloor p.pos.y) :
    collision_sweep_test m p = p ∧
    (collision_sweep_test m p).pos = p.pos ∧ (collision_sweep_test m p).vel = p.vel ∧
    (collision_sweep_test m p).flying = p.flying ∧
    (collision_sweep_test m p).sliding = p.sliding := by
  have h : collision_sweep_test m p = p := by
    rw [collision_sweep_test, if_pos ⟨hx, hy⟩]
  rw [h]
  exact ⟨rfl, rfl, rfl, rfl, rfl⟩

theorem sweep_early_exit_witness :
    slow_player.vel ≠ ⟨⟨0⟩, ⟨0⟩⟩ ∧ collision_sweep_test step_map slow_player = slow_player :=
  ⟨by decide, (sweep_early_exit step_map slow_player (by decide) (by decide)).1⟩

/-! ## The launch -/

/-- Counterexample to C21: for the grounded player `idle_player` with jump charge 35 and
no key held, the key handling sets `vel.y`, before drag, to the charge formula at charge
27, raw value -544653 (about -8.31), whereas the formula at charge 35 gives raw value
-635730 (about -9.70). -/
theorem launch_uses_reduced_charge :
    idle_player.flying = false ∧ idle_player.sliding = false ∧ no_input.W = false ∧
    (keys_phase no_input idle_player 35).1.vel.y = ⟨-544653⟩ ∧
    launch_vel_y 35 = ⟨-635730⟩ ∧
    (keys_phase no_input idle_player 35).1.vel.y ≠ launch_vel_y 35 := by
  decide

/-- C21 (amended): for every player collision map, a grounded player who holds the jump
key W for `n ≥ 35` consecutive ticks, starting from charge 0, has jump charge 35 and is
still grounded.  When W is then released with neither or both of A and D held, the key
handling of that tick sets `flying = true`, resets the charge to 0, sets `vel.x` to
exactly zero and sets `vel.y` (before drag is applied) to the charge formula evaluated
at the reduced charge `35 - 8 = 27`,
`-((fixed(25101)/32767) + (fixed(191)/32767)*27) * ifloor(fixed(6) + (fixed(4045)/32767)*27)`,
the negative constant with raw value -544653; after drag the input phase leaves raw
value -539206. -/
theorem jump_launch (m : CollisionMap) (g_hold g_release : input) (p : player) (n : Nat)
    (hf : p.flying = false) (hs : p.sliding = false) (hW : g_hold.W = true) (hn : 35 ≤ n)
    (hR : g_release.W = false) (hAD : g_release.A = g_release.D) :
    (ticks m g_hold n (p, 0)).2 = 35 ∧
    (ticks m g_hold n (p, 0)).1.flying = false ∧
    (ticks m g_hold n (p, 0)).1.sliding = false ∧
    keys_phase g_release (ticks m g_hold n (p, 0)).1 (ticks m g_hold n (p, 0)).2 =
      ({ (ticks m g_hold n (p, 0)).1 with vel := ⟨⟨0⟩, launch_vel_y 27⟩, flying := true }, 0) ∧
    launch_vel_y 27 = ⟨-544653⟩ ∧
    input_phase g_release (ticks m g_hold n (p, 0)).1 (ticks m g_hold n (p, 0)).2 =
      ({ (ticks m g_hold n (p, 0)).1 with vel := ⟨⟨0⟩, ⟨-539206⟩⟩, flying := true }, 0) := by
  obtain ⟨a, _, c, d⟩ := hold_ticks m g_hold hW n p 0 hf hs (le_refl 0) (by decide)
  have h35 : (ticks m g_hold n (p, 0)).2 = 35 := by
    rw [a]
    omega
  have hv : launch_vel_y 27 = ⟨-544653⟩ := by decide
  refine ⟨h35, c, d, ?_, hv, ?_⟩
  · rw [h35]
    exact launch_at_35 g_release _ c d hR hAD
  · rw [input_phase_eq, h35, launch_at_35 g_release _ c d hR hAD, hv]
    simp only [apply_drag]
    rfl

theorem jump_launch_witness :
    (ticks step_map hold_jump 40 (idle_player, 0)).2 = 35 ∧
    (ticks step_map hold_jump 40 (idle_player, 0)).1.flying = false ∧
    (ticks step_map hold_jump 40 (idle_player, 0)).1.sliding = false ∧
    keys_phase no_input (ticks step_map hold_jump 40 (idle_player, 0)).1
        (ticks step_map hold_jump 40 (idle_player, 0)).2 =
      ({ (ticks step_map hold_jump 40 (idle_player, 0)).1 with
          vel := ⟨⟨0⟩, launch_vel_y 27⟩, flying := true }, 0) ∧
    launch_vel_y 27 = ⟨-544653⟩ ∧
    input_phase no_input (ticks step_map hold_jump 40 (idle_player, 0)).1
        (ticks step_map hold_jump 40 (idle_player, 0)).2 =
      ({ (ticks step_map hold_jump 40 (idle_player, 0)).1 with
          vel := ⟨⟨0⟩, ⟨-539206⟩⟩, flying := true }, 0) :=
  jump_launch step_map hold_jump no_input idle_player 40 rfl rfl rfl (by decide) rfl rfl

/-! ## Camera -/

theorem camera_clamp_le (desired_center half limit : Nat) (hl : limit ≤ 32767) :
    camera_clamp desired_center half limit ≤ limit := by
  simp only [camera_clamp]
  have h := toI16_range (toI16 (desired_center : Int) - toI16 (half : Int))
  generalize toI16 (toI16 (desired_center : Int) - toI16 (half : Int)) = c at h ⊢
  have e : toI16 (limit : Int) = limit := toI16_of_small _ (by omega) (by omega)
  split_ifs with h1 h2
  · simp [toU16]
  · rw [e]
    simp only [toU16]
    omega
  · simp only [toU16] at h2 ⊢
    omega

theorem camera_clamp_eq (c half limit : Nat) (hc : c ≤ 32767) (hh : half ≤ 32767)
    (hl : limit ≤ 32767) :
    (camera_clamp c half limit : Int) = max 0 (min ((c : Int) - (half : Int)) (limit : Int)) := by
  simp only [camera_clamp]
  have e1 : toI16 (c : Int) = c := toI16_of_small _ (by omega) (by omega)
  have e2 : toI16 (half : Int) = half := toI16_of_small _ (by omega) (by omega)
  have e3 : toI16 ((c : Int) - (half : Int)) = (c : Int) - half :=
    toI16_of_small _ (by omega) (by omega)
  have e4 : toI16 (limit : Int) = limit := toI16_of_small _ (by omega) (by omega)
  rw [e1, e2, e3, e4]
  have hmax : max 0 (min ((c : Int) - (half : Int)) (limit : Int)) =
      if (c : Int) - half < 0 then 0
      else if (c : Int) - half > limit then (limit : Int) else (c : Int) - half := by
    split_ifs <;> omega
  rw [hmax]
  split_ifs with h1 h2 h3 h3 <;> simp only [toU16] at * <;> omega

/-- C24: for every player position whatsoever, `update_camera` yields
`0 ≤ camera.x ≤ 128` and `0 ≤ camera.y ≤ 864`, so the 448x256 viewport
`[camera.x, camera.x + 448) x [camera.y, camera.y + 256)` lies inside the 576x1120 world;
and for a player pixel `(px, py)` inside the world, `camera.x = clamp(px + 6 - 224, 0, 128)`
and `camera.y = clamp(py + 8 - 128, 0, 864)`. -/
theorem camera_inside_world (p : player) :
    (update_camera p).x ≤ 128 ∧ (update_camera p).y ≤ 864 ∧
    (update_camera p).x + camera_k_width ≤ k_world_width ∧
    (update_camera p).y + camera_k_height ≤ k_world_height ∧
    (0 ≤ ifloor p.pos.x → ifloor p.pos.x < 576 →
      ((update_camera p).x : Int) = max 0 (min (ifloor p.pos.x + 6 - 224) 128)) ∧
    (0 ≤ ifloor p.pos.y → ifloor p.pos.y < 1120 →
      ((update_camera p).y : Int) = max 0 (min (ifloor p.pos.y + 8 - 128) 864)) := by
  have c1 : camera_k_width / 2 = 224 := by decide
  have c2 : camera_k_height / 2 = 128 := by decide
  have c3 : k_world_width - camera_k_width = 128 := by decide
  have c4 : k_world_height - camera_k_height = 864 := by decide
  have c5 : player_k_width / 2 = 6 := by decide
  have c6 : player_k_height / 2 = 8 := by decide
  have c7 : camera_k_width = 448 := by decide
  have c8 : camera_k_height = 256 := by decide
  have c9 : k_world_width = 576 := by decide
  have c10 : k_world_height = 1120 := by decide
  simp only [update_camera, c1, c2, c3, c4, c5, c6]
  rw [c7, c8, c9, c10]
  have hx := camera_clamp_le (toU16 ((toU16 (ifloor p.pos.x) : Int) + ((6 : Nat) : Int))) 224 128
    (by decide)
  have hy := camera_clamp_le (toU16 ((toU16 (ifloor p.pos.y) : Int) + ((8 : Nat) : Int))) 128 864
    (by decide)
  refine ⟨hx, hy, by omega, by omega, fun h0 h1 => ?_, fun h0 h1 => ?_⟩
  · have e : toU16 ((toU16 (ifloor p.pos.x) : Int) + ((6 : Nat) : Int)) =
        (ifloor p.pos.x + 6).toNat := by
      simp only [toU16]
      omega
    rw [e, camera_clamp_eq _ 224 128 (by omega) (by decide) (by decide)]
    have : (((ifloor p.pos.x + 6).toNat : Nat) : Int) = ifloor p.pos.x + 6 := by omega
    rw [this]
    rfl
  · have e : toU16 ((toU16 (ifloor p.pos.y) : Int) + ((8 : Nat) : Int)) =
        (ifloor p.pos.y + 8).toNat := by
      simp only [toU16]
      omega
    rw [e, camera_clamp_eq _ 128 864 (by omega) (by decide) (by decide)]
    have : (((ifloor p.pos.y + 8).toNat : Nat) : Int) = ifloor p.pos.y + 8 := by omega
    rw [this]
    rfl

theorem camera_inside_world_witness :
    ((update_camera idle_player).x : Int) =
      max 0 (min (ifloor idle_player.pos.x + 6 - 224) 128) :=
  (camera_inside_world idle_player).2.2.2.2.1 (by decide) (by decide)

/-! ## The jump charge -/

theorem keys_phase_charge_eq (g_input : input) (p : player) (jump_charge : Int) :
    (keys_phase g_input p jump_charge).2 =
      (if p.flying = false ∧ p.sliding = false then
        (if g_input.W = false then (if jump_charge > 0 then 0 else jump_charge)
         else (if toI16 (jump_charge + 1) > 35 then 35 else toI16 (jump_charge + 1)))
       else jump_charge) ∧
    (p.flying = false → p.sliding = false → g_input.W = false → 0 < jump_charge →
      (keys_phase g_input p jump_charge).1.flying = true) := by
  obtain ⟨pos, vel, flying, sliding, charging, facing⟩ := p
  obtain ⟨W, A, S, D, Space, LMB⟩ := g_input
  cases flying <;> cases sliding <;> cases W <;> cases A <;> cases D <;>
    simp [keys_phase] <;> split_ifs <;> simp_all

theorem keys_phase_charge (g_input : input) (p : player) (jump_charge : Int)
    (h0 : 0 ≤ jump_charge) (h1 : jump_charge ≤ 35) :
    0 ≤ (keys_phase g_input p jump_charge).2 ∧ (keys_phase g_input p jump_charge).2 ≤ 35 ∧
    (jump_charge < (keys_phase g_input p jump_charge).2 →
      p.flying = false ∧ p.sliding = false ∧ g_input.W = true ∧
      (keys_phase g_input p jump_charge).2 = jump_charge + 1) ∧
    (p.flying = false → p.sliding = false → g_input.W = false → 0 < jump_charge →
      (keys_phase g_input p jump_charge).2 = 0 ∧
      (keys_phase g_input p jump_charge).1.flying = true) := by
  have e5 : toI16 (jump_charge + 1) = jump_charge + 1 := toI16_of_small _ (by omega) (by omega)
  obtain ⟨hc, hl⟩ := keys_phase_charge_eq g_input p jump_charge
  rw [hc, e5]
  refine ⟨?_, ?_, ?_, fun a b c d => ⟨?_, hl a b c d⟩⟩
  · split_ifs <;> omega
  · split_ifs <;> omega
  · split_ifs with c1 c2 c3 c4 <;> intro hlt
    · omega
    · omega
    · omega
    · exact ⟨c1.1, c1.2, by simpa using c2, rfl⟩
    · omega
  · rw [if_pos ⟨a, b⟩, if_pos c, if_pos d]

theorem play_charge (m : CollisionMap) (inputs : List input) :
    ∀ (p : player) (jump_charge : Int), 0 ≤ jump_charge → jump_charge ≤ 35 →
      0 ≤ (play m inputs (p, jump_charge)).2 ∧ (play m inputs (p, jump_charge)).2 ≤ 35 := by
  induction inputs with
  | nil =>
    intro p jc h0 h1
    exact ⟨h0, h1⟩
  | cons g rest ih =>
    intro p jc h0 h1
    rw [play]
    obtain ⟨a, b, _⟩ := keys_phase_charge g p jc h0 h1
    have e : (input_phase g p jc).2 = (keys_phase g p jc).2 := by
      rw [input_phase_eq]
    apply ih
    · show 0 ≤ (input_phase g p jc).2
      rw [e]; exact a
    · show (input_phase g p jc).2 ≤ 35
      rw [e]; exact b

/-- C25: the jump charge counter stays within `[0, 35]`.  For every player collision
map, every start player and every sequence of ticks with any key states, the static
`jump_charge` of `pre_render_update`, started at 0, is between 0 and 35 inclusive after
the sequence.  In a single tick from a charge in `[0, 35]` the charge stays in `[0, 35]`;
it increases, by exactly one, only when the player is grounded (neither flying nor
sliding) with W held; and the launch (grounded, W released, charge positive) resets it
to 0 and sets `flying`. -/
theorem jump_charge_bounded (m : CollisionMap) :
    (∀ (inputs : List input) (p : player),
      0 ≤ (play m inputs (p, 0)).2 ∧ (play m inputs (p, 0)).2 ≤ 35) ∧
    (∀ (g_input : input) (p : player) (jump_charge : Int),
      0 ≤ jump_charge → jump_charge ≤ 35 →
      0 ≤ (pre_render_update m g_input p jump_charge).2 ∧
      (pre_render_update m g_input p jump_charge).2 ≤ 35 ∧
      (jump_charge < (pre_render_update m g_input p jump_charge).2 →
        p.flying = false ∧ p.sliding = false ∧ g_input.W = true ∧
        (pre_render_update m g_input p jump_charge).2 = jump_charge + 1) ∧
      (p.flying = false → p.sliding = false → g_input.W = false → 0 < jump_charge →
        (pre_render_update m g_input p jump_charge).2 = 0 ∧
        (input_phase g_input p jump_charge).1.flying = true)) := by
  refine ⟨fun inputs p => play_charge m inputs p 0 (le_refl 0) (by decide), ?_⟩
  intro g p jc h0 h1
  obtain ⟨a, b, c, d⟩ := keys_phase_charge g p jc h0 h1
  rw [pre_render_update_eq]
  refine ⟨a, b, c, fun e1 e2 e3 e4 => ⟨(d e1 e2 e3 e4).1, ?_⟩⟩
  rw [input_phase_eq]
  have hfly := (d e1 e2 e3 e4).2
  simp only [apply_drag]
  split_ifs <;> exact hfly

theorem jump_charge_bounded_witness :
    (0 ≤ (play step_map [hold_jump, hold_jump, no_input] (idle_player, 0)).2 ∧
      (play step_map [hold_jump, hold_jump, no_input] (idle_player, 0)).2 ≤ 35) ∧
    (pre_render_update step_map no_input idle_player 2).2 = 0 ∧
    (input_phase no_input idle_player 2).1.flying = true :=
  ⟨(jump_charge_bounded step_map).1 [hold_jump, hold_jump, no_input] idle_player,
    ((jump_charge_bounded step_map).2 no_input idle_player 2 (by decide) (by decide)).2.2.2
      rfl rfl rfl (by decide)⟩

/-! ## Collision sweep: the loop, iteration by iteration -/

theorem sweep_loop_add (m : CollisionMap) (a b : Nat) (s : sweep) :
    sweep_loop m (a + b) s = sweep_loop m b (sweep_loop m a s) := by
  induction a generalizing s with
  | zero => simp [sweep_loop]
  | succ a ih =>
    rw [Nat.succ_add, sweep_loop, sweep_loop]
    by_cases hr : s.running = true
    · rw [if_pos hr, if_pos hr, ih]
    · rw [if_neg hr, if_neg hr, sweep_loop_of_not_running m b s (by simpa using hr)]

/-- The state after `n + 1` iterations is the state after `n` iterations followed by one
more pass through the loop body, if the loop condition still holds. -/
theorem sweep_loop_succ_last (m : CollisionMap) (n : Nat) (s : sweep) :
    sweep_loop m (n + 1) s =
      if (sweep_loop m n s).running = true then sweep_iter m (sweep_loop m n s)
      else sweep_loop m n s := by
  rw [sweep_loop_add m n 1 s]
  simp only [sweep_loop]

theorem sweep_loop_stable (m : CollisionMap) (n k : Nat) (s : sweep)
    (h : (sweep_loop m n s).running = false) : sweep_loop m (n + k) s = sweep_loop m n s := by
  rw [sweep_loop_add, sweep_loop_of_not_running m k _ h]

/-- The initial differences are the absolute values of the `i16` differences of the end
and start pixel. -/
theorem sweep_init_diff (p : player) :
    toU16 (sweep_init p).diff_x =
      (toI16 (ifloor (p.pos.x.add p.vel.x) - ifloor p.pos.x)).natAbs ∧
    toU16 (sweep_init p).diff_y =
      (toI16 (ifloor (p.pos.y.add p.vel.y) - ifloor p.pos.y)).natAbs := by
  simp only [sweep_init]
  constructor
  · have h := toI16_range (ifloor (p.pos.x.add p.vel.x) - ifloor p.pos.x)
    generalize toI16 (ifloor (p.pos.x.add p.vel.x) - ifloor p.pos.x) = d at h ⊢
    split_ifs <;> simp only [toU16, toI16] <;> omega
  · have h := toI16_range (ifloor (p.pos.y.add p.vel.y) - ifloor p.pos.y)
    generalize toI16 (ifloor (p.pos.y.add p.vel.y) - ifloor p.pos.y) = d at h ⊢
    split_ifs <;> simp only [toU16, toI16] <;> omega

theorem sweep_step_x_solid (m : CollisionMap) (s : sweep)
    (h : m s.y (toU16 ((s.x : Int) + s.step_x)) = true) :
    (sweep_step_x m s).collide_x = true := by
  simp only [sweep_step_x, sweep.read, sweep.set_vel_x, sweep.set_flying, sweep.set_sliding, h,
    if_true]
  split_ifs <;> rfl

/-- An x-step into an empty cell only advances `x` and `ix`, apart from the flags of a
player that was not flying. -/
theorem sweep_step_x_free (m : CollisionMap) (s : sweep)
    (h : m s.y (toU16 ((s.x : Int) + s.step_x)) = false) :
    (sweep_step_x m s).x = toU16 ((s.x : Int) + s.step_x) ∧
    (sweep_step_x m s).ix = toU16 ((s.ix : Int) + 1) ∧
    (sweep_step_x m s).y = s.y ∧ (sweep_step_x m s).iy = s.iy ∧
    (sweep_step_x m s).diff_x = s.diff_x ∧ (sweep_step_x m s).diff_y = s.diff_y ∧
    (sweep_step_x m s).step_x = s.step_x ∧ (sweep_step_x m s).step_y = s.step_y ∧
    (sweep_step_x m s).collide_x = s.collide_x ∧ (sweep_step_x m s).collide_y = s.collide_y ∧
    (sweep_step_x m s).stopped = s.stopped ∧
    (sweep_step_x m s).pl.pos = s.pl.pos ∧ (sweep_step_x m s).pl.vel = s.pl.vel ∧
    (s.pl.flying = true → (sweep_step_x m s).pl = s.pl) ∧
    (m ((s.y : Int) + 1) (toU16 ((s.x : Int) + s.step_x)) = true →
      (sweep_step_x m s).pl = s.pl) := by
  simp only [sweep_step_x, sweep.read, sweep.set_vel_x, sweep.set_flying, sweep.set_sliding, h,
    Bool.false_eq_true, if_false]
  split_ifs <;> simp_all

/-- The three outcomes of the landing code of a downward y-step: a slide to the left, a
slide to the right, or a flat landing, each on the state with some more lookups logged. -/
theorem sweep_land_cases (m : CollisionMap) (s : sweep) :
    ∃ r : List (Int × Int),
      (sweep_land m s = sweep_slide m { s with reads := r } (-1) ∧
        m s.y ((s.x : Int) - 1) = false ∧
        (m ((s.y : Int) + 1) ((s.x : Int) - 1) = true ∨ s.pl.sliding = true) ∧
        ((s.y : Int), (s.x : Int) - 1) ∈ r) ∨
      (sweep_land m s = sweep_slide m { s with reads := r } 1 ∧
        m s.y ((s.x : Int) + 1) = false ∧
        (m ((s.y : Int) + 1) ((s.x : Int) + 1) = true ∨ s.pl.sliding = true) ∧
        ((s.y : Int), (s.x : Int) + 1) ∈ r) ∨
      sweep_land m s = sweep_flat_landing { s with reads := r } := by
  simp only [sweep_land, sweep.read]
  by_cases hL : m s.y ((s.x : Int) - 1) = true
  · simp only [hL, if_true, Bool.not_true, Bool.false_and, Bool.false_eq_true, if_false]
    by_cases hR : m s.y ((s.x : Int) + 1) = true
    · simp only [hR, if_true, Bool.not_true, Bool.false_and, Bool.false_eq_true, if_false]
      exact ⟨_, Or.inr (Or.inr rfl)⟩
    · have hR' : m s.y ((s.x : Int) + 1) = false := by simpa using hR
      simp only [hR', Bool.false_eq_true, if_false, Bool.not_false, Bool.true_and,
        Bool.or_eq_true]
      split_ifs with hc
      · exact ⟨_, Or.inr (Or.inl ⟨rfl, trivial, hc, by simp⟩)⟩
      · exact ⟨_, Or.inr (Or.inr rfl)⟩
  · have hL' : m s.y ((s.x : Int) - 1) = false := by simpa using hL
    simp only [hL', Bool.false_eq_true, if_false, Bool.not_false, Bool.true_and,
      Bool.or_eq_true]
    by_cases hc : m ((s.y : Int) + 1) ((s.x : Int) - 1) = true ∨ s.pl.sliding = true
    · rw [if_pos hc]
      exact ⟨_, Or.inl ⟨rfl, trivial, hc, by simp⟩⟩
    · rw [if_neg hc]
      by_cases hR : m s.y ((s.x : Int) + 1) = true
      · simp only [hR, if_true, Bool.not_true, Bool.false_and, Bool.false_eq_true, if_false]
        exact ⟨_, Or.inr (Or.inr rfl)⟩
      · have hR' : m s.y ((s.x : Int) + 1) = false := by simpa using hR
        simp only [hR', Bool.false_eq_true, if_false, Bool.not_false, Bool.true_and,
          Bool.or_eq_true]
        split_ifs with hc2
        · exact ⟨_, Or.inr (Or.inl ⟨rfl, trivial, hc2, by simp⟩)⟩
        · exact ⟨_, Or.inr (Or.inr rfl)⟩

theorem sweep_slide_keeps (m : CollisionMap) (s : sweep) (dir : Int) :
    (sweep_slide m s dir).collide_x = true ∧ (sweep_slide m s dir).collide_y = s.collide_y ∧
    (sweep_slide m s dir).x = toU16 ((s.x : Int) + dir) ∧ (sweep_slide m s dir).y = s.y ∧
    (sweep_slide m s dir).step_x = s.step_x ∧ (sweep_slide m s dir).step_y = s.step_y := by
  simp only [sweep_slide, sweep.read, sweep.set_vel_x, sweep.set_flying, sweep.set_sliding]
  split_ifs <;> simp

theorem sweep_flat_landing_keeps (s : sweep) :
    (sweep_flat_landing s).collide_x = s.collide_x ∧
    (sweep_flat_landing s).collide_y = s.collide_y ∧
    (sweep_flat_landing s).x = s.x ∧
    (sweep_flat_landing s).y = toU16 ((s.y : Int) - s.step_y) ∧
    (sweep_flat_landing s).step_x = s.step_x ∧ (sweep_flat_landing s).step_y = s.step_y := by
  simp [sweep_flat_landing, sweep.set_vel_x, sweep.set_vel_y, sweep.set_sliding]

theorem sweep_land_collide_y (m : CollisionMap) (s : sweep) :
    (sweep_land m s).collide_y = s.collide_y := by
  obtain ⟨r, h | h | h⟩ := sweep_land_cases m s
  · rw [h.1, (sweep_slide_keeps m _ _).2.1]
  · rw [h.1, (sweep_slide_keeps m _ _).2.1]
  · rw [h, (sweep_flat_landing_keeps _).2.1]

theorem sweep_step_y_solid (m : CollisionMap) (s : sweep)
    (h : m (toU16 ((s.y : Int) + s.step_y)) s.x = true) :
    (sweep_step_y m s).collide_y = true := by
  simp only [sweep_step_y, sweep.read, h, if_true]
  split_ifs
  · rfl
  · rw [sweep_land_collide_y]
    rfl

/-- A y-step into an empty cell only advances `y` and `iy`. -/
theorem sweep_step_y_free (m : CollisionMap) (s : sweep)
    (h : m (toU16 ((s.y : Int) + s.step_y)) s.x = false) :
    sweep_step_y m s =
      { s with y := toU16 ((s.y : Int) + s.step_y), iy := toU16 ((s.iy : Int) + 1),
               reads := ((toU16 ((s.y : Int) + s.step_y) : Nat), (s.x : Int)) :: s.reads } := by
  simp only [sweep_step_y, sweep.read, h, Bool.false_eq_true, if_false]

/-- An iteration after which no collision is recorded was a plain step: no collision
was recorded before, the cell entered is empty, the differences, the directions, the
velocity and the position of the player are unchanged, and exactly one of the counters
`ix`, `iy` advanced, with the walked pixel. -/
theorem sweep_iter_no_collision (m : CollisionMap) (s : sweep)
    (hx : (sweep_iter m s).collide_x = false) (hy : (sweep_iter m s).collide_y = false) :
    s.collide_x = false ∧ s.collide_y = false ∧
    (sweep_iter m s).diff_x = s.diff_x ∧ (sweep_iter m s).diff_y = s.diff_y ∧
    (sweep_iter m s).step_x = s.step_x ∧ (sweep_iter m s).step_y = s.step_y ∧
    (sweep_iter m s).stopped = s.stopped ∧
    (sweep_iter m s).pl.pos = s.pl.pos ∧ (sweep_iter m s).pl.vel = s.pl.vel ∧
    m (sweep_iter m s).y (sweep_iter m s).x = false ∧
    ((s.wants_x = true ∧ (sweep_iter m s).x = toU16 ((s.x : Int) + s.step_x) ∧
        (sweep_iter m s).ix = toU16 ((s.ix : Int) + 1) ∧
        (sweep_iter m s).y = s.y ∧ (sweep_iter m s).iy = s.iy) ∨
      (s.wants_x = false ∧ (sweep_iter m s).y = toU16 ((s.y : Int) + s.step_y) ∧
        (sweep_iter m s).iy = toU16 ((s.iy : Int) + 1) ∧
        (sweep_iter m s).x = s.x ∧ (sweep_iter m s).ix = s.ix)) := by
  rw [sweep_iter] at hx hy ⊢
  by_cases hw : s.wants_x = true
  · rw [if_pos hw] at hx hy ⊢
    by_cases hc : m s.y (toU16 ((s.x : Int) + s.step_x)) = true
    · rw [sweep_step_x_solid m s hc] at hx
      exact absurd hx (by decide)
    · have hc' : m s.y (toU16 ((s.x : Int) + s.step_x)) = false := by simpa using hc
      obtain ⟨f1, f2, f3, f4, f5, f6, f7, f8, f9, f10, f11, f12, f13, _, _⟩ :=
        sweep_step_x_free m s hc'
      rw [f9] at hx
      rw [f10] at hy
      refine ⟨hx, hy, f5, f6, f7, f8, f11, f12, f13, ?_, Or.inl ⟨hw, f1, f2, f3, f4⟩⟩
      rw [f1, f3]
      exact hc'
  · rw [if_neg hw] at hx hy ⊢
    by_cases hc : m (toU16 ((s.y : Int) + s.step_y)) s.x = true
    · rw [sweep_step_y_solid m s hc] at hy
      exact absurd hy (by decide)
    · have hc' : m (toU16 ((s.y : Int) + s.step_y)) s.x = false := by simpa using hc
      rw [sweep_step_y_free m s hc'] at hx hy ⊢
      exact ⟨hx, hy, rfl, rfl, rfl, rfl, rfl, rfl, rfl, hc',
        Or.inr ⟨by simpa using hw, rfl, rfl, rfl, rfl⟩⟩

/-! ## Collision sweep: the staircase of a collision-free walk -/

/-- The loop invariant of a walk without collision: as long as no collision is recorded,
the differences are the initial ones, `break` was not executed, the counters are within
the differences and count the iterations made, and `ix * diff_y - iy * diff_x` stays
within half of `diff_x + diff_y`. -/
theorem dda_invariant (m : CollisionMap) (p : player) (n : Nat)
    (hx : (sweep_loop m n (sweep_init p)).collide_x = false)
    (hy : (sweep_loop m n (sweep_init p)).collide_y = false) :
    (sweep_loop m n (sweep_init p)).diff_x = (sweep_init p).diff_x ∧
    (sweep_loop m n (sweep_init p)).diff_y = (sweep_init p).diff_y ∧
    (sweep_loop m n (sweep_init p)).stopped = false ∧
    (sweep_loop m n (sweep_init p)).ix ≤ toU16 (sweep_init p).diff_x ∧
    (sweep_loop m n (sweep_init p)).iy ≤ toU16 (sweep_init p).diff_y ∧
    (sweep_loop m n (sweep_init p)).ix + (sweep_loop m n (sweep_init p)).iy =
      min n (toU16 (sweep_init p).diff_x + toU16 (sweep_init p).diff_y) ∧
    -((toU16 (sweep_init p).diff_x : Int) + (toU16 (sweep_init p).diff_y : Int)) ≤
      2 * (((sweep_loop m n (sweep_init p)).ix : Int) * (toU16 (sweep_init p).diff_y : Int) -
        ((sweep_loop m n (sweep_init p)).iy : Int) * (toU16 (sweep_init p).diff_x : Int)) ∧
    2 * (((sweep_loop m n (sweep_init p)).ix : Int) * (toU16 (sweep_init p).diff_y : Int) -
        ((sweep_loop m n (sweep_init p)).iy : Int) * (toU16 (sweep_init p).diff_x : Int)) ≤
      (toU16 (sweep_init p).diff_x : Int) + (toU16 (sweep_init p).diff_y : Int) := by
  induction n with
  | zero =>
    have e1 : (sweep_loop m 0 (sweep_init p)).ix = 0 := rfl
    have e2 : (sweep_loop m 0 (sweep_init p)).iy = 0 := rfl
    rw [e1, e2]
    refine ⟨rfl, rfl, rfl, Nat.zero_le _, Nat.zero_le _, by simp, ?_, ?_⟩
    · simp only [Nat.cast_zero, zero_mul, sub_self, mul_zero]
      omega
    · simp only [Nat.cast_zero, zero_mul, sub_self, mul_zero]
      omega
  | succ n ih =>
    rw [sweep_loop_succ_last] at hx hy ⊢
    by_cases hr : (sweep_loop m n (sweep_init p)).running = true
    · rw [if_pos hr] at hx hy ⊢
      obtain ⟨c1, c2, d1, d2, _, _, d5, _, _, _, hstep⟩ :=
        sweep_iter_no_collision m _ hx hy
      obtain ⟨i1, i2, i3, i4, i5, i6, i7, i8⟩ := ih c1 c2
      generalize sweep_loop m n (sweep_init p) = t at *
      generalize sweep_init p = s0 at *
      have hrun : t.ix < toU16 s0.diff_x ∨ t.iy < toU16 s0.diff_y := by
        simp only [sweep.running, Bool.and_eq_true, Bool.or_eq_true, decide_eq_true_eq] at hr
        rw [i1, i2] at hr
        exact hr.2
      rcases hstep with ⟨hw, _, f2, _, f4⟩ | ⟨hw, _, f2, _, f4⟩
      · have hlt := wants_x_lt t hw hr
        rw [i1] at hlt
        simp only [sweep.wants_x, dda_odd, decide_eq_true_eq, i1, i2] at hw
        have hw' : 2 * ((t.ix : Int) * (toU16 s0.diff_y : Int)) + (toU16 s0.diff_y : Int) <
            2 * ((t.iy : Int) * (toU16 s0.diff_x : Int)) + (toU16 s0.diff_x : Int) := by
          have := Int.ofNat_lt.2 hw
          push_cast at this
          linarith
        have e : toU16 ((t.ix : Int) + 1) = t.ix + 1 := by
          have hb : toU16 s0.diff_x < 65536 := by simp only [toU16]; omega
          simp only [toU16]
          omega
        rw [d1, d2, d5, f2, f4, e]
        have ec : (((t.ix + 1 : Nat) : Int)) * (toU16 s0.diff_y : Int) =
            (t.ix : Int) * (toU16 s0.diff_y : Int) + (toU16 s0.diff_y : Int) := by
          push_cast
          ring
        rw [ec]
        refine ⟨i1, i2, i3, by omega, i5, by omega, by linarith, by linarith⟩
      · have hlt := not_wants_x_lt t hw hr
        rw [i2] at hlt
        simp only [sweep.wants_x, dda_odd, decide_eq_false_iff_not, i1, i2, not_lt] at hw
        have hw' : 2 * ((t.iy : Int) * (toU16 s0.diff_x : Int)) + (toU16 s0.diff_x : Int) ≤
            2 * ((t.ix : Int) * (toU16 s0.diff_y : Int)) + (toU16 s0.diff_y : Int) := by
          have := Int.ofNat_le.2 hw
          push_cast at this
          linarith
        have e : toU16 ((t.iy : Int) + 1) = t.iy + 1 := by
          have hb : toU16 s0.diff_y < 65536 := by simp only [toU16]; omega
          simp only [toU16]
          omega
        rw [d1, d2, d5, f2, f4, e]
        have ec : (((t.iy + 1 : Nat) : Int)) * (toU16 s0.diff_x : Int) =
            (t.iy : Int) * (toU16 s0.diff_x : Int) + (toU16 s0.diff_x : Int) := by
          push_cast
          ring
        rw [ec]
        refine ⟨i1, i2, i3, i4, by omega, by omega, by linarith, by linarith⟩
    · rw [if_neg hr] at hx hy ⊢
      obtain ⟨i1, i2, i3, i4, i5, i6, i7, i8⟩ := ih hx hy
      refine ⟨i1, i2, i3, i4, i5, ?_, i7, i8⟩
      simp only [sweep.running, i3, i1, i2, Bool.not_false, Bool.true_and, Bool.or_eq_true,
        decide_eq_true_eq, not_or, not_lt] at hr
      omega

theorem sweep_init_steps (p : player) :
    ((sweep_init p).step_x = 1 ∨ (sweep_init p).step_x = -1) ∧
    ((sweep_init p).step_y = 1 ∨ (sweep_init p).step_y = -1) := by
  simp only [sweep_init]
  constructor <;> split_ifs <;> simp

/-- As long as every cell entered is empty (and, for a player that is not flying, the
cell below it is solid), the loop records no collision, leaves the player record and the
directions as they were, and the walked pixel is the start pixel moved by the counters. -/
theorem free_walk (m : CollisionMap) (p : player) (n : Nat)
    (h : ∀ j, j < n → (sweep_loop m j (sweep_init p)).running = true →
      m (sweep_loop m j (sweep_init p)).next_cell.1
          (sweep_loop m j (sweep_init p)).next_cell.2 = false ∧
      (p.flying = true ∨
        m ((sweep_loop m j (sweep_init p)).next_cell.1 + 1)
          (sweep_loop m j (sweep_init p)).next_cell.2 = true)) :
    (sweep_loop m n (sweep_init p)).collide_x = false ∧
    (sweep_loop m n (sweep_init p)).collide_y = false ∧
    (sweep_loop m n (sweep_init p)).pl = p ∧
    (sweep_loop m n (sweep_init p)).step_x = (sweep_init p).step_x ∧
    (sweep_loop m n (sweep_init p)).step_y = (sweep_init p).step_y ∧
    (sweep_loop m n (sweep_init p)).x =
      toU16 (((sweep_init p).x : Int) +
        (sweep_init p).step_x * ((sweep_loop m n (sweep_init p)).ix : Int)) ∧
    (sweep_loop m n (sweep_init p)).y =
      toU16 (((sweep_init p).y : Int) +
        (sweep_init p).step_y * ((sweep_loop m n (sweep_init p)).iy : Int)) := by
  induction n with
  | zero =>
    have hx0 : (sweep_init p).x < 65536 := by simp only [sweep_init, toU16]; omega
    have hy0 : (sweep_init p).y < 65536 := by simp only [sweep_init, toU16]; omega
    have e1 : (sweep_loop m 0 (sweep_init p)).ix = 0 := rfl
    have e2 : (sweep_loop m 0 (sweep_init p)).iy = 0 := rfl
    rw [e1, e2]
    refine ⟨rfl, rfl, rfl, rfl, rfl, ?_, ?_⟩
    · show (sweep_init p).x = _
      simp only [toU16, Nat.cast_zero, mul_zero, add_zero]
      omega
    · show (sweep_init p).y = _
      simp only [toU16, Nat.cast_zero, mul_zero, add_zero]
      omega
  | succ n ih =>
    obtain ⟨k1, k2, k3, k4, k5, k6, k7⟩ := ih (fun j hj => h j (Nat.lt_succ_of_lt hj))
    have hn := h n (Nat.lt_succ_self n)
    rw [sweep_loop_succ_last]
    by_cases hr : (sweep_loop m n (sweep_init p)).running = true
    · rw [if_pos hr]
      obtain ⟨hfree, hground⟩ := hn hr
      obtain ⟨sx, sy⟩ := sweep_init_steps p
      generalize sweep_loop m n (sweep_init p) = t at *
      generalize sweep_init p = s0 at *
      rw [sweep_iter]
      by_cases hw : t.wants_x = true
      · rw [if_pos hw]
        have hlt := wants_x_lt t hw hr
        simp only [sweep.next_cell, hw, if_true] at hfree hground
        obtain ⟨f1, f2, f3, f4, _, _, f7, f8, f9, f10, _, _, _, f14, f15⟩ :=
          sweep_step_x_free m t hfree
        have hpl : (sweep_step_x m t).pl = p := by
          rcases hground with hg | hg
          · rw [f14 (by rw [k3]; exact hg), k3]
          · rw [f15 hg, k3]
        have e : toU16 ((t.ix : Int) + 1) = t.ix + 1 := by
          have hb : toU16 t.diff_x < 65536 := by simp only [toU16]; omega
          simp only [toU16]
          omega
        rw [f1, f2, f3, f4, f7, f8, f9, f10, e]
        refine ⟨k1, k2, hpl, k4, k5, ?_, k7⟩
        rw [k6, k4, toU16_toU16_add]
        congr 1
        push_cast
        ring
      · rw [if_neg hw]
        have hw' : t.wants_x = false := by simpa using hw
        have hlt := not_wants_x_lt t hw' hr
        simp only [sweep.next_cell, hw', Bool.false_eq_true, if_false] at hfree
        rw [sweep_step_y_free m t hfree]
        have e : toU16 ((t.iy : Int) + 1) = t.iy + 1 := by
          have hb : toU16 t.diff_y < 65536 := by simp only [toU16]; omega
          simp only [toU16]
          omega
        simp only [e]
        refine ⟨k1, k2, k3, k4, k5, k6, ?_⟩
        rw [k7, k5, toU16_toU16_add]
        congr 1
        push_cast
        ring
    · rw [if_neg hr]
      exact ⟨k1, k2, k3, k4, k5, k6, k7⟩

/-- An x-step of a player that is not flying into a solid cell, the cell below the pixel
stepped back to being solid: the collision is recorded, the step is undone, `diff_x`
becomes `ix` and `vel.x` zero. -/
theorem sweep_step_x_wall (m : CollisionMap) (s : sweep) (hf : s.pl.flying = false)
    (hsx : s.step_x = 1 ∨ s.step_x = -1) (hxb : s.x < 65536)
    (h : m s.y (toU16 ((s.x : Int) + s.step_x)) = true)
    (hb : m ((s.y : Int) + 1) s.x = true) :
    (sweep_step_x m s).collide_x = true ∧ (sweep_step_x m s).collide_y = s.collide_y ∧
    (sweep_step_x m s).x = s.x ∧ (sweep_step_x m s).y = s.y ∧
    (sweep_step_x m s).ix = toU16 ((s.ix : Int) + 1) ∧ (sweep_step_x m s).iy = s.iy ∧
    (sweep_step_x m s).diff_x = toI16 (toU16 ((s.ix : Int) + 1)) ∧
    (sweep_step_x m s).diff_y = s.diff_y ∧ (sweep_step_x m s).stopped = s.stopped ∧
    (sweep_step_x m s).pl = { s.pl with vel := ⟨fixed16_16.ofI16 0, s.pl.vel.y⟩ } := by
  have hback : toU16 ((toU16 ((s.x : Int) + s.step_x) : Int) - s.step_x) = s.x := by
    rcases hsx with e | e <;> rw [e] <;> simp only [toU16] <;> omega
  simp only [sweep_step_x, sweep.read, sweep.set_vel_x, sweep.set_flying, sweep.set_sliding, h,
    hf, hback, hb, if_true, Bool.false_eq_true, if_false, and_self]

/-- A walk along one row: with `diff_y = 0` and the first `n` cells of the row empty, each
with a solid cell below, the state after `n` iterations has made `n` x-steps and nothing
else. -/
theorem horizontal_walk (m : CollisionMap) (p : player) (k : Nat)
    (hy : (sweep_init p).diff_y = 0) (hk : k ≤ toU16 (sweep_init p).diff_x)
    (hfree : ∀ j, 1 ≤ j → j < k →
      m (sweep_init p).y
        (toU16 (((sweep_init p).x : Int) + (sweep_init p).step_x * (j : Int))) = false)
    (hfloor : ∀ j, 1 ≤ j → j < k →
      m (((sweep_init p).y : Int) + 1)
        (toU16 (((sweep_init p).x : Int) + (sweep_init p).step_x * (j : Int))) = true)
    (n : Nat) (hn : n + 1 ≤ k) :
    (sweep_loop m n (sweep_init p)).collide_x = false ∧
    (sweep_loop m n (sweep_init p)).collide_y = false ∧
    (sweep_loop m n (sweep_init p)).pl = p ∧
    (sweep_loop m n (sweep_init p)).step_x = (sweep_init p).step_x ∧
    (sweep_loop m n (sweep_init p)).x =
      toU16 (((sweep_init p).x : Int) + (sweep_init p).step_x * (n : Int)) ∧
    (sweep_loop m n (sweep_init p)).y = (sweep_init p).y ∧
    (sweep_loop m n (sweep_init p)).ix = n ∧ (sweep_loop m n (sweep_init p)).iy = 0 ∧
    (sweep_loop m n (sweep_init p)).diff_x = (sweep_init p).diff_x ∧
    (sweep_loop m n (sweep_init p)).diff_y = 0 ∧
    (sweep_loop m n (sweep_init p)).stopped = false := by
  have hy0 : (sweep_init p).y < 65536 := by simp only [sweep_init, toU16]; omega
  have hdy : toU16 (sweep_init p).diff_y = 0 := by rw [hy]; rfl
  have key : ∀ n, n + 1 ≤ k →
      (∀ j, j < n → (sweep_loop m j (sweep_init p)).running = true →
        m (sweep_loop m j (sweep_init p)).next_cell.1
            (sweep_loop m j (sweep_init p)).next_cell.2 = false ∧
        (p.flying = true ∨
          m ((sweep_loop m j (sweep_init p)).next_cell.1 + 1)
            (sweep_loop m j (sweep_init p)).next_cell.2 = true)) := by
    intro n
    induction n with
    | zero =>
      intro _ j hj
      omega
    | succ n ih =>
      intro hn j hj hr
      have hprev := ih (by omega)
      rcases Nat.lt_succ_iff_lt_or_eq.1 hj with hj | hj
      · exact hprev j hj hr
      · subst hj
        obtain ⟨k1, k2, k3, k4, k5, k6, k7⟩ := free_walk m p j hprev
        obtain ⟨i1, i2, i3, i4, i5, i6, _, _⟩ := dda_invariant m p j k1 k2
        have hiy : (sweep_loop m j (sweep_init p)).iy = 0 := by omega
        have hix : (sweep_loop m j (sweep_init p)).ix = j := by omega
        have hw : (sweep_loop m j (sweep_init p)).wants_x = true := by
          simp only [sweep.wants_x, dda_odd, i1, i2, hdy, hiy, decide_eq_true_eq]
          omega
        obtain ⟨sx, _⟩ := sweep_init_steps p
        have hcell : (sweep_loop m j (sweep_init p)).next_cell =
            (((sweep_init p).y : Int),
              ((toU16 (((sweep_init p).x : Int) +
                (sweep_init p).step_x * ((j + 1 : Nat) : Int)) : Nat) : Int)) := by
          simp only [sweep.next_cell, hw, if_true, k4, k6, k7, hix, hiy]
          congr 1
          · simp only [toU16, Nat.cast_zero, mul_zero, add_zero]
            omega
          · rw [toU16_toU16_add]
            congr 2
            push_cast
            ring
        rw [hcell]
        exact ⟨hfree (j + 1) (by omega) (by omega), Or.inr (hfloor (j + 1) (by omega) (by omega))⟩
  obtain ⟨k1, k2, k3, k4, k5, k6, k7⟩ := free_walk m p n (key n hn)
  obtain ⟨i1, i2, i3, i4, i5, i6, _, _⟩ := dda_invariant m p n k1 k2
  have hiy : (sweep_loop m n (sweep_init p)).iy = 0 := by omega
  have hix : (sweep_loop m n (sweep_init p)).ix = n := by omega
  refine ⟨k1, k2, k3, k4, ?_, ?_, hix, hiy, i1, by rw [i2, hy], i3⟩
  · rw [k6, hix]
  · rw [k7, hiy]
    simp only [toU16, Nat.cast_zero, mul_zero, add_zero]
    omega

/-- The pixels of a walk of `k - 1` steps from `s` towards `e` are `i16` values when the
difference `e - s` is one. -/
theorem step_range (s e : Int) (k : Nat) (hs : -32768 ≤ s ∧ s ≤ 32767)
    (he : -32768 ≤ e ∧ e ≤ 32767) (hnw : toI16 (e - s) = e - s) (hk1 : 1 ≤ k)
    (hk : k ≤ toU16 (if toI16 (e - s) < 0 then toI16 (-toI16 (e - s)) else toI16 (e - s))) :
    -32768 ≤ s + (if toI16 (e - s) < 0 then -1 else 1) * ((k : Int) - 1) ∧
    s + (if toI16 (e - s) < 0 then -1 else 1) * ((k : Int) - 1) ≤ 32767 := by
  rw [hnw] at hk ⊢
  split_ifs at hk ⊢ with hneg
  · simp only [toU16, toI16] at hk
    omega
  · simp only [toU16] at hk
    omega

/-- C22: for every player collision map and every player that is not flying and moves
horizontally only (end row equal to start row) over cells whose lower neighbour is solid:
if the `k`-th x-step of `collision_sweep_test` is the first to enter a solid cell, then
after the sweep an x-collision has been recorded, no y-collision, `ix = diff_x = k` (no
further x-step is taken), `vel.x` is exactly zero, `pos.x` is the integer pixel
`start_x + step_x * (k - 1)` (the last free pixel next to the wall, fraction zero; read as
an `i16`), and `pos.y` has advanced by the unchanged `vel.y`. -/
theorem wall_stop (m : CollisionMap) (p : player) (k : Nat)
    (hf : p.flying = false)
    (hy : ifloor (p.pos.y.add p.vel.y) = ifloor p.pos.y)
    (hk1 : 1 ≤ k) (hk : k ≤ toU16 (sweep_init p).diff_x)
    (hfree : ∀ j : Nat, 1 ≤ j → j < k →
      m (toU16 (ifloor p.pos.y))
        (toU16 (ifloor p.pos.x + (sweep_init p).step_x * (j : Int))) = false)
    (hfloor : ∀ j : Nat, j < k →
      m ((toU16 (ifloor p.pos.y) : Int) + 1)
        (toU16 (ifloor p.pos.x + (sweep_init p).step_x * (j : Int))) = true)
    (hwall : m (toU16 (ifloor p.pos.y))
        (toU16 (ifloor p.pos.x + (sweep_init p).step_x * (k : Int))) = true) :
    (sweep_final m p).collide_x = true ∧ (sweep_final m p).collide_y = false ∧
    (sweep_final m p).ix = k ∧ toU16 (sweep_final m p).diff_x = k ∧
    (sweep_final m p).iy = 0 ∧
    collision_sweep_test m p =
      { p with
        pos := ⟨fixed16_16.ofI16
                  (toI16 (toU16 (ifloor p.pos.x + (sweep_init p).step_x * ((k : Int) - 1)))),
                p.pos.y.add p.vel.y⟩
        vel := ⟨fixed16_16.ofI16 0, p.vel.y⟩ } ∧
    (toI16 (ifloor (p.pos.x.add p.vel.x) - ifloor p.pos.x) =
        ifloor (p.pos.x.add p.vel.x) - ifloor p.pos.x →
      (collision_sweep_test m p).pos.x =
        ⟨(ifloor p.pos.x + (sweep_init p).step_x * ((k : Int) - 1)) * 65536⟩) := by
  have hx0 : ((sweep_init p).x : Int) = toU16 (ifloor p.pos.x) := rfl
  have hy0 : (sweep_init p).y = toU16 (ifloor p.pos.y) := rfl
  have hdy0 : (sweep_init p).diff_y = 0 := by
    simp only [sweep_init, hy, sub_self]
    decide
  have hdyu : toU16 (sweep_init p).diff_y = 0 := by rw [hdy0]; rfl
  obtain ⟨sx, _⟩ := sweep_init_steps p
  obtain ⟨w1, w2, w3, w4, w5, w6, w7, w8, w9, w10, w11⟩ :=
    horizontal_walk m p k hdy0 hk
      (fun j h1 h2 => by rw [hx0, hy0, toU16_toU16_add]; exact hfree j h1 h2)
      (fun j _ h2 => by rw [hx0, hy0, toU16_toU16_add]; exact hfloor j h2)
      (k - 1) (by omega)
  have hkk : k - 1 + 1 = k := by omega
  have hdxb : toU16 (sweep_init p).diff_x < 65536 := by simp only [toU16]; omega
  -- the state before the `k`-th step is still running and chooses an x-step
  have hr : (sweep_loop m (k - 1) (sweep_init p)).running = true := by
    simp only [sweep.running, w11, w9, w7, Bool.not_false, Bool.true_and, Bool.or_eq_true,
      decide_eq_true_eq]
    left
    omega
  have hw : (sweep_loop m (k - 1) (sweep_init p)).wants_x = true := by
    simp only [sweep.wants_x, dda_odd, w7, w8, w9, w10, decide_eq_true_eq]
    have : toU16 (0 : Int) = 0 := rfl
    rw [this]
    omega
  have hloopk : sweep_loop m k (sweep_init p) =
      sweep_step_x m (sweep_loop m (k - 1) (sweep_init p)) := by
    conv_lhs => rw [← hkk]
    rw [sweep_loop_succ_last, if_pos hr, sweep_iter, if_pos hw]
  have hcellk : toU16 (((sweep_loop m (k - 1) (sweep_init p)).x : Int) +
      (sweep_loop m (k - 1) (sweep_init p)).step_x) =
      toU16 (ifloor p.pos.x + (sweep_init p).step_x * (k : Int)) := by
    have ek : ((k - 1 : Nat) : Int) = (k : Int) - 1 := by omega
    rw [w5, w4, hx0, toU16_toU16_add, add_assoc, toU16_toU16_add, ek]
    congr 1
    ring
  have hxk : (sweep_loop m (k - 1) (sweep_init p)).x =
      toU16 (ifloor p.pos.x + (sweep_init p).step_x * ((k : Int) - 1)) := by
    have ek : ((k - 1 : Nat) : Int) = (k : Int) - 1 := by omega
    rw [w5, hx0, toU16_toU16_add, ek]
  obtain ⟨s1, s2, s3, s4, s5, s6, s7, s8, s9, s10⟩ :=
    sweep_step_x_wall m (sweep_loop m (k - 1) (sweep_init p))
      (by rw [w3]; exact hf) (by rw [w4]; exact sx)
      (by rw [w5]; simp only [toU16]; omega)
      (by rw [hcellk, w6, hy0]; exact hwall)
      (by
        rw [w6, hy0, w5, hx0, toU16_toU16_add]
        exact hfloor (k - 1) (by omega))
  rw [← hloopk] at s1 s2 s3 s4 s5 s6 s7 s8 s9 s10
  have eix : toU16 (((k - 1 : Nat) : Int) + 1) = k := by
    simp only [toU16]
    omega
  rw [w7, eix] at s5 s7
  have hdiffk : toU16 (sweep_loop m k (sweep_init p)).diff_x = k := by
    rw [s7]
    exact toU16_toI16_natCast k (lt_of_le_of_lt hk hdxb)
  have hstop : (sweep_loop m k (sweep_init p)).running = false := by
    simp only [sweep.running, s9, w11, hdiffk, s5, s6, w8, s8, w10, Bool.not_false,
      Bool.true_and, Bool.or_eq_false_iff, decide_eq_false_iff_not, not_lt]
    exact ⟨le_refl _, Nat.zero_le _⟩
  have hfinal : sweep_final m p = sweep_loop m k (sweep_init p) := by
    rw [sweep_final, hdyu]
    obtain ⟨e, he⟩ : ∃ e, toU16 (sweep_init p).diff_x + 0 = k + e :=
      ⟨toU16 (sweep_init p).diff_x - k, by omega⟩
    rw [he]
    exact sweep_loop_stable m k e _ hstop
  have hne : ¬ (ifloor (p.pos.x.add p.vel.x) = ifloor p.pos.x ∧
      ifloor (p.pos.y.add p.vel.y) = ifloor p.pos.y) := by
    rintro ⟨hxe, _⟩
    have hd := (sweep_init_diff p).1
    rw [hxe, sub_self] at hd
    have : toI16 (0 : Int) = 0 := rfl
    rw [this] at hd
    simp only [Int.natAbs_zero] at hd
    omega
  have hres : collision_sweep_test m p =
      { p with
        pos := ⟨fixed16_16.ofI16
                  (toI16 (toU16 (ifloor p.pos.x + (sweep_init p).step_x * ((k : Int) - 1)))),
                p.pos.y.add p.vel.y⟩
        vel := ⟨fixed16_16.ofI16 0, p.vel.y⟩ } := by
    rw [collision_sweep_test, if_neg hne, hfinal]
    simp only [sweep_commit, s1, s2, w2, s3, hxk, s10, w3, if_true, Bool.false_eq_true, if_false]
  refine ⟨by rw [hfinal]; exact s1, by rw [hfinal, s2]; exact w2, by rw [hfinal]; exact s5,
    by rw [hfinal]; exact hdiffk, by rw [hfinal, s6]; exact w8, hres, fun hnw => ?_⟩
  rw [hres]
  simp only []
  have hrange : -32768 ≤ ifloor p.pos.x + (sweep_init p).step_x * ((k : Int) - 1) ∧
      ifloor p.pos.x + (sweep_init p).step_x * ((k : Int) - 1) ≤ 32767 :=
    step_range (ifloor p.pos.x) (ifloor (p.pos.x.add p.vel.x)) k (toI16_range _)
      (toI16_range _) hnw hk1 hk
  have e1 : toI16 (toU16 (ifloor p.pos.x + (sweep_init p).step_x * ((k : Int) - 1))) =
      ifloor p.pos.x + (sweep_init p).step_x * ((k : Int) - 1) := by
    generalize ifloor p.pos.x + (sweep_init p).step_x * ((k : Int) - 1) = z at hrange ⊢
    simp only [toU16, toI16]
    omega
  rw [e1, ofI16_of_small _ hrange.1 hrange.2]

theorem wall_stop_witness :
    (sweep_final step_map step_walker).collide_x = true ∧
    (sweep_final step_map step_walker).ix = 3 ∧
    (collision_sweep_test step_map step_walker).pos.x =
      ⟨(ifloor step_walker.pos.x + (sweep_init step_walker).step_x * (((3 : Nat) : Int) - 1)) *
        65536⟩ :=
  have h := wall_stop step_map step_walker 3 rfl (by decide) (by decide) (by decide)
    (fun j h1 h2 => by interval_cases j <;> decide)
    (fun j h2 => by interval_cases j <;> decide)
    (by decide)
  ⟨h.1, h.2.2.1, h.2.2.2.2.2.2 (by decide)⟩

/-! ## Collision sweep: the slide off an edge -/

theorem sweep_step_y_up (m : CollisionMap) (s : sweep)
    (h : m (toU16 ((s.y : Int) + s.step_y)) s.x = true) (hup : s.step_y < 0) :
    (sweep_step_y m s).x = s.x ∧
    (sweep_step_y m s).y = toU16 ((toU16 ((s.y : Int) + s.step_y) : Int) + 1) ∧
    (sweep_step_y m s).step_x = s.step_x ∧ (sweep_step_y m s).step_y = s.step_y := by
  simp [sweep_step_y, sweep.read, sweep.set_vel_y, h, hup]

theorem toU16_undo (a : Nat) (b : Int) (ha : a < 65536) :
    toU16 ((toU16 ((a : Int) + b) : Int) - b) = a := by
  simp only [toU16]
  omega

/-- The bounce: an x-step of a flying player into a solid cell. -/
theorem sweep_step_x_bounce (m : CollisionMap) (s : sweep) (hf : s.pl.flying = true)
    (h : m s.y (toU16 ((s.x : Int) + s.step_x)) = true) :
    sweep_step_x m s =
      { s with
        pl := { s.pl with vel := ⟨s.pl.vel.x.neg.div 2, s.pl.vel.y⟩ }
        step_x := toI16 (-s.step_x)
        collide_x := true
        x := toU16 ((toU16 ((s.x : Int) + s.step_x) : Int) - s.step_x)
        ix := toU16 ((s.ix : Int) + 1)
        reads := ((s.y : Int), ((toU16 ((s.x : Int) + s.step_x) : Nat) : Int)) :: s.reads } := by
  simp [sweep_step_x, sweep.read, sweep.set_vel_x, h, hf]

/-- The flags after an x-step, and the pixel it ends on. -/
theorem sweep_step_x_ledge (m : CollisionMap) (s : sweep) :
    (sweep_step_x m s).y = s.y ∧
    (m s.y (toU16 ((s.x : Int) + s.step_x)) = false →
      (sweep_step_x m s).x = toU16 ((s.x : Int) + s.step_x)) ∧
    (m s.y (toU16 ((s.x : Int) + s.step_x)) = true →
      (sweep_step_x m s).x = toU16 ((toU16 ((s.x : Int) + s.step_x) : Int) - s.step_x)) ∧
    (s.pl.flying = false → m ((s.y : Int) + 1) (sweep_step_x m s).x = false →
      (sweep_step_x m s).pl.flying = true ∧ (sweep_step_x m s).pl.sliding = false) ∧
    (s.pl.flying = false → m ((s.y : Int) + 1) (sweep_step_x m s).x = true →
      (sweep_step_x m s).pl.flying = false ∧
      (sweep_step_x m s).pl.sliding = s.pl.sliding) ∧
    (s.pl.flying = true →
      (sweep_step_x m s).pl.flying = true ∧
      (sweep_step_x m s).pl.sliding = s.pl.sliding) := by
  simp only [sweep_step_x, sweep.read, sweep.set_vel_x, sweep.set_flying, sweep.set_sliding]
  split_ifs <;> simp_all

/-! ## Collision sweep: facts kept by every iteration -/

theorem sweep_step_y_up_more (m : CollisionMap) (s : sweep)
    (h : m (toU16 ((s.y : Int) + s.step_y)) s.x = true) (hup : s.step_y < 0) :
    (sweep_step_y m s).collide_x = s.collide_x ∧ (sweep_step_y m s).collide_y = true ∧
    (sweep_step_y m s).pl.vel.x = s.pl.vel.x ∧
    (sweep_step_y m s).pl.vel.y = fixed16_16.ofI16 0 := by
  simp [sweep_step_y, sweep.read, sweep.set_vel_y, h, hup]

theorem sweep_step_y_down_more (m : CollisionMap) (s : sweep)
    (h : m (toU16 ((s.y : Int) + s.step_y)) s.x = true) (hdown : ¬ s.step_y < 0) :
    ∃ s2 : sweep, sweep_step_y m s = sweep_land m s2 ∧ s2.x = s.x ∧
      s2.y = toU16 ((s.y : Int) + s.step_y) ∧ s2.step_x = s.step_x ∧ s2.step_y = s.step_y ∧
      s2.collide_x = s.collide_x ∧ s2.collide_y = true ∧ s2.pl.vel = s.pl.vel ∧
      s2.pl.sliding = s.pl.sliding ∧ s2.pl.flying = false ∧ s2.pl.pos = s.pl.pos :=
  ⟨({ s with y := toU16 ((s.y : Int) + s.step_y), iy := toU16 ((s.iy : Int) + 1),
             reads := ((toU16 ((s.y : Int) + s.step_y) : Nat), (s.x : Int)) :: s.reads,
             collide_y := true }).set_flying false,
    by simp only [sweep_step_y, sweep.read, h, if_true, if_neg hdown],
    rfl, rfl, rfl, rfl, rfl, rfl, rfl, rfl, rfl, rfl⟩

theorem sweep_slide_vel_y (m : CollisionMap) (s : sweep) (dir : Int) :
    (sweep_slide m s dir).pl.vel.y = s.pl.vel.y ∧ (sweep_slide m s dir).pl.pos = s.pl.pos := by
  simp only [sweep_slide, sweep.read, sweep.set_vel_x, sweep.set_flying, sweep.set_sliding]
  split_ifs <;> simp

theorem sweep_flat_landing_more (s : sweep) :
    (sweep_flat_landing s).pl.vel = ⟨fixed16_16.ofI16 0, fixed16_16.ofI16 0⟩ ∧
    (sweep_flat_landing s).pl.flying = s.pl.flying ∧
    (sweep_flat_landing s).pl.sliding = false ∧
    (sweep_flat_landing s).stopped = true ∧
    (sweep_flat_landing s).pl.pos = s.pl.pos := by
  simp [sweep_flat_landing, sweep.set_vel_x, sweep.set_vel_y, sweep.set_sliding]

theorem sweep_step_x_more (m : CollisionMap) (s : sweep) :
    (s.collide_x = true → (sweep_step_x m s).collide_x = true) ∧
    (sweep_step_x m s).collide_y = s.collide_y ∧
    (sweep_step_x m s).pl.vel.y = s.pl.vel.y ∧ (sweep_step_x m s).pl.pos = s.pl.pos ∧
    (sweep_step_x m s).x < 65536 ∧ (sweep_step_x m s).y = s.y ∧
    (sweep_step_x m s).step_y = s.step_y ∧
    ((sweep_step_x m s).step_x = s.step_x ∨
      (s.pl.flying = true ∧ m s.y (toU16 ((s.x : Int) + s.step_x)) = true ∧
        (sweep_step_x m s).step_x = toI16 (-s.step_x))) := by
  have lt16 : ∀ a : Int, toU16 a < 65536 := fun a => by simp only [toU16]; omega
  simp only [sweep_step_x, sweep.read, sweep.set_vel_x, sweep.set_flying, sweep.set_sliding]
  split_ifs <;> simp_all

/-- The facts kept by one iteration, whatever its branch: a recorded collision stays
recorded, the walked pixel stays a pair of `u16` values, the steps stay unit steps (the x
direction changes only in a bounce), `vel.y` is kept or set to zero, and `pos` is not
touched. -/
theorem sweep_iter_keeps (m : CollisionMap) (s : sweep) :
    (s.collide_x = true → (sweep_iter m s).collide_x = true) ∧
    (s.collide_y = true → (sweep_iter m s).collide_y = true) ∧
    ((sweep_iter m s).pl.vel.y = s.pl.vel.y ∨
      (sweep_iter m s).pl.vel.y = fixed16_16.ofI16 0) ∧
    (sweep_iter m s).pl.pos = s.pl.pos ∧
    (s.x < 65536 → (sweep_iter m s).x < 65536) ∧
    (s.y < 65536 → (sweep_iter m s).y < 65536) ∧
    (sweep_iter m s).step_y = s.step_y ∧
    ((sweep_iter m s).step_x = s.step_x ∨
      (s.wants_x = true ∧ s.pl.flying = true ∧
        m s.y (toU16 ((s.x : Int) + s.step_x)) = true ∧
        (sweep_iter m s).step_x = toI16 (-s.step_x))) := by
  have lt16 : ∀ a : Int, toU16 a < 65536 := fun a => by simp only [toU16]; omega
  by_cases hw : s.wants_x = true
  · rw [sweep_iter, if_pos hw]
    obtain ⟨a1, a2, a3, a4, a5, a6, a7, a8⟩ := sweep_step_x_more m s
    refine ⟨a1, fun h => by rw [a2]; exact h, Or.inl a3, a4, fun _ => a5,
      fun h => by rw [a6]; exact h, a7, ?_⟩
    rcases a8 with a8 | a8
    · exact Or.inl a8
    · exact Or.inr ⟨hw, a8⟩
  · rw [sweep_iter, if_neg hw]
    by_cases hc : m (toU16 ((s.y : Int) + s.step_y)) s.x = true
    · by_cases hup : s.step_y < 0
      · obtain ⟨f1, f2, f3, f4⟩ := sweep_step_y_up m s hc hup
        obtain ⟨g1, g2, g3, g4⟩ := sweep_step_y_up_more m s hc hup
        rw [f1, f2, f3, f4, g1, g2, g4]
        refine ⟨fun h => h, fun _ => rfl, Or.inr rfl, ?_, fun h => h, fun _ => lt16 _, rfl,
          Or.inl rfl⟩
        simp [sweep_step_y, sweep.read, sweep.set_vel_y, hc, hup]
      · obtain ⟨s2, e, gx, gy, gsx, gsy, gcx, gcy, gv, gsl, gf, gp⟩ :=
          sweep_step_y_down_more m s hc hup
        rw [e]
        obtain ⟨r, h | h | h⟩ := sweep_land_cases m s2
        · have k := sweep_slide_keeps m { s2 with reads := r } (-1)
          have k2 := sweep_slide_vel_y m { s2 with reads := r } (-1)
          dsimp only at k k2
          rw [h.1, k.1, k.2.1, k.2.2.1, k.2.2.2.1, k.2.2.2.2.1, k.2.2.2.2.2, k2.1, k2.2, gsx, gsy,
            gcy, gy, gp, gv]
          exact ⟨fun _ => rfl, fun _ => rfl, Or.inl rfl, rfl, fun _ => lt16 _,
            fun _ => lt16 _, rfl, Or.inl rfl⟩
        · have k := sweep_slide_keeps m { s2 with reads := r } 1
          have k2 := sweep_slide_vel_y m { s2 with reads := r } 1
          dsimp only at k k2
          rw [h.1, k.1, k.2.1, k.2.2.1, k.2.2.2.1, k.2.2.2.2.1, k.2.2.2.2.2, k2.1, k2.2, gsx, gsy,
            gcy, gy, gp, gv]
          exact ⟨fun _ => rfl, fun _ => rfl, Or.inl rfl, rfl, fun _ => lt16 _,
            fun _ => lt16 _, rfl, Or.inl rfl⟩
        · have k := sweep_flat_landing_keeps { s2 with reads := r }
          have k2 := sweep_flat_landing_more { s2 with reads := r }
          dsimp only at k k2
          rw [h, k.1, k.2.1, k.2.2.1, k.2.2.2.1, k.2.2.2.2.1, k.2.2.2.2.2, k2.1, k2.2.2.2.2,
            gsx, gsy, gcx, gcy, gx, gp]
          exact ⟨fun h => h, fun _ => rfl, Or.inr rfl, rfl, fun h => h, fun _ => lt16 _, rfl,
            Or.inl rfl⟩
    · have hc' : m (toU16 ((s.y : Int) + s.step_y)) s.x = false := by simpa using hc
      rw [sweep_step_y_free m s hc']
      exact ⟨fun h => h, fun h => h, Or.inl rfl, rfl, fun h => h, fun _ => lt16 _, rfl,
        Or.inl rfl⟩

/-- The facts that hold of the state of the loop after any number of iterations. -/
theorem sweep_loop_keeps (m : CollisionMap) (p : player) (n : Nat) :
    (sweep_loop m n (sweep_init p)).bounded ∧
    (sweep_loop m n (sweep_init p)).x < 65536 ∧ (sweep_loop m n (sweep_init p)).y < 65536 ∧
    ((sweep_loop m n (sweep_init p)).step_x = 1 ∨ (sweep_loop m n (sweep_init p)).step_x = -1) ∧
    (sweep_loop m n (sweep_init p)).step_y = (sweep_init p).step_y ∧
    (sweep_loop m n (sweep_init p)).pl.pos = p.pos ∧
    ((sweep_loop m n (sweep_init p)).pl.vel.y = p.vel.y ∨
      (sweep_loop m n (sweep_init p)).pl.vel.y = fixed16_16.ofI16 0) := by
  induction n with
  | zero =>
    refine ⟨(sweep_init_bounded p).1, ?_, ?_, (sweep_init_steps p).1, rfl, rfl, Or.inl rfl⟩
    · show toU16 (ifloor p.pos.x) < 65536
      simp only [toU16]; omega
    · show toU16 (ifloor p.pos.y) < 65536
      simp only [toU16]; omega
  | succ n ih =>
    rw [sweep_loop_succ_last]
    split_ifs with hr
    · obtain ⟨b, hx, hy, hsx, hsy, hp, hv⟩ := ih
      obtain ⟨_, _, k3, k4, k5, k6, k7, k8⟩ := sweep_iter_keeps m (sweep_loop m n (sweep_init p))
      refine ⟨(sweep_iter_progress m _ b hr).1, k5 hx, k6 hy, ?_, by rw [k7, hsy],
        by rw [k4, hp], ?_⟩
      · rcases k8 with k8 | ⟨_, _, _, k8⟩ <;> rw [k8]
        · exact hsx
        · rcases hsx with h | h <;> rw [h]
          · exact Or.inr (by decide)
          · exact Or.inl (by decide)
      · rcases k3 with k3 | k3
        · rw [k3]; exact hv
        · exact Or.inr k3
    · exact ih

/-- A collision recorded after `n` iterations is still recorded after `n + k`. -/
theorem sweep_loop_collide_mono (m : CollisionMap) (s : sweep) (k : Nat) :
    (s.collide_x = true → (sweep_loop m k s).collide_x = true) ∧
    (s.collide_y = true → (sweep_loop m k s).collide_y = true) := by
  induction k generalizing s with
  | zero => exact ⟨fun h => h, fun h => h⟩
  | succ k ih =>
    rw [sweep_loop]
    split_ifs
    · exact ⟨fun h => (ih _).1 ((sweep_iter_keeps m s).1 h),
        fun h => (ih _).2 ((sweep_iter_keeps m s).2.1 h)⟩
    · exact ⟨fun h => h, fun h => h⟩

/-- Two states of the loop at which it has been left are the same state. -/
theorem sweep_loop_exit_unique (m : CollisionMap) (s : sweep) (a b : Nat)
    (ha : (sweep_loop m a s).running = false) (hb : (sweep_loop m b s).running = false) :
    sweep_loop m a s = sweep_loop m b s := by
  rcases Nat.le_total a b with h | h
  · obtain ⟨k, rfl⟩ := Nat.exists_eq_add_of_le h
    exact (sweep_loop_stable m a k s ha).symm
  · obtain ⟨k, rfl⟩ := Nat.exists_eq_add_of_le h
    exact sweep_loop_stable m b k s hb

/-- While the loop is running the early exit of `collision_sweep_test` was not taken. -/
theorem sweep_running_moves (m : CollisionMap) (p : player) (n : Nat)
    (hr : (sweep_loop m n (sweep_init p)).running = true) :
    ¬ (ifloor (p.pos.x.add p.vel.x) = ifloor p.pos.x ∧
        ifloor (p.pos.y.add p.vel.y) = ifloor p.pos.y) := by
  rintro ⟨hx, hy⟩
  have h0 : (sweep_init p).running = false := by
    simp [sweep.running, sweep_init, hx, hy, toI16, toU16]
  rw [sweep_loop_of_not_running m n _ h0, h0] at hr
  exact Bool.false_ne_true hr

/-! ## Collision sweep: the flat landing -/

/-- A downward y-step into a solid cell with neither slide possible is a flat landing. -/
theorem sweep_step_y_flat (m : CollisionMap) (s : sweep) (hdown : ¬ s.step_y < 0)
    (hsolid : m (toU16 ((s.y : Int) + s.step_y)) s.x = true)
    (hleft : ¬ (m (toU16 ((s.y : Int) + s.step_y)) ((s.x : Int) - 1) = false ∧
      (m ((toU16 ((s.y : Int) + s.step_y) : Int) + 1) ((s.x : Int) - 1) = true ∨
        s.pl.sliding = true)))
    (hright : ¬ (m (toU16 ((s.y : Int) + s.step_y)) ((s.x : Int) + 1) = false ∧
      (m ((toU16 ((s.y : Int) + s.step_y) : Int) + 1) ((s.x : Int) + 1) = true ∨
        s.pl.sliding = true))) :
    (sweep_step_y m s).x = s.x ∧
    (sweep_step_y m s).y = toU16 ((toU16 ((s.y : Int) + s.step_y) : Int) - s.step_y) ∧
    (sweep_step_y m s).collide_x = s.collide_x ∧ (sweep_step_y m s).collide_y = true ∧
    (sweep_step_y m s).pl.vel = ⟨fixed16_16.ofI16 0, fixed16_16.ofI16 0⟩ ∧
    (sweep_step_y m s).pl.flying = false ∧ (sweep_step_y m s).pl.sliding = false ∧
    (sweep_step_y m s).stopped = true ∧ (sweep_step_y m s).pl.pos = s.pl.pos := by
  obtain ⟨s2, e, gx, gy, gsx, gsy, gcx, gcy, gv, gsl, gf, gp⟩ :=
    sweep_step_y_down_more m s hsolid hdown
  rw [e]
  obtain ⟨r, h | h | h⟩ := sweep_land_cases m s2
  · exfalso
    apply hleft
    rw [← gx, ← gy, ← gsl]
    exact ⟨h.2.1, h.2.2.1⟩
  · exfalso
    apply hright
    rw [← gx, ← gy, ← gsl]
    exact ⟨h.2.1, h.2.2.1⟩
  · have k := sweep_flat_landing_keeps { s2 with reads := r }
    have k2 := sweep_flat_landing_more { s2 with reads := r }
    dsimp only at k k2
    rw [h, k.1, k.2.1, k.2.2.1, k.2.2.2.1, k2.1, k2.2.1, k2.2.2.1, k2.2.2.2.1, k2.2.2.2.2,
      gx, gy, gsy, gcx, gcy, gf, gp]
    exact ⟨rfl, rfl, rfl, rfl, rfl, rfl, rfl, rfl, rfl⟩

/-- C31: flat landing.  For every player collision map and every player, when the
iteration after `n` iterations of the loop of `collision_sweep_test` is a downward y-step
that enters a solid cell `(x, y)` and neither slide condition holds (left: the cell
`(x - 1, y)` empty and (the cell `(x - 1, y + 1)` solid or `sliding`); right: the same with
`x + 1`), then the y-step is undone (the walked pixel is the one before the step), the
y-collision is recorded, both velocity components are exactly zero, `flying` and `sliding`
are both false, the loop is left at once (more iterations change nothing and this state is
the final one), and `collision_sweep_test` returns this player with `pos.y` the exact
integer of the row before the step, fraction zero. -/
theorem flat_landing_stops (m : CollisionMap) (p : player) (n : Nat)
    (hrun : (sweep_loop m n (sweep_init p)).running = true)
    (hw : (sweep_loop m n (sweep_init p)).wants_x = false)
    (hdown : 0 ≤ (sweep_loop m n (sweep_init p)).step_y)
    (hsolid : m (toU16 (((sweep_loop m n (sweep_init p)).y : Int) +
        (sweep_loop m n (sweep_init p)).step_y)) (sweep_loop m n (sweep_init p)).x = true)
    (hleft : ¬ (m (toU16 (((sweep_loop m n (sweep_init p)).y : Int) +
          (sweep_loop m n (sweep_init p)).step_y))
        (((sweep_loop m n (sweep_init p)).x : Int) - 1) = false ∧
      (m ((toU16 (((sweep_loop m n (sweep_init p)).y : Int) +
          (sweep_loop m n (sweep_init p)).step_y) : Int) + 1)
        (((sweep_loop m n (sweep_init p)).x : Int) - 1) = true ∨
        (sweep_loop m n (sweep_init p)).pl.sliding = true)))
    (hright : ¬ (m (toU16 (((sweep_loop m n (sweep_init p)).y : Int) +
          (sweep_loop m n (sweep_init p)).step_y))
        (((sweep_loop m n (sweep_init p)).x : Int) + 1) = false ∧
      (m ((toU16 (((sweep_loop m n (sweep_init p)).y : Int) +
          (sweep_loop m n (sweep_init p)).step_y) : Int) + 1)
        (((sweep_loop m n (sweep_init p)).x : Int) + 1) = true ∨
        (sweep_loop m n (sweep_init p)).pl.sliding = true))) :
    (sweep_loop m (n + 1) (sweep_init p)).x = (sweep_loop m n (sweep_init p)).x ∧
    (sweep_loop m (n + 1) (sweep_init p)).y = (sweep_loop m n (sweep_init p)).y ∧
    (sweep_loop m (n + 1) (sweep_init p)).collide_y = true ∧
    (sweep_loop m (n + 1) (sweep_init p)).pl.vel = ⟨⟨0⟩, ⟨0⟩⟩ ∧
    (sweep_loop m (n + 1) (sweep_init p)).pl.flying = false ∧
    (sweep_loop m (n + 1) (sweep_init p)).pl.sliding = false ∧
    (sweep_loop m (n + 1) (sweep_init p)).running = false ∧
    (∀ k, sweep_loop m (n + 1 + k) (sweep_init p) = sweep_loop m (n + 1) (sweep_init p)) ∧
    sweep_final m p = sweep_loop m (n + 1) (sweep_init p) ∧
    (collision_sweep_test m p).vel = ⟨⟨0⟩, ⟨0⟩⟩ ∧
    (collision_sweep_test m p).flying = false ∧
    (collision_sweep_test m p).sliding = false ∧
    (collision_sweep_test m p).pos.y =
      fixed16_16.ofI16 (toI16 (sweep_loop m n (sweep_init p)).y) ∧
    ((sweep_loop m n (sweep_init p)).y ≤ 32767 →
      (collision_sweep_test m p).pos.y =
        ⟨((sweep_loop m n (sweep_init p)).y : Int) * 65536⟩) := by
  obtain ⟨_, _, hy16, _, _, _, _⟩ := sweep_loop_keeps m p n
  have hstep : sweep_loop m (n + 1) (sweep_init p) =
      sweep_step_y m (sweep_loop m n (sweep_init p)) := by
    rw [sweep_loop_succ_last, if_pos hrun, sweep_iter, if_neg (by simp [hw])]
  obtain ⟨f1, f2, f3, f4, f5, f6, f7, f8, f9⟩ :=
    sweep_step_y_flat m (sweep_loop m n (sweep_init p)) (by omega) hsolid hleft hright
  rw [toU16_undo _ _ hy16] at f2
  rw [← hstep] at f1 f2 f3 f4 f5 f6 f7 f8 f9
  have hz : fixed16_16.ofI16 0 = ⟨0⟩ := by decide
  rw [hz] at f5
  have hnr : (sweep_loop m (n + 1) (sweep_init p)).running = false := by
    simp [sweep.running, f8]
  have hfin : sweep_final m p = sweep_loop m (n + 1) (sweep_init p) :=
    sweep_loop_exit_unique m _ _ _ (sweep_loop_exits m p) hnr
  have hcst : collision_sweep_test m p =
      sweep_commit (sweep_loop m (n + 1) (sweep_init p)) := by
    rw [collision_sweep_test, if_neg (sweep_running_moves m p n hrun), hfin]
  have hpy : (collision_sweep_test m p).pos.y =
      fixed16_16.ofI16 (toI16 (sweep_loop m n (sweep_init p)).y) := by
    rw [hcst]
    simp only [sweep_commit, f4, if_true, f2]
  refine ⟨f1, f2, f4, f5, f6, f7, hnr, fun k => sweep_loop_stable m _ k _ hnr, hfin, ?_, ?_, ?_,
    hpy, fun hle => ?_⟩
  · rw [hcst]; simp only [sweep_commit]; exact f5
  · rw [hcst]; simp only [sweep_commit]; exact f6
  · rw [hcst]; simp only [sweep_commit]; exact f7
  · rw [hpy]
    have e1 : toI16 ((sweep_loop m n (sweep_init p)).y : Int) =
        ((sweep_loop m n (sweep_init p)).y : Int) := by
      simp only [toI16]; omega
    rw [e1]
    exact ofI16_of_small _ (by omega) (by omega)

theorem flat_landing_stops_witness :
    (sweep_loop step_map 3 (sweep_init step_player)).y = 101 ∧
    (collision_sweep_test step_map step_player).vel = ⟨⟨0⟩, ⟨0⟩⟩ ∧
    (collision_sweep_test step_map step_player).flying = false ∧
    (collision_sweep_test step_map step_player).pos.y = ⟨101 * 65536⟩ :=
  have h := flat_landing_stops step_map step_player 3 (by decide) (by decide) (by decide)
    (by decide) (by decide) (by decide)
  ⟨by decide, h.2.2.2.2.2.2.2.2.2.1, h.2.2.2.2.2.2.2.2.2.2.1,
    h.2.2.2.2.2.2.2.2.2.2.2.2.2 (by decide)⟩

/-! ## Collision sweep: the bounce -/

/-- Counterexample to C32: the flying player `gap_flyer` moves left inside the gap of
`gap_map`, one pixel wide.  Its first x-step enters a solid cell and bounces, so the
direction becomes `+1`; its second x-step enters the solid cell on the other side and
bounces again, so the direction is `-1` once more, and the third x-step of the same sweep
is taken in the direction the sweep started with: the reversal of the first bounce does
not hold for the remaining x-steps. -/
theorem bounce_twice :
    (sweep_loop gap_map 0 (sweep_init gap_flyer)).step_x = -1 ∧
    (sweep_loop gap_map 0 (sweep_init gap_flyer)).wants_x = true ∧
    (sweep_loop gap_map 0 (sweep_init gap_flyer)).pl.flying = true ∧
    gap_map (sweep_loop gap_map 0 (sweep_init gap_flyer)).y
      (toU16 (((sweep_loop gap_map 0 (sweep_init gap_flyer)).x : Int) +
        (sweep_loop gap_map 0 (sweep_init gap_flyer)).step_x)) = true ∧
    (sweep_loop gap_map 1 (sweep_init gap_flyer)).step_x = 1 ∧
    (sweep_loop gap_map 1 (sweep_init gap_flyer)).wants_x = true ∧
    gap_map (sweep_loop gap_map 1 (sweep_init gap_flyer)).y
      (toU16 (((sweep_loop gap_map 1 (sweep_init gap_flyer)).x : Int) +
        (sweep_loop gap_map 1 (sweep_init gap_flyer)).step_x)) = true ∧
    (sweep_loop gap_map 2 (sweep_init gap_flyer)).step_x = -1 ∧
    (sweep_loop gap_map 2 (sweep_init gap_flyer)).running = true ∧
    (sweep_loop gap_map 2 (sweep_init gap_flyer)).wants_x = true ∧
    (sweep_loop gap_map 3 (sweep_init gap_flyer)).ix = 3 := by
  decide

/-- C32 (amended): bounce.  For every player collision map and every player, when the
iteration after `n` iterations of the loop of `collision_sweep_test` is an x-step that enters a solid
cell while the player is flying, then the step is undone (the walked pixel is unchanged),
an x-collision is recorded, the x step direction is reversed, `vel.x` becomes `(-vel.x) / 2`
with the raw value truncated toward zero, `vel.y`, the flags and the differences are
unchanged and no `break` is executed, so the sweep continues as long as `ix + 1 < diff_x`
or `iy < diff_y`.  The direction stays reversed until another bounce (an iteration changes
`step_x` only when it is an x-step of a flying player into a solid cell), the x-collision
stays recorded, and `collision_sweep_test` returns `pos.x` as the exact integer of the
final walked `x`. -/
theorem bounce_reverses (m : CollisionMap) (p : player) (n : Nat)
    (hrun : (sweep_loop m n (sweep_init p)).running = true)
    (hw : (sweep_loop m n (sweep_init p)).wants_x = true)
    (hf : (sweep_loop m n (sweep_init p)).pl.flying = true)
    (hsolid : m (sweep_loop m n (sweep_init p)).y
      (toU16 (((sweep_loop m n (sweep_init p)).x : Int) +
        (sweep_loop m n (sweep_init p)).step_x)) = true) :
    (sweep_loop m (n + 1) (sweep_init p)).x = (sweep_loop m n (sweep_init p)).x ∧
    (sweep_loop m (n + 1) (sweep_init p)).y = (sweep_loop m n (sweep_init p)).y ∧
    (sweep_loop m (n + 1) (sweep_init p)).collide_x = true ∧
    (sweep_loop m (n + 1) (sweep_init p)).step_x = -(sweep_loop m n (sweep_init p)).step_x ∧
    (sweep_loop m (n + 1) (sweep_init p)).pl.vel.x =
      (sweep_loop m n (sweep_init p)).pl.vel.x.neg.div 2 ∧
    (-2147483648 < (sweep_loop m n (sweep_init p)).pl.vel.x.raw →
      (sweep_loop m n (sweep_init p)).pl.vel.x.raw ≤ 2147483647 →
      (sweep_loop m (n + 1) (sweep_init p)).pl.vel.x.raw =
        Int.tdiv (-(sweep_loop m n (sweep_init p)).pl.vel.x.raw) 2) ∧
    (sweep_loop m (n + 1) (sweep_init p)).pl.vel.y =
      (sweep_loop m n (sweep_init p)).pl.vel.y ∧
    (sweep_loop m (n + 1) (sweep_init p)).pl.flying = true ∧
    (sweep_loop m (n + 1) (sweep_init p)).pl.sliding =
      (sweep_loop m n (sweep_init p)).pl.sliding ∧
    (sweep_loop m (n + 1) (sweep_init p)).ix = (sweep_loop m n (sweep_init p)).ix + 1 ∧
    (sweep_loop m (n + 1) (sweep_init p)).iy = (sweep_loop m n (sweep_init p)).iy ∧
    (sweep_loop m (n + 1) (sweep_init p)).diff_x = (sweep_loop m n (sweep_init p)).diff_x ∧
    (sweep_loop m (n + 1) (sweep_init p)).diff_y = (sweep_loop m n (sweep_init p)).diff_y ∧
    (sweep_loop m (n + 1) (sweep_init p)).running =
      (decide ((sweep_loop m n (sweep_init p)).ix + 1 <
          toU16 (sweep_loop m n (sweep_init p)).diff_x) ||
        decide ((sweep_loop m n (sweep_init p)).iy <
          toU16 (sweep_loop m n (sweep_init p)).diff_y)) ∧
    (∀ k, (sweep_loop m (k + 1) (sweep_init p)).step_x =
        (sweep_loop m k (sweep_init p)).step_x ∨
      ((sweep_loop m k (sweep_init p)).wants_x = true ∧
        (sweep_loop m k (sweep_init p)).pl.flying = true ∧
        m (sweep_loop m k (sweep_init p)).y
          (toU16 (((sweep_loop m k (sweep_init p)).x : Int) +
            (sweep_loop m k (sweep_init p)).step_x)) = true ∧
        (sweep_loop m (k + 1) (sweep_init p)).step_x =
          -(sweep_loop m k (sweep_init p)).step_x)) ∧
    (∀ k, (sweep_loop m (n + 1 + k) (sweep_init p)).collide_x = true) ∧
    (sweep_final m p).collide_x = true ∧
    (collision_sweep_test m p).pos.x = fixed16_16.ofI16 (toI16 (sweep_final m p).x) ∧
    ((sweep_final m p).x ≤ 32767 →
      (collision_sweep_test m p).pos.x = ⟨((sweep_final m p).x : Int) * 65536⟩) := by
  obtain ⟨hb, hx16, _, hsx, _, _, _⟩ := sweep_loop_keeps m p n
  have hstep : sweep_loop m (n + 1) (sweep_init p) =
      sweep_step_x m (sweep_loop m n (sweep_init p)) := by
    rw [sweep_loop_succ_last, if_pos hrun, sweep_iter, if_pos hw]
  have e := sweep_step_x_bounce m (sweep_loop m n (sweep_init p)) hf hsolid
  rw [← hstep] at e
  have hneg : toI16 (-(sweep_loop m n (sweep_init p)).step_x) =
      -(sweep_loop m n (sweep_init p)).step_x := by
    rcases hsx with h | h <;> rw [h] <;> decide
  have hix : toU16 (((sweep_loop m n (sweep_init p)).ix : Int) + 1) =
      (sweep_loop m n (sweep_init p)).ix + 1 := by
    have h0 := hb.1
    have h1 := wants_x_lt _ hw hrun
    generalize toU16 (sweep_loop m n (sweep_init p)).diff_x = d at h0 h1
    simp only [toU16]
    omega
  have hst : (sweep_loop m n (sweep_init p)).stopped = false := by
    simp only [sweep.running, Bool.and_eq_true, Bool.not_eq_true'] at hrun
    exact hrun.1
  have hcx : (sweep_loop m (n + 1) (sweep_init p)).collide_x = true := by rw [e]
  have hmono : ∀ k, (sweep_loop m (n + 1 + k) (sweep_init p)).collide_x = true := by
    intro k
    rw [sweep_loop_add]
    exact (sweep_loop_collide_mono m _ k).1 hcx
  have hfin : (sweep_final m p).collide_x = true := by
    rcases Nat.le_total (n + 1)
      (toU16 (sweep_init p).diff_x + toU16 (sweep_init p).diff_y) with h | h
    · obtain ⟨k, hk⟩ := Nat.exists_eq_add_of_le h
      rw [sweep_final, hk]
      exact hmono k
    · obtain ⟨k, hk⟩ := Nat.exists_eq_add_of_le h
      rw [sweep_final, ← sweep_loop_stable m _ k _ (sweep_loop_exits m p), ← hk]
      exact hcx
  have hpx : (collision_sweep_test m p).pos.x =
      fixed16_16.ofI16 (toI16 (sweep_final m p).x) := by
    rw [collision_sweep_test, if_neg (sweep_running_moves m p n hrun)]
    simp only [sweep_commit, hfin, if_true]
  refine ⟨?_, ?_, hcx, ?_, ?_, ?_, ?_, ?_, ?_, ?_, ?_, ?_, ?_, ?_, fun k => ?_, hmono, hfin, hpx,
    fun hle => ?_⟩
  · rw [e]; exact toU16_undo _ _ hx16
  · rw [e]
  · rw [e]; exact hneg
  · rw [e]
  · intro h1 h2
    rw [e]
    simp only [fixed16_16.neg, fixed16_16.div, wrap32]
    have e1 : (-(sweep_loop m n (sweep_init p)).pl.vel.x.raw + 2147483648) % 4294967296 -
        2147483648 = -(sweep_loop m n (sweep_init p)).pl.vel.x.raw := by omega
    rw [e1]
    generalize (sweep_loop m n (sweep_init p)).pl.vel.x.raw = v at h1 h2
    have e2 : -2147483648 < Int.tdiv (-v) 2 ∧ Int.tdiv (-v) 2 < 2147483648 := by
      rcases lt_or_le (-v) 0 with hv | hv
      · have hn : Int.tdiv (-v) 2 = -(Int.tdiv v 2) := by rw [Int.neg_tdiv]
        rw [hn, Int.tdiv_eq_ediv (by omega) (by omega)]
        omega
      · rw [Int.tdiv_eq_ediv hv (by omega)]
        omega
    omega
  · rw [e]
  · rw [e]; exact hf
  · rw [e]
  · rw [e]; exact hix
  · rw [e]
  · rw [e]
  · rw [e]
  · rw [e]
    simp only [sweep.running, hst, hix, Bool.not_false, Bool.true_and]
  · obtain ⟨_, _, _, hsk, _, _, _⟩ := sweep_loop_keeps m p k
    rw [sweep_loop_succ_last]
    split_ifs with hr
    · rcases (sweep_iter_keeps m (sweep_loop m k (sweep_init p))).2.2.2.2.2.2.2 with h | h
      · exact Or.inl h
      · refine Or.inr ⟨h.1, h.2.1, h.2.2.1, ?_⟩
        rw [h.2.2.2]
        rcases hsk with h | h <;> rw [h] <;> decide
    · exact Or.inl rfl
  · rw [hpx]
    have e1 : toI16 ((sweep_final m p).x : Int) = ((sweep_final m p).x : Int) := by
      simp only [toI16]; omega
    rw [e1]
    exact ofI16_of_small _ (by omega) (by omega)

theorem bounce_reverses_witness :
    (sweep_loop wall_map 2 (sweep_init wall_flyer)).x = 101 ∧
    (sweep_loop wall_map 3 (sweep_init wall_flyer)).x = 101 ∧
    (sweep_loop wall_map 3 (sweep_init wall_flyer)).step_x = 1 ∧
    (sweep_loop wall_map 3 (sweep_init wall_flyer)).pl.vel.x = ⟨163840⟩ ∧
    (sweep_final wall_map wall_flyer).x = 103 ∧
    (collision_sweep_test wall_map wall_flyer).pos.x = ⟨103 * 65536⟩ :=
  have h := bounce_reverses wall_map wall_flyer 2 (by decide) (by decide) (by decide) (by decide)
  ⟨by decide, by decide, by decide, by decide, by decide,
    h.2.2.2.2.2.2.2.2.2.2.2.2.2.2.2.2.2.2 (by decide)⟩

/-! ## Collision sweep: walking off a ledge -/

/-- C33: walking off a ledge.  For every player collision map and every state of the
sweep, after the x-step of `collision_sweep_test`, whether the step stood (the entered
cell is empty and the walked pixel is the entered cell) or was undone by a collision (the
walked pixel is stepped back): if the player is not flying and the cell directly below the
walked pixel is empty, then `flying` is true and `sliding` is false; if the player is not
flying and that cell is solid, or if the player is flying, both flags are as they were
before the step.  An iteration of the loop that chooses the x-step is this step. -/
theorem ledge_walk_off (m : CollisionMap) (s : sweep) :
    (sweep_step_x m s).y = s.y ∧
    (m s.y (toU16 ((s.x : Int) + s.step_x)) = false →
      (sweep_step_x m s).x = toU16 ((s.x : Int) + s.step_x)) ∧
    (m s.y (toU16 ((s.x : Int) + s.step_x)) = true →
      (sweep_step_x m s).x = toU16 ((toU16 ((s.x : Int) + s.step_x) : Int) - s.step_x)) ∧
    (s.pl.flying = false →
      m (((sweep_step_x m s).y : Int) + 1) (sweep_step_x m s).x = false →
      (sweep_step_x m s).pl.flying = true ∧ (sweep_step_x m s).pl.sliding = false) ∧
    (s.pl.flying = false →
      m (((sweep_step_x m s).y : Int) + 1) (sweep_step_x m s).x = true →
      (sweep_step_x m s).pl.flying = s.pl.flying ∧
      (sweep_step_x m s).pl.sliding = s.pl.sliding) ∧
    (s.pl.flying = true →
      (sweep_step_x m s).pl.flying = s.pl.flying ∧
      (sweep_step_x m s).pl.sliding = s.pl.sliding) ∧
    (s.wants_x = true → sweep_iter m s = sweep_step_x m s) := by
  obtain ⟨h1, h2, h3, h4, h5, h6⟩ := sweep_step_x_ledge m s
  refine ⟨h1, h2, h3, ?_, ?_, ?_, fun hw => by rw [sweep_iter, if_pos hw]⟩
  · rw [h1]; exact h4
  · rw [h1]
    intro hf hm
    rw [hf]
    exact h5 hf hm
  · intro hf
    rw [hf]
    exact h6 hf

theorem ledge_walk_off_witness :
    (sweep_init ledge_walker).pl.flying = false ∧
    (sweep_step_x ledge_map (sweep_init ledge_walker)).x = 51 ∧
    ledge_map 101 51 = false ∧
    (sweep_step_x ledge_map (sweep_init ledge_walker)).pl.flying = true ∧
    (sweep_step_x ledge_map (sweep_init ledge_walker)).pl.sliding = false :=
  ⟨by decide, by decide, by decide,
    (ledge_walk_off ledge_map (sweep_init ledge_walker)).2.2.2.1 (by decide) (by decide)⟩

/-! ## Gravity, drag and the maximum fall speed -/

theorem apply_drag_vel (q : player) :
    (apply_drag q).vel.x = q.vel.x ∧ (apply_drag q).vel.y.raw ≤ 458752 ∧
    (-2147483648 ≤ q.vel.y.raw * 99 → q.vel.y.raw * 99 ≤ 2147483647 →
      (apply_drag q).vel.y.raw = min 458752 (Int.tdiv (q.vel.y.raw * 99) 100)) := by
  have h7 : (fixed16_16.ofI16 7).raw = 458752 := by decide
  simp only [apply_drag, fixed16_16.gt, h7, gt_iff_lt, decide_eq_true_eq]
  split_ifs with h
  · refine ⟨rfl, le_of_eq h7, fun h1 h2 => ?_⟩
    rw [h7]
    simp only [wrap32] at h
    have e1 : (q.vel.y.raw * 99 + 2147483648) % 4294967296 - 2147483648 = q.vel.y.raw * 99 := by
      omega
    rw [e1] at h
    generalize q.vel.y.raw * 99 = z at h h1 h2 ⊢
    have e2 : 0 ≤ z := by
      by_contra hz
      have hn : Int.tdiv z 100 = -(Int.tdiv (-z) 100) := by rw [Int.neg_tdiv, neg_neg]
      rw [hn, Int.tdiv_eq_ediv (by omega) (by omega)] at h
      omega
    rw [Int.tdiv_eq_ediv e2 (by omega)] at h ⊢
    omega
  · refine ⟨rfl, by simpa using h, fun h1 h2 => ?_⟩
    simp only [wrap32] at h ⊢
    have e1 : (q.vel.y.raw * 99 + 2147483648) % 4294967296 - 2147483648 = q.vel.y.raw * 99 := by
      omega
    rw [e1] at h ⊢
    generalize q.vel.y.raw * 99 = z at h h1 h2 ⊢
    rcases lt_or_le z 0 with hz | hz
    · have hn : Int.tdiv z 100 = -(Int.tdiv (-z) 100) := by rw [Int.neg_tdiv, neg_neg]
      rw [hn, Int.tdiv_eq_ediv (by omega) (by omega)] at h ⊢
      omega
    · rw [Int.tdiv_eq_ediv hz (by omega)] at h ⊢
      omega

theorem apply_drag_wrapped (q : player) :
    (apply_drag q).vel.y.raw =
      min 458752 (wrap32 (Int.tdiv (wrap32 (q.vel.y.raw * 99)) 100)) := by
  have h7 : (fixed16_16.ofI16 7).raw = 458752 := by decide
  simp only [apply_drag, fixed16_16.gt, h7, gt_iff_lt, decide_eq_true_eq]
  split_ifs with h
  · rw [h7, min_eq_left (le_of_lt h)]
  · rw [min_eq_right (by omega)]

theorem keys_phase_airborne (g_input : input) (p : player) (jump_charge : Int)
    (h : p.flying = true ∨ p.sliding = true) :
    (keys_phase g_input p jump_charge).1.vel = ⟨p.vel.x, p.vel.y.add k_gravity⟩ ∧
    (keys_phase g_input p jump_charge).2 = jump_charge := by
  obtain ⟨pos, vel, flying, sliding, charging, facing⟩ := p
  simp only at h
  simp only [keys_phase]
  rcases h with h | h <;> subst h <;> split_ifs <;> simp_all

theorem collision_sweep_test_vel_y (m : CollisionMap) (q : player) :
    (collision_sweep_test m q).vel.y = q.vel.y ∨
    (collision_sweep_test m q).vel.y = fixed16_16.ofI16 0 := by
  rw [collision_sweep_test]
  split_ifs
  · exact Or.inl rfl
  · exact (sweep_loop_keeps m q _).2.2.2.2.2.2

/-- C34: gravity, drag and the maximum fall speed.  The constant `k_gravity` has raw value
`(1020 << 16) / 3600 = 18568`, the division truncating.  For an airborne player (flying or
sliding) the input phase of `pre_render_update` leaves `vel.x` and the jump charge
unchanged and sets `vel.y.raw` to `min(7 << 16, ((vel.y.raw + 18568) * 99) / 100)`, the
division truncating toward zero: with the sum and the product taken as `i32` values in
every state, and with their exact values whenever `(vel.y.raw + 18568) * 99` does not
overflow an `i32`.  For every state, grounded or airborne, and every player collision map,
`vel.y ≤ fixed(7)` holds after the input phase and at the end of the tick. -/
theorem gravity_and_drag (m : CollisionMap) (g_input : input) (p : player)
    (jump_charge : Int) :
    k_gravity.raw = 18568 ∧ Int.tdiv (1020 * 65536) 3600 = 18568 ∧
    (fixed16_16.ofI16 7).raw = 7 * 65536 ∧
    ((p.flying = true ∨ p.sliding = true) →
      (input_phase g_input p jump_charge).1.vel.x = p.vel.x ∧
      (input_phase g_input p jump_charge).2 = jump_charge ∧
      (input_phase g_input p jump_charge).1.vel.y.raw =
        min (7 * 65536)
          (wrap32 (Int.tdiv (wrap32 (wrap32 (p.vel.y.raw + 18568) * 99)) 100)) ∧
      (-2147483648 ≤ (p.vel.y.raw + 18568) * 99 → (p.vel.y.raw + 18568) * 99 ≤ 2147483647 →
        (input_phase g_input p jump_charge).1.vel.y.raw =
          min (7 * 65536) (Int.tdiv ((p.vel.y.raw + 18568) * 99) 100))) ∧
    (input_phase g_input p jump_charge).1.vel.y.raw ≤ 7 * 65536 ∧
    (pre_render_update m g_input p jump_charge).1.vel.y.raw ≤ 7 * 65536 := by
  have hg : k_gravity.raw = 18568 := by decide
  have hle : (input_phase g_input p jump_charge).1.vel.y.raw ≤ 7 * 65536 := by
    rw [input_phase_eq]
    exact (apply_drag_vel _).2.1
  refine ⟨hg, by decide, by decide, fun ha => ?_, hle, ?_⟩
  · obtain ⟨k1, k2⟩ := keys_phase_airborne g_input p jump_charge ha
    rw [input_phase_eq]
    obtain ⟨d1, _, d3⟩ := apply_drag_vel (keys_phase g_input p jump_charge).1
    have ew : (keys_phase g_input p jump_charge).1.vel.y.raw =
        wrap32 (p.vel.y.raw + 18568) := by
      rw [k1]
      simp only [fixed16_16.add, hg]
    refine ⟨by rw [d1, k1], k2, ?_, fun h1 h2 => ?_⟩
    · rw [apply_drag_wrapped, ew]
      norm_num
    · have e : (keys_phase g_input p jump_charge).1.vel.y.raw = p.vel.y.raw + 18568 := by
        rw [ew]
        simp only [wrap32]
        omega
      rw [e] at d3
      exact d3 h1 h2
  · show (collision_sweep_test m (input_phase g_input p jump_charge).1).vel.y.raw ≤ 7 * 65536
    rcases collision_sweep_test_vel_y m (input_phase g_input p jump_charge).1 with h | h
    · rw [h]; exact hle
    · rw [h]; decide

theorem gravity_and_drag_witness :
    (step_player.flying = true ∨ step_player.sliding = true) ∧
    step_player.vel.y.raw = 131072 ∧
    (input_phase no_input step_player 0).1.vel.y.raw =
      min (7 * 65536) (Int.tdiv ((step_player.vel.y.raw + 18568) * 99) 100) ∧
    (pre_render_update step_map no_input step_player 0).1.vel.y.raw ≤ 7 * 65536 :=
  ⟨by decide, by decide,
    ((gravity_and_drag step_map no_input step_player 0).2.2.2.1 (by decide)).2.2.2
      (by decide) (by decide),
    (gravity_and_drag step_map no_input step_player 0).2.2.2.2.2⟩

/-! ## The frame of the player collision map -/

theorem player_map_cell (world pcm : Bitmap) (x y : Nat) (hx : x < 564) (hy : y < 1104)
    (i j : Nat) (hi : i < 17) (hj : j < 13) (h : world (y + i) (x + j) = true) :
    compute_player_collision_map world pcm y x = true := by
  have hw : x < k_player_collision_map_width := by
    simpa [k_player_collision_map_width, k_world_width, k_game_world_design_width,
      k_sprite_size, player_k_width] using hx
  have hh : y < k_player_collision_map_height := by
    simpa [k_player_collision_map_height, k_world_height, k_game_world_design_height,
      k_sprite_size, player_k_height] using hy
  rw [compute_player_collision_map, player_map_loop]
  have hbox : player_box_rows world y x player_k_height 0 = true := by
    rw [player_box_rows_iff]
    exact ⟨i, by simpa [player_k_height] using hi, j, by simpa [player_k_width] using hj,
      by simpa using h⟩
  simp [hw, hh, hbox]

/-- C37: for every level layout `d` (and whatever the arrays held before), the 564x1104
player collision map computed from the decoded world has a solid frame: every cell with
`x ≤ 31`, `x ≥ 532`, `y ≤ 31` or `y ≥ 1072` is solid.  So its outermost rows and columns
are entirely solid, and every non-solid cell `(x, y)` has `32 ≤ x ≤ 531` and
`32 ≤ y ≤ 1071`, hence all eight neighbours inside the map. -/
theorem player_map_frame (d : Design) (g pcm : Bitmap) :
    (∀ x y, x < 564 → y < 1104 → (x ≤ 31 ∨ 532 ≤ x ∨ y ≤ 31 ∨ 1072 ≤ y) →
      compute_player_collision_map (compute_game_world_collision_map d g) pcm y x = true) ∧
    solid_frame
      (compute_player_collision_map (compute_game_world_collision_map d g) pcm).toCollisionMap ∧
    (∀ x y, x < 564 → y < 1104 →
      compute_player_collision_map (compute_game_world_collision_map d g) pcm y x = false →
      (32 ≤ x ∧ x ≤ 531 ∧ 32 ≤ y ∧ y ≤ 1071) ∧
      (∀ dx dy : Int, -1 ≤ dx → dx ≤ 1 → -1 ≤ dy → dy ≤ 1 →
        in_player_map ((y : Int) + dy, (x : Int) + dx))) := by
  have hframe : ∀ x y, x < 564 → y < 1104 → (x ≤ 31 ∨ 532 ≤ x ∨ y ≤ 31 ∨ 1072 ≤ y) →
      compute_player_collision_map (compute_game_world_collision_map d g) pcm y x = true := by
    intro x y hx hy hb
    rcases hb with hb | hb | hb | hb
    · refine player_map_cell _ pcm x y hx hy 0 0 (by omega) (by omega) ?_
      rw [world_pixel]
      exact Or.inr ⟨by omega, by omega, Or.inl (Or.inl (by omega))⟩
    · refine player_map_cell _ pcm x y hx hy 0 12 (by omega) (by omega) ?_
      rw [world_pixel]
      exact Or.inr ⟨by omega, by omega, Or.inl (Or.inr (Or.inl (by omega)))⟩
    · refine player_map_cell _ pcm x y hx hy 0 0 (by omega) (by omega) ?_
      rw [world_pixel]
      exact Or.inr ⟨by omega, by omega, Or.inl (Or.inr (Or.inr (Or.inl (by omega))))⟩
    · refine player_map_cell _ pcm x y hx hy 16 0 (by omega) (by omega) ?_
      rw [world_pixel]
      exact Or.inr ⟨by omega, by omega, Or.inl (Or.inr (Or.inr (Or.inr (by omega))))⟩
  have hnon : ∀ x y, x < 564 → y < 1104 →
      compute_player_collision_map (compute_game_world_collision_map d g) pcm y x = false →
      32 ≤ x ∧ x ≤ 531 ∧ 32 ≤ y ∧ y ≤ 1071 := by
    intro x y hx hy hfree
    by_contra hc
    have hs := hframe x y hx hy (by omega)
    rw [hfree] at hs
    exact Bool.false_ne_true hs
  refine ⟨hframe, ?_, fun x y hx hy hfree => ⟨hnon x y hx hy hfree, ?_⟩⟩
  · intro r c hr0 hr1 hc0 hc1 hb
    have hr1' : r < 1104 := by
      simpa [k_player_collision_map_height, k_world_height, k_game_world_design_height,
        k_sprite_size, player_k_height] using hr1
    have hc1' : c < 564 := by
      simpa [k_player_collision_map_width, k_world_width, k_game_world_design_width,
        k_sprite_size, player_k_width] using hc1
    simp only [k_player_collision_map_height, k_world_height, k_game_world_design_height,
      k_sprite_size, player_k_height, k_player_collision_map_width, k_world_width,
      k_game_world_design_width, player_k_width] at hb
    have hcell := hframe c.toNat r.toNat (by omega) (by omega) (by omega)
    simp only [Bitmap.toCollisionMap, hcell, Bool.and_true, decide_eq_true_eq]
    exact ⟨hr0, hr1, hc0, hc1⟩
  · intro dx dy h1 h2 h3 h4
    obtain ⟨a, b, c, e⟩ := hnon x y hx hy hfree
    rw [in_player_map_iff]
    omega

theorem player_map_frame_witness :
    compute_player_collision_map
      (compute_game_world_collision_map k_game_world_design Bitmap.zero) Bitmap.zero 50 20 =
      true :=
  (player_map_frame k_game_world_design Bitmap.zero Bitmap.zero).1 20 50 (by decide)
    (by decide) (by decide)

/-! ## The square root: nothing wraps, and the result is not below the true root -/

/-- C36: for every value in `1 .. 65535`, both divisions in `fixed16_16::sqrt` are well
defined and nothing wraps.  With `e = (msb + 1) >> 1`, `x0 = (1 << e) << 16` the guess,
`y = value << 16` and `x1` the first Newton iterate: the shifts `value << 16` and
`(1 << e) << 16` stay below `2^32`; the divisor `x >> 16` is at least 1 in the first and in
the second Newton step; the sums `x0 + y / (x0 >> 16)` and `x1 + y / (x1 >> 16)` stay below
`2^32`; so both iterates are the exact values `(x + y / (x >> 16)) / 2` and the result of
`sqrt` is the second one, a non-negative `i32`. -/
theorem sqrt_divisions_defined (value : Nat) (h1 : 1 ≤ value) (h2 : value < 65536) :
    value <<< 16 < 4294967296 ∧
    (1 <<< sqrt_exponent value) <<< 16 < 4294967296 ∧
    1 ≤ sqrt_guess (sqrt_exponent value) >>> 16 ∧
    sqrt_guess (sqrt_exponent value) +
      (value <<< 16) / (sqrt_guess (sqrt_exponent value) >>> 16) < 4294967296 ∧
    1 ≤ sqrt_step (value <<< 16) (sqrt_guess (sqrt_exponent value)) >>> 16 ∧
    sqrt_step (value <<< 16) (sqrt_guess (sqrt_exponent value)) +
      (value <<< 16) /
        (sqrt_step (value <<< 16) (sqrt_guess (sqrt_exponent value)) >>> 16) < 4294967296 ∧
    sqrt_step (value <<< 16) (sqrt_guess (sqrt_exponent value)) =
      (sqrt_guess (sqrt_exponent value) +
        (value <<< 16) / (sqrt_guess (sqrt_exponent value) >>> 16)) / 2 ∧
    (fixed16_16.sqrt value).raw =
      (((sqrt_step (value <<< 16) (sqrt_guess (sqrt_exponent value)) +
        (value <<< 16) /
          (sqrt_step (value <<< 16) (sqrt_guess (sqrt_exponent value)) >>> 16)) / 2 : Nat) :
        Int) := by
  obtain ⟨a, b, c⟩ := bit_scan_reverse_from_spec 16 value h1 (by norm_num; exact h2)
  generalize bit_scan_reverse_from 16 value = k at a b c
  obtain ⟨a1, a2, a3, a4, a5, a6⟩ := sqrt_steps_defined k value c a b
  obtain ⟨he, hraw⟩ := sqrt_raw_exact k value c a b
  have hy : (value <<< 16) % 4294967296 = value <<< 16 := Nat.mod_eq_of_lt a1
  have hy2 : value <<< 16 = value * 65536 := by rw [Nat.shiftLeft_eq]
  rw [hy] at a4 a5 a6
  rw [he]
  refine ⟨a1, a2, a3, a4, a5, a6, ?_, ?_⟩
  · rw [sqrt_step, Nat.mod_eq_of_lt a4, Nat.shiftRight_eq_div_pow _ 1]
  · rw [hraw, hy2]
    simp only [Nat.shiftRight_eq_div_pow]

theorem sqrt_divisions_defined_witness :
    sqrt_exponent 2 = 1 ∧ sqrt_guess (sqrt_exponent 2) = 131072 ∧
    1 ≤ sqrt_step (2 <<< 16) (sqrt_guess (sqrt_exponent 2)) >>> 16 ∧
    sqrt_step (2 <<< 16) (sqrt_guess (sqrt_exponent 2)) +
      (2 <<< 16) / (sqrt_step (2 <<< 16) (sqrt_guess (sqrt_exponent 2)) >>> 16) <
      4294967296 :=
  ⟨by decide, by decide,
    (sqrt_divisions_defined 2 (by decide) (by decide)).2.2.2.2.1,
    (sqrt_divisions_defined 2 (by decide) (by decide)).2.2.2.2.2.1⟩

/-- C35: for every 16-bit input value, `fixed16_16::sqrt` never underestimates the true
square root by one raw unit or more: the raw result `r` is non-negative and
`(r + 1)^2 > value * 2^32`; in particular `sqrt(value) > 0` for every `value ≥ 1`. -/
theorem sqrt_not_below (value : Nat) (h : value < 65536) :
    0 ≤ (fixed16_16.sqrt value).raw ∧
    (value : Int) * 4294967296 < ((fixed16_16.sqrt value).raw + 1) ^ 2 ∧
    (1 ≤ value → 0 < (fixed16_16.sqrt value).raw) := by
  rcases Nat.eq_zero_or_pos value with h0 | h1
  · subst h0
    decide
  · obtain ⟨a, b, c⟩ := bit_scan_reverse_from_spec 16 value h1 (by norm_num; exact h)
    generalize bit_scan_reverse_from 16 value = k at a b c
    obtain ⟨_, _, _, _, a5, _⟩ := sqrt_steps_defined k value c a b
    obtain ⟨_, hraw⟩ := sqrt_raw_exact k value c a b
    have hy : (value <<< 16) % 4294967296 = value * 65536 := by
      rw [Nat.shiftLeft_eq]
      norm_num
      omega
    rw [hy, Nat.shiftRight_eq_div_pow] at a5
    norm_num at a5
    rw [hraw]
    generalize sqrt_step (value * 65536) (sqrt_guess ((k + 1) >>> 1)) = x at a5 ⊢
    have hd : 0 < x / 65536 := by omega
    have hq : value * 65536 < (value * 65536 / (x / 65536) + 1) * (x / 65536) := by
      have hlt := Nat.lt_mul_div_succ (value * 65536) hd
      rw [Nat.mul_comm (x / 65536)] at hlt
      exact hlt
    generalize value * 65536 / (x / 65536) = q at hq ⊢
    have hb := newton_step_bound x (x / 65536) q (value * 65536) ((x + q) / 2) 65536
      (by norm_num) (Nat.div_mul_le_self x 65536) hq (by omega)
    refine ⟨by positivity, ?_, fun _ => ?_⟩
    · have hc : ((value * 65536 * 65536 : Nat) : Int) < ((((x + q) / 2 + 1) ^ 2 : Nat) : Int) := by
        exact_mod_cast hb
      push_cast at hc ⊢
      linarith
    · have hx : 0 < (x + q) / 2 := by omega
      exact_mod_cast hx

theorem sqrt_not_below_witness :
    (fixed16_16.sqrt 960).raw = 2030558 ∧
    (960 : Int) * 4294967296 < ((fixed16_16.sqrt 960).raw + 1) ^ 2 ∧
    ¬ ((960 : Int) * 4294967296 ≤ (fixed16_16.sqrt 960).raw ^ 2) :=
  ⟨by decide, (sqrt_not_below 960 (by decide)).2.1, by decide⟩

/-! ## Fractal noise: the bilinear interpolation of an octave -/

/-- A sum of four samples with weights `a * c`, `a * e`, `b * c`, `b * e`, where
`a + b = f` and `c + e = f`, lies between `f * f` times a lower and an upper bound of the
samples. -/
theorem bilinear_bounds (s00 s01 s10 s11 mn mx a b c e f : Nat) (hab : a + b = f)
    (hce : c + e = f)
    (l00 : mn ≤ s00) (l01 : mn ≤ s01) (l10 : mn ≤ s10) (l11 : mn ≤ s11)
    (u00 : s00 ≤ mx) (u01 : s01 ≤ mx) (u10 : s10 ≤ mx) (u11 : s11 ≤ mx) :
    mn * (f * f) ≤ s00 * a * c + s01 * a * e + s10 * b * c + s11 * b * e ∧
    s00 * a * c + s01 * a * e + s10 * b * c + s11 * b * e ≤ mx * (f * f) := by
  subst hab
  have hf : c + e = a + b := hce
  have e1 : ∀ t : Nat, t * ((a + b) * (a + b)) = t * a * c + t * a * e + t * b * c + t * b * e := by
    intro t
    rw [← hf]
    have : t * a * c + t * a * e + t * b * c + t * b * e = t * ((a + b) * (c + e)) := by ring
    rw [this, hf]
  rw [e1 mn, e1 mx]
  have m1 := fun (s t : Nat) (h : s ≤ t) (u v : Nat) =>
    Nat.mul_le_mul_right v (Nat.mul_le_mul_right u h)
  constructor
  · have := m1 _ _ l00 a c
    have := m1 _ _ l01 a e
    have := m1 _ _ l10 b c
    have := m1 _ _ l11 b e
    omega
  · have := m1 _ _ u00 a c
    have := m1 _ _ u01 a e
    have := m1 _ _ u10 b c
    have := m1 _ _ u11 b e
    omega

theorem mul_u32_small (a b A B : Nat) (ha : a ≤ A) (hb : b ≤ B) (h : A * B < 4294967296) :
    mul_u32 a b = a * b ∧ a * b ≤ A * B := by
  have hle : a * b ≤ A * B := Nat.mul_le_mul ha hb
  exact ⟨Nat.mod_eq_of_lt (lt_of_le_of_lt hle h), hle⟩

/-- The locals `scale`, `f` and the weights of the four octaves. -/
theorem fractal_constants (i : Nat) (hi : i < 4) (y : Nat) :
    fractal_scale i = 4 - i ∧ fractal_f i = 2 ^ (4 - i) ∧
    mul_u32 (fractal_scale i) 2 = 2 * (4 - i) ∧
    fractal_int y i = y / 2 ^ (4 - i) ∧ fractal_frac y i = y % 2 ^ (4 - i) := by
  have hs : fractal_scale i = 4 - i := by
    simp only [fractal_scale, sub_u32, toU8]; omega
  have hf : fractal_f i = 2 ^ (4 - i) := by
    rw [fractal_f, hs]
    interval_cases i <;> decide
  refine ⟨hs, hf, ?_, ?_, ?_⟩
  · rw [hs, mul_u32]; omega
  · rw [fractal_int, hs, Nat.shiftRight_eq_div_pow]
  · rw [fractal_frac, hf]
    have hm : toU32 (((2 ^ (4 - i) : Nat) : Int) - 1) = 2 ^ (4 - i) - 1 := by
      interval_cases i <;> decide
    rw [hm, Nat.and_pow_two_sub_one_eq_mod]

/-- The value of `tmp_sum` without any `u32` reduction. -/
theorem fractal_tmp_sum_exact (white : ByteGrid) (hw : ∀ r c, white r c ≤ 255)
    (y x i : Nat) (hi : i < 4) :
    fractal_tmp_sum white y x i =
      fractal_sample white y x i 0 0 * (2 ^ (4 - i) - y % 2 ^ (4 - i)) *
          (2 ^ (4 - i) - x % 2 ^ (4 - i)) +
        fractal_sample white y x i 0 1 * (2 ^ (4 - i) - y % 2 ^ (4 - i)) * (x % 2 ^ (4 - i)) +
        fractal_sample white y x i 1 0 * (y % 2 ^ (4 - i)) * (2 ^ (4 - i) - x % 2 ^ (4 - i)) +
        fractal_sample white y x i 1 1 * (y % 2 ^ (4 - i)) * (x % 2 ^ (4 - i)) := by
  obtain ⟨_, hf, _, _, hyf⟩ := fractal_constants i hi y
  obtain ⟨_, _, _, _, hxf⟩ := fractal_constants i hi x
  have hf16 : 2 ^ (4 - i) ≤ 16 := by interval_cases i <;> decide
  have hfpos : 0 < 2 ^ (4 - i) := Nat.two_pow_pos _
  have hy1 : y % 2 ^ (4 - i) < 2 ^ (4 - i) := Nat.mod_lt _ hfpos
  have hx1 : x % 2 ^ (4 - i) < 2 ^ (4 - i) := Nat.mod_lt _ hfpos
  have h00 := hw (add_u32 (fractal_int y i) 0) (add_u32 (fractal_int x i) 0)
  have h01 := hw (add_u32 (fractal_int y i) 0) (add_u32 (fractal_int x i) 1)
  have h10 := hw (add_u32 (fractal_int y i) 1) (add_u32 (fractal_int x i) 0)
  have h11 := hw (add_u32 (fractal_int y i) 1) (add_u32 (fractal_int x i) 1)
  simp only [fractal_tmp_sum, fractal_sample, hf, hyf, hxf]
  generalize white (add_u32 (fractal_int y i) 0) (add_u32 (fractal_int x i) 0) = s00 at h00 ⊢
  generalize white (add_u32 (fractal_int y i) 0) (add_u32 (fractal_int x i) 1) = s01 at h01 ⊢
  generalize white (add_u32 (fractal_int y i) 1) (add_u32 (fractal_int x i) 0) = s10 at h10 ⊢
  generalize white (add_u32 (fractal_int y i) 1) (add_u32 (fractal_int x i) 1) = s11 at h11 ⊢
  generalize 2 ^ (4 - i) = f at hf16 hfpos hy1 hx1 ⊢
  generalize y % f = yf at hy1 ⊢
  generalize x % f = xf at hx1 ⊢
  have ea : sub_u32 f yf = f - yf := by simp only [sub_u32]; omega
  have ec : sub_u32 f xf = f - xf := by simp only [sub_u32]; omega
  rw [ea, ec]
  obtain ⟨p1, q1⟩ := mul_u32_small s00 (f - yf) 255 16 h00 (by omega) (by norm_num)
  obtain ⟨p2, q2⟩ := mul_u32_small (s00 * (f - yf)) (f - xf) (255 * 16) 16 q1 (by omega)
    (by norm_num)
  obtain ⟨p3, q3⟩ := mul_u32_small s01 (f - yf) 255 16 h01 (by omega) (by norm_num)
  obtain ⟨p4, q4⟩ := mul_u32_small (s01 * (f - yf)) xf (255 * 16) 16 q3 (by omega) (by norm_num)
  obtain ⟨p5, q5⟩ := mul_u32_small s10 yf 255 16 h10 (by omega) (by norm_num)
  obtain ⟨p6, q6⟩ := mul_u32_small (s10 * yf) (f - xf) (255 * 16) 16 q5 (by omega) (by norm_num)
  obtain ⟨p7, q7⟩ := mul_u32_small s11 yf 255 16 h11 (by omega) (by norm_num)
  obtain ⟨p8, q8⟩ := mul_u32_small (s11 * yf) xf (255 * 16) 16 q7 (by omega) (by norm_num)
  rw [p1, p2, p3, p4, p5, p6, p7, p8]
  simp only [add_u32]
  omega

/-- The interpolated value of an octave lies between the minimum and the maximum of the
four samples. -/
theorem fractal_interpolated_between (white : ByteGrid) (hw : ∀ r c, white r c ≤ 255)
    (y x i : Nat) (hi : i < 4) :
    fractal_interpolated white y x i = fractal_tmp_sum white y x i / (2 ^ (4 - i) * 2 ^ (4 - i)) ∧
    min (min (fractal_sample white y x i 0 0) (fractal_sample white y x i 0 1))
        (min (fractal_sample white y x i 1 0) (fractal_sample white y x i 1 1)) ≤
      fractal_interpolated white y x i ∧
    fractal_interpolated white y x i ≤
      max (max (fractal_sample white y x i 0 0) (fractal_sample white y x i 0 1))
        (max (fractal_sample white y x i 1 0) (fractal_sample white y x i 1 1)) ∧
    fractal_interpolated white y x i ≤ 255 := by
  obtain ⟨hs, hf, hsh, hyi, hyf⟩ := fractal_constants i hi y
  have hfpos : 0 < 2 ^ (4 - i) := Nat.two_pow_pos _
  have hy1 : y % 2 ^ (4 - i) < 2 ^ (4 - i) := Nat.mod_lt _ hfpos
  have hx1 : x % 2 ^ (4 - i) < 2 ^ (4 - i) := Nat.mod_lt _ hfpos
  have hint : fractal_interpolated white y x i =
      fractal_tmp_sum white y x i / (2 ^ (4 - i) * 2 ^ (4 - i)) := by
    rw [fractal_interpolated, hsh, Nat.shiftRight_eq_div_pow, Nat.two_mul, Nat.pow_add]
  have hsum := fractal_tmp_sum_exact white hw y x i hi
  have h00 := hw (add_u32 (fractal_int y i) 0) (add_u32 (fractal_int x i) 0)
  have h01 := hw (add_u32 (fractal_int y i) 0) (add_u32 (fractal_int x i) 1)
  have h10 := hw (add_u32 (fractal_int y i) 1) (add_u32 (fractal_int x i) 0)
  have h11 := hw (add_u32 (fractal_int y i) 1) (add_u32 (fractal_int x i) 1)
  have hbound := bilinear_bounds (fractal_sample white y x i 0 0) (fractal_sample white y x i 0 1)
    (fractal_sample white y x i 1 0) (fractal_sample white y x i 1 1)
    (min (min (fractal_sample white y x i 0 0) (fractal_sample white y x i 0 1))
        (min (fractal_sample white y x i 1 0) (fractal_sample white y x i 1 1)))
    (max (max (fractal_sample white y x i 0 0) (fractal_sample white y x i 0 1))
        (max (fractal_sample white y x i 1 0) (fractal_sample white y x i 1 1)))
    (2 ^ (4 - i) - y % 2 ^ (4 - i)) (y % 2 ^ (4 - i))
    (2 ^ (4 - i) - x % 2 ^ (4 - i)) (x % 2 ^ (4 - i)) (2 ^ (4 - i))
    (by omega) (by omega)
    (le_trans (min_le_left _ _) (min_le_left _ _))
    (le_trans (min_le_left _ _) (min_le_right _ _))
    (le_trans (min_le_right _ _) (min_le_left _ _))
    (le_trans (min_le_right _ _) (min_le_right _ _))
    (le_trans (le_max_left _ _) (le_max_left _ _))
    (le_trans (le_max_right _ _) (le_max_left _ _))
    (le_trans (le_max_left _ _) (le_max_right _ _))
    (le_trans (le_max_right _ _) (le_max_right _ _))
  rw [← hsum] at hbound
  have hlo : min (min (fractal_sample white y x i 0 0) (fractal_sample white y x i 0 1))
        (min (fractal_sample white y x i 1 0) (fractal_sample white y x i 1 1)) ≤
      fractal_interpolated white y x i := by
    rw [hint]
    exact (Nat.le_div_iff_mul_le (Nat.mul_pos hfpos hfpos)).2 hbound.1
  have hhi : fractal_interpolated white y x i ≤
      max (max (fractal_sample white y x i 0 0) (fractal_sample white y x i 0 1))
        (max (fractal_sample white y x i 1 0) (fractal_sample white y x i 1 1)) := by
    rw [hint]
    apply Nat.div_le_of_le_mul
    rw [Nat.mul_comm]
    exact hbound.2
  refine ⟨hint, hlo, hhi, le_trans hhi ?_⟩
  simp only [fractal_sample]
  exact max_le (max_le h00 h01) (max_le h10 h11)

/-- C38: for every white-noise grid of bytes, every pixel `(x, y)` of the 576x1120 texture
and each of the four octaves `i` of `compute_fractal_noise_texture` (`scale = 4 - i`,
`f = 2^scale`, integer parts `y >> scale`, `x >> scale` and fractional weights
`y & (f - 1) = y mod f`, `x & (f - 1) = x mod f`): `tmp_sum` is the weighted sum of the
four samples without any `u32` reduction, the interpolated value `tmp_sum >> (2 * scale)`
lies between the minimum and the maximum of the four white-noise samples it blends, so it
is at most 255 and its conversion to `u8` truncates nothing; it equals the top-left sample
when both fractional weights are zero; and the four samples are read at rows
`y_i, y_i + 1` and columns `x_i, x_i + 1` inside the grid. -/
theorem fractal_octave_interpolates (white : ByteGrid) (hw : ∀ r c, white r c ≤ 255)
    (y x i : Nat) (hy : y < 1120) (hx : x < 576) (hi : i < 4) :
    fractal_scale i = 4 - i ∧ fractal_f i = 2 ^ (4 - i) ∧
    fractal_frac y i = y % 2 ^ (4 - i) ∧ fractal_frac x i = x % 2 ^ (4 - i) ∧
    fractal_tmp_sum white y x i =
      fractal_sample white y x i 0 0 * (2 ^ (4 - i) - y % 2 ^ (4 - i)) *
          (2 ^ (4 - i) - x % 2 ^ (4 - i)) +
        fractal_sample white y x i 0 1 * (2 ^ (4 - i) - y % 2 ^ (4 - i)) * (x % 2 ^ (4 - i)) +
        fractal_sample white y x i 1 0 * (y % 2 ^ (4 - i)) * (2 ^ (4 - i) - x % 2 ^ (4 - i)) +
        fractal_sample white y x i 1 1 * (y % 2 ^ (4 - i)) * (x % 2 ^ (4 - i)) ∧
    fractal_interpolated white y x i = fractal_tmp_sum white y x i / (2 ^ (4 - i) * 2 ^ (4 - i)) ∧
    min (min (fractal_sample white y x i 0 0) (fractal_sample white y x i 0 1))
        (min (fractal_sample white y x i 1 0) (fractal_sample white y x i 1 1)) ≤
      fractal_interpolated white y x i ∧
    fractal_interpolated white y x i ≤
      max (max (fractal_sample white y x i 0 0) (fractal_sample white y x i 0 1))
        (max (fractal_sample white y x i 1 0) (fractal_sample white y x i 1 1)) ∧
    fractal_interpolated white y x i ≤ 255 ∧
    toU8 (fractal_interpolated white y x i) = fractal_interpolated white y x i ∧
    (fractal_frac y i = 0 → fractal_frac x i = 0 →
      fractal_interpolated white y x i = fractal_sample white y x i 0 0) ∧
    (∀ dy dx, dy ≤ 1 → dx ≤ 1 →
      fractal_sample white y x i dy dx = white (y / 2 ^ (4 - i) + dy) (x / 2 ^ (4 - i) + dx) ∧
      y / 2 ^ (4 - i) + dy < k_white_noise_texture_height ∧
      x / 2 ^ (4 - i) + dx < k_white_noise_texture_width) := by
  obtain ⟨hs, hf, hsh, hyi, hyf⟩ := fractal_constants i hi y
  obtain ⟨_, _, _, hxi, hxf⟩ := fractal_constants i hi x
  have hf2 : 2 ≤ 2 ^ (4 - i) := by interval_cases i <;> decide
  have hfpos : 0 < 2 ^ (4 - i) := Nat.two_pow_pos _
  have hsum := fractal_tmp_sum_exact white hw y x i hi
  obtain ⟨hint, hlo, hhi, h255⟩ := fractal_interpolated_between white hw y x i hi
  refine ⟨hs, hf, hyf, hxf, hsum, hint, hlo, hhi, h255, ?_, ?_, ?_⟩
  · rw [toU8]; omega
  · intro hy0 hx0
    rw [hyf] at hy0
    rw [hxf] at hx0
    rw [hint, hsum, hy0, hx0]
    simp only [Nat.sub_zero, Nat.mul_zero, Nat.zero_mul, Nat.add_zero]
    rw [Nat.mul_assoc]
    exact Nat.mul_div_cancel _ (Nat.mul_pos hfpos hfpos)
  · intro dy dx hdy hdx
    have hyd : y / 2 ^ (4 - i) ≤ y / 2 := Nat.div_le_div_left hf2 (by norm_num)
    have hxd : x / 2 ^ (4 - i) ≤ x / 2 := Nat.div_le_div_left hf2 (by norm_num)
    have ey : add_u32 (fractal_int y i) dy = y / 2 ^ (4 - i) + dy := by
      rw [hyi, add_u32]; omega
    have ex : add_u32 (fractal_int x i) dx = x / 2 ^ (4 - i) + dx := by
      rw [hxi, add_u32]; omega
    refine ⟨by rw [fractal_sample, ey, ex], ?_, ?_⟩
    · simp only [k_white_noise_texture_height, k_world_height, k_game_world_design_height,
        k_sprite_size]
      omega
    · simp only [k_white_noise_texture_width, k_world_width, k_game_world_design_width,
        k_sprite_size]
      omega

theorem fractal_octave_interpolates_witness :
    fractal_interpolated (fun r c => (r * 7 + c * 13) % 256) 37 21 1 ≤ 255 ∧
    toU8 (fractal_interpolated (fun r c => (r * 7 + c * 13) % 256) 37 21 1) =
      fractal_interpolated (fun r c => (r * 7 + c * 13) % 256) 37 21 1 :=
  have h := fractal_octave_interpolates (fun r c => (r * 7 + c * 13) % 256)
    (fun r c => by show (r * 7 + c * 13) % 256 ≤ 255; omega) 37 21 1 (by decide) (by decide)
    (by decide)
  ⟨h.2.2.2.2.2.2.2.2.1, h.2.2.2.2.2.2.2.2.2.1⟩

/-- A pixel of the texture computed by `compute_fractal_noise_texture` is the sum of the
four octaves, each interpolated value shifted right by `i + 1`, and is at most 236. -/
theorem fractal_pixel (white fractal : ByteGrid) (hw : ∀ r c, white r c ≤ 255) (y x : Nat)
    (hy : y < 1120) (hx : x < 576) :
    compute_fractal_noise_texture white fractal y x = fractal_sum white y x ∧
    fractal_sum white y x =
      fractal_interpolated white y x 0 / 2 + fractal_interpolated white y x 1 / 4 +
        fractal_interpolated white y x 2 / 8 + fractal_interpolated white y x 3 / 16 ∧
    fractal_sum white y x ≤ 236 := by
  have hg : compute_fractal_noise_texture white fractal y x = fractal_sum white y x := by
    rw [compute_fractal_noise_texture]
    rw [forLoop_grid (fun y x g => grid_store g y x (fractal_sum white y x))
      (fun y x _ => fractal_sum white y x) (fun y x s r k => by simp only [grid_store])]
    rw [if_pos]
    simp only [k_fractal_noise_texture_height, k_fractal_noise_texture_width,
      k_white_noise_texture_height, k_white_noise_texture_width, k_world_height,
      k_world_width, k_game_world_design_height, k_game_world_design_width, k_sprite_size]
    omega
  have a0 := (fractal_interpolated_between white hw y x 0 (by omega)).2.2.2
  have a1 := (fractal_interpolated_between white hw y x 1 (by omega)).2.2.2
  have a2 := (fractal_interpolated_between white hw y x 2 (by omega)).2.2.2
  have a3 := (fractal_interpolated_between white hw y x 3 (by omega)).2.2.2
  have b0 : toU8 (fractal_interpolated white y x 0) = fractal_interpolated white y x 0 := by
    rw [toU8]; omega
  have b1 : toU8 (fractal_interpolated white y x 1) = fractal_interpolated white y x 1 := by
    rw [toU8]; omega
  have b2 : toU8 (fractal_interpolated white y x 2) = fractal_interpolated white y x 2 := by
    rw [toU8]; omega
  have b3 : toU8 (fractal_interpolated white y x 3) = fractal_interpolated white y x 3 := by
    rw [toU8]; omega
  have hs : fractal_sum white y x =
      fractal_interpolated white y x 0 / 2 + fractal_interpolated white y x 1 / 4 +
        fractal_interpolated white y x 2 / 8 + fractal_interpolated white y x 3 / 16 := by
    have e1 : toU8 (fractal_interpolated white y x 0 / 2) =
        fractal_interpolated white y x 0 / 2 := Nat.mod_eq_of_lt (by omega)
    have e2 : toU8 (fractal_interpolated white y x 0 / 2 +
        fractal_interpolated white y x 1 / 4) =
        fractal_interpolated white y x 0 / 2 + fractal_interpolated white y x 1 / 4 :=
      Nat.mod_eq_of_lt (by omega)
    have e3 : toU8 (fractal_interpolated white y x 0 / 2 +
        fractal_interpolated white y x 1 / 4 + fractal_interpolated white y x 2 / 8) =
        fractal_interpolated white y x 0 / 2 + fractal_interpolated white y x 1 / 4 +
          fractal_interpolated white y x 2 / 8 := Nat.mod_eq_of_lt (by omega)
    have e4 : toU8 (fractal_interpolated white y x 0 / 2 +
        fractal_interpolated white y x 1 / 4 + fractal_interpolated white y x 2 / 8 +
        fractal_interpolated white y x 3 / 16) =
        fractal_interpolated white y x 0 / 2 + fractal_interpolated white y x 1 / 4 +
          fractal_interpolated white y x 2 / 8 + fractal_interpolated white y x 3 / 16 :=
      Nat.mod_eq_of_lt (by omega)
    simp only [fractal_sum, forLoop, b0, b1, b2, b3, add_u32, Nat.shiftRight_eq_div_pow]
    norm_num
    rw [e1, e2, e3, e4]
  exact ⟨hg, hs, by omega⟩

/-! ## Background texture -/

theorem int_toU8_natCast (n : Nat) (h : n ≤ 255) : int_toU8 (n : Int) = n := by
  simp only [int_toU8]
  omega

/-- The bit operations on `brick_color`, for every value the division by 6 can give. -/
theorem brick_bits : ∀ B, B < 106 → ∀ l, l < 2 →
    toU8 (B &&& 252) = B &&& 252 ∧ toU8 ((B &&& 252) ||| l) = (B &&& 252) ||| l ∧
    ((B &&& 252) ||| l) % 2 = l ∧ ((B &&& 252) ||| l) / 2 % 2 = 0 ∧
    (B &&& 252) ||| l ≤ 105 ∧ (B &&& 252) ||| l = B / 4 * 4 + l := by
  decide

/-- The value stored in `brick_color`, step by step without any truncation. -/
theorem brick_color_value (white fractal : ByteGrid) (hw : ∀ r c, white r c ≤ 255)
    (hf : ∀ r c, fractal r c ≤ 255) (y x bi_y bi_x : Nat) :
    brick_color white fractal y x bi_y bi_x =
      (((3 * (40 + white bi_y bi_x / 3) + fractal y x) / 6) &&& 252) ||| (white y x &&& 1) ∧
    40 + white bi_y bi_x / 3 ≤ 125 ∧
    (3 * (40 + white bi_y bi_x / 3) + fractal y x) / 6 ≤ 105 ∧
    brick_color white fractal y x bi_y bi_x ≤ 105 ∧
    brick_color white fractal y x bi_y bi_x % 2 = white y x % 2 ∧
    brick_color white fractal y x bi_y bi_x / 2 % 2 = 0 ∧
    brick_color white fractal y x bi_y bi_x =
      (3 * (40 + white bi_y bi_x / 3) + fractal y x) / 6 / 4 * 4 + white y x % 2 := by
  have h1 := hw bi_y bi_x
  have h2 := hf y x
  have h3 := hw y x
  have e1 : int_toU8 (40 + Int.tdiv (white bi_y bi_x : Int) 3) = 40 + white bi_y bi_x / 3 := by
    rw [Int.tdiv_eq_ediv (by positivity) (by norm_num)]
    simp only [int_toU8]
    omega
  have e2 : int_toU8 (Int.tdiv
      ((((toU16 ((40 + white bi_y bi_x / 3 : Nat) : Int) <<< 2 : Nat) : Int) -
        ((40 + white bi_y bi_x / 3 : Nat) : Int)) + fractal y x) 6) =
      (3 * (40 + white bi_y bi_x / 3) + fractal y x) / 6 := by
    have e3 : toU16 ((40 + white bi_y bi_x / 3 : Nat) : Int) = 40 + white bi_y bi_x / 3 := by
      simp only [toU16]; omega
    rw [e3, Nat.shiftLeft_eq]
    rw [Int.tdiv_eq_ediv (by omega) (by norm_num)]
    simp only [int_toU8]
    omega
  have e4 : int_toU8 (-3 - 1) = 252 := by decide
  have e5 : white y x &&& 1 = white y x % 2 := Nat.and_one_is_mod _
  have hB : (3 * (40 + white bi_y bi_x / 3) + fractal y x) / 6 < 106 := by omega
  have hl : white y x % 2 < 2 := Nat.mod_lt _ (by norm_num)
  obtain ⟨b1, b2, b3, b4, b5, b6⟩ := brick_bits _ hB _ hl
  have hval : brick_color white fractal y x bi_y bi_x =
      (((3 * (40 + white bi_y bi_x / 3) + fractal y x) / 6) &&& 252) |||
        (white y x &&& 1) := by
    simp only [brick_color]
    rw [e1, e2, e4, e5, b1, b2]
  rw [hval, e5]
  exact ⟨rfl, by omega, by omega, b5, b3, b4, b6⟩

/-- The pixel `(x, y)` of the array computed by `compute_background_texture`. -/
theorem background_texture_pixel (world : Bitmap) (white fractal : ByteGrid)
    (bg : Nat → Nat → vec3 Nat) (y x : Nat) (hy : y < 1120) (hx : x < 576) :
    compute_background_texture world white fractal bg y x =
      if world y x = true then bg y x
      else if (x + brick_offset_x y) % 16 = 0 ∨ y % 8 = 0 then
        vec3.splat (int_toU8 (Int.tdiv (white y x : Int) 16))
      else
        vec3.splat (brick_color white fractal y x (y / 8) ((x + brick_offset_x y) / 16)) := by
  have hoff : brick_offset_x y ≤ 8 := by
    simp only [brick_offset_x, brick_width]
    split_ifs <;> omega
  have ea : add_u32 x (brick_offset_x y) = x + brick_offset_x y := by
    simp only [add_u32]; omega
  rw [compute_background_texture]
  rw [forLoop_grid (fun y x g => background_pixel world white fractal g y x)
    (fun y x old =>
      if world y x = true then old
      else if add_u32 x (brick_offset_x y) % 16 = 0 ∨ y % 8 = 0 then
        vec3.splat (int_toU8 (Int.tdiv (white y x : Int) 16))
      else
        vec3.splat
          (brick_color white fractal y x (y / 8) (add_u32 x (brick_offset_x y) / 16)))]
  · rw [if_pos, ea]
    simp only [k_world_height, k_world_width, k_game_world_design_height,
      k_game_world_design_width, k_sprite_size]
    omega
  · intro y x s r k
    simp only [background_pixel, brick_height, brick_width, Nat.lt_one_iff]
    norm_num
    by_cases hwd : world y x = true
    · simp [hwd]
    · have hwf : world y x = false := by simpa using hwd
      simp only [hwf, Bool.false_eq_true, if_false, if_true]
      by_cases hb : add_u32 x (brick_offset_x y) % 16 = 0 ∨ y % 8 = 0
      · simp only [hb, if_true, grid_store]
      · simp only [hb, if_false, grid_store]

/-- C39: for every world bitmap and all noise grids of bytes, `compute_background_texture`
(on its zero-initialised static array) gives each pixel `(x, y)` of the 576x1120 texture
three equal channel values `v`: `v = 0` for every solid pixel; for an empty pixel with
`bi_y = y / 8`, `off = 8` if `bi_y` is odd else `0`, `bi_x = (x + off) / 16`: if
`(x + off) % 16 == 0` or `y % 8 == 0` then `v = white[y][x] / 16`, at most 15; otherwise
`v = (((3 * (40 + white[bi_y][bi_x] / 3) + fractal[y][x]) / 6) & ~3) | (white[y][x] & 1)`,
where no conversion to a byte truncates (`40 + white / 3 ≤ 125`, the quotient by 6 is at
most 105 and so is `v`), bit 1 of `v` is clear and bit 0 equals the low bit of the
white-noise sample: `v` is the quotient by 6 rounded down to a multiple of 4, plus that
bit. -/
theorem background_value (world : Bitmap) (white fractal : ByteGrid)
    (hw : ∀ r c, white r c ≤ 255) (hf : ∀ r c, fractal r c ≤ 255) (y x : Nat)
    (hy : y < 1120) (hx : x < 576) :
    (compute_background_texture world white fractal background_zero y x).y =
      (compute_background_texture world white fractal background_zero y x).x ∧
    (compute_background_texture world white fractal background_zero y x).z =
      (compute_background_texture world white fractal background_zero y x).x ∧
    brick_offset_x y = (if (y / 8) % 2 = 1 then 8 else 0) ∧
    (world y x = true →
      (compute_background_texture world white fractal background_zero y x).x = 0) ∧
    (world y x = false → ((x + brick_offset_x y) % 16 = 0 ∨ y % 8 = 0) →
      (compute_background_texture world white fractal background_zero y x).x =
        white y x / 16 ∧
      (compute_background_texture world white fractal background_zero y x).x ≤ 15) ∧
    (world y x = false → ¬ ((x + brick_offset_x y) % 16 = 0 ∨ y % 8 = 0) →
      (compute_background_texture world white fractal background_zero y x).x =
        (((3 * (40 + white (y / 8) ((x + brick_offset_x y) / 16) / 3) + fractal y x) / 6) &&&
          252) ||| (white y x &&& 1) ∧
      40 + white (y / 8) ((x + brick_offset_x y) / 16) / 3 ≤ 125 ∧
      (3 * (40 + white (y / 8) ((x + brick_offset_x y) / 16) / 3) + fractal y x) / 6 ≤ 105 ∧
      (compute_background_texture world white fractal background_zero y x).x ≤ 105 ∧
      (compute_background_texture world white fractal background_zero y x).x % 2 =
        white y x % 2 ∧
      (compute_background_texture world white fractal background_zero y x).x / 2 % 2 = 0 ∧
      (compute_background_texture world white fractal background_zero y x).x =
        (3 * (40 + white (y / 8) ((x + brick_offset_x y) / 16) / 3) + fractal y x) / 6 / 4 * 4 +
          white y x % 2 ∧
      y / 8 < k_white_noise_texture_height ∧
      (x + brick_offset_x y) / 16 < k_white_noise_texture_width) := by
  have hpx := background_texture_pixel world white fractal background_zero y x hy hx
  have hoff : brick_offset_x y = (if (y / 8) % 2 = 1 then 8 else 0) := by
    simp only [brick_offset_x, brick_height, brick_width, Nat.and_one_is_mod]
  have hoff8 : brick_offset_x y ≤ 8 := by
    rw [hoff]; split_ifs <;> omega
  have hequal : (compute_background_texture world white fractal background_zero y x).y =
        (compute_background_texture world white fractal background_zero y x).x ∧
      (compute_background_texture world white fractal background_zero y x).z =
        (compute_background_texture world white fractal background_zero y x).x := by
    rw [hpx]
    split_ifs <;> exact ⟨rfl, rfl⟩
  refine ⟨hequal.1, hequal.2, hoff, fun hs => ?_, fun he hb => ?_, fun he hb => ?_⟩
  · rw [hpx, if_pos hs]
    rfl
  · rw [hpx, if_neg (by simp [he]), if_pos hb]
    have h3 := hw y x
    have e : int_toU8 (Int.tdiv (white y x : Int) 16) = white y x / 16 := by
      rw [Int.tdiv_eq_ediv (by positivity) (by norm_num)]
      simp only [int_toU8]
      omega
    simp only [vec3.splat, e]
    exact ⟨trivial, by omega⟩
  · rw [hpx, if_neg (by simp [he]), if_neg hb]
    obtain ⟨c1, c2, c3, c4, c5, c6, c7⟩ :=
      brick_color_value white fractal hw hf y x (y / 8) ((x + brick_offset_x y) / 16)
    simp only [vec3.splat]
    refine ⟨c1, c2, c3, c4, c5, c6, c7, ?_, ?_⟩
    · simp only [k_white_noise_texture_height, k_world_height, k_game_world_design_height,
        k_sprite_size]
      omega
    · simp only [k_white_noise_texture_width, k_world_width, k_game_world_design_width,
        k_sprite_size]
      omega

theorem background_value_witness :
    (compute_background_texture Bitmap.zero (fun r c => (r * 7 + c * 13) % 256)
      (fun r c => (r + c) % 256) background_zero 21 37).x =
      (((3 * (40 + (2 * 7 + 2 * 13) % 256 / 3) + (21 + 37) % 256) / 6) &&& 252) |||
        ((21 * 7 + 37 * 13) % 256 &&& 1) :=
  have h := (background_value Bitmap.zero (fun r c => (r * 7 + c * 13) % 256)
    (fun r c => (r + c) % 256)
    (fun r c => by show (r * 7 + c * 13) % 256 ≤ 255; omega)
    (fun r c => by show (r + c) % 256 ≤ 255; omega) 21 37 (by decide) (by decide)).2.2.2.2.2
    rfl (by decide)
  h.1

/-! ## The game loop: the fixed-timestep accumulator -/

theorem shld_4 (dst src : Nat) (h : src < 4294967296) :
    shld dst src 4 = (dst * 16 + src / 268435456) % 4294967296 := by
  have hlt : src >>> (32 - 4) < 2 ^ 4 := by
    rw [Nat.shiftRight_eq_div_pow]
    norm_num
    omega
  rw [shld, Nat.shiftLeft_eq, Nat.mul_comm dst, ← Nat.mul_add_lt_is_or hlt,
    Nat.shiftRight_eq_div_pow]

theorem shld_2 (dst src : Nat) (h : src < 4294967296) :
    shld dst src 2 = (dst * 4 + src / 1073741824) % 4294967296 := by
  have hlt : src >>> (32 - 2) < 2 ^ 2 := by
    rw [Nat.shiftRight_eq_div_pow]
    norm_num
    omega
  rw [shld, Nat.shiftLeft_eq, Nat.mul_comm dst, ← Nat.mul_add_lt_is_or hlt,
    Nat.shiftRight_eq_div_pow]

/-- The pair `shld edx, eax, 4; shl eax, 4` shifts the 64-bit value `edx:eax` left by 4. -/
theorem shl64_4 (h l : Nat) (hl : l < 4294967296) :
    shld h l 4 * 4294967296 + (l <<< 4) % 4294967296 =
      ((h * 4294967296 + l) * 16) % 18446744073709551616 := by
  rw [shld_4 h l hl, Nat.shiftLeft_eq]
  norm_num
  omega

/-- The pair `shld edx, eax, 2; shl eax, 2` shifts the 64-bit value `edx:eax` left by 2. -/
theorem shl64_2 (h l : Nat) (hl : l < 4294967296) :
    shld h l 2 * 4294967296 + (l <<< 2) % 4294967296 =
      ((h * 4294967296 + l) * 4) % 18446744073709551616 := by
  rw [shld_2 h l hl, Nat.shiftLeft_eq]
  norm_num
  omega

/-- The pair `sub eax, lo; sbb edx, hi` subtracts the 64-bit value `hi:lo` from
`edx:eax`. -/
theorem sub64 (h1 l1 h2 l2 : Nat) (a1 : h1 < 4294967296) (a2 : l1 < 4294967296)
    (a3 : h2 < 4294967296) (a4 : l2 < 4294967296) :
    (h1 + 2 * 4294967296 - h2 - (if l1 < l2 then 1 else 0)) % 4294967296 * 4294967296 +
        sub_u32 l1 l2 =
      (h1 * 4294967296 + l1 + 18446744073709551616 - (h2 * 4294967296 + l2)) %
        18446744073709551616 := by
  simp only [sub_u32]
  split_ifs <;> omega

/-- The inline-assembly variant of `u64_multiply_by_60` computes the same value as
`x * 60Ui64`. -/
theorem u64_multiply_by_60_asm_eq (x : Nat) (hx : x < 18446744073709551616) :
    u64_multiply_by_60_asm x = u64_multiply_by_60 x := by
  have hlo : x % 4294967296 < 4294967296 := Nat.mod_lt _ (by norm_num)
  have hhi : x / 4294967296 % 4294967296 < 4294967296 := Nat.mod_lt _ (by norm_num)
  have hx2 : x / 4294967296 % 4294967296 * 4294967296 + x % 4294967296 = x := by omega
  have b1 : shld (x / 4294967296 % 4294967296) (x % 4294967296) 4 < 4294967296 := by
    rw [shld]; exact Nat.mod_lt _ (by norm_num)
  have b2 : ((x % 4294967296) <<< 4) % 4294967296 < 4294967296 := Nat.mod_lt _ (by norm_num)
  have b3 : sub_u32 (((x % 4294967296) <<< 4) % 4294967296) (x % 4294967296) < 4294967296 := by
    rw [sub_u32]; exact Nat.mod_lt _ (by norm_num)
  simp only [u64_multiply_by_60_asm, u64_multiply_by_60]
  rw [shl64_2 _ _ b3, sub64 _ _ _ _ b1 b2 hhi hlo, shl64_4 _ _ hlo, hx2]
  omega

/-- One iteration of the loop at a counter reading, when nothing overflows. -/
theorem loop_iteration_counter {σ : Type} (clock_frequency : Nat) (dispatch tick : σ → σ)
    (new_time : Int) (s : loop_state σ) (h1 : s.old_time ≤ new_time)
    (h2 : (s.acc : Int) + 60 * (new_time - s.old_time) < 18446744073709551616) :
    (loop_iteration clock_frequency dispatch tick (loop_event.counter new_time) s).old_time =
      new_time ∧
    (clock_frequency ≤ s.acc + 60 * (new_time - s.old_time).toNat →
      (loop_iteration clock_frequency dispatch tick (loop_event.counter new_time) s).acc =
        s.acc + 60 * (new_time - s.old_time).toNat - clock_frequency ∧
      (loop_iteration clock_frequency dispatch tick (loop_event.counter new_time) s).frames =
        s.frames + 1 ∧
      (loop_iteration clock_frequency dispatch tick (loop_event.counter new_time) s).game =
        tick s.game) ∧
    (s.acc + 60 * (new_time - s.old_time).toNat < clock_frequency →
      (loop_iteration clock_frequency dispatch tick (loop_event.counter new_time) s).acc =
        s.acc + 60 * (new_time - s.old_time).toNat ∧
      (loop_iteration clock_frequency dispatch tick (loop_event.counter new_time) s).frames =
        s.frames ∧
      (loop_iteration clock_frequency dispatch tick (loop_event.counter new_time) s).game =
        s.game) := by
  have e1 : toU64 (new_time - s.old_time) = (new_time - s.old_time).toNat := by
    simp only [toU64]; omega
  have e2 : (s.acc + u64_multiply_by_60 (toU64 (new_time - s.old_time))) %
      18446744073709551616 = s.acc + 60 * (new_time - s.old_time).toNat := by
    rw [e1, u64_multiply_by_60]
    omega
  simp only [loop_iteration, e2, ge_iff_le]
  refine ⟨by split_ifs <;> rfl, fun h => ?_, fun h => ?_⟩
  · rw [if_pos h]
    refine ⟨?_, rfl, rfl⟩
    show (s.acc + 60 * (new_time - s.old_time).toNat + 18446744073709551616 - clock_frequency) %
      18446744073709551616 = _
    omega
  · rw [if_neg (by omega)]
    exact ⟨rfl, rfl, rfl⟩

/-- The accounting identity of the accumulator over a sequence of iterations without
overflow. -/
theorem loop_run_accounting {σ : Type} (clock_frequency : Nat) (dispatch tick : σ → σ)
    (events : List loop_event) (s : loop_state σ)
    (hok : loop_no_overflow clock_frequency dispatch tick events s = true) :
    ((clock_frequency : Int) * (loop_run clock_frequency dispatch tick events s).frames +
        (loop_run clock_frequency dispatch tick events s).acc =
      (clock_frequency : Int) * s.frames + s.acc +
        60 * ((loop_run clock_frequency dispatch tick events s).old_time - s.old_time)) ∧
    s.old_time ≤ (loop_run clock_frequency dispatch tick events s).old_time := by
  induction events generalizing s with
  | nil => simp [loop_run]
  | cons ev rest ih =>
    cases ev with
    | message =>
      rw [loop_no_overflow] at hok
      rw [loop_run]
      exact ih _ hok
    | counter new_time =>
      simp only [loop_no_overflow, Bool.and_eq_true, decide_eq_true_eq] at hok
      obtain ⟨⟨h1, h2⟩, h3⟩ := hok
      obtain ⟨k1, k2⟩ := ih _ h3
      obtain ⟨c1, c2, c3⟩ := loop_iteration_counter clock_frequency dispatch tick new_time s h1 h2
      rw [loop_run]
      rw [c1] at k1 k2
      refine ⟨?_, le_trans h1 k2⟩
      rw [k1]
      rcases Nat.lt_or_ge (s.acc + 60 * (new_time - s.old_time).toNat) clock_frequency with h | h
      · obtain ⟨d1, d2, _⟩ := c3 h
        rw [d1, d2]
        push_cast
        have e : (((new_time - s.old_time).toNat : Nat) : Int) = new_time - s.old_time :=
          Int.toNat_of_nonneg (by omega)
        rw [e]
        ring
      · obtain ⟨d1, d2, _⟩ := c2 h
        rw [d1, d2]
        have e : (((new_time - s.old_time).toNat : Nat) : Int) = new_time - s.old_time :=
          Int.toNat_of_nonneg (by omega)
        have e3 : ((s.acc + 60 * (new_time - s.old_time).toNat - clock_frequency : Nat) : Int) =
            (s.acc : Int) + 60 * (new_time - s.old_time) - clock_frequency := by
          rw [Nat.cast_sub h]
          push_cast
          rw [e]
        rw [e3]
        push_cast
        ring

/-- C40: the fixed-timestep accumulator of `loop`, for every counter frequency, window
procedure and tick.  An iteration that finds a window message leaves `acc`, `old_time` and
the number of ticks run unchanged.  An iteration with no pending message and `dt` elapsed
counter ticks, when `acc + 60 * dt` does not overflow a `u64`, sets `old_time` to the new
counter value and: if `acc + 60 * dt ≥ clock_frequency`, runs the tick exactly once and
leaves `acc + 60 * dt - clock_frequency` in the accumulator (the subtraction does not
underflow); otherwise runs no tick and leaves `acc + 60 * dt`.  Hence, over any sequence of
iterations without overflow started by `loop`,
`clock_frequency * (number of ticks run) + acc = 60 * (elapsed counter ticks)` after every
iteration.  Both variants of `u64_multiply_by_60` give `60 * x` modulo `2^64`. -/
theorem fixed_timestep {σ : Type} (clock_frequency : Nat) (dispatch tick : σ → σ) :
    (∀ s : loop_state σ,
      (loop_iteration clock_frequency dispatch tick loop_event.message s).acc = s.acc ∧
      (loop_iteration clock_frequency dispatch tick loop_event.message s).old_time =
        s.old_time ∧
      (loop_iteration clock_frequency dispatch tick loop_event.message s).frames = s.frames ∧
      (loop_iteration clock_frequency dispatch tick loop_event.message s).game =
        dispatch s.game) ∧
    (∀ (new_time : Int) (s : loop_state σ), s.old_time ≤ new_time →
      (s.acc : Int) + 60 * (new_time - s.old_time) < 18446744073709551616 →
      (loop_iteration clock_frequency dispatch tick (loop_event.counter new_time) s).old_time =
        new_time ∧
      (clock_frequency ≤ s.acc + 60 * (new_time - s.old_time).toNat →
        (loop_iteration clock_frequency dispatch tick (loop_event.counter new_time) s).acc =
          s.acc + 60 * (new_time - s.old_time).toNat - clock_frequency ∧
        (loop_iteration clock_frequency dispatch tick (loop_event.counter new_time) s).frames =
          s.frames + 1 ∧
        (loop_iteration clock_frequency dispatch tick (loop_event.counter new_time) s).game =
          tick s.game) ∧
      (s.acc + 60 * (new_time - s.old_time).toNat < clock_frequency →
        (loop_iteration clock_frequency dispatch tick (loop_event.counter new_time) s).acc =
          s.acc + 60 * (new_time - s.old_time).toNat ∧
        (loop_iteration clock_frequency dispatch tick (loop_event.counter new_time) s).frames =
          s.frames ∧
        (loop_iteration clock_frequency dispatch tick (loop_event.counter new_time) s).game =
          s.game)) ∧
    (∀ (events : List loop_event) (t0 : Int) (game : σ),
      loop_no_overflow clock_frequency dispatch tick events (loop_init t0 game) = true →
      (clock_frequency : Int) *
          (loop_run clock_frequency dispatch tick events (loop_init t0 game)).frames +
        (loop_run clock_frequency dispatch tick events (loop_init t0 game)).acc =
        60 * ((loop_run clock_frequency dispatch tick events (loop_init t0 game)).old_time -
          t0)) ∧
    (∀ x : Nat, x < 18446744073709551616 →
      u64_multiply_by_60 x = (60 * x) % 18446744073709551616 ∧
      u64_multiply_by_60_asm x = u64_multiply_by_60 x) := by
  refine ⟨fun s => ⟨rfl, rfl, rfl, rfl⟩,
    fun new_time s h1 h2 =>
      loop_iteration_counter clock_frequency dispatch tick new_time s h1 h2,
    fun events t0 game hok => ?_,
    fun x hx => ⟨by rw [u64_multiply_by_60, Nat.mul_comm], u64_multiply_by_60_asm_eq x hx⟩⟩
  have h := (loop_run_accounting clock_frequency dispatch tick events (loop_init t0 game) hok).1
  rw [h]
  simp [loop_init]

theorem fixed_timestep_witness :
    (loop_run 6000 id (fun n : Nat => n + 1)
      [loop_event.counter 60, loop_event.message, loop_event.counter 110]
      (loop_init 0 0)).frames = 1 ∧
    (loop_run 6000 id (fun n : Nat => n + 1)
      [loop_event.counter 60, loop_event.message, loop_event.counter 110]
      (loop_init 0 0)).acc = 600 ∧
    ((6000 : Nat) : Int) *
        (loop_run 6000 id (fun n : Nat => n + 1)
          [loop_event.counter 60, loop_event.message, loop_event.counter 110]
          (loop_init 0 0)).frames +
      (loop_run 6000 id (fun n : Nat => n + 1)
          [loop_event.counter 60, loop_event.message, loop_event.counter 110]
          (loop_init 0 0)).acc =
      60 * ((loop_run 6000 id (fun n : Nat => n + 1)
          [loop_event.counter 60, loop_event.message, loop_event.counter 110]
          (loop_init 0 0)).old_time - 0) :=
  ⟨by decide, by decide,
    (fixed_timestep 6000 id (fun n : Nat => n + 1)).2.2.1
      [loop_event.counter 60, loop_event.message, loop_event.counter 110] 0 0 (by decide)⟩

end GameJam
